import Mathlib

/-!
# Korifi: deployment repository, namespace propagation, package handler and condition awaiter

A shallow embedding of

* `api/repositories/deployment_repository.go`
  (`CreateDeployment`, `bumpAppRev`, `appToDeploymentRecord`),
* `controllers/controllers/workloads/shared.go`
  (`createOrPatchNamespace`, `propagateSecrets`, `reconcileRoleBindings`,
  `logAndSetReadyStatus`),
* `api/handlers/package.go` (`Package.sortList`, `Package.upload`), and
* the condition awaiter, which `task_repository_test.go` exercises,

together with the properties of the natural-language specification that concern them.

Conventions of the embedding:

* Go `int` is the 64-bit two's-complement integer: values are `Int`, and arithmetic that can
  overflow is wrapped with `wrapInt`.
* Go `string` is `String`; a Go `map[string]string` is an optional association list
  (`none` is the nil map), read with `GoMap.index` (missing keys read as the empty string).
* A Go function returning `(T, error)` while talking to the declarative store becomes a function
  from the store state `Cluster` to a pair of an `Except GoError T` and the store state at return.
  The state at return is given on the error paths as well.
* Every call made on the store client is appended to `Cluster.log`.
* The store client may fail any call: `Client.fault` is the oracle deciding which.
-/

namespace Korifi

/-! ## Go errors -/

/-- The two sentinel errors a `strconv.NumError` can carry. -/
inductive NumErrKind where
  | errSyntax
  | errRange
  deriving DecidableEq, Repr

/-- Go `error` values that occur in the embedded code. -/
inductive GoError where
  /-- `*strconv.NumError` with fields `Func`, `Num`, `Err`. -/
  | numError (fn : String) (num : String) (kind : NumErrKind)
  /-- A store error for which `apierrors.IsNotFound` holds. -/
  | notFound (kind ns name : String)
  /-- A store error for which `apierrors.IsAlreadyExists` holds. -/
  | alreadyExists (kind ns name : String)
  /-- The error of `labels.ValidatedSelectorFromSet`. -/
  | invalidSelector (key value : String)
  /-- Any other failure reported by an external collaborator. -/
  | failure (msg : String)
  /-- The error built by `fmt.Errorf(msg + "%w", cause)`. -/
  | wrapped (msg : String) (cause : GoError)
  /-- The error built by `apierrors.FromK8sError(cause, resourceType)`. -/
  | fromK8sError (cause : GoError) (resourceType : String)
  /-- The error built by `fmt.Errorf(format, args..., cause)` where `format` renders each of
  `args` with a `%q` verb, as a quoted string, and wraps `cause` with its final `%w`. The
  message is kept as the format and its arguments. -/
  | errorf (format : String) (args : List String) (cause : GoError)
  deriving DecidableEq, Repr

deriving instance DecidableEq for Except

/-- Go `apierrors.IsNotFound`. -/
def GoError.isNotFound : GoError → Bool
  | .notFound _ _ _ => true
  | _ => false

/-! ## Go `int` and `strconv` -/

/-- Largest value of a Go `int` (64-bit). -/
def maxInt : Int := 2 ^ 63 - 1

/-- Smallest value of a Go `int` (64-bit). -/
def minInt : Int := -(2 ^ 63)

/-- Two's-complement wrap-around of a mathematical integer into the range of a Go `int`. -/
def wrapInt (x : Int) : Int := (x + 2 ^ 63) % 2 ^ 64 - 2 ^ 63

/-- The value of a decimal digit byte, `none` for any other character. -/
def digitVal (c : Char) : Option Nat :=
  if '0' ≤ c ∧ c ≤ '9' then some (c.toNat - '0'.toNat) else none

/-- The loop of `strconv.ParseUint(s, 10, 64)`: the first offending byte decides the error, a
byte that is no decimal digit a syntax error, a value leaving the `uint64` range a range
error. -/
def parseUintLoop : List Char → Nat → Except NumErrKind Nat
  | [], n => .ok n
  | c :: cs, n =>
    match digitVal c with
    | none => .error .errSyntax
    | some d =>
      if n * 10 + d < 2 ^ 64 then parseUintLoop cs (n * 10 + d) else .error .errRange

/-- Go `strconv.ParseUint(s, 10, 64)` on the bytes of `s`. -/
def parseUint (s : List Char) : Except NumErrKind Nat :=
  match s with
  | [] => .error .errSyntax
  | _ => parseUintLoop s 0

/-- Go `strconv.ParseInt(s, 10, 64)` on the bytes of `s`: an optional sign, then the unsigned
value, which must not leave the range of the 64-bit `int`. -/
def parseInt : List Char → Except NumErrKind Int
  | [] => .error .errSyntax
  | c :: cs =>
    let neg : Bool := c = '-'
    let digits : List Char := if c = '+' ∨ c = '-' then cs else c :: cs
    match parseUint digits with
    | .error kind => .error kind
    | .ok un =>
      if neg = false ∧ un ≥ 2 ^ 63 then .error .errRange
      else if neg = true ∧ un > 2 ^ 63 then .error .errRange
      else .ok (if neg then -(un : Int) else (un : Int))

/-- Go `strconv.Atoi`, that is `ParseInt(s, 10, 0)` narrowed to `int`, the error renamed to
`Atoi`. The fast path `Atoi` takes for short strings computes the same result. -/
def Atoi (s : String) : Except GoError Int :=
  match parseInt s.toList with
  | .error kind => .error (.numError "Atoi" s kind)
  | .ok i => .ok i

/-- The decimal digit character of `d % 10`. -/
def digitChar (d : Nat) : Char := Char.ofNat (d % 10 + 48)

/-- The digit loop of `strconv.FormatInt`: the decimal digits of `n` are pushed in front of
`acc`, least significant first; `fuel` bounds the number of rounds. -/
def natDigitsAux : Nat → Nat → List Char → List Char
  | 0, _, acc => acc
  | fuel + 1, n, acc =>
    if n < 10 then digitChar n :: acc
    else natDigitsAux fuel (n / 10) (digitChar (n % 10) :: acc)

/-- The decimal digits of `n`, most significant first, without leading zeros. -/
def natDigits (n : Nat) : List Char := natDigitsAux (n + 1) n []

/-- Go `strconv.Itoa`. -/
def Itoa (i : Int) : String :=
  if i < 0 then String.mk ('-' :: natDigits i.natAbs) else String.mk (natDigits i.toNat)

/-- Go `bumpAppRev` of `deployment_repository.go`; `r + 1` is Go `int` addition. -/
def bumpAppRev (appRev : String) : Except GoError String :=
  match Atoi appRev with
  | .error err => .error err
  | .ok r => .ok (Itoa (wrapInt (r + 1)))

/-! ## Base-10 integers, as the specification speaks of them -/

/-- The number denoted by a list of decimal digits read from the left with `acc` already read;
`none` when a character is no decimal digit. -/
def decimalDigitsValue : List Char → Nat → Option Nat
  | [], acc => some acc
  | c :: cs, acc =>
    match digitVal c with
    | none => none
    | some d => decimalDigitsValue cs (acc * 10 + d)

/-- The integer a string denotes in base 10: an optional sign followed by one or more decimal
digits. `none` when the string is no base-10 integer. There is no bound on the size. -/
def base10Value (s : String) : Option Int :=
  match s.toList with
  | [] => none
  | c :: cs =>
    if c = '-' then
      if cs = [] then none else Option.map (fun (n : Nat) => -(Int.ofNat n)) (decimalDigitsValue cs 0)
    else if c = '+' then
      if cs = [] then none else Option.map (fun (n : Nat) => Int.ofNat n) (decimalDigitsValue cs 0)
    else Option.map (fun (n : Nat) => Int.ofNat n) (decimalDigitsValue (c :: cs) 0)

/-- A string is a base-10 integer. -/
def IsBase10Integer (s : String) : Prop := (base10Value s).isSome = true

instance (s : String) : Decidable (IsBase10Integer s) := by
  unfold IsBase10Integer; infer_instance

/-! ## Go maps -/

/-- The entries of a non-nil Go `map[string]string`, as an association list. -/
abbrev Entries := List (String × String)

/-- The value stored under `k`, if any (the first entry with that key). -/
def Entries.get (k : String) : Entries → Option String
  | [] => none
  | (k1, v1) :: kvs => if k1 = k then some v1 else Entries.get k kvs

/-- Go `m[k] = v` on a non-nil map. -/
def Entries.set (k v : String) : Entries → Entries
  | [] => [(k, v)]
  | (k1, v1) :: kvs => if k1 = k then (k, v) :: kvs else (k1, v1) :: Entries.set k v kvs

/-- A Go `map[string]string`; `none` is the nil map. -/
abbrev GoMap := Option Entries

/-- Go `v, ok := m[k]`. -/
def GoMap.lookup (m : GoMap) (k : String) : Option String :=
  match m with
  | none => none
  | some kvs => Entries.get k kvs

/-- Go `m[k]`: the zero value `""` when the map is nil or has no such key. -/
def GoMap.index (m : GoMap) (k : String) : String :=
  match m.lookup k with
  | none => ""
  | some v => v

/-! ## Objects of the declarative store -/

/-- Go `metav1.ObjectMeta`: the fields the code reads or writes, and two of the remaining ones
(`ownerReferences`, `finalizers`) standing for the metadata it never touches. -/
structure ObjectMeta where
  name : String := ""
  namespace_ : String := ""
  labels : GoMap := none
  annotations : GoMap := none
  ownerReferences : List String := []
  finalizers : List String := []
  deriving DecidableEq, Repr

/-- Go `metav1.Condition`. The time of the last transition is kept as its text, the empty text
being the zero time. -/
structure Condition where
  type : String
  status : String
  reason : String := ""
  message : String := ""
  observedGeneration : Int := 0
  lastTransitionTime : String := ""
  deriving DecidableEq, Repr

/-- Go `metav1.ConditionTrue`. -/
def ConditionTrue : String := "True"

/-- Go `metav1.ConditionFalse`. -/
def ConditionFalse : String := "False"

/-- Go `metav1.ConditionUnknown`. -/
def ConditionUnknown : String := "Unknown"

/-- Go `meta.IsStatusConditionTrue` (`IsStatusConditionPresentAndEqual` with `ConditionTrue`): the
first condition of the given type decides. -/
def IsStatusConditionTrue : List Condition → String → Bool
  | [], _ => false
  | condition :: rest, conditionType =>
    if condition.type = conditionType then condition.status = ConditionTrue
    else IsStatusConditionTrue rest conditionType

/-- Go `corev1.LocalObjectReference`. -/
structure LocalObjectReference where
  name : String := ""
  deriving DecidableEq, Repr

/-- Modelled from the spec: `korifiv1alpha1.CFAppSpec`, declared in `controllers/api/v1alpha1`
outside the excerpt. The desired state and the current droplet reference are the fields
`CreateDeployment` writes; `displayName` and `envSecretName` stand for the other fields. -/
structure CFAppSpec where
  displayName : String := ""
  desiredState : String := ""
  envSecretName : String := ""
  currentDropletRef : LocalObjectReference := {}
  deriving DecidableEq, Repr

/-- Modelled from the spec: `korifiv1alpha1.CFAppStatus`, the observed state with its
conditions. -/
structure CFAppStatus where
  conditions : List Condition := []
  observedDesiredState : String := ""
  deriving DecidableEq, Repr

/-- Modelled from the spec: `korifiv1alpha1.CFApp`, a workload resource with metadata, a `spec`
and a `status`. -/
structure CFApp extends ObjectMeta where
  spec : CFAppSpec := {}
  status : CFAppStatus := {}
  deriving DecidableEq, Repr

/-- Go `rbacv1.Subject`. -/
structure Subject where
  kind : String := ""
  apiGroup : String := ""
  name : String := ""
  namespace_ : String := ""
  deriving DecidableEq, Repr

/-- Go `rbacv1.RoleRef`. -/
structure RoleRef where
  apiGroup : String := ""
  kind : String := ""
  name : String := ""
  deriving DecidableEq, Repr

/-- Go `rbacv1.RoleBinding`. -/
structure RoleBinding extends ObjectMeta where
  subjects : List Subject := []
  roleRef : RoleRef := {}
  deriving DecidableEq, Repr

/-- The bytes of a Go `[]byte`. -/
abbrev Bytes := List Nat

/-- Go `corev1.Secret`. -/
structure Secret extends ObjectMeta where
  immutable : Option Bool := none
  data : Option (List (String × Bytes)) := none
  stringData : GoMap := none
  type : String := ""
  deriving DecidableEq, Repr

/-- Go `corev1.Namespace`, a cluster-scoped object: its metadata, the finalizers of its spec
and the phase of its status. -/
structure Namespace extends ObjectMeta where
  specFinalizers : List String := []
  phase : String := ""
  deriving DecidableEq, Repr

/-- Modelled from the spec: `korifiv1alpha1.CFAppRevisionKey`, the key of the revision
annotation of an app. -/
def CFAppRevisionKey : String := "korifi.cloudfoundry.org/app-rev"

/-- Modelled from the spec: `korifiv1alpha1.StartedState`, the desired state "started". -/
def StartedState : String := "STARTED"

/-- Modelled from the spec: `shared.StatusConditionReady`, the type of the `Ready` condition. -/
def StatusConditionReady : String := "Ready"

/-- Modelled from the spec: `korifiv1alpha1.PropagateRoleBindingAnnotation`, the key of the
annotation that makes a role binding propagate-eligible. -/
def PropagateRoleBindingAnnotationKey : String := "cloudfoundry.org/propagate-cf-role"

/-- Modelled from the spec: `korifiv1alpha1.PropagateDeletionAnnotation`, the key of the
"do-not-auto-delete" annotation. -/
def PropagateDeletionAnnotationKey : String := "cloudfoundry.org/propagate-deletion"

/-- Modelled from the spec: `korifiv1alpha1.PropagatedFromLabel`, the key of the label recording
the source namespace of a propagated object. -/
def PropagatedFromLabel : String := "cloudfoundry.org/propagated-from"

/-- Modelled from the spec: `repositories.AppResourceType`. -/
def AppResourceType : String := "App"

/-- Go `DeploymentResourceType`. -/
def DeploymentResourceType : String := "Deployment"

/-! ## The declarative store and its client -/

/-- A call on the store client. A write carries the object written. -/
inductive Op where
  | getCFApp (ns name : String)
  | patchCFApp (obj : CFApp)
  | getRoleBinding (ns name : String)
  | listRoleBindings (ns : String) (selector : Option (String × String))
  | createRoleBinding (obj : RoleBinding)
  | patchRoleBinding (obj : RoleBinding)
  | deleteRoleBinding (ns name : String)
  | getSecret (ns name : String)
  | createSecret (obj : Secret)
  | patchSecret (obj : Secret)
  | getNamespace (name : String)
  | createNamespace (obj : Namespace)
  | patchNamespace (obj : Namespace)
  deriving DecidableEq, Repr

/-- The state of the declarative store: the objects it holds, and the calls made so far. -/
structure Cluster where
  cfApps : List CFApp := []
  roleBindings : List RoleBinding := []
  secrets : List Secret := []
  namespaces : List Namespace := []
  log : List Op := []
  deriving DecidableEq, Repr

/-- Go `client.Client`, the store adapter. The store is an external collaborator that may fail
any call; `fault` says which call fails in which state, and with which error. A call that
fails leaves the objects as they were. Namespaces and names are matched exactly. -/
structure Client where
  fault : Cluster → Op → Option GoError

/-- The object is the one stored under namespace `ns` and name `name`. -/
def ObjectMeta.hasKey (m : ObjectMeta) (ns name : String) : Bool :=
  m.namespace_ = ns ∧ m.name = name

/-- The stored object with the given key, if any. -/
def findObject {α : Type} (objectMeta : α → ObjectMeta) (ns name : String) :
    List α → Option α
  | [] => none
  | o :: rest =>
    if (objectMeta o).hasKey ns name then some o else findObject objectMeta ns name rest

/-- The store with the object stored under the key of `obj` replaced by `obj`. -/
def replaceObject {α : Type} (objectMeta : α → ObjectMeta) (obj : α) : List α → List α
  | [] => []
  | o :: rest =>
    if (objectMeta o).hasKey (objectMeta obj).namespace_ (objectMeta obj).name then
      obj :: replaceObject objectMeta obj rest
    else o :: replaceObject objectMeta obj rest

/-- The store without the object stored under the given key. -/
def removeObject {α : Type} (objectMeta : α → ObjectMeta) (ns name : String) : List α → List α
  | [] => []
  | o :: rest =>
    if (objectMeta o).hasKey ns name then removeObject objectMeta ns name rest
    else o :: removeObject objectMeta ns name rest

/-- The state with one more call in the log. -/
def Cluster.record (c : Cluster) (op : Op) : Cluster := { c with log := c.log ++ [op] }

/-- Go `client.Get` of a `CFApp`. -/
def Client.getCFApp (cl : Client) (ns name : String) (c : Cluster) :
    Except GoError CFApp × Cluster :=
  let op := Op.getCFApp ns name
  match cl.fault c op with
  | some err => (.error err, c.record op)
  | none =>
    match findObject CFApp.toObjectMeta ns name c.cfApps with
    | none => (.error (.notFound "CFApp" ns name), c.record op)
    | some app => (.ok app, c.record op)

/-- Go `client.Patch` of a `CFApp` with a merge patch computed against the object as it was
read: the stored object takes the content of `obj`, which is returned as the store holds it. -/
def Client.patchCFApp (cl : Client) (obj : CFApp) (c : Cluster) :
    Except GoError CFApp × Cluster :=
  let op := Op.patchCFApp obj
  match cl.fault c op with
  | some err => (.error err, c.record op)
  | none =>
    match findObject CFApp.toObjectMeta obj.namespace_ obj.name c.cfApps with
    | none => (.error (.notFound "CFApp" obj.namespace_ obj.name), c.record op)
    | some _ =>
      (.ok obj, { c.record op with cfApps := replaceObject CFApp.toObjectMeta obj c.cfApps })

/-- Go `client.Get` of a `RoleBinding`. -/
def Client.getRoleBinding (cl : Client) (ns name : String) (c : Cluster) :
    Except GoError RoleBinding × Cluster :=
  let op := Op.getRoleBinding ns name
  match cl.fault c op with
  | some err => (.error err, c.record op)
  | none =>
    match findObject RoleBinding.toObjectMeta ns name c.roleBindings with
    | none => (.error (.notFound "RoleBinding" ns name), c.record op)
    | some rb => (.ok rb, c.record op)

/-- A label selector built from a one-entry set matches the objects that carry the label with
that value. -/
def matchesSelector (selector : Option (String × String)) (m : ObjectMeta) : Bool :=
  match selector with
  | none => true
  | some (key, value) => m.labels.lookup key = some value

/-- Go `client.List` of the `RoleBinding`s of a namespace, optionally restricted by a label
selector. -/
def Client.listRoleBindings (cl : Client) (ns : String) (selector : Option (String × String))
    (c : Cluster) : Except GoError (List RoleBinding) × Cluster :=
  let op := Op.listRoleBindings ns selector
  match cl.fault c op with
  | some err => (.error err, c.record op)
  | none =>
    (.ok (c.roleBindings.filter
      (fun rb => decide (rb.namespace_ = ns) && matchesSelector selector rb.toObjectMeta)),
      c.record op)

/-- Go `client.Create` of a `RoleBinding`. -/
def Client.createRoleBinding (cl : Client) (obj : RoleBinding) (c : Cluster) :
    Except GoError Unit × Cluster :=
  let op := Op.createRoleBinding obj
  match cl.fault c op with
  | some err => (.error err, c.record op)
  | none =>
    match findObject RoleBinding.toObjectMeta obj.namespace_ obj.name c.roleBindings with
    | some _ => (.error (.alreadyExists "RoleBinding" obj.namespace_ obj.name), c.record op)
    | none => (.ok (), { c.record op with roleBindings := c.roleBindings ++ [obj] })

/-- Go `client.Patch` of a `RoleBinding`. -/
def Client.patchRoleBinding (cl : Client) (obj : RoleBinding) (c : Cluster) :
    Except GoError Unit × Cluster :=
  let op := Op.patchRoleBinding obj
  match cl.fault c op with
  | some err => (.error err, c.record op)
  | none =>
    match findObject RoleBinding.toObjectMeta obj.namespace_ obj.name c.roleBindings with
    | none => (.error (.notFound "RoleBinding" obj.namespace_ obj.name), c.record op)
    | some _ =>
      (.ok (), { c.record op with
        roleBindings := replaceObject RoleBinding.toObjectMeta obj c.roleBindings })

/-- Go `client.Delete` of a `RoleBinding`. -/
def Client.deleteRoleBinding (cl : Client) (obj : RoleBinding) (c : Cluster) :
    Except GoError Unit × Cluster :=
  let op := Op.deleteRoleBinding obj.namespace_ obj.name
  match cl.fault c op with
  | some err => (.error err, c.record op)
  | none =>
    match findObject RoleBinding.toObjectMeta obj.namespace_ obj.name c.roleBindings with
    | none => (.error (.notFound "RoleBinding" obj.namespace_ obj.name), c.record op)
    | some _ =>
      (.ok (), { c.record op with
        roleBindings := removeObject RoleBinding.toObjectMeta obj.namespace_ obj.name
          c.roleBindings })

/-- Go `client.Get` of a `Secret`. -/
def Client.getSecret (cl : Client) (ns name : String) (c : Cluster) :
    Except GoError Secret × Cluster :=
  let op := Op.getSecret ns name
  match cl.fault c op with
  | some err => (.error err, c.record op)
  | none =>
    match findObject Secret.toObjectMeta ns name c.secrets with
    | none => (.error (.notFound "Secret" ns name), c.record op)
    | some secret => (.ok secret, c.record op)

/-- Go `client.Create` of a `Secret`. -/
def Client.createSecret (cl : Client) (obj : Secret) (c : Cluster) :
    Except GoError Unit × Cluster :=
  let op := Op.createSecret obj
  match cl.fault c op with
  | some err => (.error err, c.record op)
  | none =>
    match findObject Secret.toObjectMeta obj.namespace_ obj.name c.secrets with
    | some _ => (.error (.alreadyExists "Secret" obj.namespace_ obj.name), c.record op)
    | none => (.ok (), { c.record op with secrets := c.secrets ++ [obj] })

/-- Go `client.Patch` of a `Secret`. -/
def Client.patchSecret (cl : Client) (obj : Secret) (c : Cluster) :
    Except GoError Unit × Cluster :=
  let op := Op.patchSecret obj
  match cl.fault c op with
  | some err => (.error err, c.record op)
  | none =>
    match findObject Secret.toObjectMeta obj.namespace_ obj.name c.secrets with
    | none => (.error (.notFound "Secret" obj.namespace_ obj.name), c.record op)
    | some _ =>
      (.ok (), { c.record op with secrets := replaceObject Secret.toObjectMeta obj c.secrets })

/-- Go `client.Get` of a `Namespace`; a namespace has no namespace of its own. -/
def Client.getNamespace (cl : Client) (name : String) (c : Cluster) :
    Except GoError Namespace × Cluster :=
  let op := Op.getNamespace name
  match cl.fault c op with
  | some err => (.error err, c.record op)
  | none =>
    match findObject Namespace.toObjectMeta "" name c.namespaces with
    | none => (.error (.notFound "Namespace" "" name), c.record op)
    | some ns => (.ok ns, c.record op)

/-- Go `client.Create` of a `Namespace`. -/
def Client.createNamespace (cl : Client) (obj : Namespace) (c : Cluster) :
    Except GoError Unit × Cluster :=
  let op := Op.createNamespace obj
  match cl.fault c op with
  | some err => (.error err, c.record op)
  | none =>
    match findObject Namespace.toObjectMeta obj.namespace_ obj.name c.namespaces with
    | some _ => (.error (.alreadyExists "Namespace" obj.namespace_ obj.name), c.record op)
    | none => (.ok (), { c.record op with namespaces := c.namespaces ++ [obj] })

/-- Go `client.Patch` of a `Namespace`. -/
def Client.patchNamespace (cl : Client) (obj : Namespace) (c : Cluster) :
    Except GoError Unit × Cluster :=
  let op := Op.patchNamespace obj
  match cl.fault c op with
  | some err => (.error err, c.record op)
  | none =>
    match findObject Namespace.toObjectMeta obj.namespace_ obj.name c.namespaces with
    | none => (.error (.notFound "Namespace" obj.namespace_ obj.name), c.record op)
    | some _ =>
      (.ok (), { c.record op with
        namespaces := replaceObject Namespace.toObjectMeta obj c.namespaces })

/-! ## `deployment_repository.go` -/

/-- Go `DeploymentStatusValue`. -/
abbrev DeploymentStatusValue := String

/-- Go `DeploymentStatusValueActive`. -/
def DeploymentStatusValueActive : DeploymentStatusValue := "ACTIVE"

/-- Go `DeploymentStatusValueFinalized`. -/
def DeploymentStatusValueFinalized : DeploymentStatusValue := "FINALIZED"

/-- Go `DeploymentStatusReason`. -/
abbrev DeploymentStatusReason := String

/-- Go `DeploymentStatusReasonDeploying`. -/
def DeploymentStatusReasonDeploying : DeploymentStatusReason := "DEPLOYING"

/-- Go `DeploymentStatusReasonDeployed`. -/
def DeploymentStatusReasonDeployed : DeploymentStatusReason := "DEPLOYED"

/-- Go `DeploymentStatus`. -/
structure DeploymentStatus where
  value : DeploymentStatusValue := ""
  reason : DeploymentStatusReason := ""
  deriving DecidableEq, Repr

/-- Go `DeploymentRecord`. -/
structure DeploymentRecord where
  GUID : String := ""
  createdAt : String := ""
  updatedAt : String := ""
  dropletGUID : String := ""
  status : DeploymentStatus := {}
  deriving DecidableEq, Repr

/-- Go `CreateDeploymentMessage`. -/
structure CreateDeploymentMessage where
  appGUID : String := ""
  dropletGUID : String := ""
  deriving DecidableEq, Repr

/-- Modelled from the spec: `authorization.Info`, the identity of the caller. -/
structure AuthInfo where
  token : String := ""
  certData : String := ""
  deriving DecidableEq, Repr

/-- Go `DeploymentRepo`. Its two collaborators are outside the excerpt and are taken as given:
`userClientFactory` is `UserK8sClientFactory.BuildClient`, and `namespaceRetriever` is
`NamespaceRetriever.NamespaceFor` applied to a GUID and a resource type. -/
structure DeploymentRepo where
  userClientFactory : AuthInfo → Except GoError Client
  namespaceRetriever : String → String → Except GoError String

/-- Go `appToDeploymentRecord`. The helper `getTimeLastUpdatedTimestamp` is outside the excerpt
and is taken as a parameter; the error it returns is dropped, as in the source. -/
def appToDeploymentRecord (getTimeLastUpdatedTimestamp : ObjectMeta → String × Option GoError)
    (cfApp : CFApp) : DeploymentRecord :=
  let updatedAtTime := (getTimeLastUpdatedTimestamp cfApp.toObjectMeta).1
  let deploymentRecord : DeploymentRecord :=
    { GUID := cfApp.name
      createdAt := updatedAtTime
      updatedAt := updatedAtTime
      dropletGUID := cfApp.spec.currentDropletRef.name
      status :=
        { value := DeploymentStatusValueActive
          reason := DeploymentStatusReasonDeploying } }
  if IsStatusConditionTrue cfApp.status.conditions StatusConditionReady then
    { deploymentRecord with
      status :=
        { value := DeploymentStatusValueFinalized
          reason := DeploymentStatusReasonDeployed } }
  else deploymentRecord

/-- Modelled from the spec: `k8s.PatchResource` of `tools/k8s`, outside the excerpt, "a single
optimistic-concurrency patch": the object is copied, `modify` changes the object, and one
`Patch` of the changed object against the copy is sent. -/
def PatchResource (k8sClient : Client) (obj : CFApp) (modify : CFApp → CFApp) (c : Cluster) :
    Except GoError CFApp × Cluster :=
  k8sClient.patchCFApp (modify obj) c

/-- The closure `CreateDeployment` passes to `PatchResource`: the droplet reference, the
revision annotation (in a fresh map when the annotations are nil) and the desired state. -/
def createDeploymentModify (dropletGUID newRev : String) (app : CFApp) : CFApp :=
  let app1 : CFApp :=
    { app with
      spec := { app.spec with currentDropletRef := { app.spec.currentDropletRef with name := dropletGUID } } }
  let annotations : Entries :=
    match app1.annotations with
    | none => []
    | some entries => entries
  let app2 : CFApp :=
    { app1 with annotations := some (Entries.set CFAppRevisionKey newRev annotations) }
  { app2 with spec := { app2.spec with desiredState := StartedState } }

/-- The droplet GUID `CreateDeployment` computes (source lines 104 to 107): the reference the app
has, overridden by the one of the message when that is non-empty. -/
def deploymentDroplet (message : CreateDeploymentMessage) (app : CFApp) : String :=
  if message.dropletGUID ≠ "" then message.dropletGUID else app.spec.currentDropletRef.name

/-- Go `DeploymentRepo.CreateDeployment`. -/
def CreateDeployment (getTimeLastUpdatedTimestamp : ObjectMeta → String × Option GoError)
    (r : DeploymentRepo) (authInfo : AuthInfo) (message : CreateDeploymentMessage)
    (c : Cluster) : Except GoError DeploymentRecord × Cluster :=
  match r.namespaceRetriever message.appGUID AppResourceType with
  | .error err => (.error err, c)
  | .ok ns =>
    match r.userClientFactory authInfo with
    | .error err =>
      (.error (.wrapped "create-deployment failed to create user client: " err), c)
    | .ok userClient =>
      match userClient.getCFApp ns message.appGUID c with
      | (.error err, c1) => (.error (.fromK8sError err DeploymentResourceType), c1)
      | (.ok app, c1) =>
        let dropletGUID := deploymentDroplet message app
        let appRev := app.annotations.index CFAppRevisionKey
        match bumpAppRev appRev with
        | .error err => (.error (.wrapped "expected app-rev to be an integer: " err), c1)
        | .ok newRev =>
          match PatchResource userClient app (createDeploymentModify dropletGUID newRev) c1 with
          | (.error err, c2) => (.error (.fromK8sError err DeploymentResourceType), c2)
          | (.ok app1, c2) => (.ok (appToDeploymentRecord getTimeLastUpdatedTimestamp app1), c2)

/-! ## `controllers/workloads/shared.go`: role-binding propagation -/

/-- Modelled from the spec: `shared.RemovePackageManagerKeys` of `controllers/controllers/shared`,
outside the excerpt: "strip any keys previously added by a higher-level package/infra manager".
Which keys those are is the parameter `isPackageManagerKey`; a nil map stays nil. -/
def RemovePackageManagerKeys (isPackageManagerKey : String → Bool) (src : GoMap) : GoMap :=
  match src with
  | none => none
  | some entries => some (entries.filter (fun kv => !isPackageManagerKey kv.1))

/-- A character allowed at the ends of a label value. -/
def isLabelAlphanumeric (ch : Char) : Bool := ch.isAlphanum

/-- A character allowed inside a label value. -/
def isLabelChar (ch : Char) : Bool := ch.isAlphanum || ch = '-' || ch = '_' || ch = '.'

/-- Go `validation.IsValidLabelValue`: at most 63 characters; empty, or alphanumeric at both
ends with only alphanumerics, `-`, `_` and `.` in between. -/
def isValidLabelValue (value : String) : Bool :=
  decide (value.length ≤ 63) &&
    (match value.toList with
     | [] => true
     | ch :: rest =>
       isLabelAlphanumeric ch && (ch :: rest).all isLabelChar &&
         isLabelAlphanumeric ((ch :: rest).getLast (by simp)))

/-- Go `labels.ValidatedSelectorFromSet` for a set of one entry whose key is a valid label key:
the selector, or an error when the value is no valid label value. -/
def ValidatedSelectorFromSet (key value : String) : Except GoError (String × String) :=
  if isValidLabelValue value then .ok (key, value) else .error (.invalidSelector key value)

/-- Go `controllerutil.OperationResult`. -/
inductive OperationResult where
  | none
  | created
  | updated
  deriving DecidableEq, Repr

/-- Go `controllerutil.CreateOrPatch` for a `RoleBinding` with the mutate function `f`: read the
object; when it is not found, mutate the given object and create it; otherwise mutate the object
read and send a patch when the mutation changed it. A mutation of the name or the namespace is
an error. -/
def CreateOrPatch (cl : Client) (obj : RoleBinding) (f : RoleBinding → RoleBinding)
    (c : Cluster) : Except GoError OperationResult × Cluster :=
  match cl.getRoleBinding obj.namespace_ obj.name c with
  | (.error err, c1) =>
    if err.isNotFound then
      if (f obj).namespace_ = obj.namespace_ ∧ (f obj).name = obj.name then
        match cl.createRoleBinding (f obj) c1 with
        | (.error err, c2) => (.error err, c2)
        | (.ok _, c2) => (.ok .created, c2)
      else
        (.error (.failure "MutateFn cannot mutate object name and/or object namespace"), c1)
    else (.error err, c1)
  | (.ok existing, c1) =>
    if (f existing).namespace_ = obj.namespace_ ∧ (f existing).name = obj.name then
      if f existing = existing then (.ok .none, c1)
      else
        match cl.patchRoleBinding (f existing) c1 with
        | (.error err, c2) => (.error err, c2)
        | (.ok _, c2) => (.ok .updated, c2)
    else
      (.error (.failure "MutateFn cannot mutate object name and/or object namespace"), c1)

/-- The mutate closure of `reconcileRoleBindings` (source lines 130 to 140): annotations and
labels of the parent binding without the package-manager keys, the `propagated-from` label set to
the parent namespace, subjects and role reference of the parent binding. -/
def propagateRoleBindingMutate (isPackageManagerKey : String → Bool) (orgOrSpace : ObjectMeta)
    (binding : RoleBinding) (newRoleBinding : RoleBinding) : RoleBinding :=
  let labels : Entries :=
    match RemovePackageManagerKeys isPackageManagerKey binding.labels with
    | none => []
    | some entries => entries
  { newRoleBinding with
    annotations := RemovePackageManagerKeys isPackageManagerKey binding.annotations
    labels := some (Entries.set PropagatedFromLabel orgOrSpace.namespace_ labels)
    subjects := binding.subjects
    roleRef := binding.roleRef }

/-- The first loop of `reconcileRoleBindings` (source lines 117 to 148) over the role bindings
listed in the parent namespace. `parentRoleBindingMap` is the set of names collected so far.
The loop stops at the first `CreateOrPatch` that fails. -/
def propagateRoleBindingsLoop (isPackageManagerKey : String → Bool) (kClient : Client)
    (orgOrSpace : ObjectMeta) :
    List RoleBinding → List String → Cluster → Except GoError (List String) × Cluster
  | [], parentRoleBindingMap, c => (.ok parentRoleBindingMap, c)
  | binding :: rest, parentRoleBindingMap, c =>
    if binding.annotations.index PropagateRoleBindingAnnotationKey = "true" then
      let newRoleBinding : RoleBinding :=
        { name := binding.name, namespace_ := orgOrSpace.name }
      match CreateOrPatch kClient newRoleBinding
          (propagateRoleBindingMutate isPackageManagerKey orgOrSpace binding) c with
      | (.error err, c1) => (.error err, c1)
      | (.ok _, c1) =>
        propagateRoleBindingsLoop isPackageManagerKey kClient orgOrSpace rest
          (parentRoleBindingMap ++ [binding.name]) c1
    else
      propagateRoleBindingsLoop isPackageManagerKey kClient orgOrSpace rest
        parentRoleBindingMap c

/-- The second loop of `reconcileRoleBindings` (source lines 165 to 178) over the role bindings
listed in the child namespace under the `propagated-from` selector. The loop stops at the first
`Delete` that fails. -/
def deleteOrphanedRoleBindingsLoop (kClient : Client) :
    List RoleBinding → List String → Cluster → Except GoError Unit × Cluster
  | [], _, c => (.ok (), c)
  | propagatedRoleBinding :: rest, parentRoleBindingMap, c =>
    if propagatedRoleBinding.annotations.index PropagateDeletionAnnotationKey = "false" then
      deleteOrphanedRoleBindingsLoop kClient rest parentRoleBindingMap c
    else if propagatedRoleBinding.name ∉ parentRoleBindingMap then
      match kClient.deleteRoleBinding propagatedRoleBinding c with
      | (.error err, c1) => (.error err, c1)
      | (.ok _, c1) => deleteOrphanedRoleBindingsLoop kClient rest parentRoleBindingMap c1
    else
      deleteOrphanedRoleBindingsLoop kClient rest parentRoleBindingMap c

/-- The first half of `reconcileRoleBindings` (source lines 108 to 148): list the role bindings
of the parent namespace and propagate the eligible ones. Returns `parentRoleBindingMap`. -/
def propagateRoleBindings (isPackageManagerKey : String → Bool) (kClient : Client)
    (orgOrSpace : ObjectMeta) (c : Cluster) : Except GoError (List String) × Cluster :=
  match kClient.listRoleBindings orgOrSpace.namespace_ none c with
  | (.error err, c1) => (.error err, c1)
  | (.ok roleBindings, c1) =>
    propagateRoleBindingsLoop isPackageManagerKey kClient orgOrSpace roleBindings [] c1

/-- The second half of `reconcileRoleBindings` (source lines 150 to 180): list the role bindings
of the child namespace labelled as propagated from the parent namespace, and delete the orphaned
ones. -/
def deleteOrphanedRoleBindings (kClient : Client) (orgOrSpace : ObjectMeta)
    (parentRoleBindingMap : List String) (c : Cluster) : Except GoError Unit × Cluster :=
  match ValidatedSelectorFromSet PropagatedFromLabel orgOrSpace.namespace_ with
  | .error err => (.error err, c)
  | .ok labelSelector =>
    match kClient.listRoleBindings orgOrSpace.name (some labelSelector) c with
    | (.error err, c1) => (.error err, c1)
    | (.ok propagatedRoleBindings, c1) =>
      deleteOrphanedRoleBindingsLoop kClient propagatedRoleBindings parentRoleBindingMap c1

/-- Go `reconcileRoleBindings`. `orgOrSpace` is the metadata of the org or space: its namespace is
the parent namespace, its name is the name of the child namespace. -/
def reconcileRoleBindings (isPackageManagerKey : String → Bool) (kClient : Client)
    (orgOrSpace : ObjectMeta) (c : Cluster) : Except GoError Unit × Cluster :=
  match propagateRoleBindings isPackageManagerKey kClient orgOrSpace c with
  | (.error err, c1) => (.error err, c1)
  | (.ok parentRoleBindingMap, c1) =>
    deleteOrphanedRoleBindings kClient orgOrSpace parentRoleBindingMap c1

/-- A parent role binding is propagate-eligible: it lives in the parent namespace and its
propagate annotation is "true". -/
def IsEligible (orgOrSpace : ObjectMeta) (binding : RoleBinding) : Prop :=
  binding.namespace_ = orgOrSpace.namespace_ ∧
    binding.annotations.index PropagateRoleBindingAnnotationKey = "true"

instance (orgOrSpace : ObjectMeta) (binding : RoleBinding) :
    Decidable (IsEligible orgOrSpace binding) := by
  unfold IsEligible; infer_instance

/-- The store holds at most one role binding under each namespace and name. -/
def UniqueRoleBindings (c : Cluster) : Prop :=
  (c.roleBindings.map (fun rb => (rb.namespace_, rb.name))).Nodup

instance (c : Cluster) : Decidable (UniqueRoleBindings c) := by
  unfold UniqueRoleBindings; infer_instance

/-- The names of the role bindings in a list that carry the propagate annotation "true", in the
order of the list. -/
def propagatedNames (bindings : List RoleBinding) : List String :=
  (bindings.filter
    (fun b => decide (b.annotations.index PropagateRoleBindingAnnotationKey = "true"))).map
    (fun b => b.name)

/-! ## `controllers/workloads/shared.go`: namespaces and secrets -/

/-- Go `updateMap`: `dest` is made a map when it is nil, then every entry of `values` is stored
in it. Returns the map `dest` points to afterwards. -/
def updateMap (dest : GoMap) (values : GoMap) : GoMap :=
  let dest1 : Entries :=
    match dest with
    | none => []
    | some entries => entries
  match values with
  | none => some dest1
  | some entries => some (entries.foldl (fun acc kv => Entries.set kv.1 kv.2 acc) dest1)

/-- Go `controllerutil.CreateOrPatch` for a `Namespace` with the mutate function `f`, as
`CreateOrPatch` is for a role binding. The mutate functions of this file leave the status alone,
so that no patch of the status is sent. -/
def CreateOrPatchNamespace (cl : Client) (obj : Namespace) (f : Namespace → Namespace)
    (c : Cluster) : Except GoError OperationResult × Cluster :=
  match cl.getNamespace obj.name c with
  | (.error err, c1) =>
    if err.isNotFound then
      if (f obj).namespace_ = obj.namespace_ ∧ (f obj).name = obj.name then
        match cl.createNamespace (f obj) c1 with
        | (.error err, c2) => (.error err, c2)
        | (.ok _, c2) => (.ok .created, c2)
      else
        (.error (.failure "MutateFn cannot mutate object name and/or object namespace"), c1)
    else (.error err, c1)
  | (.ok existing, c1) =>
    if (f existing).namespace_ = obj.namespace_ ∧ (f existing).name = obj.name then
      if f existing = existing then (.ok .none, c1)
      else
        match cl.patchNamespace (f existing) c1 with
        | (.error err, c2) => (.error err, c2)
        | (.ok _, c2) => (.ok .updated, c2)
    else
      (.error (.failure "MutateFn cannot mutate object name and/or object namespace"), c1)

/-- The mutate closure of `createOrPatchNamespace` (source lines 34 to 38). -/
def createOrPatchNamespaceMutate (labels annotations : GoMap) (ns : Namespace) : Namespace :=
  let ns1 : Namespace := { ns with annotations := updateMap ns.annotations annotations }
  { ns1 with labels := updateMap ns1.labels labels }

/-- Go `createOrPatchNamespace`. -/
def createOrPatchNamespace (client : Client) (orgOrSpace : ObjectMeta)
    (labels annotations : GoMap) (c : Cluster) : Except GoError Unit × Cluster :=
  let ns : Namespace := { name := orgOrSpace.name }
  match CreateOrPatchNamespace client ns (createOrPatchNamespaceMutate labels annotations) c with
  | (.error err, c1) => (.error err, c1)
  | (.ok _, c1) => (.ok (), c1)

/-- Go `controllerutil.CreateOrPatch` for a `Secret` with the mutate function `f`, as
`CreateOrPatch` is for a role binding. -/
def CreateOrPatchSecret (cl : Client) (obj : Secret) (f : Secret → Secret)
    (c : Cluster) : Except GoError OperationResult × Cluster :=
  match cl.getSecret obj.namespace_ obj.name c with
  | (.error err, c1) =>
    if err.isNotFound then
      if (f obj).namespace_ = obj.namespace_ ∧ (f obj).name = obj.name then
        match cl.createSecret (f obj) c1 with
        | (.error err, c2) => (.error err, c2)
        | (.ok _, c2) => (.ok .created, c2)
      else
        (.error (.failure "MutateFn cannot mutate object name and/or object namespace"), c1)
    else (.error err, c1)
  | (.ok existing, c1) =>
    if (f existing).namespace_ = obj.namespace_ ∧ (f existing).name = obj.name then
      if f existing = existing then (.ok .none, c1)
      else
        match cl.patchSecret (f existing) c1 with
        | (.error err, c2) => (.error err, c2)
        | (.ok _, c2) => (.ok .updated, c2)
    else
      (.error (.failure "MutateFn cannot mutate object name and/or object namespace"), c1)

/-- The mutate closure of `propagateSecrets` (source lines 83 to 91): annotations and labels of
the parent secret without the package-manager keys, and its `Immutable`, `Data`, `StringData`
and `Type`. -/
def propagateSecretMutate (isPackageManagerKey : String → Bool) (secret : Secret)
    (newSecret : Secret) : Secret :=
  { newSecret with
    annotations := RemovePackageManagerKeys isPackageManagerKey secret.annotations
    labels := RemovePackageManagerKeys isPackageManagerKey secret.labels
    immutable := secret.immutable
    data := secret.data
    stringData := secret.stringData
    type := secret.type }

/-- The loop of `propagateSecrets` (source lines 67 to 97) over the secret names. The loop stops
at the first `Get` or `CreateOrPatch` that fails. -/
def propagateSecretsLoop (isPackageManagerKey : String → Bool) (client : Client)
    (orgOrSpace : ObjectMeta) : List String → Cluster → Except GoError Unit × Cluster
  | [], c => (.ok (), c)
  | secretName :: rest, c =>
    match client.getSecret orgOrSpace.namespace_ secretName c with
    | (.error err, c1) =>
      (.error (.errorf "error fetching secret %q from namespace %q: %w"
        [secretName, orgOrSpace.namespace_] err), c1)
    | (.ok secret, c1) =>
      let newSecret : Secret := { name := secret.name, namespace_ := orgOrSpace.name }
      match CreateOrPatchSecret client newSecret
          (propagateSecretMutate isPackageManagerKey secret) c1 with
      | (.error err, c2) => (.error (.wrapped "error creating/patching secret: " err), c2)
      | (.ok _, c2) =>
        propagateSecretsLoop isPackageManagerKey client orgOrSpace rest c2

/-- Go `propagateSecrets`. -/
def propagateSecrets (isPackageManagerKey : String → Bool) (client : Client)
    (orgOrSpace : ObjectMeta) (secretNames : List String) (c : Cluster) :
    Except GoError Unit × Cluster :=
  if secretNames.length = 0 then (.ok (), c)
  else propagateSecretsLoop isPackageManagerKey client orgOrSpace secretNames c

/-- The association list stands for a Go map: no key occurs twice. -/
def GoMap.Valid (m : GoMap) : Prop :=
  match m with
  | none => True
  | some entries => (entries.map Prod.fst).Nodup

instance (m : GoMap) : Decidable m.Valid := by
  unfold GoMap.Valid; split <;> infer_instance

/-- The child namespace holds the secret `name` as `propagateSecrets` makes it from the secret
`name` of the parent namespace: applying the mutate closure once more changes nothing. -/
def SecretPropagated (isPackageManagerKey : String → Bool) (orgOrSpace : ObjectMeta)
    (secrets : List Secret) (name : String) : Prop :=
  ∃ parent child,
    findObject Secret.toObjectMeta orgOrSpace.namespace_ name secrets = some parent ∧
    findObject Secret.toObjectMeta orgOrSpace.name name secrets = some child ∧
    propagateSecretMutate isPackageManagerKey parent child = child

/-! ## Auxiliary notions for the statements -/

/-- The role bindings of a namespace, in the order of the store. -/
def roleBindingsOf (ns : String) (c : Cluster) : List RoleBinding :=
  c.roleBindings.filter (fun rb => decide (rb.namespace_ = ns))

/-- The two states hold the same objects of every kind but `RoleBinding`. -/
def SameOtherObjects (c c2 : Cluster) : Prop :=
  c2.cfApps = c.cfApps ∧ c2.secrets = c.secrets ∧ c2.namespaces = c.namespaces

/-- The child namespace of `orgOrSpace` holds no object: no app, no role binding, no secret. -/
def ChildNamespaceEmpty (orgOrSpace : ObjectMeta) (c : Cluster) : Prop :=
  (∀ app ∈ c.cfApps, app.namespace_ ≠ orgOrSpace.name) ∧
  (∀ rb ∈ c.roleBindings, rb.namespace_ ≠ orgOrSpace.name) ∧
  (∀ s ∈ c.secrets, s.namespace_ ≠ orgOrSpace.name)

instance (orgOrSpace : ObjectMeta) (c : Cluster) :
    Decidable (ChildNamespaceEmpty orgOrSpace c) := by
  unfold ChildNamespaceEmpty; infer_instance

/-- The namespace and name of the object a call writes or deletes; `none` for a read. -/
def Op.writtenKey : Op → Option (String × String)
  | .getCFApp _ _ => none
  | .patchCFApp obj => some (obj.namespace_, obj.name)
  | .getRoleBinding _ _ => none
  | .listRoleBindings _ _ => none
  | .createRoleBinding obj => some (obj.namespace_, obj.name)
  | .patchRoleBinding obj => some (obj.namespace_, obj.name)
  | .deleteRoleBinding ns name => some (ns, name)
  | .getSecret _ _ => none
  | .createSecret obj => some (obj.namespace_, obj.name)
  | .patchSecret obj => some (obj.namespace_, obj.name)
  | .getNamespace _ => none
  | .createNamespace obj => some (obj.namespace_, obj.name)
  | .patchNamespace obj => some (obj.namespace_, obj.name)

/-! ## `controllers/workloads/shared.go`: `logAndSetReadyStatus` -/

/-- The update `meta.SetStatusCondition` makes to the condition it found: the status, with the
transition time when the status changes (that of the new condition, or the current time when
that is zero), then the reason, the message and the observed generation. -/
def updateExistingCondition (now : String) (existingCondition newCondition : Condition) :
    Condition :=
  let changed : Condition :=
    if existingCondition.status ≠ newCondition.status then
      { existingCondition with
        status := newCondition.status
        lastTransitionTime :=
          if newCondition.lastTransitionTime ≠ "" then newCondition.lastTransitionTime else now }
    else existingCondition
  { changed with
    reason := newCondition.reason
    message := newCondition.message
    observedGeneration := newCondition.observedGeneration }

/-- Go `meta.SetStatusCondition` on a non-nil pointer to the conditions, at the time `now`: the
first condition of the type of `newCondition` is updated in place; when there is none,
`newCondition` is appended, with the current time as its transition time when it has none. -/
def SetStatusCondition (now : String) : List Condition → Condition → List Condition
  | [], newCondition =>
    [if newCondition.lastTransitionTime = "" then
      { newCondition with lastTransitionTime := now }
    else newCondition]
  | condition :: rest, newCondition =>
    if condition.type = newCondition.type then
      updateExistingCondition now condition newCondition :: rest
    else condition :: SetStatusCondition now rest newCondition

/-- Go `ctrl.Result`. -/
structure Result where
  requeue : Bool := false
  requeueAfter : Int := 0
  deriving DecidableEq, Repr

/-- Go `logAndSetReadyStatus`. The text of the error, `err.Error()`, is the method `Error` of
the Go interface `error` and is taken as the parameter `errorText`; `now` is the time of the
call; logging has no effect on the state. Returns the result, the error, and the conditions
the pointer `conditions` refers to at return. -/
def logAndSetReadyStatus (errorText : GoError → String) (now : String) (err : GoError)
    (conditions : List Condition) (reason : String) (generation : Int) :
    (Result × GoError) × List Condition :=
  let conditions1 := SetStatusCondition now conditions
    { type := StatusConditionReady
      status := ConditionFalse
      reason := reason
      message := errorText err
      observedGeneration := generation }
  (({}, err), conditions1)

/-! ## `api/handlers/package.go` -/

/-- The instant of a Go `time.Time`; `After` compares instants. -/
abbrev Time := Int

/-- Modelled from the spec: `repositories.PackageRecord`, declared in `api/repositories` outside
the excerpt: the fields the package handler reads, a creation time and an optional time of the
last update. -/
structure PackageRecord where
  GUID : String := ""
  spaceGUID : String := ""
  appGUID : String := ""
  state : String := ""
  imageRef : String := ""
  createdAt : Time := 0
  updatedAt : Option Time := none
  deriving DecidableEq, Repr

/-- Modelled from the spec: `repositories.PackageStateAwaitingUpload`, the state of a package
whose bits are yet to be uploaded, named as the handler names it in its own message. -/
def PackageStateAwaitingUpload : String := "AWAITING_UPLOAD"

/-- Go `sort.Slice` by the comparison `less` on elements. Go runs an insertion sort on a slice
of at most 12 elements, which is the sort taken here; on a longer slice it runs a
pattern-defeating quicksort, whose result can differ in the order of elements neither of which
is less than the other. -/
def sortSlice {α : Type} (less : α → α → Bool) (x : List α) : List α :=
  x.insertionSort (fun a b => less b a = false)

/-- Go `Package.sortList`, returning the slice as it is after the call. The helper
`timePtrAfter` of package `handlers` is outside the excerpt and is taken as a parameter; a time
that is no pointer in the source is passed by its address, which is not nil. -/
def sortList (timePtrAfter : Option Time → Option Time → Bool)
    (records : List PackageRecord) (order : String) : List PackageRecord :=
  if order = "" then records
  else if order = "created_at" then
    sortSlice (fun ri rj => timePtrAfter (some rj.createdAt) (some ri.createdAt)) records
  else if order = "-created_at" then
    sortSlice (fun ri rj => timePtrAfter (some ri.createdAt) (some rj.createdAt)) records
  else if order = "updated_at" then
    sortSlice (fun ri rj => timePtrAfter rj.updatedAt ri.updatedAt) records
  else if order = "-updated_at" then
    sortSlice (fun ri rj => timePtrAfter ri.updatedAt rj.updatedAt) records
  else records

/-- The errors of the package handler. The constructors stand for the values the functions of
`api/errors`, which is outside the excerpt, return: `NewInvalidRequestError`,
`NewUnprocessableEntityError`, `ForbiddenAsNotFound`, `NewPackageBitsAlreadyUploadedError` and
`LogAndReturn`; `passed` is an error of a collaborator handed on as it is. -/
inductive ApiError where
  | passed (err : GoError)
  | invalidRequest (cause : GoError) (detail : String)
  | unprocessableEntity (cause : GoError) (detail : String)
  | forbiddenAsNotFound (err : GoError)
  | packageBitsAlreadyUploaded (cause : Option GoError)
  | logAndReturn (err : ApiError) (message : String)
  deriving DecidableEq, Repr

/-- Go `repositories.UpdatePackageSourceMessage`, with the fields the handler sets. -/
structure UpdatePackageSourceMessage where
  GUID : String := ""
  spaceGUID : String := ""
  imageRef : String := ""
  registrySecretName : String := ""
  deriving DecidableEq, Repr

/-- A call the upload handler makes on a repository. -/
inductive PackageCall where
  | getPackage (authInfo : AuthInfo) (guid : String)
  | uploadSourceImage (authInfo : AuthInfo) (imageRef : String) (bits : Bytes)
      (spaceGUID : String) (tags : List String)
  | updatePackageSource (authInfo : AuthInfo) (message : UpdatePackageSourceMessage)
  deriving DecidableEq, Repr

/-- Go `Package`, the handler, with the collaborators `upload` calls. The repositories are
interfaces whose implementations are outside the excerpt; each method is taken as a function
of its arguments. -/
structure Package where
  serverURL : String := ""
  getPackage : AuthInfo → String → Except GoError PackageRecord
  updatePackageSource : AuthInfo → UpdatePackageSourceMessage → Except GoError PackageRecord
  uploadSourceImage : AuthInfo → String → Bytes → String → List String → Except GoError String
  registrySecretName : String := ""

/-- An upload request as the handler reads it: the identity of the caller, the `guid` parameter
of the route, the outcome of `ParseForm` and the form files by name. -/
structure UploadRequest where
  authInfo : AuthInfo := {}
  guid : String := ""
  parseForm : Option GoError := none
  formFile : String → Except GoError Bytes

/-- Go `routing.Response` with the body `presenter.ForPackage` makes of a record and the server
URL. -/
structure PackageResponse where
  httpStatus : Nat
  body : PackageRecord × String
  deriving DecidableEq, Repr

/-- Go `Package.upload`. Returns the response or the error, and the calls made on the
repositories, in their order. -/
def Package.upload (h : Package) (r : UploadRequest) :
    Except ApiError PackageResponse × List PackageCall :=
  let packageGUID := r.guid
  match r.parseForm with
  | some err =>
    (.error (.logAndReturn (.invalidRequest err "Unable to parse body as multipart form")
      "Error parsing multipart form"), [])
  | none =>
    match r.formFile "bits" with
    | .error err =>
      (.error (.logAndReturn (.unprocessableEntity err "Upload must include bits")
        "Error reading form file \"bits\""), [])
    | .ok bitsFile =>
      match h.getPackage r.authInfo packageGUID with
      | .error err =>
        (.error (.logAndReturn (.forbiddenAsNotFound err)
          "Error fetching package with repository"),
          [.getPackage r.authInfo packageGUID])
      | .ok record =>
        if record.state ≠ PackageStateAwaitingUpload then
          (.error (.logAndReturn (.packageBitsAlreadyUploaded none)
            "Error, cannot call package upload state was not AWAITING_UPLOAD"),
            [.getPackage r.authInfo packageGUID])
        else
          match h.uploadSourceImage r.authInfo record.imageRef bitsFile record.spaceGUID
              [packageGUID] with
          | .error err =>
            (.error (.logAndReturn (.passed err) "Error calling uploadSourceImage"),
              [.getPackage r.authInfo packageGUID,
                .uploadSourceImage r.authInfo record.imageRef bitsFile record.spaceGUID
                  [packageGUID]])
          | .ok uploadedImageRef =>
            match h.updatePackageSource r.authInfo
                { GUID := packageGUID
                  spaceGUID := record.spaceGUID
                  imageRef := uploadedImageRef
                  registrySecretName := h.registrySecretName } with
            | .error err =>
              (.error (.logAndReturn (.passed err) "Error calling UpdatePackageSource"),
                [.getPackage r.authInfo packageGUID,
                  .uploadSourceImage r.authInfo record.imageRef bitsFile record.spaceGUID
                    [packageGUID],
                  .updatePackageSource r.authInfo
                    { GUID := packageGUID
                      spaceGUID := record.spaceGUID
                      imageRef := uploadedImageRef
                      registrySecretName := h.registrySecretName }])
            | .ok record1 =>
              (.ok { httpStatus := 200, body := (record1, h.serverURL) },
                [.getPackage r.authInfo packageGUID,
                  .uploadSourceImage r.authInfo record.imageRef bitsFile record.spaceGUID
                    [packageGUID],
                  .updatePackageSource r.authInfo
                    { GUID := packageGUID
                      spaceGUID := record.spaceGUID
                      imageRef := uploadedImageRef
                      registrySecretName := h.registrySecretName }])

/-! ## The condition awaiter -/

/-- Go `meta.FindStatusCondition`: the first condition of the given type. -/
def FindStatusCondition : List Condition → String → Option Condition
  | [], _ => none
  | condition :: rest, conditionType =>
    if condition.type = conditionType then some condition
    else FindStatusCondition rest conditionType

/-- Modelled from the spec: `korifiv1alpha1.TaskInitializedConditionType`. -/
def TaskInitializedConditionType : String := "Initialized"

/-- Modelled from the spec: `korifiv1alpha1.TaskStartedConditionType`. -/
def TaskStartedConditionType : String := "Started"

/-- Modelled from the spec: `korifiv1alpha1.TaskCanceledConditionType`. -/
def TaskCanceledConditionType : String := "Canceled"

/-- The conditions `setStatusAndUpdate` of `task_repository_test.go` sets on a task: one true
condition of each type given, with the reason `foo` and the message `bar`. -/
def testConditions (conditionTypes : List String) : List Condition :=
  conditionTypes.map
    (fun cond => { type := cond, status := ConditionTrue, reason := "foo", message := "bar" })

/-- An event on the watch of an object: the object as it is now, or its deletion. -/
inductive WatchEvent (α : Type) where
  | modified (obj : α)
  | deleted
  deriving DecidableEq, Repr

/-- The error of an await. -/
inductive AwaitError where
  /-- The deadline elapsed before the condition reached the desired value. -/
  | timeout (conditionType desiredStatus : String)
  /-- The watched object was deleted before the condition was met. -/
  | notFound
  deriving DecidableEq, Repr

/-- Modelled from the spec: the message of an await error. The message of a timeout is the one
`task_repository_test.go` expects, "did not get the … condition", and names the desired value
as the specification requires. -/
def AwaitError.message : AwaitError → String
  | .timeout conditionType desiredStatus =>
    "did not get the " ++ conditionType ++ " condition with status " ++ desiredStatus ++
      " before the deadline"
  | .notFound => "the object was deleted before the condition was met"

/-- The named condition of the conditions has the desired status. -/
def conditionHasStatus (conditions : List Condition) (conditionType desiredStatus : String) :
    Bool :=
  match FindStatusCondition conditions conditionType with
  | none => false
  | some condition => condition.status = desiredStatus

/-- The events of the watch, in the order of their delivery: the first object on which the
condition has the desired status is returned; a deletion before that is a `NotFound` error;
when the events delivered before the deadline are used up, the await times out. -/
def awaitEvents {α : Type} (statusConditions : α → List Condition)
    (conditionType desiredStatus : String) : List (WatchEvent α) → Except AwaitError α
  | [] => .error (.timeout conditionType desiredStatus)
  | .deleted :: _ => .error .notFound
  | .modified obj :: rest =>
    if conditionHasStatus (statusConditions obj) conditionType desiredStatus then .ok obj
    else awaitEvents statusConditions conditionType desiredStatus rest

/-- Modelled from the spec: `AwaitCondition` of the condition awaiter
(`api/repositories/conditions`, outside the excerpt), as §4.1 of the specification has it. The
deadline is rendered by `events`, the watch events delivered before it elapses. An initial
object that satisfies the condition is returned without waiting on the watch. -/
def AwaitCondition {α : Type} (statusConditions : α → List Condition) (initial : α)
    (events : List (WatchEvent α)) (conditionType desiredStatus : String) :
    Except AwaitError α :=
  if conditionHasStatus (statusConditions initial) conditionType desiredStatus then .ok initial
  else awaitEvents statusConditions conditionType desiredStatus events

/-! ## Sample states -/

/-- A store client that never fails a call. -/
def reliableClient : Client := { fault := fun _ _ => none }

/-- A timestamp helper for the samples. -/
def sampleTimestamp : ObjectMeta → String × Option GoError :=
  fun _ => ("2022-06-01T10:00:00Z", none)

/-- A repository whose apps live in the namespace `space-1` and whose clients never fail. -/
def sampleRepo : DeploymentRepo :=
  { userClientFactory := fun _ => .ok reliableClient
    namespaceRetriever := fun _ _ => .ok "space-1" }

/-- A stopped app `app-1` with droplet `droplet-1`, at the given revision, whose `Ready` condition
has the given status. -/
def sampleApp (rev readyStatus : String) : CFApp :=
  { name := "app-1"
    namespace_ := "space-1"
    labels := some [("team", "blue")]
    annotations := some [("owner", "alice"), (CFAppRevisionKey, rev)]
    spec := { displayName := "shop", desiredState := "STOPPED", currentDropletRef := { name := "droplet-1" } }
    status := { conditions := [{ type := "Staged", status := "True" },
                               { type := StatusConditionReady, status := readyStatus }] } }

/-- A store holding `sampleApp` only. -/
def sampleCluster (rev readyStatus : String) : Cluster := { cfApps := [sampleApp rev readyStatus] }

/-- A deployment request for `app-1` that names the droplet `droplet-2`. -/
def sampleMessage : CreateDeploymentMessage := { appGUID := "app-1", dropletGUID := "droplet-2" }

/-- The record `CreateDeployment` returns for `app-1` with the given droplet while the app is
not ready. -/
def sampleRecord (droplet : String) : DeploymentRecord :=
  { GUID := "app-1"
    createdAt := "2022-06-01T10:00:00Z"
    updatedAt := "2022-06-01T10:00:00Z"
    dropletGUID := droplet
    status := { value := DeploymentStatusValueActive, reason := DeploymentStatusReasonDeploying } }

/-- Keys of a package manager, for the samples: those under `meta.helm.sh/`. -/
def sampleIsPackageManagerKey (key : String) : Bool :=
  "meta.helm.sh/".toList.isPrefixOf key.toList

/-- The org `org-1` in the root namespace `cf`: the parent namespace is `cf`, the child namespace
is `org-1`. -/
def sampleOrg : ObjectMeta := { name := "org-1", namespace_ := "cf" }

/-- A propagate-eligible role binding of the parent namespace. -/
def adminBinding : RoleBinding :=
  { name := "admin-binding"
    namespace_ := "cf"
    labels := some [("meta.helm.sh/release", "korifi")]
    annotations := some [(PropagateRoleBindingAnnotationKey, "true")]
    subjects := [{ kind := "User", name := "alice" }]
    roleRef := { kind := "ClusterRole", name := "cf-admin" } }

/-- A role binding of the parent namespace without the propagate annotation. -/
def localBinding : RoleBinding :=
  { name := "local-binding"
    namespace_ := "cf"
    subjects := [{ kind := "User", name := "bob" }]
    roleRef := { kind := "ClusterRole", name := "cf-root-namespace-user" } }

/-- A child binding propagated earlier from `admin-binding` and edited by hand since. -/
def staleAdminBinding : RoleBinding :=
  { name := "admin-binding"
    namespace_ := "org-1"
    labels := some [(PropagatedFromLabel, "cf")]
    finalizers := ["keep"]
    subjects := [{ kind := "User", name := "mallory" }]
    roleRef := { kind := "ClusterRole", name := "cf-admin" } }

/-- A child binding propagated earlier whose parent is gone. -/
def orphanBinding : RoleBinding :=
  { name := "orphan"
    namespace_ := "org-1"
    labels := some [(PropagatedFromLabel, "cf")]
    subjects := [{ kind := "User", name := "carol" }]
    roleRef := { kind := "ClusterRole", name := "cf-user" } }

/-- A child binding propagated earlier whose parent is gone, marked as not to be deleted. -/
def keptOrphanBinding : RoleBinding :=
  { name := "kept-orphan"
    namespace_ := "org-1"
    labels := some [(PropagatedFromLabel, "cf")]
    annotations := some [(PropagateDeletionAnnotationKey, "false")]
    subjects := [{ kind := "User", name := "dave" }]
    roleRef := { kind := "ClusterRole", name := "cf-user" } }

/-- A child binding made by hand, without the `propagated-from` label. -/
def manualBinding : RoleBinding :=
  { name := "manual"
    namespace_ := "org-1"
    subjects := [{ kind := "User", name := "erin" }]
    roleRef := { kind := "ClusterRole", name := "cf-user" } }

/-- A store with the parent namespace `cf` and the child namespace `org-1`. -/
def sampleBindings : Cluster :=
  { roleBindings :=
      [adminBinding, localBinding, staleAdminBinding, orphanBinding, keptOrphanBinding,
        manualBinding] }

/-- The namespace `org-1` as an operator left it: labelled, annotated, owned and terminating. -/
def sampleNamespace : Namespace :=
  { name := "org-1"
    labels := some [("team", "blue"), ("tier", "dev")]
    annotations := some [("note", "keep")]
    ownerReferences := ["CFOrg/org-1"]
    specFinalizers := ["kubernetes"]
    phase := "Active" }

/-- A store holding `sampleNamespace` and one other namespace. -/
def sampleNamespaces : Cluster :=
  { namespaces := [{ name := "cf" }, sampleNamespace] }

/-- The registry credentials of the parent namespace `cf`. -/
def registrySecret : Secret :=
  { name := "registry-credentials"
    namespace_ := "cf"
    labels := some [("meta.helm.sh/release", "korifi"), ("app", "korifi")]
    immutable := some true
    data := some [(".dockerconfigjson", [123, 125])]
    type := "kubernetes.io/dockerconfigjson" }

/-- A certificate of the parent namespace `cf`. -/
def tlsSecret : Secret :=
  { name := "tls-cert"
    namespace_ := "cf"
    data := some [("tls.crt", [45, 45]), ("tls.key", [43])]
    type := "kubernetes.io/tls" }

/-- A secret of the child namespace `org-1` under the name of the registry credentials, with
other content. -/
def staleRegistrySecret : Secret :=
  { name := "registry-credentials"
    namespace_ := "org-1"
    finalizers := ["keep"]
    data := some [(".dockerconfigjson", [0])]
    type := "Opaque" }

/-- A store with two secrets in the parent namespace `cf` and none in the child namespace. -/
def sampleSecrets : Cluster := { secrets := [registrySecret, tlsSecret] }

/-- A store with two secrets in the parent namespace `cf` and a stale one in the child
namespace `org-1`. -/
def staleSecrets : Cluster := { secrets := [registrySecret, tlsSecret, staleRegistrySecret] }

/-- A store client that fails the given call, and no other. -/
def failingClient (op : Op) : Client :=
  { fault := fun _ called => if called = op then some (.failure "store unavailable") else none }

/-- A second child binding propagated earlier whose parent is gone. -/
def secondOrphanBinding : RoleBinding :=
  { name := "orphan-2"
    namespace_ := "org-1"
    labels := some [(PropagatedFromLabel, "cf")]
    subjects := [{ kind := "User", name := "frank" }]
    roleRef := { kind := "ClusterRole", name := "cf-user" } }

/-- A store with one eligible parent binding and an empty child namespace. -/
def freshBindings : Cluster := { roleBindings := [adminBinding, localBinding] }

/-- A store with one eligible parent binding and two orphans in the child namespace. -/
def orphanedBindings : Cluster :=
  { roleBindings := [adminBinding, orphanBinding, secondOrphanBinding] }

/-- A store with role bindings and secrets in the parent namespace `cf` and nothing in the child
namespace `org-1`. -/
def freshStore : Cluster :=
  { roleBindings := [adminBinding, localBinding], secrets := [registrySecret, tlsSecret] }

/-- An app `app-1` of the namespace `space-1` without annotations. -/
def bareApp : CFApp :=
  { name := "app-1"
    namespace_ := "space-1"
    labels := some [("team", "blue")]
    spec := { displayName := "shop", desiredState := "STOPPED", currentDropletRef := { name := "droplet-1" } } }

/-- A store holding `bareApp` only. -/
def bareCluster : Cluster := { cfApps := [bareApp] }

/-- A rendering of errors for the samples. -/
def sampleErrorText : GoError → String
  | .failure msg => msg
  | .notFound kind ns name => kind ++ " " ++ ns ++ "/" ++ name ++ " not found"
  | _ => "error"

/-- Conditions with two of type `Ready`, which the data model rules out and a Go slice can
hold. -/
def doubleReadyConditions : List Condition :=
  [{ type := "Ready", status := "True" }, { type := "Staged", status := "True" },
    { type := "Ready", status := "Unknown" }]

/-- A comparison of optional times for the samples: a time is after an earlier one and after
no time at all. -/
def sampleTimePtrAfter : Option Time → Option Time → Bool
  | none, _ => false
  | some _, none => true
  | some t1, some t2 => decide (t2 < t1)

/-- Three packages in the order of their names, for the samples. -/
def samplePackages : List PackageRecord :=
  [{ GUID := "package-a", state := "READY", createdAt := 30, updatedAt := some 35 },
    { GUID := "package-b", state := "AWAITING_UPLOAD", createdAt := 10 },
    { GUID := "package-c", state := "READY", createdAt := 20, updatedAt := some 25 }]

/-- A handler over `samplePackages` whose collaborators never fail. -/
def samplePackageHandler : Package :=
  { serverURL := "https://api.example.org"
    getPackage := fun _ guid =>
      match samplePackages.find? (fun record => record.GUID = guid) with
      | some record => .ok record
      | none => .error (.notFound "CFPackage" "" guid)
    updatePackageSource := fun _ message =>
      .ok { GUID := message.GUID, spaceGUID := message.spaceGUID, state := "READY",
            imageRef := message.imageRef }
    uploadSourceImage := fun _ imageRef _ _ _ => .ok (imageRef ++ "@sha256:0")
    registrySecretName := "registry-credentials" }

/-- An upload of two bytes for the package of the given GUID. -/
def sampleUpload (guid : String) : UploadRequest :=
  { guid := guid
    formFile := fun name =>
      if name = "bits" then .ok [80, 75] else .error (.failure "http: no such file") }

/-! ## `strconv` round trip -/

theorem digitVal_digitChar (d : Nat) : digitVal (digitChar d) = some (d % 10) := by
  have h : d % 10 < 10 := Nat.mod_lt d (by decide)
  unfold digitChar
  generalize d % 10 = k at h
  interval_cases k <;> decide

theorem digitChar_ne_sign (d : Nat) : digitChar d ≠ '+' ∧ digitChar d ≠ '-' := by
  have h : d % 10 < 10 := Nat.mod_lt d (by decide)
  unfold digitChar
  generalize d % 10 = k at h
  interval_cases k <;> decide

theorem parseUintLoop_natDigitsAux (fuel : Nat) :
    ∀ (n : Nat) (acc : List Char), n < fuel → n < 2 ^ 64 →
      parseUintLoop (natDigitsAux fuel n acc) 0 = parseUintLoop acc n := by
  induction fuel with
  | zero => intro n acc h; omega
  | succ fuel ih =>
    intro n acc hfuel hn
    unfold natDigitsAux
    split
    · rename_i hlt
      simp only [parseUintLoop, digitVal_digitChar]
      have : n % 10 = n := Nat.mod_eq_of_lt hlt
      rw [this]
      simp only [Nat.zero_mul, Nat.zero_add, hn, if_true]
    · rename_i hge
      have h1 : n / 10 < fuel := by omega
      have h2 : n / 10 < 2 ^ 64 := by omega
      rw [ih (n / 10) _ h1 h2]
      simp only [parseUintLoop, digitVal_digitChar]
      have h3 : n / 10 * 10 + n % 10 % 10 = n := by omega
      rw [h3]
      simp only [hn, if_true]

theorem natDigitsAux_head (fuel : Nat) :
    ∀ (n : Nat) (acc : List Char),
      ∃ d rest, natDigitsAux (fuel + 1) n acc = digitChar d :: rest := by
  induction fuel with
  | zero =>
    intro n acc
    unfold natDigitsAux
    split
    · exact ⟨n, acc, rfl⟩
    · exact ⟨n % 10, acc, rfl⟩
  | succ fuel ih =>
    intro n acc
    unfold natDigitsAux
    split
    · exact ⟨n, acc, rfl⟩
    · exact ih _ _

theorem parseUint_natDigits (n : Nat) (hn : n < 2 ^ 64) : parseUint (natDigits n) = .ok n := by
  obtain ⟨d, rest, h⟩ := natDigitsAux_head n n []
  have h2 := parseUintLoop_natDigitsAux (n + 1) n [] (Nat.lt_succ_self n) hn
  unfold natDigits at *
  unfold parseUint
  rw [h] at h2 ⊢
  simpa [parseUintLoop] using h2

theorem parseInt_natDigits (n : Nat) (hn : n < 2 ^ 63) : parseInt (natDigits n) = .ok (n : Int) := by
  obtain ⟨d, rest, h⟩ := natDigitsAux_head n n []
  have hp : parseUint (natDigits n) = .ok n := parseUint_natDigits n (by omega)
  have hs := digitChar_ne_sign d
  unfold natDigits at hp ⊢
  rw [h] at hp ⊢
  have h1 : ¬ (n ≥ 2 ^ 63) := by omega
  simp [parseInt, hs.1, hs.2, hp, h1]
  omega

theorem parseInt_neg_natDigits (n : Nat) (hn : n ≤ 2 ^ 63) :
    parseInt ('-' :: natDigits n) = .ok (-(n : Int)) := by
  have hp : parseUint (natDigits n) = .ok n := parseUint_natDigits n (by omega)
  have h1 : ¬ (n > 2 ^ 63) := by omega
  simp [parseInt, hp, h1]
  omega

/-- Parsing what `Itoa` printed gives the number back, for every Go `int`. -/
theorem Atoi_Itoa (i : Int) (hlo : minInt ≤ i) (hhi : i ≤ maxInt) : Atoi (Itoa i) = .ok i := by
  unfold minInt at hlo
  unfold maxInt at hhi
  unfold Itoa Atoi
  by_cases hneg : i < 0
  · have h := parseInt_neg_natDigits i.natAbs (by omega)
    have h2 : -(i.natAbs : Int) = i := by omega
    simp only [hneg, if_true, String.toList, h, h2]
  · have h := parseInt_natDigits i.toNat (by omega)
    have h2 : (i.toNat : Int) = i := by omega
    simp only [hneg, if_false, String.toList, h, h2]

/-! ## `Atoi` against the base-10 reading of a string -/

theorem decimalDigitsValue_ge (cs : List Char) :
    ∀ (a v : Nat), decimalDigitsValue cs a = some v → a ≤ v := by
  induction cs with
  | nil => intro a v h; simp [decimalDigitsValue] at h; omega
  | cons c cs ih =>
    intro a v h
    unfold decimalDigitsValue at h
    cases hd : digitVal c with
    | none => simp [hd] at h
    | some d =>
      simp only [hd] at h
      have := ih _ _ h
      omega

theorem parseUintLoop_ok_iff (cs : List Char) :
    ∀ (a v : Nat), a < 2 ^ 64 →
      (parseUintLoop cs a = .ok v ↔ decimalDigitsValue cs a = some v ∧ v < 2 ^ 64) := by
  induction cs with
  | nil =>
    intro a v ha
    simp only [parseUintLoop, decimalDigitsValue, Except.ok.injEq, Option.some.injEq]
    constructor
    · intro h; subst h; exact ⟨rfl, ha⟩
    · intro h; exact h.1
  | cons c cs ih =>
    intro a v ha
    unfold parseUintLoop decimalDigitsValue
    cases hd : digitVal c with
    | none => simp
    | some d =>
      simp only []
      by_cases hlt : a * 10 + d < 2 ^ 64
      · simp only [hlt, if_true]
        exact ih _ _ hlt
      · simp only [hlt, if_false]
        constructor
        · intro h; cases h
        · intro h
          have := decimalDigitsValue_ge cs _ _ h.1
          omega

theorem parseUint_ok_iff (cs : List Char) (v : Nat) :
    parseUint cs = .ok v ↔ cs ≠ [] ∧ decimalDigitsValue cs 0 = some v ∧ v < 2 ^ 64 := by
  cases cs with
  | nil => simp [parseUint]
  | cons c cs =>
    simp only [parseUint, ne_eq, reduceCtorEq, not_false_eq_true, true_and]
    exact parseUintLoop_ok_iff (c :: cs) 0 v (by norm_num)

theorem parseInt_ok_iff (cs : List Char) (r : Int) :
    parseInt cs = .ok r ↔
      base10Value (String.mk cs) = some r ∧ minInt ≤ r ∧ r ≤ maxInt := by
  unfold minInt maxInt base10Value
  cases cs with
  | nil => simp [parseInt]
  | cons c cs =>
    simp only [parseInt, String.toList]
    by_cases hm : c = '-'
    · subst hm
      simp only [or_true, if_true, decide_True, Bool.true_eq_false, false_and, if_false, true_and]
      cases hp : parseUint cs with
      | error k =>
        simp only [reduceCtorEq, false_iff]
        intro h
        by_cases hnil : cs = []
        · simp [hnil] at h
        · simp only [hnil, if_false] at h
          cases hv : decimalDigitsValue cs 0 with
          | none => simp [hv] at h
          | some n =>
            simp only [hv, Option.map_some', Option.some.injEq, Int.ofNat_eq_coe] at h
            have : parseUint cs = .ok n := (parseUint_ok_iff cs n).2 ⟨hnil, hv, by omega⟩
            rw [hp] at this
            cases this
      | ok un =>
        obtain ⟨hnil, hv, hlt⟩ := (parseUint_ok_iff cs un).1 hp
        simp only [hnil, if_false, hv, Option.map_some', Option.some.injEq, Int.ofNat_eq_coe]
        by_cases hgt : un > 2 ^ 63
        · simp only [hgt, if_true, reduceCtorEq, false_iff]
          omega
        · simp only [hgt, if_false, Except.ok.injEq]
          omega
    · by_cases hpl : c = '+'
      · subst hpl
        simp only [true_or, if_true, hm, decide_False, true_and, Bool.false_eq_true, false_and,
          if_false]
        cases hp : parseUint cs with
        | error k =>
          simp only [reduceCtorEq, false_iff]
          intro h
          by_cases hnil : cs = []
          · simp [hnil] at h
          · simp only [hnil, if_false] at h
            cases hv : decimalDigitsValue cs 0 with
            | none => simp [hv] at h
            | some n =>
              simp only [hv, Option.map_some', Option.some.injEq, Int.ofNat_eq_coe] at h
              have : parseUint cs = .ok n := (parseUint_ok_iff cs n).2 ⟨hnil, hv, by omega⟩
              rw [hp] at this
              cases this
        | ok un =>
          obtain ⟨hnil, hv, hlt⟩ := (parseUint_ok_iff cs un).1 hp
          simp only [hnil, if_false, hv, Option.map_some', Option.some.injEq, Int.ofNat_eq_coe]
          by_cases hge : un ≥ 2 ^ 63
          · simp only [hge, if_true, reduceCtorEq, false_iff]
            omega
          · simp only [hge, if_false, Except.ok.injEq]
            omega
      · simp only [hm, hpl, or_self, if_false, decide_False, true_and, Bool.false_eq_true,
          false_and]
        cases hp : parseUint (c :: cs) with
        | error k =>
          simp only [reduceCtorEq, false_iff]
          intro h
          cases hv : decimalDigitsValue (c :: cs) 0 with
          | none => simp [hv] at h
          | some n =>
            simp only [hv, Option.map_some', Option.some.injEq, Int.ofNat_eq_coe] at h
            have : parseUint (c :: cs) = .ok n :=
              (parseUint_ok_iff (c :: cs) n).2 ⟨by simp, hv, by omega⟩
            rw [hp] at this
            cases this
        | ok un =>
          obtain ⟨_, hv, hlt⟩ := (parseUint_ok_iff (c :: cs) un).1 hp
          simp only [hv, Option.map_some', Option.some.injEq, Int.ofNat_eq_coe]
          by_cases hge : un ≥ 2 ^ 63
          · simp only [hge, if_true, reduceCtorEq, false_iff]
            omega
          · simp only [hge, if_false, Except.ok.injEq]
            omega

/-- `Atoi` succeeds with `r` exactly when the string is a base-10 integer of value `r` and `r`
fits the Go `int`. -/
theorem Atoi_ok_iff (s : String) (r : Int) :
    Atoi s = .ok r ↔ base10Value s = some r ∧ minInt ≤ r ∧ r ≤ maxInt := by
  have h := parseInt_ok_iff s.toList r
  have hs : String.mk s.toList = s := rfl
  rw [hs] at h
  rw [← h]
  unfold Atoi
  cases parseInt s.toList with
  | error k => simp
  | ok i => simp

theorem Atoi_error_iff (s : String) :
    (∃ e, Atoi s = .error e) ↔ ¬ ∃ r, base10Value s = some r ∧ minInt ≤ r ∧ r ≤ maxInt := by
  constructor
  · rintro ⟨e, he⟩ ⟨r, hr⟩
    rw [(Atoi_ok_iff s r).2 hr] at he
    cases he
  · intro h
    cases hA : Atoi s with
    | error e => exact ⟨e, rfl⟩
    | ok r => exact absurd ⟨r, (Atoi_ok_iff s r).1 hA⟩ h

/-! ## Go maps and the object store -/

theorem Entries.get_set_same (k v : String) (kvs : Entries) :
    Entries.get k (Entries.set k v kvs) = some v := by
  induction kvs with
  | nil => simp [Entries.set, Entries.get]
  | cons kv kvs ih =>
    obtain ⟨k1, v1⟩ := kv
    unfold Entries.set
    by_cases h : k1 = k
    · simp [h, Entries.get]
    · simp [h, Entries.get, ih]

theorem Entries.get_set_other (k v k2 : String) (kvs : Entries) (hne : k2 ≠ k) :
    Entries.get k2 (Entries.set k v kvs) = Entries.get k2 kvs := by
  induction kvs with
  | nil =>
    have : ¬ k = k2 := fun h => hne h.symm
    simp [Entries.set, Entries.get, this]
  | cons kv kvs ih =>
    obtain ⟨k1, v1⟩ := kv
    unfold Entries.set
    by_cases h : k1 = k
    · have : ¬ k = k2 := fun h => hne h.symm
      subst h
      simp [Entries.get, this]
    · by_cases h2 : k1 = k2
      · subst h2
        simp [h, Entries.get]
      · simp [h, h2, Entries.get, ih]

theorem findObject_hasKey {α : Type} (objectMeta : α → ObjectMeta) (ns name : String)
    (l : List α) (o : α) (h : findObject objectMeta ns name l = some o) :
    (objectMeta o).hasKey ns name = true := by
  induction l with
  | nil => simp [findObject] at h
  | cons x rest ih =>
    unfold findObject at h
    by_cases hk : (objectMeta x).hasKey ns name = true
    · simp only [hk, if_true, Option.some.injEq] at h
      subst h
      exact hk
    · simp only [hk] at h
      exact ih h

theorem findObject_mem {α : Type} (objectMeta : α → ObjectMeta) (ns name : String)
    (l : List α) (o : α) (h : findObject objectMeta ns name l = some o) : o ∈ l := by
  induction l with
  | nil => simp [findObject] at h
  | cons x rest ih =>
    unfold findObject at h
    by_cases hk : (objectMeta x).hasKey ns name = true
    · simp only [hk, if_true, Option.some.injEq] at h
      subst h
      exact List.mem_cons_self _ _
    · simp only [hk] at h
      exact List.mem_cons_of_mem _ (ih h)

theorem hasKey_iff (m : ObjectMeta) (ns name : String) :
    m.hasKey ns name = true ↔ m.namespace_ = ns ∧ m.name = name := by
  simp [ObjectMeta.hasKey]

theorem findObject_replaceObject_same {α : Type} (objectMeta : α → ObjectMeta) (obj : α)
    (l : List α) (o : α)
    (h : findObject objectMeta (objectMeta obj).namespace_ (objectMeta obj).name l = some o) :
    findObject objectMeta (objectMeta obj).namespace_ (objectMeta obj).name
      (replaceObject objectMeta obj l) = some obj := by
  induction l with
  | nil => simp [findObject] at h
  | cons x rest ih =>
    unfold findObject at h
    unfold replaceObject
    by_cases hk : (objectMeta x).hasKey (objectMeta obj).namespace_ (objectMeta obj).name = true
    · have hself : (objectMeta obj).hasKey (objectMeta obj).namespace_ (objectMeta obj).name
          = true := by simp [ObjectMeta.hasKey]
      simp [hk, findObject, hself]
    · simp only [hk] at h
      simp [hk, findObject, ih h]

theorem findObject_replaceObject_other {α : Type} (objectMeta : α → ObjectMeta) (obj : α)
    (ns name : String) (l : List α)
    (hne : (objectMeta obj).hasKey ns name = false) :
    findObject objectMeta ns name (replaceObject objectMeta obj l)
      = findObject objectMeta ns name l := by
  induction l with
  | nil => simp [findObject, replaceObject]
  | cons x rest ih =>
    unfold replaceObject
    by_cases hk : (objectMeta x).hasKey (objectMeta obj).namespace_ (objectMeta obj).name = true
    · have hx : (objectMeta x).hasKey ns name = false := by
        rw [hasKey_iff] at hk
        simp only [ObjectMeta.hasKey, hk.1, hk.2] at hne ⊢
        exact hne
      simp [hk, findObject, hne, hx, ih]
    · simp only [hk]
      simp only [Bool.false_eq_true, if_false, findObject, ih]

/-! ## `CreateDeployment` -/

theorem createDeploymentModify_meta (dropletGUID newRev : String) (app : CFApp) :
    (createDeploymentModify dropletGUID newRev app).name = app.name ∧
    (createDeploymentModify dropletGUID newRev app).namespace_ = app.namespace_ := by
  simp [createDeploymentModify]

theorem createDeploymentModify_revision (dropletGUID newRev : String) (app : CFApp) :
    (createDeploymentModify dropletGUID newRev app).annotations.index CFAppRevisionKey
      = newRev := by
  simp [createDeploymentModify, GoMap.index, GoMap.lookup, Entries.get_set_same]

theorem getCFApp_ok (cl : Client) (ns name : String) (c c1 : Cluster) (app : CFApp)
    (h : cl.getCFApp ns name c = (.ok app, c1)) :
    findObject CFApp.toObjectMeta ns name c.cfApps = some app ∧
      c1 = c.record (Op.getCFApp ns name) := by
  unfold Client.getCFApp at h
  cases hf : cl.fault c (Op.getCFApp ns name) with
  | some e => simp [hf] at h
  | none =>
    cases hfind : findObject CFApp.toObjectMeta ns name c.cfApps with
    | none => simp [hf, hfind] at h
    | some a =>
      simp only [hf, hfind, Prod.mk.injEq, Except.ok.injEq] at h
      exact ⟨by rw [h.1], h.2.symm⟩

theorem getCFApp_found (cl : Client) (ns name : String) (c : Cluster) (app : CFApp)
    (hf : cl.fault c (Op.getCFApp ns name) = none)
    (hfind : findObject CFApp.toObjectMeta ns name c.cfApps = some app) :
    cl.getCFApp ns name c = (.ok app, c.record (Op.getCFApp ns name)) := by
  unfold Client.getCFApp
  simp only [hf, hfind]

theorem getCFApp_log (cl : Client) (ns name : String) (c : Cluster) :
    (cl.getCFApp ns name c).2 = c.record (Op.getCFApp ns name) := by
  unfold Client.getCFApp
  cases hf : cl.fault c (Op.getCFApp ns name) with
  | some e => simp [hf]
  | none =>
    cases hfind : findObject CFApp.toObjectMeta ns name c.cfApps with
    | none => simp [hf, hfind]
    | some a => simp [hf, hfind]

theorem patchCFApp_ok (cl : Client) (obj app : CFApp) (c c1 : Cluster)
    (h : cl.patchCFApp obj c = (.ok app, c1)) :
    app = obj ∧
      c1 = { c.record (Op.patchCFApp obj) with
        cfApps := replaceObject CFApp.toObjectMeta obj c.cfApps } := by
  unfold Client.patchCFApp at h
  cases hf : cl.fault c (Op.patchCFApp obj) with
  | some e => simp [hf] at h
  | none =>
    cases hfind : findObject CFApp.toObjectMeta obj.namespace_ obj.name c.cfApps with
    | none => simp [hf, hfind] at h
    | some a =>
      simp only [hf, hfind, Prod.mk.injEq, Except.ok.injEq] at h
      exact ⟨h.1.symm, h.2.symm⟩

/-- What a successful `CreateDeployment` has done: it resolved the namespace, read the app,
bumped the revision, sent one patch with the modified app, and returned the record of it. -/
theorem CreateDeployment_ok (ts : ObjectMeta → String × Option GoError) (r : DeploymentRepo)
    (authInfo : AuthInfo) (message : CreateDeploymentMessage) (c c2 : Cluster)
    (record : DeploymentRecord)
    (h : CreateDeployment ts r authInfo message c = (.ok record, c2)) :
    ∃ ns app newRev,
      r.namespaceRetriever message.appGUID AppResourceType = .ok ns ∧
      findObject CFApp.toObjectMeta ns message.appGUID c.cfApps = some app ∧
      bumpAppRev (app.annotations.index CFAppRevisionKey) = .ok newRev ∧
      record = appToDeploymentRecord ts
        (createDeploymentModify (deploymentDroplet message app) newRev app) ∧
      c2.cfApps = replaceObject CFApp.toObjectMeta
        (createDeploymentModify (deploymentDroplet message app) newRev app) c.cfApps ∧
      c2.roleBindings = c.roleBindings ∧
      c2.log = c.log ++ [Op.getCFApp ns message.appGUID,
        Op.patchCFApp (createDeploymentModify (deploymentDroplet message app) newRev app)] := by
  unfold CreateDeployment at h
  cases hns : r.namespaceRetriever message.appGUID AppResourceType with
  | error e => simp [hns] at h
  | ok ns =>
    cases hcl : r.userClientFactory authInfo with
    | error e => simp [hns, hcl] at h
    | ok cl =>
      simp only [hns, hcl] at h
      cases hget : cl.getCFApp ns message.appGUID c with
      | mk res c1 =>
        cases res with
        | error e => simp [hget] at h
        | ok app =>
          simp only [hget] at h
          obtain ⟨hfind, hc1⟩ := getCFApp_ok _ _ _ _ _ _ hget
          cases hb : bumpAppRev (app.annotations.index CFAppRevisionKey) with
          | error e => simp [hb] at h
          | ok newRev =>
            simp only [hb, PatchResource] at h
            refine ⟨ns, app, newRev, rfl, hfind, hb, ?_⟩
            cases hpatch : cl.patchCFApp (createDeploymentModify
                (deploymentDroplet message app) newRev app) c1 with
            | mk res2 c3 =>
              cases res2 with
              | error e => simp [hpatch] at h
              | ok app1 =>
                simp only [hpatch, Prod.mk.injEq, Except.ok.injEq] at h
                obtain ⟨happ1, hc3⟩ := patchCFApp_ok _ _ _ _ _ hpatch
                obtain ⟨h1, h2⟩ := h
                subst h2 h1 happ1 hc3 hc1
                simp [Cluster.record]

/-! ## `bumpAppRev` -/

theorem Atoi_error_form (s : String) (e : GoError) (h : Atoi s = .error e) :
    ∃ kind, e = .numError "Atoi" s kind := by
  unfold Atoi at h
  cases hp : parseInt s.toList with
  | error k =>
    rw [hp] at h
    simp only [Except.error.injEq] at h
    exact ⟨k, h.symm⟩
  | ok i =>
    rw [hp] at h
    cases h

theorem wrapInt_of_inRange (x : Int) (hlo : minInt ≤ x) (hhi : x ≤ maxInt) : wrapInt x = x := by
  unfold minInt at hlo
  unfold maxInt at hhi
  unfold wrapInt
  omega

theorem bumpAppRev_ok_iff (s out : String) :
    bumpAppRev s = .ok out ↔ ∃ r, Atoi s = .ok r ∧ out = Itoa (wrapInt (r + 1)) := by
  unfold bumpAppRev
  cases hA : Atoi s with
  | error e => simp
  | ok r =>
    simp only [Except.ok.injEq, exists_eq_left']
    exact eq_comm

theorem bumpAppRev_error_iff (s : String) :
    (∃ e, bumpAppRev s = .error e) ↔ ∃ e, Atoi s = .error e := by
  unfold bumpAppRev
  cases hA : Atoi s with
  | error e => simp
  | ok r => simp

/-- Below the largest Go `int` the revision goes up by exactly one: the output of `bumpAppRev`
reads back as the input plus one. -/
theorem bumpAppRev_increments (s : String) (r : Int) (h : Atoi s = .ok r) (hlt : r < maxInt) :
    ∃ out, bumpAppRev s = .ok out ∧ Atoi out = .ok (r + 1) := by
  obtain ⟨_, hlo, hhi⟩ := (Atoi_ok_iff s r).1 h
  have hlo1 : minInt ≤ r + 1 := by unfold minInt at *; omega
  have hhi1 : r + 1 ≤ maxInt := by unfold maxInt at *; omega
  refine ⟨Itoa (r + 1), ?_, Atoi_Itoa _ hlo1 hhi1⟩
  rw [bumpAppRev_ok_iff]
  exact ⟨r, h, by rw [wrapInt_of_inRange _ hlo1 hhi1]⟩

/-! ## Claims on the deployment repository -/

/-- Below the largest Go `int`, a successful `CreateDeployment` leaves the app with the
revision annotation that is the decimal representation of the old revision plus one. -/
theorem CreateDeployment_bumps_revision (ts : ObjectMeta → String × Option GoError)
    (r : DeploymentRepo) (authInfo : AuthInfo) (message : CreateDeploymentMessage)
    (c c2 : Cluster) (record : DeploymentRecord) (ns : String) (app : CFApp) (n : Int)
    (hns : r.namespaceRetriever message.appGUID AppResourceType = .ok ns)
    (hfind : findObject CFApp.toObjectMeta ns message.appGUID c.cfApps = some app)
    (hn : base10Value (app.annotations.index CFAppRevisionKey) = some n)
    (hlt : n < maxInt)
    (h : CreateDeployment ts r authInfo message c = (.ok record, c2)) :
    ∃ app2, findObject CFApp.toObjectMeta ns message.appGUID c2.cfApps = some app2 ∧
      app2.annotations.index CFAppRevisionKey = Itoa (n + 1) ∧
      base10Value (Itoa (n + 1)) = some (n + 1) := by
  obtain ⟨ns1, app1, newRev, hns1, hfind1, hb, _, hc2, _, _⟩ :=
    CreateDeployment_ok ts r authInfo message c c2 record h
  rw [hns] at hns1
  cases hns1
  rw [hfind] at hfind1
  cases hfind1
  obtain ⟨r0, hA, hout⟩ := (bumpAppRev_ok_iff _ _).1 hb
  obtain ⟨hv, hlo, hhi⟩ := (Atoi_ok_iff _ _).1 hA
  rw [hn] at hv
  cases hv
  have hlo1 : minInt ≤ n + 1 := by unfold minInt at *; omega
  have hhi1 : n + 1 ≤ maxInt := by unfold maxInt at *; omega
  rw [wrapInt_of_inRange _ hlo1 hhi1] at hout
  have hkey := findObject_hasKey _ _ _ _ _ hfind
  rw [hasKey_iff] at hkey
  have hm := createDeploymentModify_meta (deploymentDroplet message app) newRev app
  refine ⟨createDeploymentModify (deploymentDroplet message app) newRev app, ?_, ?_, ?_⟩
  · rw [hc2]
    have := findObject_replaceObject_same CFApp.toObjectMeta
      (createDeploymentModify (deploymentDroplet message app) newRev app) c.cfApps app
    rw [hm.1, hm.2, hkey.1, hkey.2] at this
    exact this hfind
  · rw [createDeploymentModify_revision, hout]
  · exact ((Atoi_ok_iff _ _).1 (Atoi_Itoa _ hlo1 hhi1)).1

/-- Claim C1, at the input where the code departs from it. The app `app-1` has the revision
annotation "9223372036854775807", the decimal representation of the largest Go `int`.
`CreateDeployment` succeeds, and the revision annotation it leaves is "-9223372036854775808",
which denotes the smallest Go `int` and not the old revision plus one. -/
theorem C1_revision_wraps_around_at_largest_int :
    base10Value ((sampleApp "9223372036854775807" "False").annotations.index CFAppRevisionKey)
      = some 9223372036854775807 ∧
    (CreateDeployment sampleTimestamp sampleRepo {} { appGUID := "app-1" }
      (sampleCluster "9223372036854775807" "False")).1 = .ok (sampleRecord "droplet-1") ∧
    (findObject CFApp.toObjectMeta "space-1" "app-1"
      (CreateDeployment sampleTimestamp sampleRepo {} { appGUID := "app-1" }
        (sampleCluster "9223372036854775807" "False")).2.cfApps).map
        (fun app => app.annotations.index CFAppRevisionKey)
      = some "-9223372036854775808" ∧
    base10Value "-9223372036854775808" = some (-9223372036854775808) ∧
    "-9223372036854775808" ≠ Itoa (9223372036854775807 + 1) := by
  refine ⟨by decide, by decide, by decide, by decide, by decide⟩

/-- Claim C2. After a successful `CreateDeployment` the current droplet reference of the stored
app and the `DropletGUID` of the returned record are both the `DropletGUID` of the message when
that is non-empty, and the droplet reference the app had before the call otherwise. -/
theorem C2_droplet_reference (ts : ObjectMeta → String × Option GoError) (r : DeploymentRepo)
    (authInfo : AuthInfo) (message : CreateDeploymentMessage) (c c2 : Cluster)
    (record : DeploymentRecord)
    (h : CreateDeployment ts r authInfo message c = (.ok record, c2)) :
    ∃ ns before after,
      r.namespaceRetriever message.appGUID AppResourceType = .ok ns ∧
      findObject CFApp.toObjectMeta ns message.appGUID c.cfApps = some before ∧
      findObject CFApp.toObjectMeta ns message.appGUID c2.cfApps = some after ∧
      after.spec.currentDropletRef.name =
        (if message.dropletGUID ≠ "" then message.dropletGUID
          else before.spec.currentDropletRef.name) ∧
      record.dropletGUID =
        (if message.dropletGUID ≠ "" then message.dropletGUID
          else before.spec.currentDropletRef.name) := by
  obtain ⟨ns, app, newRev, hns, hfind, _, hrec, hc2, _, _⟩ :=
    CreateDeployment_ok ts r authInfo message c c2 record h
  have hkey := findObject_hasKey _ _ _ _ _ hfind
  rw [hasKey_iff] at hkey
  have hm := createDeploymentModify_meta (deploymentDroplet message app) newRev app
  refine ⟨ns, app, createDeploymentModify (deploymentDroplet message app) newRev app,
    hns, hfind, ?_, ?_, ?_⟩
  · rw [hc2]
    have := findObject_replaceObject_same CFApp.toObjectMeta
      (createDeploymentModify (deploymentDroplet message app) newRev app) c.cfApps app
    rw [hm.1, hm.2, hkey.1, hkey.2] at this
    exact this hfind
  · simp [createDeploymentModify, deploymentDroplet]
  · rw [hrec]
    unfold appToDeploymentRecord
    split <;> simp [createDeploymentModify, deploymentDroplet]

/-- A run of claim C2: the message names the droplet `droplet-2`. -/
theorem C2_droplet_reference_witness :
    CreateDeployment sampleTimestamp sampleRepo {} sampleMessage (sampleCluster "5" "False")
      = (.ok (sampleRecord "droplet-2"),
        (CreateDeployment sampleTimestamp sampleRepo {} sampleMessage
          (sampleCluster "5" "False")).2) ∧
    ∃ ns before after,
      sampleRepo.namespaceRetriever sampleMessage.appGUID AppResourceType = .ok ns ∧
      findObject CFApp.toObjectMeta ns sampleMessage.appGUID (sampleCluster "5" "False").cfApps
        = some before ∧
      findObject CFApp.toObjectMeta ns sampleMessage.appGUID
        (CreateDeployment sampleTimestamp sampleRepo {} sampleMessage
          (sampleCluster "5" "False")).2.cfApps = some after ∧
      after.spec.currentDropletRef.name =
        (if sampleMessage.dropletGUID ≠ "" then sampleMessage.dropletGUID
          else before.spec.currentDropletRef.name) ∧
      (sampleRecord "droplet-2").dropletGUID =
        (if sampleMessage.dropletGUID ≠ "" then sampleMessage.dropletGUID
          else before.spec.currentDropletRef.name) :=
  ⟨by decide, C2_droplet_reference sampleTimestamp sampleRepo {} sampleMessage
    (sampleCluster "5" "False") _ (sampleRecord "droplet-2") (by decide)⟩

/-- Claim C3. A successful `CreateDeployment` makes exactly two calls on the store, the read of
the app and one patch, whatever the app looked like before; the object sent with that one patch
carries the droplet reference, the bumped revision annotation and the desired state `Started`
together, and it is what the store holds afterwards. -/
theorem C3_single_patch (ts : ObjectMeta → String × Option GoError) (r : DeploymentRepo)
    (authInfo : AuthInfo) (message : CreateDeploymentMessage) (c c2 : Cluster)
    (record : DeploymentRecord)
    (h : CreateDeployment ts r authInfo message c = (.ok record, c2)) :
    ∃ ns before newRev patched,
      findObject CFApp.toObjectMeta ns message.appGUID c.cfApps = some before ∧
      bumpAppRev (before.annotations.index CFAppRevisionKey) = .ok newRev ∧
      c2.log = c.log ++ [Op.getCFApp ns message.appGUID, Op.patchCFApp patched] ∧
      patched.spec.currentDropletRef.name =
        (if message.dropletGUID ≠ "" then message.dropletGUID
          else before.spec.currentDropletRef.name) ∧
      patched.annotations.index CFAppRevisionKey = newRev ∧
      patched.spec.desiredState = StartedState ∧
      findObject CFApp.toObjectMeta ns message.appGUID c2.cfApps = some patched := by
  obtain ⟨ns, app, newRev, _, hfind, hb, _, hc2, _, hlog⟩ :=
    CreateDeployment_ok ts r authInfo message c c2 record h
  have hkey := findObject_hasKey _ _ _ _ _ hfind
  rw [hasKey_iff] at hkey
  have hm := createDeploymentModify_meta (deploymentDroplet message app) newRev app
  refine ⟨ns, app, newRev, createDeploymentModify (deploymentDroplet message app) newRev app,
    hfind, hb, hlog, ?_, createDeploymentModify_revision _ _ _, ?_, ?_⟩
  · simp [createDeploymentModify, deploymentDroplet]
  · simp [createDeploymentModify]
  · rw [hc2]
    have := findObject_replaceObject_same CFApp.toObjectMeta
      (createDeploymentModify (deploymentDroplet message app) newRev app) c.cfApps app
    rw [hm.1, hm.2, hkey.1, hkey.2] at this
    exact this hfind

/-- A run of claim C3, on an app that was stopped. -/
theorem C3_single_patch_witness :
    CreateDeployment sampleTimestamp sampleRepo {} sampleMessage (sampleCluster "41" "False")
      = (.ok (sampleRecord "droplet-2"),
        (CreateDeployment sampleTimestamp sampleRepo {} sampleMessage
          (sampleCluster "41" "False")).2) ∧
    ∃ ns before newRev patched,
      findObject CFApp.toObjectMeta ns sampleMessage.appGUID (sampleCluster "41" "False").cfApps
        = some before ∧
      bumpAppRev (before.annotations.index CFAppRevisionKey) = .ok newRev ∧
      (CreateDeployment sampleTimestamp sampleRepo {} sampleMessage
          (sampleCluster "41" "False")).2.log
        = (sampleCluster "41" "False").log
          ++ [Op.getCFApp ns sampleMessage.appGUID, Op.patchCFApp patched] ∧
      patched.spec.currentDropletRef.name =
        (if sampleMessage.dropletGUID ≠ "" then sampleMessage.dropletGUID
          else before.spec.currentDropletRef.name) ∧
      patched.annotations.index CFAppRevisionKey = newRev ∧
      patched.spec.desiredState = StartedState ∧
      findObject CFApp.toObjectMeta ns sampleMessage.appGUID
        (CreateDeployment sampleTimestamp sampleRepo {} sampleMessage
          (sampleCluster "41" "False")).2.cfApps = some patched :=
  ⟨by decide, C3_single_patch sampleTimestamp sampleRepo {} sampleMessage
    (sampleCluster "41" "False") _ (sampleRecord "droplet-2") (by decide)⟩

/-- The counterexample to claim C4 as stated: "9223372036854775808" is a base-10 integer, and
`bumpAppRev` returns an error for it. -/
theorem C4_counterexample_integer_out_of_range :
    ¬ ((∃ err, bumpAppRev "9223372036854775808" = .error err)
        ↔ ¬ IsBase10Integer "9223372036854775808") := by
  intro h
  have h1 : ∃ err, bumpAppRev "9223372036854775808" = .error err :=
    ⟨.numError "Atoi" "9223372036854775808" .errRange, by decide⟩
  exact (h.1 h1) (by decide)

/-- Claim C4, amended. `bumpAppRev` returns an error if and only if its input is not a base-10
integer within the range of the 64-bit Go `int`; for every input that is such an integer it
returns a result and no error. -/
theorem C4_error_iff_not_int (s : String) :
    ((∃ err, bumpAppRev s = .error err)
      ↔ ¬ ∃ n, base10Value s = some n ∧ minInt ≤ n ∧ n ≤ maxInt) ∧
    (∀ n, base10Value s = some n → minInt ≤ n → n ≤ maxInt →
      bumpAppRev s = .ok (Itoa (wrapInt (n + 1)))) := by
  constructor
  · rw [bumpAppRev_error_iff]
    exact Atoi_error_iff s
  · intro n hv hlo hhi
    rw [bumpAppRev_ok_iff]
    exact ⟨n, (Atoi_ok_iff s n).2 ⟨hv, hlo, hhi⟩, rfl⟩

/-- Claim C5. When the revision annotation of the app is not a base-10 integer,
`CreateDeployment` returns an error, leaves the stored apps as they were and sends no patch,
whatever its collaborators do. When the app could be read, the error wraps the parse failure
of `Atoi` with "expected app-rev to be an integer", and the read is the only call made on the
store: nothing is retried. -/
theorem C5_invalid_revision (ts : ObjectMeta → String × Option GoError) (r : DeploymentRepo)
    (authInfo : AuthInfo) (message : CreateDeploymentMessage) (c : Cluster) (ns : String)
    (app : CFApp)
    (hns : r.namespaceRetriever message.appGUID AppResourceType = .ok ns)
    (hfind : findObject CFApp.toObjectMeta ns message.appGUID c.cfApps = some app)
    (hrev : ¬ IsBase10Integer (app.annotations.index CFAppRevisionKey)) :
    (∃ err, (CreateDeployment ts r authInfo message c).1 = .error err) ∧
    (CreateDeployment ts r authInfo message c).2.cfApps = c.cfApps ∧
    (∀ obj, Op.patchCFApp obj ∈ (CreateDeployment ts r authInfo message c).2.log →
      Op.patchCFApp obj ∈ c.log) ∧
    (∀ userClient, r.userClientFactory authInfo = .ok userClient →
      userClient.fault c (Op.getCFApp ns message.appGUID) = none →
      ∃ kind, CreateDeployment ts r authInfo message c =
        (.error (.wrapped "expected app-rev to be an integer: "
          (.numError "Atoi" (app.annotations.index CFAppRevisionKey) kind)),
          c.record (Op.getCFApp ns message.appGUID))) := by
  have hA : ∃ e, Atoi (app.annotations.index CFAppRevisionKey) = .error e := by
    rw [Atoi_error_iff]
    rintro ⟨n, hn, _, _⟩
    apply hrev
    unfold IsBase10Integer
    rw [hn]
    rfl
  obtain ⟨e, he⟩ := hA
  obtain ⟨kind, hkind⟩ := Atoi_error_form _ _ he
  have hb : bumpAppRev (app.annotations.index CFAppRevisionKey) = .error e := by
    unfold bumpAppRev
    rw [he]
  unfold CreateDeployment
  simp only [hns]
  cases hcl : r.userClientFactory authInfo with
  | error e1 =>
    refine ⟨⟨_, rfl⟩, rfl, fun _ hmem => hmem, ?_⟩
    intro cl hcl2
    cases hcl2
  | ok cl =>
    simp only []
    have hlog := getCFApp_log cl ns message.appGUID c
    cases hget : cl.getCFApp ns message.appGUID c with
    | mk res c1 =>
      rw [hget] at hlog
      simp only at hlog
      subst hlog
      cases res with
      | error e1 =>
        simp only []
        refine ⟨⟨_, rfl⟩, rfl, ?_, ?_⟩
        · intro obj hmem
          simp only [Cluster.record, List.mem_append, List.mem_singleton, reduceCtorEq,
            or_false] at hmem
          exact hmem
        · intro cl2 hcl2 hf2
          cases hcl2
          rw [getCFApp_found cl ns message.appGUID c app hf2 hfind] at hget
          cases hget
      | ok app1 =>
        obtain ⟨hfind1, _⟩ := getCFApp_ok _ _ _ _ _ _ hget
        rw [hfind] at hfind1
        cases hfind1
        simp only [hb]
        refine ⟨⟨_, rfl⟩, rfl, ?_, ?_⟩
        · intro obj hmem
          simp only [Cluster.record, List.mem_append, List.mem_singleton, reduceCtorEq,
            or_false] at hmem
          exact hmem
        · intro cl2 _ _
          exact ⟨kind, by rw [hkind]⟩

/-- A run of claim C5: the revision annotation of `app-1` is "five". -/
theorem C5_invalid_revision_witness :
    (∃ err, (CreateDeployment sampleTimestamp sampleRepo {} sampleMessage
      (sampleCluster "five" "True")).1 = .error err) ∧
    (CreateDeployment sampleTimestamp sampleRepo {} sampleMessage
      (sampleCluster "five" "True")).2.cfApps = (sampleCluster "five" "True").cfApps ∧
    (∀ obj, Op.patchCFApp obj ∈ (CreateDeployment sampleTimestamp sampleRepo {} sampleMessage
      (sampleCluster "five" "True")).2.log → Op.patchCFApp obj ∈ (sampleCluster "five" "True").log) ∧
    (∀ userClient, sampleRepo.userClientFactory {} = .ok userClient →
      userClient.fault (sampleCluster "five" "True") (Op.getCFApp "space-1" sampleMessage.appGUID)
        = none →
      ∃ kind, CreateDeployment sampleTimestamp sampleRepo {} sampleMessage
          (sampleCluster "five" "True") =
        (.error (.wrapped "expected app-rev to be an integer: "
          (.numError "Atoi" ((sampleApp "five" "True").annotations.index CFAppRevisionKey) kind)),
          (sampleCluster "five" "True").record (Op.getCFApp "space-1" sampleMessage.appGUID))) :=
  C5_invalid_revision sampleTimestamp sampleRepo {} sampleMessage (sampleCluster "five" "True")
    "space-1" (sampleApp "five" "True") (by decide) (by decide) (by decide)

/-- Claim C6, at the input where the code departs from it. For the revision
"9223372036854775807", the largest Go `int`, `bumpAppRev` succeeds, and its output reads back
as the smallest Go `int`: the value went down, not up. -/
theorem C6_not_monotone_at_largest_int :
    Atoi "9223372036854775807" = .ok maxInt ∧
    bumpAppRev "9223372036854775807" = .ok "-9223372036854775808" ∧
    Atoi "-9223372036854775808" = .ok minInt ∧
    minInt < maxInt := by
  refine ⟨by decide, by decide, by decide, by decide⟩

/-! ## `appToDeploymentRecord` -/

/-- With condition types unique in the list, `IsStatusConditionTrue` holds exactly when the list
contains a condition of the given type whose status is `True`. -/
theorem IsStatusConditionTrue_iff (conditions : List Condition) (conditionType : String)
    (huniq : (conditions.map (fun cond => cond.type)).Nodup) :
    IsStatusConditionTrue conditions conditionType = true ↔
      ∃ cond ∈ conditions, cond.type = conditionType ∧ cond.status = ConditionTrue := by
  induction conditions with
  | nil => simp [IsStatusConditionTrue]
  | cons cond rest ih =>
    simp only [List.map_cons, List.nodup_cons, List.mem_map, not_exists, not_and] at huniq
    unfold IsStatusConditionTrue
    by_cases ht : cond.type = conditionType
    · simp only [ht, if_true, decide_eq_true_eq, List.mem_cons, exists_eq_or_imp, true_and]
      constructor
      · intro h; exact Or.inl h
      · rintro (h | ⟨other, hmem, hty, _⟩)
        · exact h
        · exact absurd (hty.trans ht.symm) (huniq.1 other hmem)
    · simp only [ht, if_false, List.mem_cons, exists_eq_or_imp, false_and, false_or]
      exact ih huniq.2

/-- Claim C7. For an app whose conditions are keyed by their type, as the data model has it,
`appToDeploymentRecord` reports `FINALIZED` with reason `DEPLOYED` if and only if the
conditions contain a `Ready` condition with status `True`; in every other case it reports
`ACTIVE` with reason `DEPLOYING`; the GUID of the record is the name of the app and its
`DropletGUID` is the current droplet reference of the app. -/
theorem C7_record_status (ts : ObjectMeta → String × Option GoError) (app : CFApp)
    (huniq : (app.status.conditions.map (fun cond => cond.type)).Nodup) :
    ((appToDeploymentRecord ts app).status =
        { value := DeploymentStatusValueFinalized, reason := DeploymentStatusReasonDeployed } ↔
      ∃ cond ∈ app.status.conditions,
        cond.type = StatusConditionReady ∧ cond.status = ConditionTrue) ∧
    ((¬ ∃ cond ∈ app.status.conditions,
        cond.type = StatusConditionReady ∧ cond.status = ConditionTrue) →
      (appToDeploymentRecord ts app).status =
        { value := DeploymentStatusValueActive, reason := DeploymentStatusReasonDeploying }) ∧
    (appToDeploymentRecord ts app).GUID = app.name ∧
    (appToDeploymentRecord ts app).dropletGUID = app.spec.currentDropletRef.name := by
  rw [← IsStatusConditionTrue_iff _ _ huniq]
  unfold appToDeploymentRecord
  by_cases hready : IsStatusConditionTrue app.status.conditions StatusConditionReady = true
  · simp [hready]
  · have hf : IsStatusConditionTrue app.status.conditions StatusConditionReady = false := by
      simpa using hready
    simp only [hf, Bool.false_eq_true, if_false, not_false_eq_true, forall_true_left, and_self,
      and_true, iff_false]
    decide

/-- A run of claim C7: `app-1` with its `Ready` condition at `True`. -/
theorem C7_record_status_witness :
    ((sampleApp "5" "True").status.conditions.map (fun cond => cond.type)).Nodup ∧
    (((appToDeploymentRecord sampleTimestamp (sampleApp "5" "True")).status =
        { value := DeploymentStatusValueFinalized, reason := DeploymentStatusReasonDeployed } ↔
      ∃ cond ∈ (sampleApp "5" "True").status.conditions,
        cond.type = StatusConditionReady ∧ cond.status = ConditionTrue) ∧
    ((¬ ∃ cond ∈ (sampleApp "5" "True").status.conditions,
        cond.type = StatusConditionReady ∧ cond.status = ConditionTrue) →
      (appToDeploymentRecord sampleTimestamp (sampleApp "5" "True")).status =
        { value := DeploymentStatusValueActive, reason := DeploymentStatusReasonDeploying }) ∧
    (appToDeploymentRecord sampleTimestamp (sampleApp "5" "True")).GUID
      = (sampleApp "5" "True").name ∧
    (appToDeploymentRecord sampleTimestamp (sampleApp "5" "True")).dropletGUID
      = (sampleApp "5" "True").spec.currentDropletRef.name) :=
  ⟨by decide, C7_record_status sampleTimestamp (sampleApp "5" "True") (by decide)⟩

/-! ## More on the object store -/

theorem findObject_cons {α : Type} (objectMeta : α → ObjectMeta) (ns name : String) (x : α)
    (rest : List α) :
    findObject objectMeta ns name (x :: rest) =
      if (objectMeta x).hasKey ns name then some x else findObject objectMeta ns name rest :=
  rfl

theorem removeObject_cons {α : Type} (objectMeta : α → ObjectMeta) (ns name : String) (x : α)
    (rest : List α) :
    removeObject objectMeta ns name (x :: rest) =
      if (objectMeta x).hasKey ns name then removeObject objectMeta ns name rest
      else x :: removeObject objectMeta ns name rest :=
  rfl

theorem findObject_eq_none_iff {α : Type} (objectMeta : α → ObjectMeta) (ns name : String)
    (l : List α) :
    findObject objectMeta ns name l = none ↔ ∀ o ∈ l, (objectMeta o).hasKey ns name = false := by
  induction l with
  | nil => simp [findObject]
  | cons x rest ih =>
    rw [findObject_cons]
    by_cases hk : (objectMeta x).hasKey ns name = true
    · simp [hk]
    · simp only [Bool.not_eq_true] at hk
      simp only [hk, Bool.false_eq_true, if_false, List.mem_cons, forall_eq_or_imp, true_and]
      exact ih

theorem findObject_append_single {α : Type} (objectMeta : α → ObjectMeta) (ns name : String)
    (l : List α) (obj : α) :
    findObject objectMeta ns name (l ++ [obj]) =
      match findObject objectMeta ns name l with
      | some o => some o
      | none => if (objectMeta obj).hasKey ns name then some obj else none := by
  induction l with
  | nil => simp [findObject]
  | cons x rest ih =>
    simp only [List.cons_append, findObject_cons]
    by_cases hk : (objectMeta x).hasKey ns name = true
    · simp [hk]
    · simp only [hk, if_false]
      exact ih

theorem findObject_removeObject_same {α : Type} (objectMeta : α → ObjectMeta) (ns name : String)
    (l : List α) :
    findObject objectMeta ns name (removeObject objectMeta ns name l) = none := by
  induction l with
  | nil => simp [findObject, removeObject]
  | cons x rest ih =>
    rw [removeObject_cons]
    by_cases hk : (objectMeta x).hasKey ns name = true
    · simp [hk, ih]
    · simp only [Bool.not_eq_true] at hk
      simp only [hk, Bool.false_eq_true, if_false, findObject_cons]
      exact ih

theorem findObject_removeObject_other {α : Type} (objectMeta : α → ObjectMeta)
    (ns name ns2 name2 : String) (l : List α) (hne : ¬ (ns = ns2 ∧ name = name2)) :
    findObject objectMeta ns name (removeObject objectMeta ns2 name2 l)
      = findObject objectMeta ns name l := by
  induction l with
  | nil => simp [findObject, removeObject]
  | cons x rest ih =>
    rw [removeObject_cons]
    by_cases hk : (objectMeta x).hasKey ns2 name2 = true
    · have hx : (objectMeta x).hasKey ns name = false := by
        rw [hasKey_iff] at hk
        cases hx : (objectMeta x).hasKey ns name with
        | false => rfl
        | true =>
          rw [hasKey_iff] at hx
          exact absurd ⟨hx.1.symm.trans hk.1, hx.2.symm.trans hk.2⟩ hne
      simp only [hk, if_true, ih, findObject_cons, hx, Bool.false_eq_true, if_false]
    · simp only [Bool.not_eq_true] at hk
      simp only [hk, Bool.false_eq_true, if_false, findObject_cons, ih]

theorem findObject_removeObject_none {α : Type} (objectMeta : α → ObjectMeta)
    (ns name ns2 name2 : String) (l : List α)
    (h : findObject objectMeta ns name l = none) :
    findObject objectMeta ns name (removeObject objectMeta ns2 name2 l) = none := by
  by_cases hk : ns = ns2 ∧ name = name2
  · rw [hk.1, hk.2]
    exact findObject_removeObject_same _ _ _ _
  · rw [findObject_removeObject_other _ _ _ _ _ _ hk]
    exact h

/-- The keys under which a list of objects is stored. -/
theorem keys_replaceObject {α : Type} (objectMeta : α → ObjectMeta) (obj : α) (l : List α) :
    (replaceObject objectMeta obj l).map
        (fun o => ((objectMeta o).namespace_, (objectMeta o).name))
      = l.map (fun o => ((objectMeta o).namespace_, (objectMeta o).name)) := by
  induction l with
  | nil => simp [replaceObject]
  | cons x rest ih =>
    unfold replaceObject
    by_cases hk : (objectMeta x).hasKey (objectMeta obj).namespace_ (objectMeta obj).name = true
    · have hk2 := (hasKey_iff _ _ _).1 hk
      simp [hk, ih, hk2.1, hk2.2]
    · simp [hk, ih]

theorem findObject_of_mem_nodup {α : Type} (objectMeta : α → ObjectMeta) (l : List α) (o : α)
    (hnodup : (l.map (fun o => ((objectMeta o).namespace_, (objectMeta o).name))).Nodup)
    (hmem : o ∈ l) :
    findObject objectMeta (objectMeta o).namespace_ (objectMeta o).name l = some o := by
  induction l with
  | nil => simp at hmem
  | cons x rest ih =>
    simp only [List.map_cons, List.nodup_cons, List.mem_map, not_exists, not_and] at hnodup
    rw [findObject_cons]
    rcases List.mem_cons.1 hmem with hx | hx
    · subst hx
      simp [ObjectMeta.hasKey]
    · have hk : (objectMeta x).hasKey (objectMeta o).namespace_ (objectMeta o).name = false := by
        cases hk : (objectMeta x).hasKey (objectMeta o).namespace_ (objectMeta o).name with
        | false => rfl
        | true =>
          rw [hasKey_iff] at hk
          exact absurd (by rw [hk.1, hk.2]) (hnodup.1 o hx)
      simp only [hk, Bool.false_eq_true, if_false]
      exact ih hnodup.2 hx

theorem nodup_keys_append_single {α : Type} (objectMeta : α → ObjectMeta) (l : List α) (obj : α)
    (hnodup : (l.map (fun o => ((objectMeta o).namespace_, (objectMeta o).name))).Nodup)
    (hnone : findObject objectMeta (objectMeta obj).namespace_ (objectMeta obj).name l = none) :
    ((l ++ [obj]).map (fun o => ((objectMeta o).namespace_, (objectMeta o).name))).Nodup := by
  rw [findObject_eq_none_iff] at hnone
  simp only [List.map_append, List.map_cons, List.map_nil]
  rw [List.nodup_append]
  refine ⟨hnodup, List.nodup_singleton _, ?_⟩
  intro key hkey hkey2
  simp only [List.mem_singleton] at hkey2
  subst hkey2
  simp only [List.mem_map] at hkey
  obtain ⟨o, ho, hoeq⟩ := hkey
  have := hnone o ho
  simp only [Prod.mk.injEq] at hoeq
  simp [ObjectMeta.hasKey, hoeq.1, hoeq.2] at this

/-! ## The client calls on role bindings -/

theorem getRoleBinding_state (cl : Client) (ns name : String) (c : Cluster) :
    (cl.getRoleBinding ns name c).2 = c.record (Op.getRoleBinding ns name) := by
  unfold Client.getRoleBinding
  cases hf : cl.fault c (Op.getRoleBinding ns name) with
  | some e => simp [hf]
  | none =>
    cases hfind : findObject RoleBinding.toObjectMeta ns name c.roleBindings with
    | none => simp [hf, hfind]
    | some a => simp [hf, hfind]

theorem getRoleBinding_ok (cl : Client) (ns name : String) (c c1 : Cluster) (rb : RoleBinding)
    (h : cl.getRoleBinding ns name c = (.ok rb, c1)) :
    findObject RoleBinding.toObjectMeta ns name c.roleBindings = some rb := by
  unfold Client.getRoleBinding at h
  cases hf : cl.fault c (Op.getRoleBinding ns name) with
  | some e => simp [hf] at h
  | none =>
    cases hfind : findObject RoleBinding.toObjectMeta ns name c.roleBindings with
    | none => simp [hf, hfind] at h
    | some a =>
      simp only [hf, hfind, Prod.mk.injEq, Except.ok.injEq] at h
      rw [h.1]

theorem createRoleBinding_ok (cl : Client) (obj : RoleBinding) (c c1 : Cluster) (u : Unit)
    (h : cl.createRoleBinding obj c = (.ok u, c1)) :
    findObject RoleBinding.toObjectMeta obj.namespace_ obj.name c.roleBindings = none ∧
      c1 = { c.record (Op.createRoleBinding obj) with roleBindings := c.roleBindings ++ [obj] } := by
  unfold Client.createRoleBinding at h
  cases hf : cl.fault c (Op.createRoleBinding obj) with
  | some e => simp [hf] at h
  | none =>
    cases hfind : findObject RoleBinding.toObjectMeta obj.namespace_ obj.name c.roleBindings with
    | some a => simp [hf, hfind] at h
    | none =>
      simp only [hf, hfind, Prod.mk.injEq, true_and] at h
      exact ⟨rfl, h.symm⟩

theorem createRoleBinding_log (cl : Client) (obj : RoleBinding) (c : Cluster) :
    (cl.createRoleBinding obj c).2.log = c.log ++ [Op.createRoleBinding obj] := by
  unfold Client.createRoleBinding
  cases hf : cl.fault c (Op.createRoleBinding obj) with
  | some e => simp [hf, Cluster.record]
  | none =>
    cases hfind : findObject RoleBinding.toObjectMeta obj.namespace_ obj.name c.roleBindings with
    | some a => simp [hf, hfind, Cluster.record]
    | none => simp [hf, hfind, Cluster.record]

theorem patchRoleBinding_ok (cl : Client) (obj : RoleBinding) (c c1 : Cluster) (u : Unit)
    (h : cl.patchRoleBinding obj c = (.ok u, c1)) :
    (∃ o, findObject RoleBinding.toObjectMeta obj.namespace_ obj.name c.roleBindings = some o) ∧
      c1 = { c.record (Op.patchRoleBinding obj) with
        roleBindings := replaceObject RoleBinding.toObjectMeta obj c.roleBindings } := by
  unfold Client.patchRoleBinding at h
  cases hf : cl.fault c (Op.patchRoleBinding obj) with
  | some e => simp [hf] at h
  | none =>
    cases hfind : findObject RoleBinding.toObjectMeta obj.namespace_ obj.name c.roleBindings with
    | none => simp [hf, hfind] at h
    | some a =>
      simp only [hf, hfind, Prod.mk.injEq, true_and] at h
      exact ⟨⟨a, rfl⟩, h.symm⟩

theorem patchRoleBinding_log (cl : Client) (obj : RoleBinding) (c : Cluster) :
    (cl.patchRoleBinding obj c).2.log = c.log ++ [Op.patchRoleBinding obj] := by
  unfold Client.patchRoleBinding
  cases hf : cl.fault c (Op.patchRoleBinding obj) with
  | some e => simp [hf, Cluster.record]
  | none =>
    cases hfind : findObject RoleBinding.toObjectMeta obj.namespace_ obj.name c.roleBindings with
    | some a => simp [hf, hfind, Cluster.record]
    | none => simp [hf, hfind, Cluster.record]

theorem deleteRoleBinding_ok (cl : Client) (obj : RoleBinding) (c c1 : Cluster) (u : Unit)
    (h : cl.deleteRoleBinding obj c = (.ok u, c1)) :
    c1 = { c.record (Op.deleteRoleBinding obj.namespace_ obj.name) with
      roleBindings := removeObject RoleBinding.toObjectMeta obj.namespace_ obj.name
        c.roleBindings } := by
  unfold Client.deleteRoleBinding at h
  cases hf : cl.fault c (Op.deleteRoleBinding obj.namespace_ obj.name) with
  | some e => simp [hf] at h
  | none =>
    cases hfind : findObject RoleBinding.toObjectMeta obj.namespace_ obj.name c.roleBindings with
    | none => simp [hf, hfind] at h
    | some a =>
      simp only [hf, hfind, Prod.mk.injEq, true_and] at h
      exact h.symm

theorem deleteRoleBinding_log (cl : Client) (obj : RoleBinding) (c : Cluster) :
    (cl.deleteRoleBinding obj c).2.log
      = c.log ++ [Op.deleteRoleBinding obj.namespace_ obj.name] := by
  unfold Client.deleteRoleBinding
  cases hf : cl.fault c (Op.deleteRoleBinding obj.namespace_ obj.name) with
  | some e => simp [hf, Cluster.record]
  | none =>
    cases hfind : findObject RoleBinding.toObjectMeta obj.namespace_ obj.name c.roleBindings with
    | some a => simp [hf, hfind, Cluster.record]
    | none => simp [hf, hfind, Cluster.record]

theorem listRoleBindings_state (cl : Client) (ns : String) (selector : Option (String × String))
    (c : Cluster) :
    (cl.listRoleBindings ns selector c).2 = c.record (Op.listRoleBindings ns selector) := by
  unfold Client.listRoleBindings
  cases hf : cl.fault c (Op.listRoleBindings ns selector) with
  | some e => simp [hf]
  | none => simp [hf]

theorem listRoleBindings_ok (cl : Client) (ns : String) (selector : Option (String × String))
    (c c1 : Cluster) (items : List RoleBinding)
    (h : cl.listRoleBindings ns selector c = (.ok items, c1)) :
    items = c.roleBindings.filter
      (fun rb => decide (rb.namespace_ = ns) && matchesSelector selector rb.toObjectMeta) := by
  unfold Client.listRoleBindings at h
  cases hf : cl.fault c (Op.listRoleBindings ns selector) with
  | some e => simp [hf] at h
  | none =>
    simp only [hf, Prod.mk.injEq, Except.ok.injEq] at h
    exact h.1.symm

/-! ## `CreateOrPatch` -/

/-- What a successful `CreateOrPatch` has done to the store: the object under the key of `obj`
is now `f base`, where `base` is the object that was stored there, or `obj` when there was
none; nothing else changed. -/
theorem CreateOrPatch_ok (cl : Client) (obj : RoleBinding) (f : RoleBinding → RoleBinding)
    (c c2 : Cluster) (res : OperationResult)
    (h : CreateOrPatch cl obj f c = (.ok res, c2)) :
    ∃ base, (f base).namespace_ = obj.namespace_ ∧ (f base).name = obj.name ∧
      c2.cfApps = c.cfApps ∧
      ((c2.roleBindings = c.roleBindings ∧
          findObject RoleBinding.toObjectMeta obj.namespace_ obj.name c.roleBindings
            = some (f base)) ∨
        (findObject RoleBinding.toObjectMeta obj.namespace_ obj.name c.roleBindings = none ∧
          c2.roleBindings = c.roleBindings ++ [f base]) ∨
        ((∃ o, findObject RoleBinding.toObjectMeta obj.namespace_ obj.name c.roleBindings
            = some o) ∧
          c2.roleBindings = replaceObject RoleBinding.toObjectMeta (f base) c.roleBindings)) := by
  unfold CreateOrPatch at h
  have hstate := getRoleBinding_state cl obj.namespace_ obj.name c
  cases hget : cl.getRoleBinding obj.namespace_ obj.name c with
  | mk r c1 =>
    rw [hget] at hstate h
    simp only at hstate
    subst hstate
    cases r with
    | error err =>
      simp only at h
      by_cases hnf : err.isNotFound = true
      · simp only [hnf, if_true] at h
        by_cases hkey : (f obj).namespace_ = obj.namespace_ ∧ (f obj).name = obj.name
        · simp only [hkey, and_self, if_true] at h
          cases hcr : cl.createRoleBinding (f obj) (c.record (Op.getRoleBinding obj.namespace_ obj.name)) with
          | mk r2 c3 =>
            rw [hcr] at h
            cases r2 with
            | error e2 => simp at h
            | ok u =>
              simp only [Prod.mk.injEq, Except.ok.injEq] at h
              obtain ⟨hnone, hc3⟩ := createRoleBinding_ok _ _ _ _ _ hcr
              rw [hkey.1, hkey.2] at hnone
              refine ⟨obj, hkey.1, hkey.2, ?_, Or.inr (Or.inl ⟨hnone, ?_⟩)⟩
              · rw [← h.2, hc3]; rfl
              · rw [← h.2, hc3]; rfl
        · simp [hkey] at h
      · simp [hnf] at h
    | ok existing =>
      have hfind := getRoleBinding_ok _ _ _ _ _ _ hget
      simp only at h
      by_cases hkey : (f existing).namespace_ = obj.namespace_ ∧ (f existing).name = obj.name
      · simp only [hkey, and_self, if_true] at h
        by_cases hsame : f existing = existing
        · simp only [hsame, if_true, Prod.mk.injEq, Except.ok.injEq] at h
          refine ⟨existing, hkey.1, hkey.2, ?_, Or.inl ⟨?_, ?_⟩⟩
          · rw [← h.2]; rfl
          · rw [← h.2]; rfl
          · rw [hsame]; exact hfind
        · simp only [hsame, if_false] at h
          cases hp : cl.patchRoleBinding (f existing) (c.record (Op.getRoleBinding obj.namespace_ obj.name)) with
          | mk r2 c3 =>
            rw [hp] at h
            cases r2 with
            | error e2 => simp at h
            | ok u =>
              simp only [Prod.mk.injEq, Except.ok.injEq] at h
              obtain ⟨_, hc3⟩ := patchRoleBinding_ok _ _ _ _ _ hp
              refine ⟨existing, hkey.1, hkey.2, ?_, Or.inr (Or.inr ⟨⟨existing, hfind⟩, ?_⟩)⟩
              · rw [← h.2, hc3]; rfl
              · rw [← h.2, hc3]; rfl
      · simp [hkey] at h

theorem CreateOrPatch_effect (cl : Client) (obj : RoleBinding) (f : RoleBinding → RoleBinding)
    (c c2 : Cluster) (res : OperationResult)
    (h : CreateOrPatch cl obj f c = (.ok res, c2)) :
    ∃ base, (f base).namespace_ = obj.namespace_ ∧ (f base).name = obj.name ∧
      c2.cfApps = c.cfApps ∧
      findObject RoleBinding.toObjectMeta obj.namespace_ obj.name c2.roleBindings
        = some (f base) ∧
      (∀ ns name, ¬ (ns = obj.namespace_ ∧ name = obj.name) →
        findObject RoleBinding.toObjectMeta ns name c2.roleBindings
          = findObject RoleBinding.toObjectMeta ns name c.roleBindings) ∧
      (UniqueRoleBindings c → UniqueRoleBindings c2) := by
  obtain ⟨base, hns, hname, happs, hcases⟩ := CreateOrPatch_ok cl obj f c c2 res h
  refine ⟨base, hns, hname, happs, ?_⟩
  have hself : (f base).toObjectMeta.hasKey obj.namespace_ obj.name = true := by
    rw [hasKey_iff]; exact ⟨hns, hname⟩
  have hother : ∀ ns name, ¬ (ns = obj.namespace_ ∧ name = obj.name) →
      (f base).toObjectMeta.hasKey ns name = false := by
    intro ns name hne
    cases hk : (f base).toObjectMeta.hasKey ns name with
    | false => rfl
    | true =>
      rw [hasKey_iff] at hk
      exact absurd ⟨hk.1.symm.trans hns, hk.2.symm.trans hname⟩ hne
  rcases hcases with ⟨hsame, hfind⟩ | ⟨hnone, happ⟩ | ⟨⟨o, hfind⟩, hrep⟩
  · rw [hsame]
    refine ⟨hfind, fun _ _ _ => rfl, ?_⟩
    intro hu
    unfold UniqueRoleBindings at *
    rw [hsame]
    exact hu
  · rw [happ]
    refine ⟨?_, ?_, ?_⟩
    · rw [findObject_append_single, hnone]
      simp [hself]
    · intro ns name hne
      rw [findObject_append_single]
      cases hf : findObject RoleBinding.toObjectMeta ns name c.roleBindings with
      | some o => rfl
      | none => simp [hother ns name hne]
    · intro hu
      unfold UniqueRoleBindings at *
      rw [happ]
      apply nodup_keys_append_single RoleBinding.toObjectMeta _ _ hu
      rw [hns, hname]
      exact hnone
  · rw [hrep]
    refine ⟨?_, ?_, ?_⟩
    · have := findObject_replaceObject_same RoleBinding.toObjectMeta (f base) c.roleBindings o
      rw [hns, hname] at this
      exact this hfind
    · intro ns name hne
      exact findObject_replaceObject_other RoleBinding.toObjectMeta (f base) ns name _
        (hother ns name hne)
    · intro hu
      unfold UniqueRoleBindings at *
      rw [hrep, keys_replaceObject RoleBinding.toObjectMeta]
      exact hu

/-- The writes of a `CreateOrPatch`, successful or not, carry the key of `obj`. -/
theorem CreateOrPatch_log (cl : Client) (obj : RoleBinding) (f : RoleBinding → RoleBinding)
    (c : Cluster) :
    ∃ ops, (CreateOrPatch cl obj f c).2.log = c.log ++ ops ∧
      ∀ op ∈ ops, ∀ o, (op = Op.createRoleBinding o ∨ op = Op.patchRoleBinding o) →
        o.namespace_ = obj.namespace_ ∧ o.name = obj.name := by
  unfold CreateOrPatch
  have hstate := getRoleBinding_state cl obj.namespace_ obj.name c
  cases hget : cl.getRoleBinding obj.namespace_ obj.name c with
  | mk r c1 =>
    rw [hget] at hstate
    simp only at hstate
    subst hstate
    have hget_only : ∀ op ∈ [Op.getRoleBinding obj.namespace_ obj.name], ∀ o,
        (op = Op.createRoleBinding o ∨ op = Op.patchRoleBinding o) →
        o.namespace_ = obj.namespace_ ∧ o.name = obj.name := by
      intro op hop o ho
      simp only [List.mem_singleton] at hop
      subst hop
      rcases ho with ho | ho <;> cases ho
    cases r with
    | error err =>
      simp only
      by_cases hnf : err.isNotFound = true
      · simp only [hnf, if_true]
        by_cases hkey : (f obj).namespace_ = obj.namespace_ ∧ (f obj).name = obj.name
        · simp only [hkey, and_self, if_true]
          have hlog := createRoleBinding_log cl (f obj)
            (c.record (Op.getRoleBinding obj.namespace_ obj.name))
          cases hcr : cl.createRoleBinding (f obj)
              (c.record (Op.getRoleBinding obj.namespace_ obj.name)) with
          | mk r2 c3 =>
            rw [hcr] at hlog
            simp only at hlog
            refine ⟨[Op.getRoleBinding obj.namespace_ obj.name, Op.createRoleBinding (f obj)],
              ?_, ?_⟩
            · cases r2 <;> simp [hlog, Cluster.record]
            · intro op hop o ho
              simp only [List.mem_cons, List.mem_singleton, List.not_mem_nil, or_false] at hop
              rcases hop with hop | hop
              · subst hop; rcases ho with ho | ho <;> cases ho
              · subst hop
                rcases ho with ho | ho
                · cases ho; exact hkey
                · cases ho
        · simp only [hkey, if_false]
          exact ⟨_, rfl, hget_only⟩
      · simp only [hnf, if_false]
        exact ⟨_, rfl, hget_only⟩
    | ok existing =>
      simp only
      by_cases hkey : (f existing).namespace_ = obj.namespace_ ∧ (f existing).name = obj.name
      · simp only [hkey, and_self, if_true]
        by_cases hsame : f existing = existing
        · simp only [hsame, if_true]
          exact ⟨_, rfl, hget_only⟩
        · simp only [hsame, if_false]
          have hlog := patchRoleBinding_log cl (f existing)
            (c.record (Op.getRoleBinding obj.namespace_ obj.name))
          cases hp : cl.patchRoleBinding (f existing)
              (c.record (Op.getRoleBinding obj.namespace_ obj.name)) with
          | mk r2 c3 =>
            rw [hp] at hlog
            simp only at hlog
            refine ⟨[Op.getRoleBinding obj.namespace_ obj.name,
              Op.patchRoleBinding (f existing)], ?_, ?_⟩
            · cases r2 <;> simp [hlog, Cluster.record]
            · intro op hop o ho
              simp only [List.mem_cons, List.mem_singleton, List.not_mem_nil, or_false] at hop
              rcases hop with hop | hop
              · subst hop; rcases ho with ho | ho <;> cases ho
              · subst hop
                rcases ho with ho | ho
                · cases ho
                · cases ho; exact hkey
      · simp only [hkey, if_false]
        exact ⟨_, rfl, hget_only⟩

/-! ## The propagation loop of `reconcileRoleBindings` -/

theorem propagateRoleBindingMutate_fields (isPkg : String → Bool) (orgOrSpace : ObjectMeta)
    (binding newRoleBinding : RoleBinding) :
    (propagateRoleBindingMutate isPkg orgOrSpace binding newRoleBinding).name
        = newRoleBinding.name ∧
    (propagateRoleBindingMutate isPkg orgOrSpace binding newRoleBinding).namespace_
        = newRoleBinding.namespace_ ∧
    (propagateRoleBindingMutate isPkg orgOrSpace binding newRoleBinding).subjects
        = binding.subjects ∧
    (propagateRoleBindingMutate isPkg orgOrSpace binding newRoleBinding).roleRef
        = binding.roleRef ∧
    (propagateRoleBindingMutate isPkg orgOrSpace binding newRoleBinding).labels.lookup
        PropagatedFromLabel = some orgOrSpace.namespace_ := by
  simp [propagateRoleBindingMutate, GoMap.lookup, Entries.get_set_same]

theorem propagatedNames_cons (b : RoleBinding) (rest : List RoleBinding) :
    propagatedNames (b :: rest) =
      if b.annotations.index PropagateRoleBindingAnnotationKey = "true"
      then b.name :: propagatedNames rest else propagatedNames rest := by
  unfold propagatedNames
  by_cases h : b.annotations.index PropagateRoleBindingAnnotationKey = "true"
  · simp [List.filter_cons, h]
  · simp [List.filter_cons, h]

theorem mem_propagatedNames (bs : List RoleBinding) (name : String) :
    name ∈ propagatedNames bs ↔
      ∃ b ∈ bs, b.annotations.index PropagateRoleBindingAnnotationKey = "true" ∧
        b.name = name := by
  unfold propagatedNames
  simp only [List.mem_map, List.mem_filter, decide_eq_true_eq]
  constructor
  · rintro ⟨b, ⟨hb, he⟩, hn⟩; exact ⟨b, hb, he, hn⟩
  · rintro ⟨b, hb, he, hn⟩; exact ⟨b, ⟨hb, he⟩, hn⟩

/-- What a successful run of the propagation loop has done. -/
theorem propagateRoleBindingsLoop_ok (isPkg : String → Bool) (cl : Client)
    (orgOrSpace : ObjectMeta) (bs : List RoleBinding) :
    ∀ (m : List String) (c : Cluster) (m2 : List String) (c2 : Cluster),
      propagateRoleBindingsLoop isPkg cl orgOrSpace bs m c = (.ok m2, c2) →
      m2 = m ++ propagatedNames bs ∧
      c2.cfApps = c.cfApps ∧
      (UniqueRoleBindings c → UniqueRoleBindings c2) ∧
      (∀ ns name, ¬ (ns = orgOrSpace.name ∧ name ∈ propagatedNames bs) →
        findObject RoleBinding.toObjectMeta ns name c2.roleBindings
          = findObject RoleBinding.toObjectMeta ns name c.roleBindings) ∧
      ((propagatedNames bs).Nodup →
        ∀ b ∈ bs, b.annotations.index PropagateRoleBindingAnnotationKey = "true" →
          ∃ base,
            findObject RoleBinding.toObjectMeta orgOrSpace.name b.name c2.roleBindings
              = some (propagateRoleBindingMutate isPkg orgOrSpace b base)) := by
  induction bs with
  | nil =>
    intro m c m2 c2 h
    simp only [propagateRoleBindingsLoop, Prod.mk.injEq, Except.ok.injEq] at h
    obtain ⟨h1, h2⟩ := h
    subst h1 h2
    refine ⟨by simp [propagatedNames], rfl, fun hu => hu, fun _ _ _ => rfl, ?_⟩
    intro _ b hb
    simp at hb
  | cons b rest ih =>
    intro m c m2 c2 h
    rw [propagatedNames_cons]
    unfold propagateRoleBindingsLoop at h
    by_cases he : b.annotations.index PropagateRoleBindingAnnotationKey = "true"
    · simp only [he, if_true] at h ⊢
      cases hcp : CreateOrPatch cl { name := b.name, namespace_ := orgOrSpace.name }
          (propagateRoleBindingMutate isPkg orgOrSpace b) c with
      | mk r c1 =>
        rw [hcp] at h
        cases r with
        | error err => simp at h
        | ok res =>
          simp only at h
          obtain ⟨hm, happs, huniq, hframe, hfound⟩ := ih _ _ _ _ h
          obtain ⟨base, _, _, happs1, hfind1, hframe1, huniq1⟩ :=
            CreateOrPatch_effect _ _ _ _ _ _ hcp
          simp only at hfind1 hframe1
          refine ⟨?_, ?_, ?_, ?_, ?_⟩
          · rw [hm]; simp
          · rw [happs, happs1]
          · exact fun hu => huniq (huniq1 hu)
          · intro ns name hne
            have hne1 : ¬ (ns = orgOrSpace.name ∧ name ∈ propagatedNames rest) := by
              intro hh
              exact hne ⟨hh.1, List.mem_cons_of_mem _ hh.2⟩
            have hne2 : ¬ (ns = orgOrSpace.name ∧ name = b.name) := by
              intro hh
              exact hne ⟨hh.1, by rw [hh.2]; exact List.mem_cons_self _ _⟩
            rw [hframe ns name hne1, hframe1 ns name hne2]
          · intro hnodup b2 hb2 he2
            rw [List.nodup_cons] at hnodup
            rcases List.mem_cons.1 hb2 with hb2 | hb2
            · subst hb2
              refine ⟨base, ?_⟩
              rw [hframe orgOrSpace.name b2.name (fun hh => hnodup.1 hh.2)]
              exact hfind1
            · exact hfound hnodup.2 b2 hb2 he2
    · simp only [he, if_false] at h ⊢
      obtain ⟨hm, happs, huniq, hframe, hfound⟩ := ih _ _ _ _ h
      refine ⟨hm, happs, huniq, hframe, ?_⟩
      intro hnodup b2 hb2 he2
      rcases List.mem_cons.1 hb2 with hb2 | hb2
      · subst hb2
        exact absurd he2 he
      · exact hfound hnodup b2 hb2 he2

/-- The writes of the propagation loop, successful or not, go to the child namespace and carry
the name of a binding with the propagate annotation "true". -/
theorem propagateRoleBindingsLoop_log (isPkg : String → Bool) (cl : Client)
    (orgOrSpace : ObjectMeta) (bs : List RoleBinding) :
    ∀ (m : List String) (c : Cluster),
      ∃ ops, (propagateRoleBindingsLoop isPkg cl orgOrSpace bs m c).2.log = c.log ++ ops ∧
        ∀ op ∈ ops, ∀ o, (op = Op.createRoleBinding o ∨ op = Op.patchRoleBinding o) →
          o.namespace_ = orgOrSpace.name ∧ o.name ∈ propagatedNames bs := by
  induction bs with
  | nil =>
    intro m c
    exact ⟨[], by simp [propagateRoleBindingsLoop], by simp⟩
  | cons b rest ih =>
    intro m c
    rw [propagatedNames_cons]
    unfold propagateRoleBindingsLoop
    by_cases he : b.annotations.index PropagateRoleBindingAnnotationKey = "true"
    · simp only [he, if_true]
      obtain ⟨ops1, hlog1, hops1⟩ := CreateOrPatch_log cl
        { name := b.name, namespace_ := orgOrSpace.name }
        (propagateRoleBindingMutate isPkg orgOrSpace b) c
      cases hcp : CreateOrPatch cl { name := b.name, namespace_ := orgOrSpace.name }
          (propagateRoleBindingMutate isPkg orgOrSpace b) c with
      | mk r c1 =>
        rw [hcp] at hlog1
        simp only at hlog1
        have hops1' : ∀ op ∈ ops1,
            ∀ o, (op = Op.createRoleBinding o ∨ op = Op.patchRoleBinding o) →
              o.namespace_ = orgOrSpace.name ∧ o.name ∈ b.name :: propagatedNames rest := by
          intro op hop o ho
          have := hops1 op hop o ho
          exact ⟨this.1, by rw [this.2]; exact List.mem_cons_self _ _⟩
        cases r with
        | error err =>
          exact ⟨ops1, hlog1, hops1'⟩
        | ok res =>
          simp only
          obtain ⟨ops2, hlog2, hops2⟩ := ih (m ++ [b.name]) c1
          refine ⟨ops1 ++ ops2, ?_, ?_⟩
          · rw [hlog2, hlog1, List.append_assoc]
          · intro op hop
            rcases List.mem_append.1 hop with hop | hop
            · exact hops1' op hop
            · intro o ho
              have := hops2 op hop o ho
              exact ⟨this.1, List.mem_cons_of_mem _ this.2⟩
    · simp only [he, if_false]
      exact ih m c

/-! ## The cleanup loop of `reconcileRoleBindings` -/

/-- What a successful run of the cleanup loop has done. -/
theorem deleteOrphanedRoleBindingsLoop_ok (cl : Client) (ps : List RoleBinding) :
    ∀ (m : List String) (c c2 : Cluster),
      deleteOrphanedRoleBindingsLoop cl ps m c = (.ok (), c2) →
      c2.cfApps = c.cfApps ∧
      (∀ ns name, findObject RoleBinding.toObjectMeta ns name c.roleBindings = none →
        findObject RoleBinding.toObjectMeta ns name c2.roleBindings = none) ∧
      (∀ ns name,
        (∀ p ∈ ps, p.annotations.index PropagateDeletionAnnotationKey ≠ "false" → p.name ∉ m →
          ¬ (p.namespace_ = ns ∧ p.name = name)) →
        findObject RoleBinding.toObjectMeta ns name c2.roleBindings
          = findObject RoleBinding.toObjectMeta ns name c.roleBindings) ∧
      (∀ p ∈ ps, p.annotations.index PropagateDeletionAnnotationKey ≠ "false" → p.name ∉ m →
        findObject RoleBinding.toObjectMeta p.namespace_ p.name c2.roleBindings = none) := by
  induction ps with
  | nil =>
    intro m c c2 h
    simp only [deleteOrphanedRoleBindingsLoop, Prod.mk.injEq, true_and] at h
    subst h
    exact ⟨rfl, fun _ _ h => h, fun _ _ _ => rfl, by simp⟩
  | cons p rest ih =>
    intro m c c2 h
    unfold deleteOrphanedRoleBindingsLoop at h
    by_cases hkeep : p.annotations.index PropagateDeletionAnnotationKey = "false"
    · simp only [hkeep, if_true] at h
      obtain ⟨happs, hnone, hframe, hgone⟩ := ih _ _ _ h
      refine ⟨happs, hnone, ?_, ?_⟩
      · intro ns name hno
        exact hframe ns name (fun q hq => hno q (List.mem_cons_of_mem _ hq))
      · intro q hq hq1 hq2
        rcases List.mem_cons.1 hq with hq | hq
        · subst hq; exact absurd hkeep hq1
        · exact hgone q hq hq1 hq2
    · simp only [hkeep, if_false] at h
      by_cases hin : p.name ∈ m
      · simp only [hin, not_true_eq_false, if_false] at h
        obtain ⟨happs, hnone, hframe, hgone⟩ := ih _ _ _ h
        refine ⟨happs, hnone, ?_, ?_⟩
        · intro ns name hno
          exact hframe ns name (fun q hq => hno q (List.mem_cons_of_mem _ hq))
        · intro q hq hq1 hq2
          rcases List.mem_cons.1 hq with hq | hq
          · subst hq; exact absurd hin hq2
          · exact hgone q hq hq1 hq2
      · simp only [hin, not_false_eq_true, if_true] at h
        cases hdel : cl.deleteRoleBinding p c with
        | mk r c1 =>
          rw [hdel] at h
          cases r with
          | error err => simp at h
          | ok u =>
            simp only at h
            obtain ⟨happs, hnone, hframe, hgone⟩ := ih _ _ _ h
            have hc1 := deleteRoleBinding_ok _ _ _ _ _ hdel
            have hrbs : c1.roleBindings = removeObject RoleBinding.toObjectMeta p.namespace_
                p.name c.roleBindings := by rw [hc1]
            have happs1 : c1.cfApps = c.cfApps := by rw [hc1]; rfl
            refine ⟨by rw [happs, happs1], ?_, ?_, ?_⟩
            · intro ns name hn
              apply hnone
              rw [hrbs]
              exact findObject_removeObject_none _ _ _ _ _ _ hn
            · intro ns name hno
              rw [hframe ns name (fun q hq => hno q (List.mem_cons_of_mem _ hq)), hrbs]
              apply findObject_removeObject_other
              intro hh
              exact hno p (List.mem_cons_self _ _) hkeep hin ⟨hh.1.symm, hh.2.symm⟩
            · intro q hq hq1 hq2
              rcases List.mem_cons.1 hq with hq | hq
              · subst hq
                apply hnone
                rw [hrbs]
                exact findObject_removeObject_same _ _ _ _
              · exact hgone q hq hq1 hq2

/-- The cleanup loop, successful or not, only sends deletions. -/
theorem deleteOrphanedRoleBindingsLoop_log (cl : Client) (ps : List RoleBinding) :
    ∀ (m : List String) (c : Cluster),
      ∃ ops, (deleteOrphanedRoleBindingsLoop cl ps m c).2.log = c.log ++ ops ∧
        ∀ op ∈ ops, ∃ ns name, op = Op.deleteRoleBinding ns name := by
  induction ps with
  | nil =>
    intro m c
    exact ⟨[], by simp [deleteOrphanedRoleBindingsLoop], by simp⟩
  | cons p rest ih =>
    intro m c
    unfold deleteOrphanedRoleBindingsLoop
    by_cases hkeep : p.annotations.index PropagateDeletionAnnotationKey = "false"
    · simp only [hkeep, if_true]
      exact ih m c
    · simp only [hkeep, if_false]
      by_cases hin : p.name ∈ m
      · simp only [hin, not_true_eq_false, if_false]
        exact ih m c
      · simp only [hin, not_false_eq_true, if_true]
        have hlog := deleteRoleBinding_log cl p c
        cases hdel : cl.deleteRoleBinding p c with
        | mk r c1 =>
          rw [hdel] at hlog
          simp only at hlog
          cases r with
          | error err =>
            refine ⟨[Op.deleteRoleBinding p.namespace_ p.name], hlog, ?_⟩
            intro op hop
            simp only [List.mem_singleton] at hop
            exact ⟨_, _, hop⟩
          | ok u =>
            simp only
            obtain ⟨ops2, hlog2, hops2⟩ := ih m c1
            refine ⟨Op.deleteRoleBinding p.namespace_ p.name :: ops2, ?_, ?_⟩
            · rw [hlog2, hlog]; simp
            · intro op hop
              rcases List.mem_cons.1 hop with hop | hop
              · exact ⟨_, _, hop⟩
              · exact hops2 op hop

/-! ## The two halves of `reconcileRoleBindings` -/

theorem nodup_names_of_namespace (N : String) (q : RoleBinding → Bool)
    (hq : ∀ rb, q rb = true → rb.namespace_ = N) (l : List RoleBinding)
    (hnodup : (l.map (fun rb => (rb.namespace_, rb.name))).Nodup) :
    ((l.filter q).map (fun rb => rb.name)).Nodup := by
  induction l with
  | nil => simp
  | cons x rest ih =>
    simp only [List.map_cons, List.nodup_cons, List.mem_map, not_exists, not_and] at hnodup
    rw [List.filter_cons]
    by_cases hx : q x = true
    · simp only [hx, if_true, List.map_cons, List.nodup_cons, List.mem_map, List.mem_filter,
        not_exists, not_and, and_imp]
      refine ⟨?_, ih hnodup.2⟩
      intro y hy hqy hname
      apply hnodup.1 y hy
      rw [hq y hqy, hq x hx, hname]
    · simp only [hx, Bool.false_eq_true, if_false]
      exact ih hnodup.2

theorem nodup_propagatedNames (N : String) (q : RoleBinding → Bool)
    (hq : ∀ rb, q rb = true → rb.namespace_ = N) (l : List RoleBinding)
    (hnodup : (l.map (fun rb => (rb.namespace_, rb.name))).Nodup) :
    (propagatedNames (l.filter q)).Nodup := by
  unfold propagatedNames
  exact List.Nodup.sublist (List.Sublist.map _ (List.filter_sublist _))
    (nodup_names_of_namespace N q hq l hnodup)

/-- What a successful first half of `reconcileRoleBindings` has done. -/
theorem propagateRoleBindings_ok (isPkg : String → Bool) (cl : Client) (orgOrSpace : ObjectMeta)
    (c c2 : Cluster) (m : List String)
    (h : propagateRoleBindings isPkg cl orgOrSpace c = (.ok m, c2)) :
    c2.cfApps = c.cfApps ∧
    (UniqueRoleBindings c → UniqueRoleBindings c2) ∧
    (∀ name, name ∈ m ↔ ∃ b ∈ c.roleBindings, IsEligible orgOrSpace b ∧ b.name = name) ∧
    (∀ ns name, ¬ (ns = orgOrSpace.name ∧ name ∈ m) →
      findObject RoleBinding.toObjectMeta ns name c2.roleBindings
        = findObject RoleBinding.toObjectMeta ns name c.roleBindings) ∧
    (UniqueRoleBindings c → ∀ b ∈ c.roleBindings, IsEligible orgOrSpace b →
      ∃ base, findObject RoleBinding.toObjectMeta orgOrSpace.name b.name c2.roleBindings
        = some (propagateRoleBindingMutate isPkg orgOrSpace b base)) := by
  unfold propagateRoleBindings at h
  have hstate := listRoleBindings_state cl orgOrSpace.namespace_ none c
  cases hlist : cl.listRoleBindings orgOrSpace.namespace_ none c with
  | mk r c1 =>
    rw [hlist] at h hstate
    simp only at hstate
    subst hstate
    cases r with
    | error err => simp at h
    | ok items =>
      simp only at h
      have hitems := listRoleBindings_ok _ _ _ _ _ _ hlist
      obtain ⟨hm, happs, huniq, hframe, hfound⟩ :=
        propagateRoleBindingsLoop_ok isPkg cl orgOrSpace items _ _ _ _ h
      simp only [List.nil_append] at hm
      have hmem : ∀ name, name ∈ m ↔
          ∃ b ∈ c.roleBindings, IsEligible orgOrSpace b ∧ b.name = name := by
        intro name
        rw [hm, mem_propagatedNames, hitems]
        simp only [List.mem_filter, matchesSelector, Bool.and_true, decide_eq_true_eq,
          IsEligible]
        constructor
        · rintro ⟨b, ⟨hb, hns⟩, he, hn⟩; exact ⟨b, hb, ⟨hns, he⟩, hn⟩
        · rintro ⟨b, hb, ⟨hns, he⟩, hn⟩; exact ⟨b, ⟨hb, hns⟩, he, hn⟩
      refine ⟨happs, huniq, hmem, ?_, ?_⟩
      · intro ns name hne
        rw [hm] at hne
        exact hframe ns name hne
      · intro hu b hb he
        have hnodup : (propagatedNames items).Nodup := by
          rw [hitems]
          apply nodup_propagatedNames orgOrSpace.namespace_ _ _ _ hu
          intro rb hrb
          simp only [matchesSelector, Bool.and_true, decide_eq_true_eq] at hrb
          exact hrb
        apply hfound hnodup b _ he.2
        rw [hitems]
        simp only [List.mem_filter, matchesSelector, Bool.and_true, decide_eq_true_eq]
        exact ⟨hb, he.1⟩

/-- What a successful second half of `reconcileRoleBindings` has done. -/
theorem deleteOrphanedRoleBindings_ok (cl : Client) (orgOrSpace : ObjectMeta)
    (m : List String) (c c2 : Cluster)
    (h : deleteOrphanedRoleBindings cl orgOrSpace m c = (.ok (), c2)) :
    c2.cfApps = c.cfApps ∧
    (∀ ns name,
      (∀ p ∈ c.roleBindings, p.namespace_ = orgOrSpace.name →
        p.labels.lookup PropagatedFromLabel = some orgOrSpace.namespace_ →
        p.annotations.index PropagateDeletionAnnotationKey ≠ "false" → p.name ∉ m →
        ¬ (p.namespace_ = ns ∧ p.name = name)) →
      findObject RoleBinding.toObjectMeta ns name c2.roleBindings
        = findObject RoleBinding.toObjectMeta ns name c.roleBindings) ∧
    (∀ p ∈ c.roleBindings, p.namespace_ = orgOrSpace.name →
      p.labels.lookup PropagatedFromLabel = some orgOrSpace.namespace_ →
      p.annotations.index PropagateDeletionAnnotationKey ≠ "false" → p.name ∉ m →
      findObject RoleBinding.toObjectMeta p.namespace_ p.name c2.roleBindings = none) := by
  unfold deleteOrphanedRoleBindings at h
  cases hsel : ValidatedSelectorFromSet PropagatedFromLabel orgOrSpace.namespace_ with
  | error err => simp [hsel] at h
  | ok sel =>
    have hselv : sel = (PropagatedFromLabel, orgOrSpace.namespace_) := by
      unfold ValidatedSelectorFromSet at hsel
      split at hsel
      · simp only [Except.ok.injEq] at hsel; exact hsel.symm
      · cases hsel
    subst hselv
    simp only [hsel] at h
    have hstate := listRoleBindings_state cl orgOrSpace.name
      (some (PropagatedFromLabel, orgOrSpace.namespace_)) c
    cases hlist : cl.listRoleBindings orgOrSpace.name
        (some (PropagatedFromLabel, orgOrSpace.namespace_)) c with
    | mk r c1 =>
      rw [hlist] at h hstate
      simp only at hstate
      subst hstate
      cases r with
      | error err => simp at h
      | ok items =>
        simp only at h
        have hitems := listRoleBindings_ok _ _ _ _ _ _ hlist
        have hmemi : ∀ p, p ∈ items ↔ p ∈ c.roleBindings ∧ p.namespace_ = orgOrSpace.name ∧
            p.labels.lookup PropagatedFromLabel = some orgOrSpace.namespace_ := by
          intro p
          rw [hitems]
          simp [List.mem_filter, matchesSelector]
        obtain ⟨happs, _, hframe, hgone⟩ :=
          deleteOrphanedRoleBindingsLoop_ok cl items m _ _ h
        refine ⟨happs, ?_, ?_⟩
        · intro ns name hno
          apply hframe ns name
          intro p hp h1 h2
          obtain ⟨hp1, hp2, hp3⟩ := (hmemi p).1 hp
          exact hno p hp1 hp2 hp3 h1 h2
        · intro p hp hp2 hp3 h1 h2
          exact hgone p ((hmemi p).2 ⟨hp, hp2, hp3⟩) h1 h2

theorem reconcileRoleBindings_ok (isPkg : String → Bool) (cl : Client) (orgOrSpace : ObjectMeta)
    (c c3 : Cluster) (h : reconcileRoleBindings isPkg cl orgOrSpace c = (.ok (), c3)) :
    ∃ m c2, propagateRoleBindings isPkg cl orgOrSpace c = (.ok m, c2) ∧
      deleteOrphanedRoleBindings cl orgOrSpace m c2 = (.ok (), c3) := by
  unfold reconcileRoleBindings at h
  cases hp : propagateRoleBindings isPkg cl orgOrSpace c with
  | mk r c2 =>
    rw [hp] at h
    cases r with
    | error err => simp at h
    | ok m =>
      simp only at h
      exact ⟨m, c2, rfl, h⟩

/-- After a successful `reconcileRoleBindings`, the child namespace holds under the name of each
propagate-eligible parent binding the result of the mutate closure for that binding. -/
theorem reconcileRoleBindings_propagated (isPkg : String → Bool) (cl : Client)
    (orgOrSpace : ObjectMeta) (c c3 : Cluster) (hu : UniqueRoleBindings c)
    (h : reconcileRoleBindings isPkg cl orgOrSpace c = (.ok (), c3))
    (b : RoleBinding) (hb : b ∈ c.roleBindings) (he : IsEligible orgOrSpace b) :
    ∃ base, findObject RoleBinding.toObjectMeta orgOrSpace.name b.name c3.roleBindings
      = some (propagateRoleBindingMutate isPkg orgOrSpace b base) := by
  obtain ⟨m, c2, hp, hd⟩ := reconcileRoleBindings_ok isPkg cl orgOrSpace c c3 h
  obtain ⟨_, _, hmem, _, hfound⟩ := propagateRoleBindings_ok isPkg cl orgOrSpace c c2 m hp
  obtain ⟨_, hframe, _⟩ := deleteOrphanedRoleBindings_ok cl orgOrSpace m c2 c3 hd
  obtain ⟨base, hbase⟩ := hfound hu b hb he
  refine ⟨base, ?_⟩
  rw [hframe orgOrSpace.name b.name, hbase]
  intro p _ _ _ _ hnotin hkey
  apply hnotin
  rw [hmem]
  exact ⟨b, hb, he, hkey.2.symm⟩

/-! ## The writes of `reconcileRoleBindings` -/

theorem propagateRoleBindings_log (isPkg : String → Bool) (cl : Client) (orgOrSpace : ObjectMeta)
    (c : Cluster) :
    ∃ ops, (propagateRoleBindings isPkg cl orgOrSpace c).2.log = c.log ++ ops ∧
      ∀ op ∈ ops, ∀ o, (op = Op.createRoleBinding o ∨ op = Op.patchRoleBinding o) →
        o.namespace_ = orgOrSpace.name ∧
          ∃ b ∈ c.roleBindings, IsEligible orgOrSpace b ∧ b.name = o.name := by
  unfold propagateRoleBindings
  have hstate := listRoleBindings_state cl orgOrSpace.namespace_ none c
  cases hlist : cl.listRoleBindings orgOrSpace.namespace_ none c with
  | mk r c1 =>
    rw [hlist] at hstate
    simp only at hstate
    subst hstate
    cases r with
    | error err =>
      refine ⟨[Op.listRoleBindings orgOrSpace.namespace_ none], rfl, ?_⟩
      intro op hop o ho
      simp only [List.mem_singleton] at hop
      subst hop
      rcases ho with ho | ho <;> cases ho
    | ok items =>
      simp only
      have hitems := listRoleBindings_ok _ _ _ _ _ _ hlist
      obtain ⟨ops, hlog, hops⟩ := propagateRoleBindingsLoop_log isPkg cl orgOrSpace items []
        (c.record (Op.listRoleBindings orgOrSpace.namespace_ none))
      refine ⟨Op.listRoleBindings orgOrSpace.namespace_ none :: ops, ?_, ?_⟩
      · rw [hlog]; simp [Cluster.record]
      · intro op hop o ho
        rcases List.mem_cons.1 hop with hop | hop
        · subst hop
          rcases ho with ho | ho <;> cases ho
        · obtain ⟨h1, h2⟩ := hops op hop o ho
          refine ⟨h1, ?_⟩
          rw [mem_propagatedNames, hitems] at h2
          obtain ⟨b, hb, he, hn⟩ := h2
          simp only [List.mem_filter, matchesSelector, Bool.and_true, decide_eq_true_eq] at hb
          exact ⟨b, hb.1, ⟨hb.2, he⟩, hn⟩

theorem deleteOrphanedRoleBindings_log (cl : Client) (orgOrSpace : ObjectMeta)
    (m : List String) (c : Cluster) :
    ∃ ops, (deleteOrphanedRoleBindings cl orgOrSpace m c).2.log = c.log ++ ops ∧
      ∀ op ∈ ops, ∀ o, ¬ (op = Op.createRoleBinding o ∨ op = Op.patchRoleBinding o) := by
  unfold deleteOrphanedRoleBindings
  cases hsel : ValidatedSelectorFromSet PropagatedFromLabel orgOrSpace.namespace_ with
  | error err => exact ⟨[], by simp, by simp⟩
  | ok sel =>
    simp only
    have hstate := listRoleBindings_state cl orgOrSpace.name (some sel) c
    cases hlist : cl.listRoleBindings orgOrSpace.name (some sel) c with
    | mk r c1 =>
      rw [hlist] at hstate
      simp only at hstate
      subst hstate
      cases r with
      | error err =>
        refine ⟨[Op.listRoleBindings orgOrSpace.name (some sel)], rfl, ?_⟩
        intro op hop o ho
        simp only [List.mem_singleton] at hop
        subst hop
        rcases ho with ho | ho <;> cases ho
      | ok items =>
        simp only
        obtain ⟨ops, hlog, hops⟩ := deleteOrphanedRoleBindingsLoop_log cl items m
          (c.record (Op.listRoleBindings orgOrSpace.name (some sel)))
        refine ⟨Op.listRoleBindings orgOrSpace.name (some sel) :: ops, ?_, ?_⟩
        · rw [hlog]; simp [Cluster.record]
        · intro op hop o ho
          rcases List.mem_cons.1 hop with hop | hop
          · subst hop
            rcases ho with ho | ho <;> cases ho
          · obtain ⟨ns, name, hdel⟩ := hops op hop
            subst hdel
            rcases ho with ho | ho <;> cases ho

/-- Every create and every patch `reconcileRoleBindings` sends, whether it succeeds or not, goes
to the child namespace and carries the name of a propagate-eligible parent binding. -/
theorem reconcileRoleBindings_log (isPkg : String → Bool) (cl : Client) (orgOrSpace : ObjectMeta)
    (c : Cluster) :
    ∃ ops, (reconcileRoleBindings isPkg cl orgOrSpace c).2.log = c.log ++ ops ∧
      ∀ op ∈ ops, ∀ o, (op = Op.createRoleBinding o ∨ op = Op.patchRoleBinding o) →
        o.namespace_ = orgOrSpace.name ∧
          ∃ b ∈ c.roleBindings, IsEligible orgOrSpace b ∧ b.name = o.name := by
  unfold reconcileRoleBindings
  obtain ⟨ops1, hlog1, hops1⟩ := propagateRoleBindings_log isPkg cl orgOrSpace c
  cases hp : propagateRoleBindings isPkg cl orgOrSpace c with
  | mk r c2 =>
    rw [hp] at hlog1
    simp only at hlog1
    cases r with
    | error err => exact ⟨ops1, hlog1, hops1⟩
    | ok m =>
      simp only
      obtain ⟨ops2, hlog2, hops2⟩ := deleteOrphanedRoleBindings_log cl orgOrSpace m c2
      refine ⟨ops1 ++ ops2, ?_, ?_⟩
      · rw [hlog2, hlog1, List.append_assoc]
      · intro op hop o ho
        rcases List.mem_append.1 hop with hop | hop
        · exact hops1 op hop o ho
        · exact absurd ho (hops2 op hop o)

theorem eq_of_mem_of_same_key (c : Cluster) (hu : UniqueRoleBindings c) (a b : RoleBinding)
    (ha : a ∈ c.roleBindings) (hb : b ∈ c.roleBindings)
    (hns : a.namespace_ = b.namespace_) (hname : a.name = b.name) : a = b := by
  have h1 := findObject_of_mem_nodup RoleBinding.toObjectMeta c.roleBindings a hu ha
  have h2 := findObject_of_mem_nodup RoleBinding.toObjectMeta c.roleBindings b hu hb
  rw [hns, hname, h2] at h1
  exact (Option.some.inj h1).symm

/-! ## Claims on `reconcileRoleBindings` -/

/-- Claim C8. Let the store hold at most one role binding per namespace and name. After a
successful `reconcileRoleBindings`, take any role binding that was in the child namespace with
the label `propagated-from` set to the parent namespace when the first half (the propagation)
had finished, that is before cleanup. If its name is not the name of a propagate-eligible parent
role binding and its deletion annotation is not "false", it has been deleted; otherwise it is
still present, unchanged. -/
theorem C8_orphan_cleanup (isPkg : String → Bool) (cl : Client) (orgOrSpace : ObjectMeta)
    (c c3 : Cluster) (hu : UniqueRoleBindings c)
    (h : reconcileRoleBindings isPkg cl orgOrSpace c = (.ok (), c3)) :
    ∃ m c2, propagateRoleBindings isPkg cl orgOrSpace c = (.ok m, c2) ∧
      ∀ p ∈ c2.roleBindings, p.namespace_ = orgOrSpace.name →
        p.labels.lookup PropagatedFromLabel = some orgOrSpace.namespace_ →
        (((¬ ∃ b ∈ c.roleBindings, IsEligible orgOrSpace b ∧ b.name = p.name) ∧
            p.annotations.index PropagateDeletionAnnotationKey ≠ "false") →
          findObject RoleBinding.toObjectMeta orgOrSpace.name p.name c3.roleBindings = none) ∧
        (¬ ((¬ ∃ b ∈ c.roleBindings, IsEligible orgOrSpace b ∧ b.name = p.name) ∧
            p.annotations.index PropagateDeletionAnnotationKey ≠ "false") →
          findObject RoleBinding.toObjectMeta orgOrSpace.name p.name c3.roleBindings
            = some p) := by
  obtain ⟨m, c2, hp, hd⟩ := reconcileRoleBindings_ok isPkg cl orgOrSpace c c3 h
  obtain ⟨_, huniq, hmem, _, _⟩ := propagateRoleBindings_ok isPkg cl orgOrSpace c c2 m hp
  obtain ⟨_, hframe, hgone⟩ := deleteOrphanedRoleBindings_ok cl orgOrSpace m c2 c3 hd
  have hu2 := huniq hu
  refine ⟨m, c2, hp, ?_⟩
  intro p hp2 hns hlabel
  constructor
  · rintro ⟨hnot, hann⟩
    have := hgone p hp2 hns hlabel hann (fun hin => hnot ((hmem p.name).1 hin))
    rw [hns] at this
    exact this
  · intro hkeep
    have hfind := findObject_of_mem_nodup RoleBinding.toObjectMeta c2.roleBindings p hu2 hp2
    rw [hns] at hfind
    rw [hframe orgOrSpace.name p.name, hfind]
    intro q hq hqns _ hqann hqnot hkey
    have hqp : q = p := eq_of_mem_of_same_key c2 hu2 q p hq hp2 (hqns.trans hns.symm) hkey.2
    subst hqp
    exact hkeep ⟨fun hex => hqnot ((hmem q.name).2 hex), hqann⟩

/-- A run of claim C8 on the sample store: `orphan` is deleted, `kept-orphan` and the propagated
`admin-binding` stay. -/
theorem C8_orphan_cleanup_witness :
    UniqueRoleBindings sampleBindings ∧
    findObject RoleBinding.toObjectMeta "org-1" "orphan"
      (reconcileRoleBindings sampleIsPackageManagerKey reliableClient sampleOrg
        sampleBindings).2.roleBindings = none ∧
    findObject RoleBinding.toObjectMeta "org-1" "kept-orphan"
      (reconcileRoleBindings sampleIsPackageManagerKey reliableClient sampleOrg
        sampleBindings).2.roleBindings = some keptOrphanBinding ∧
    ∃ m c2, propagateRoleBindings sampleIsPackageManagerKey reliableClient sampleOrg
        sampleBindings = (.ok m, c2) ∧
      ∀ p ∈ c2.roleBindings, p.namespace_ = sampleOrg.name →
        p.labels.lookup PropagatedFromLabel = some sampleOrg.namespace_ →
        (((¬ ∃ b ∈ sampleBindings.roleBindings, IsEligible sampleOrg b ∧ b.name = p.name) ∧
            p.annotations.index PropagateDeletionAnnotationKey ≠ "false") →
          findObject RoleBinding.toObjectMeta sampleOrg.name p.name
            (reconcileRoleBindings sampleIsPackageManagerKey reliableClient sampleOrg
              sampleBindings).2.roleBindings = none) ∧
        (¬ ((¬ ∃ b ∈ sampleBindings.roleBindings, IsEligible sampleOrg b ∧ b.name = p.name) ∧
            p.annotations.index PropagateDeletionAnnotationKey ≠ "false") →
          findObject RoleBinding.toObjectMeta sampleOrg.name p.name
            (reconcileRoleBindings sampleIsPackageManagerKey reliableClient sampleOrg
              sampleBindings).2.roleBindings = some p) :=
  ⟨by decide, by decide, by decide,
    C8_orphan_cleanup sampleIsPackageManagerKey reliableClient sampleOrg sampleBindings _
      (by decide) (by decide)⟩

/-- Claim C9. Let the store hold at most one role binding per namespace and name. Whatever the
outcome of `reconcileRoleBindings`, no create and no patch it sends carries the name of a parent
role binding whose propagate annotation is absent or differs from "true": nothing is created or
patched on behalf of such a binding. After a successful run, for every parent role binding
whose annotation is "true" the child namespace holds a role binding of the same name. -/
theorem C9_only_eligible_propagated (isPkg : String → Bool) (cl : Client)
    (orgOrSpace : ObjectMeta) (c : Cluster) (hu : UniqueRoleBindings c) :
    (∃ ops, (reconcileRoleBindings isPkg cl orgOrSpace c).2.log = c.log ++ ops ∧
      ∀ b ∈ c.roleBindings, b.namespace_ = orgOrSpace.namespace_ →
        b.annotations.index PropagateRoleBindingAnnotationKey ≠ "true" →
        ∀ op ∈ ops, ∀ o, (op = Op.createRoleBinding o ∨ op = Op.patchRoleBinding o) →
          o.name ≠ b.name) ∧
    (∀ c3, reconcileRoleBindings isPkg cl orgOrSpace c = (.ok (), c3) →
      ∀ b ∈ c.roleBindings, b.namespace_ = orgOrSpace.namespace_ →
        b.annotations.index PropagateRoleBindingAnnotationKey = "true" →
        ∃ rb, findObject RoleBinding.toObjectMeta orgOrSpace.name b.name c3.roleBindings
            = some rb ∧
          rb.namespace_ = orgOrSpace.name ∧ rb.name = b.name) := by
  constructor
  · obtain ⟨ops, hlog, hops⟩ := reconcileRoleBindings_log isPkg cl orgOrSpace c
    refine ⟨ops, hlog, ?_⟩
    intro b hb hns hnot op hop o ho hname
    obtain ⟨_, b2, hb2, he2, hn2⟩ := hops op hop o ho
    have : b2 = b :=
      eq_of_mem_of_same_key c hu b2 b hb2 hb (he2.1.trans hns.symm) (hn2.trans hname)
    subst this
    exact hnot he2.2
  · intro c3 h b hb hns he
    obtain ⟨base, hfind⟩ :=
      reconcileRoleBindings_propagated isPkg cl orgOrSpace c c3 hu h b hb ⟨hns, he⟩
    have hkey := findObject_hasKey _ _ _ _ _ hfind
    rw [hasKey_iff] at hkey
    exact ⟨_, hfind, hkey.1, hkey.2⟩

/-- A run of claim C9 on the sample store: `admin-binding` is propagated, `local-binding` is
not. -/
theorem C9_only_eligible_propagated_witness :
    UniqueRoleBindings sampleBindings ∧
    findObject RoleBinding.toObjectMeta "org-1" "local-binding"
      (reconcileRoleBindings sampleIsPackageManagerKey reliableClient sampleOrg
        sampleBindings).2.roleBindings = none ∧
    ((∃ ops, (reconcileRoleBindings sampleIsPackageManagerKey reliableClient sampleOrg
          sampleBindings).2.log = sampleBindings.log ++ ops ∧
      ∀ b ∈ sampleBindings.roleBindings, b.namespace_ = sampleOrg.namespace_ →
        b.annotations.index PropagateRoleBindingAnnotationKey ≠ "true" →
        ∀ op ∈ ops, ∀ o, (op = Op.createRoleBinding o ∨ op = Op.patchRoleBinding o) →
          o.name ≠ b.name) ∧
    (∀ c3, reconcileRoleBindings sampleIsPackageManagerKey reliableClient sampleOrg
        sampleBindings = (.ok (), c3) →
      ∀ b ∈ sampleBindings.roleBindings, b.namespace_ = sampleOrg.namespace_ →
        b.annotations.index PropagateRoleBindingAnnotationKey = "true" →
        ∃ rb, findObject RoleBinding.toObjectMeta sampleOrg.name b.name c3.roleBindings
            = some rb ∧
          rb.namespace_ = sampleOrg.name ∧ rb.name = b.name)) :=
  ⟨by decide, by decide,
    C9_only_eligible_propagated sampleIsPackageManagerKey reliableClient sampleOrg
      sampleBindings (by decide)⟩

/-- Claim C10. Let the store hold at most one role binding per namespace and name. After a
successful `reconcileRoleBindings`, for every propagate-eligible parent role binding the child
namespace holds a role binding of the same name whose subjects and role reference are those of
the parent binding and whose label `propagated-from` is the parent namespace, whatever the child
namespace held before the call. -/
theorem C10_propagated_copy_matches_source (isPkg : String → Bool) (cl : Client)
    (orgOrSpace : ObjectMeta) (c c3 : Cluster) (hu : UniqueRoleBindings c)
    (h : reconcileRoleBindings isPkg cl orgOrSpace c = (.ok (), c3)) :
    ∀ b ∈ c.roleBindings, b.namespace_ = orgOrSpace.namespace_ →
      b.annotations.index PropagateRoleBindingAnnotationKey = "true" →
      ∃ rb, findObject RoleBinding.toObjectMeta orgOrSpace.name b.name c3.roleBindings
          = some rb ∧
        rb.namespace_ = orgOrSpace.name ∧ rb.name = b.name ∧
        rb.subjects = b.subjects ∧ rb.roleRef = b.roleRef ∧
        rb.labels.lookup PropagatedFromLabel = some orgOrSpace.namespace_ := by
  intro b hb hns he
  obtain ⟨base, hfind⟩ :=
    reconcileRoleBindings_propagated isPkg cl orgOrSpace c c3 hu h b hb ⟨hns, he⟩
  have hkey := findObject_hasKey _ _ _ _ _ hfind
  rw [hasKey_iff] at hkey
  obtain ⟨_, _, hsub, href, hlabel⟩ := propagateRoleBindingMutate_fields isPkg orgOrSpace b base
  exact ⟨_, hfind, hkey.1, hkey.2, hsub, href, hlabel⟩

/-- A run of claim C10 on the sample store, where the child copy of `admin-binding` had been
edited by hand: its subjects are those of the parent binding again. -/
theorem C10_propagated_copy_matches_source_witness :
    UniqueRoleBindings sampleBindings ∧
    (findObject RoleBinding.toObjectMeta "org-1" "admin-binding"
      (reconcileRoleBindings sampleIsPackageManagerKey reliableClient sampleOrg
        sampleBindings).2.roleBindings).map (fun rb => rb.subjects)
      = some adminBinding.subjects ∧
    ∀ b ∈ sampleBindings.roleBindings, b.namespace_ = sampleOrg.namespace_ →
      b.annotations.index PropagateRoleBindingAnnotationKey = "true" →
      ∃ rb, findObject RoleBinding.toObjectMeta sampleOrg.name b.name
          (reconcileRoleBindings sampleIsPackageManagerKey reliableClient sampleOrg
            sampleBindings).2.roleBindings = some rb ∧
        rb.namespace_ = sampleOrg.name ∧ rb.name = b.name ∧
        rb.subjects = b.subjects ∧ rb.roleRef = b.roleRef ∧
        rb.labels.lookup PropagatedFromLabel = some sampleOrg.namespace_ :=
  ⟨by decide, by decide,
    C10_propagated_copy_matches_source sampleIsPackageManagerKey reliableClient sampleOrg
      sampleBindings _ (by decide) (by decide)⟩

/-! ## `updateMap` and `createOrPatchNamespace` -/

theorem Entries.get_eq_none_of_not_mem (k : String) (entries : Entries)
    (h : k ∉ entries.map Prod.fst) : Entries.get k entries = none := by
  induction entries with
  | nil => rfl
  | cons kv rest ih =>
    obtain ⟨k1, v1⟩ := kv
    simp only [List.map_cons, List.mem_cons, not_or] at h
    have hne : ¬ k1 = k := fun hh => h.1 hh.symm
    simp only [Entries.get, hne, if_false]
    exact ih h.2

theorem Entries.get_foldl_set (entries : Entries) :
    ∀ (dest : Entries) (k : String), (entries.map Prod.fst).Nodup →
      Entries.get k (entries.foldl (fun acc kv => Entries.set kv.1 kv.2 acc) dest) =
        match Entries.get k entries with
        | some v => some v
        | none => Entries.get k dest := by
  induction entries with
  | nil => intro dest k _; rfl
  | cons kv rest ih =>
    obtain ⟨k1, v1⟩ := kv
    intro dest k hnodup
    simp only [List.map_cons, List.nodup_cons] at hnodup
    simp only [List.foldl_cons]
    rw [ih _ k hnodup.2]
    by_cases hk : k1 = k
    · subst hk
      simp [Entries.get, Entries.get_eq_none_of_not_mem _ _ hnodup.1, Entries.get_set_same]
    · have hk2 : k ≠ k1 := fun hh => hk hh.symm
      simp only [Entries.get, hk, if_false, Entries.get_set_other _ _ _ _ hk2]

/-- The map `updateMap` leaves behind reads, under every key, the value of `values` when
`values` has the key, and the value of `dest` otherwise. -/
theorem updateMap_lookup (dest values : GoMap) (hvalues : values.Valid) (k : String) :
    (updateMap dest values).lookup k =
      match values.lookup k with
      | some v => some v
      | none => dest.lookup k := by
  unfold updateMap
  cases values with
  | none =>
    cases dest with
    | none => simp [GoMap.lookup, Entries.get]
    | some d => simp [GoMap.lookup]
  | some entries =>
    simp only [GoMap.Valid] at hvalues
    cases dest with
    | none =>
      simp only [GoMap.lookup]
      rw [Entries.get_foldl_set entries [] k hvalues]
      rfl
    | some d =>
      simp only [GoMap.lookup]
      rw [Entries.get_foldl_set entries d k hvalues]

theorem getNamespace_state (cl : Client) (name : String) (c : Cluster) :
    (cl.getNamespace name c).2 = c.record (Op.getNamespace name) := by
  unfold Client.getNamespace
  cases hf : cl.fault c (Op.getNamespace name) with
  | some e => simp [hf]
  | none =>
    cases hfind : findObject Namespace.toObjectMeta "" name c.namespaces with
    | none => simp [hf, hfind]
    | some a => simp [hf, hfind]

theorem getNamespace_ok (cl : Client) (name : String) (c c1 : Cluster) (ns : Namespace)
    (h : cl.getNamespace name c = (.ok ns, c1)) :
    findObject Namespace.toObjectMeta "" name c.namespaces = some ns := by
  unfold Client.getNamespace at h
  cases hf : cl.fault c (Op.getNamespace name) with
  | some e => simp [hf] at h
  | none =>
    cases hfind : findObject Namespace.toObjectMeta "" name c.namespaces with
    | none => simp [hf, hfind] at h
    | some a =>
      simp only [hf, hfind, Prod.mk.injEq, Except.ok.injEq] at h
      rw [h.1]

theorem createNamespace_ok (cl : Client) (obj : Namespace) (c c1 : Cluster) (u : Unit)
    (h : cl.createNamespace obj c = (.ok u, c1)) :
    findObject Namespace.toObjectMeta obj.namespace_ obj.name c.namespaces = none ∧
      c1 = { c.record (Op.createNamespace obj) with namespaces := c.namespaces ++ [obj] } := by
  unfold Client.createNamespace at h
  cases hf : cl.fault c (Op.createNamespace obj) with
  | some e => simp [hf] at h
  | none =>
    cases hfind : findObject Namespace.toObjectMeta obj.namespace_ obj.name c.namespaces with
    | some a => simp [hf, hfind] at h
    | none =>
      simp only [hf, hfind, Prod.mk.injEq, true_and] at h
      exact ⟨rfl, h.symm⟩

theorem patchNamespace_ok (cl : Client) (obj : Namespace) (c c1 : Cluster) (u : Unit)
    (h : cl.patchNamespace obj c = (.ok u, c1)) :
    (∃ o, findObject Namespace.toObjectMeta obj.namespace_ obj.name c.namespaces = some o) ∧
      c1 = { c.record (Op.patchNamespace obj) with
        namespaces := replaceObject Namespace.toObjectMeta obj c.namespaces } := by
  unfold Client.patchNamespace at h
  cases hf : cl.fault c (Op.patchNamespace obj) with
  | some e => simp [hf] at h
  | none =>
    cases hfind : findObject Namespace.toObjectMeta obj.namespace_ obj.name c.namespaces with
    | none => simp [hf, hfind] at h
    | some a =>
      simp only [hf, hfind, Prod.mk.injEq, true_and] at h
      exact ⟨⟨a, rfl⟩, h.symm⟩

/-- What a successful `CreateOrPatchNamespace` of a cluster-scoped `obj` has done to the store:
the namespace of that name is now `f base`, where `base` is the namespace that was stored, or
`obj` when there was none; nothing else changed. -/
theorem CreateOrPatchNamespace_ok (cl : Client) (obj : Namespace) (f : Namespace → Namespace)
    (c c2 : Cluster) (res : OperationResult) (hobj : obj.namespace_ = "")
    (h : CreateOrPatchNamespace cl obj f c = (.ok res, c2)) :
    ∃ base, (f base).namespace_ = "" ∧ (f base).name = obj.name ∧
      ((base = obj ∧ findObject Namespace.toObjectMeta "" obj.name c.namespaces = none) ∨
        findObject Namespace.toObjectMeta "" obj.name c.namespaces = some base) ∧
      c2.cfApps = c.cfApps ∧ c2.roleBindings = c.roleBindings ∧ c2.secrets = c.secrets ∧
      findObject Namespace.toObjectMeta "" obj.name c2.namespaces = some (f base) ∧
      (∀ name, name ≠ obj.name →
        findObject Namespace.toObjectMeta "" name c2.namespaces
          = findObject Namespace.toObjectMeta "" name c.namespaces) := by
  unfold CreateOrPatchNamespace at h
  have hstate := getNamespace_state cl obj.name c
  cases hget : cl.getNamespace obj.name c with
  | mk r c1 =>
    rw [hget] at hstate h
    simp only at hstate
    subst hstate
    have hself : ∀ base : Namespace, (f base).namespace_ = "" → (f base).name = obj.name →
        (f base).toObjectMeta.hasKey "" obj.name = true := by
      intro base h1 h2
      rw [hasKey_iff]; exact ⟨h1, h2⟩
    have hother : ∀ base : Namespace, (f base).name = obj.name → ∀ name, name ≠ obj.name →
        (f base).toObjectMeta.hasKey "" name = false := by
      intro base h2 name hne
      cases hk : (f base).toObjectMeta.hasKey "" name with
      | false => rfl
      | true =>
        rw [hasKey_iff] at hk
        exact absurd (hk.2.symm.trans h2) hne
    cases r with
    | error err =>
      simp only at h
      by_cases hnf : err.isNotFound = true
      · simp only [hnf, if_true] at h
        by_cases hkey : (f obj).namespace_ = obj.namespace_ ∧ (f obj).name = obj.name
        · simp only [hkey, and_self, if_true] at h
          cases hcr : cl.createNamespace (f obj) (c.record (Op.getNamespace obj.name)) with
          | mk r2 c3 =>
            rw [hcr] at h
            cases r2 with
            | error e2 => simp at h
            | ok u =>
              simp only [Prod.mk.injEq, Except.ok.injEq] at h
              obtain ⟨hnone, hc3⟩ := createNamespace_ok _ _ _ _ _ hcr
              rw [hkey.1, hkey.2, hobj] at hnone
              have hns : (f obj).namespace_ = "" := hkey.1.trans hobj
              have hc2 : c2.namespaces = c.namespaces ++ [f obj] := by rw [← h.2, hc3]; rfl
              refine ⟨obj, hns, hkey.2, Or.inl ⟨rfl, hnone⟩, ?_, ?_, ?_, ?_, ?_⟩
              · rw [← h.2, hc3]; rfl
              · rw [← h.2, hc3]; rfl
              · rw [← h.2, hc3]; rfl
              · rw [hc2, findObject_append_single]
                have hnone' : findObject Namespace.toObjectMeta "" obj.name c.namespaces
                    = none := hnone
                rw [hnone']
                simp [hself obj hns hkey.2]
              · intro name hne
                rw [hc2, findObject_append_single]
                cases hf : findObject Namespace.toObjectMeta "" name c.namespaces with
                | some o => rfl
                | none => simp [hother obj hkey.2 name hne]
        · simp [hkey] at h
      · simp [hnf] at h
    | ok existing =>
      have hfind := getNamespace_ok _ _ _ _ _ hget
      simp only at h
      by_cases hkey : (f existing).namespace_ = obj.namespace_ ∧ (f existing).name = obj.name
      · simp only [hkey, and_self, if_true] at h
        have hns : (f existing).namespace_ = "" := hkey.1.trans hobj
        by_cases hsame : f existing = existing
        · simp only [hsame, if_true, Prod.mk.injEq, Except.ok.injEq] at h
          have hc2 : c2.namespaces = c.namespaces := by rw [← h.2]; rfl
          refine ⟨existing, hns, hkey.2, Or.inr hfind, ?_, ?_, ?_, ?_, ?_⟩
          · rw [← h.2]; rfl
          · rw [← h.2]; rfl
          · rw [← h.2]; rfl
          · rw [hc2, hsame]; exact hfind
          · intro name _; rw [hc2]
        · simp only [hsame, if_false] at h
          cases hp : cl.patchNamespace (f existing) (c.record (Op.getNamespace obj.name)) with
          | mk r2 c3 =>
            rw [hp] at h
            cases r2 with
            | error e2 => simp at h
            | ok u =>
              simp only [Prod.mk.injEq, Except.ok.injEq] at h
              obtain ⟨_, hc3⟩ := patchNamespace_ok _ _ _ _ _ hp
              have hc2 : c2.namespaces
                  = replaceObject Namespace.toObjectMeta (f existing) c.namespaces := by
                rw [← h.2, hc3]; rfl
              refine ⟨existing, hns, hkey.2, Or.inr hfind, ?_, ?_, ?_, ?_, ?_⟩
              · rw [← h.2, hc3]; rfl
              · rw [← h.2, hc3]; rfl
              · rw [← h.2, hc3]; rfl
              · rw [hc2]
                have := findObject_replaceObject_same Namespace.toObjectMeta (f existing)
                  c.namespaces existing
                rw [hns, hkey.2] at this
                exact this hfind
              · intro name hne
                rw [hc2]
                exact findObject_replaceObject_other Namespace.toObjectMeta (f existing) ""
                  name _ (hother existing hkey.2 name hne)
      · simp [hkey] at h

/-- Claim C20. For every destination map, nil included, and every map of values, the map
`updateMap` leaves behind is not nil, maps every key of `values` to its value from `values`,
and reads under every other key what the destination read before: the old value when the
destination had the key, nothing when it had not. A successful `createOrPatchNamespace` leaves
in the store the namespace it found, or a fresh one of the given name, with its annotations and
its labels replaced by these two merges and every other field as it was; no other namespace
and no other object changes. -/
theorem C20_namespace_maps_merge (dest values : GoMap) (hvalues : values.Valid) :
    (updateMap dest values).isSome = true ∧
    (∀ k v, values.lookup k = some v → (updateMap dest values).lookup k = some v) ∧
    (∀ k, values.lookup k = none → (updateMap dest values).lookup k = dest.lookup k) ∧
    (∀ (client : Client) (orgOrSpace : ObjectMeta) (labels annotations : GoMap)
        (c c2 : Cluster),
      createOrPatchNamespace client orgOrSpace labels annotations c = (.ok (), c2) →
      ∃ before after,
        ((before = { name := orgOrSpace.name } ∧
            findObject Namespace.toObjectMeta "" orgOrSpace.name c.namespaces = none) ∨
          findObject Namespace.toObjectMeta "" orgOrSpace.name c.namespaces = some before) ∧
        findObject Namespace.toObjectMeta "" orgOrSpace.name c2.namespaces = some after ∧
        after.annotations = updateMap before.annotations annotations ∧
        after.labels = updateMap before.labels labels ∧
        after.name = before.name ∧ after.namespace_ = before.namespace_ ∧
        after.ownerReferences = before.ownerReferences ∧
        after.finalizers = before.finalizers ∧
        after.specFinalizers = before.specFinalizers ∧ after.phase = before.phase ∧
        (∀ name, name ≠ orgOrSpace.name →
          findObject Namespace.toObjectMeta "" name c2.namespaces
            = findObject Namespace.toObjectMeta "" name c.namespaces) ∧
        c2.cfApps = c.cfApps ∧ c2.roleBindings = c.roleBindings ∧ c2.secrets = c.secrets) := by
  refine ⟨?_, ?_, ?_, ?_⟩
  · unfold updateMap
    cases values <;> rfl
  · intro k v hk
    rw [updateMap_lookup dest values hvalues k, hk]
  · intro k hk
    rw [updateMap_lookup dest values hvalues k, hk]
  · intro client orgOrSpace labels annotations c c2 h
    unfold createOrPatchNamespace at h
    cases hcp : CreateOrPatchNamespace client { name := orgOrSpace.name }
        (createOrPatchNamespaceMutate labels annotations) c with
    | mk r c1 =>
      simp only [hcp] at h
      cases r with
      | error err => simp at h
      | ok res =>
        simp only [Prod.mk.injEq, true_and] at h
        subst h
        obtain ⟨base, _, _, hbase, happs, hrbs, hsecrets, hfind, hframe⟩ :=
          CreateOrPatchNamespace_ok _ _ _ _ _ _ rfl hcp
        refine ⟨base, createOrPatchNamespaceMutate labels annotations base, hbase, hfind,
          rfl, rfl, rfl, ?_, rfl, rfl, rfl, rfl, hframe, happs, hrbs, hsecrets⟩
        rcases hbase with ⟨hb, _⟩ | hb
        · subst hb; rfl
        · rfl

/-- A run of claim C20: the merge of two maps, and `createOrPatchNamespace` on a namespace
that exists. -/
theorem C20_namespace_maps_merge_witness :
    GoMap.Valid (some [("tier", "prod"), ("owner", "alice")]) ∧
    updateMap (some [("team", "blue"), ("tier", "dev")]) (some [("tier", "prod"), ("owner", "alice")])
      = some [("team", "blue"), ("tier", "prod"), ("owner", "alice")] ∧
    (createOrPatchNamespace reliableClient sampleOrg (some [("tier", "prod")]) none
      sampleNamespaces).2.namespaces
      = [{ name := "cf" },
         { sampleNamespace with
           labels := some [("team", "blue"), ("tier", "prod")] }] ∧
    ((updateMap (some [("team", "blue"), ("tier", "dev")])
        (some [("tier", "prod"), ("owner", "alice")])).isSome = true ∧
    (∀ k v, GoMap.lookup (some [("tier", "prod"), ("owner", "alice")]) k = some v →
      (updateMap (some [("team", "blue"), ("tier", "dev")])
        (some [("tier", "prod"), ("owner", "alice")])).lookup k = some v) ∧
    (∀ k, GoMap.lookup (some [("tier", "prod"), ("owner", "alice")]) k = none →
      (updateMap (some [("team", "blue"), ("tier", "dev")])
        (some [("tier", "prod"), ("owner", "alice")])).lookup k
        = GoMap.lookup (some [("team", "blue"), ("tier", "dev")]) k) ∧
    (∀ (client : Client) (orgOrSpace : ObjectMeta) (labels annotations : GoMap)
        (c c2 : Cluster),
      createOrPatchNamespace client orgOrSpace labels annotations c = (.ok (), c2) →
      ∃ before after,
        ((before = { name := orgOrSpace.name } ∧
            findObject Namespace.toObjectMeta "" orgOrSpace.name c.namespaces = none) ∨
          findObject Namespace.toObjectMeta "" orgOrSpace.name c.namespaces = some before) ∧
        findObject Namespace.toObjectMeta "" orgOrSpace.name c2.namespaces = some after ∧
        after.annotations = updateMap before.annotations annotations ∧
        after.labels = updateMap before.labels labels ∧
        after.name = before.name ∧ after.namespace_ = before.namespace_ ∧
        after.ownerReferences = before.ownerReferences ∧
        after.finalizers = before.finalizers ∧
        after.specFinalizers = before.specFinalizers ∧ after.phase = before.phase ∧
        (∀ name, name ≠ orgOrSpace.name →
          findObject Namespace.toObjectMeta "" name c2.namespaces
            = findObject Namespace.toObjectMeta "" name c.namespaces) ∧
        c2.cfApps = c.cfApps ∧ c2.roleBindings = c.roleBindings ∧ c2.secrets = c.secrets)) :=
  ⟨by decide, by decide, by decide,
    C20_namespace_maps_merge (some [("team", "blue"), ("tier", "dev")])
      (some [("tier", "prod"), ("owner", "alice")]) (by decide)⟩

/-! ## The client calls on secrets -/

theorem getSecret_state (cl : Client) (ns name : String) (c : Cluster) :
    (cl.getSecret ns name c).2 = c.record (Op.getSecret ns name) := by
  unfold Client.getSecret
  cases hf : cl.fault c (Op.getSecret ns name) with
  | some e => simp [hf]
  | none =>
    cases hfind : findObject Secret.toObjectMeta ns name c.secrets with
    | none => simp [hf, hfind]
    | some a => simp [hf, hfind]

theorem getSecret_ok (cl : Client) (ns name : String) (c c1 : Cluster) (secret : Secret)
    (h : cl.getSecret ns name c = (.ok secret, c1)) :
    findObject Secret.toObjectMeta ns name c.secrets = some secret := by
  unfold Client.getSecret at h
  cases hf : cl.fault c (Op.getSecret ns name) with
  | some e => simp [hf] at h
  | none =>
    cases hfind : findObject Secret.toObjectMeta ns name c.secrets with
    | none => simp [hf, hfind] at h
    | some a =>
      simp only [hf, hfind, Prod.mk.injEq, Except.ok.injEq] at h
      rw [h.1]

/-- A `Create` of a secret either fails and leaves the objects alone, or appends the secret,
which was not in the store. -/
theorem createSecret_cases (cl : Client) (obj : Secret) (c : Cluster) :
    ((∃ e, (cl.createSecret obj c).1 = .error e) ∧
        (cl.createSecret obj c).2 = c.record (Op.createSecret obj)) ∨
      ((cl.createSecret obj c).1 = .ok () ∧
        findObject Secret.toObjectMeta obj.namespace_ obj.name c.secrets = none ∧
        (cl.createSecret obj c).2
          = { c.record (Op.createSecret obj) with secrets := c.secrets ++ [obj] }) := by
  cases hf : cl.fault c (Op.createSecret obj) with
  | some e =>
    have hval : cl.createSecret obj c = (.error e, c.record (Op.createSecret obj)) := by
      unfold Client.createSecret; simp only [hf]
    rw [hval]
    exact Or.inl ⟨⟨e, rfl⟩, rfl⟩
  | none =>
    cases hfind : findObject Secret.toObjectMeta obj.namespace_ obj.name c.secrets with
    | some a =>
      have hval : cl.createSecret obj c
          = (.error (.alreadyExists "Secret" obj.namespace_ obj.name),
            c.record (Op.createSecret obj)) := by
        unfold Client.createSecret; simp only [hf, hfind]
      rw [hval]
      exact Or.inl ⟨⟨_, rfl⟩, rfl⟩
    | none =>
      have hval : cl.createSecret obj c
          = (.ok (), { c.record (Op.createSecret obj) with secrets := c.secrets ++ [obj] }) := by
        unfold Client.createSecret; simp only [hf, hfind]
      rw [hval]
      exact Or.inr ⟨rfl, rfl, rfl⟩

/-- A `Patch` of a secret either fails and leaves the objects alone, or replaces the secret
stored under the same key. -/
theorem patchSecret_cases (cl : Client) (obj : Secret) (c : Cluster) :
    ((∃ e, (cl.patchSecret obj c).1 = .error e) ∧
        (cl.patchSecret obj c).2 = c.record (Op.patchSecret obj)) ∨
      ((cl.patchSecret obj c).1 = .ok () ∧
        (∃ o, findObject Secret.toObjectMeta obj.namespace_ obj.name c.secrets = some o) ∧
        (cl.patchSecret obj c).2
          = { c.record (Op.patchSecret obj) with
              secrets := replaceObject Secret.toObjectMeta obj c.secrets }) := by
  cases hf : cl.fault c (Op.patchSecret obj) with
  | some e =>
    have hval : cl.patchSecret obj c = (.error e, c.record (Op.patchSecret obj)) := by
      unfold Client.patchSecret; simp only [hf]
    rw [hval]
    exact Or.inl ⟨⟨e, rfl⟩, rfl⟩
  | none =>
    cases hfind : findObject Secret.toObjectMeta obj.namespace_ obj.name c.secrets with
    | none =>
      have hval : cl.patchSecret obj c
          = (.error (.notFound "Secret" obj.namespace_ obj.name),
            c.record (Op.patchSecret obj)) := by
        unfold Client.patchSecret; simp only [hf, hfind]
      rw [hval]
      exact Or.inl ⟨⟨_, rfl⟩, rfl⟩
    | some a =>
      have hval : cl.patchSecret obj c
          = (.ok (), { c.record (Op.patchSecret obj) with
              secrets := replaceObject Secret.toObjectMeta obj c.secrets }) := by
        unfold Client.patchSecret; simp only [hf, hfind]
      rw [hval]
      exact Or.inr ⟨rfl, ⟨a, rfl⟩, rfl⟩

/-! ## `CreateOrPatchSecret` -/

/-- Every outcome of `CreateOrPatchSecret`. It touches secrets only. When it fails the secrets
are as before. When it succeeds, either the store held `base` under the key of `obj` with
`f base = base` and is unchanged, or it held nothing there and gained `f obj`, or it held `base`
with `f base ≠ base` and has `f base` in its place. -/
theorem CreateOrPatchSecret_cases (cl : Client) (obj : Secret) (f : Secret → Secret)
    (c : Cluster) :
    (CreateOrPatchSecret cl obj f c).2.cfApps = c.cfApps ∧
    (CreateOrPatchSecret cl obj f c).2.roleBindings = c.roleBindings ∧
    (CreateOrPatchSecret cl obj f c).2.namespaces = c.namespaces ∧
    (((∃ e, (CreateOrPatchSecret cl obj f c).1 = .error e) ∧
        (CreateOrPatchSecret cl obj f c).2.secrets = c.secrets) ∨
      (∃ res base, (CreateOrPatchSecret cl obj f c).1 = .ok res ∧
        (f base).namespace_ = obj.namespace_ ∧ (f base).name = obj.name ∧
        (((CreateOrPatchSecret cl obj f c).2.secrets = c.secrets ∧ f base = base ∧
            findObject Secret.toObjectMeta obj.namespace_ obj.name c.secrets = some base) ∨
          (findObject Secret.toObjectMeta obj.namespace_ obj.name c.secrets = none ∧
            base = obj ∧
            (CreateOrPatchSecret cl obj f c).2.secrets = c.secrets ++ [f base]) ∨
          (findObject Secret.toObjectMeta obj.namespace_ obj.name c.secrets = some base ∧
            f base ≠ base ∧
            (CreateOrPatchSecret cl obj f c).2.secrets
              = replaceObject Secret.toObjectMeta (f base) c.secrets)))) := by
  unfold CreateOrPatchSecret
  have hstate := getSecret_state cl obj.namespace_ obj.name c
  cases hget : cl.getSecret obj.namespace_ obj.name c with
  | mk r c1 =>
    rw [hget] at hstate
    simp only at hstate
    subst hstate
    cases r with
    | error err =>
      simp only
      by_cases hnf : err.isNotFound = true
      · simp only [hnf, if_true]
        by_cases hkey : (f obj).namespace_ = obj.namespace_ ∧ (f obj).name = obj.name
        · simp only [hkey, and_self, if_true]
          rcases createSecret_cases cl (f obj) (c.record (Op.getSecret obj.namespace_ obj.name))
            with ⟨⟨e, he⟩, hc⟩ | ⟨hok, hnone, hc⟩
          · cases hcr : cl.createSecret (f obj)
                (c.record (Op.getSecret obj.namespace_ obj.name)) with
            | mk r2 c3 =>
              rw [hcr] at he hc
              simp only at he hc
              subst he hc
              exact ⟨rfl, rfl, rfl, Or.inl ⟨⟨_, rfl⟩, rfl⟩⟩
          · cases hcr : cl.createSecret (f obj)
                (c.record (Op.getSecret obj.namespace_ obj.name)) with
            | mk r2 c3 =>
              rw [hcr] at hok hc
              simp only at hok hc
              subst hok hc
              rw [hkey.1, hkey.2] at hnone
              exact ⟨rfl, rfl, rfl, Or.inr ⟨_, obj, rfl, hkey.1, hkey.2,
                Or.inr (Or.inl ⟨hnone, rfl, rfl⟩)⟩⟩
        · simp only [hkey, if_false]
          exact ⟨rfl, rfl, rfl, Or.inl ⟨⟨_, rfl⟩, rfl⟩⟩
      · simp only [hnf, if_false]
        exact ⟨rfl, rfl, rfl, Or.inl ⟨⟨_, rfl⟩, rfl⟩⟩
    | ok existing =>
      have hfind := getSecret_ok _ _ _ _ _ _ hget
      simp only
      by_cases hkey : (f existing).namespace_ = obj.namespace_ ∧ (f existing).name = obj.name
      · simp only [hkey, and_self, if_true]
        by_cases hsame : f existing = existing
        · simp only [hsame, if_true]
          refine ⟨rfl, rfl, rfl, Or.inr ⟨_, existing, rfl, ?_, ?_, Or.inl ⟨rfl, hsame, hfind⟩⟩⟩
          · rw [hsame] at hkey; rw [hsame]; exact hkey.1
          · rw [hsame] at hkey; rw [hsame]; exact hkey.2
        · simp only [hsame, if_false]
          rcases patchSecret_cases cl (f existing)
            (c.record (Op.getSecret obj.namespace_ obj.name))
            with ⟨⟨e, he⟩, hc⟩ | ⟨hok, _, hc⟩
          · cases hp : cl.patchSecret (f existing)
                (c.record (Op.getSecret obj.namespace_ obj.name)) with
            | mk r2 c3 =>
              rw [hp] at he hc
              simp only at he hc
              subst he hc
              exact ⟨rfl, rfl, rfl, Or.inl ⟨⟨_, rfl⟩, rfl⟩⟩
          · cases hp : cl.patchSecret (f existing)
                (c.record (Op.getSecret obj.namespace_ obj.name)) with
            | mk r2 c3 =>
              rw [hp] at hok hc
              simp only at hok hc
              subst hok hc
              exact ⟨rfl, rfl, rfl, Or.inr ⟨_, existing, rfl, hkey.1, hkey.2,
                Or.inr (Or.inr ⟨hfind, hsame, rfl⟩)⟩⟩
      · simp only [hkey, if_false]
        exact ⟨rfl, rfl, rfl, Or.inl ⟨⟨_, rfl⟩, rfl⟩⟩

/-- Every outcome of `CreateOrPatchSecret` leaves the secrets stored under the other keys as
they were. -/
theorem CreateOrPatchSecret_frame (cl : Client) (obj : Secret) (f : Secret → Secret)
    (c : Cluster) (ns name : String) (hne : ¬ (ns = obj.namespace_ ∧ name = obj.name)) :
    findObject Secret.toObjectMeta ns name (CreateOrPatchSecret cl obj f c).2.secrets
      = findObject Secret.toObjectMeta ns name c.secrets := by
  obtain ⟨_, _, _, hcases⟩ := CreateOrPatchSecret_cases cl obj f c
  rcases hcases with ⟨_, hsame⟩ | ⟨res, base, _, hns, hname, hcases⟩
  · rw [hsame]
  · have hother : (f base).toObjectMeta.hasKey ns name = false := by
      cases hk : (f base).toObjectMeta.hasKey ns name with
      | false => rfl
      | true =>
        rw [hasKey_iff] at hk
        exact absurd ⟨hk.1.symm.trans hns, hk.2.symm.trans hname⟩ hne
    rcases hcases with ⟨hsame, _, _⟩ | ⟨_, _, happ⟩ | ⟨_, _, hrep⟩
    · rw [hsame]
    · rw [happ, findObject_append_single]
      cases hf : findObject Secret.toObjectMeta ns name c.secrets with
      | some o => rfl
      | none => simp [hother]
    · rw [hrep]
      exact findObject_replaceObject_other Secret.toObjectMeta (f base) ns name _ hother

/-- After a successful `CreateOrPatchSecret` the store holds `f base` under the key of `obj`,
for the `base` that was stored there, or for `obj`. -/
theorem CreateOrPatchSecret_find (cl : Client) (obj : Secret) (f : Secret → Secret)
    (c c2 : Cluster) (res : OperationResult)
    (h : CreateOrPatchSecret cl obj f c = (.ok res, c2)) :
    ∃ base, (f base).namespace_ = obj.namespace_ ∧ (f base).name = obj.name ∧
      (findObject Secret.toObjectMeta obj.namespace_ obj.name c.secrets = some base ∨
        (findObject Secret.toObjectMeta obj.namespace_ obj.name c.secrets = none ∧
          base = obj)) ∧
      findObject Secret.toObjectMeta obj.namespace_ obj.name c2.secrets = some (f base) := by
  obtain ⟨_, _, _, hcases⟩ := CreateOrPatchSecret_cases cl obj f c
  rw [h] at hcases
  simp only at hcases
  rcases hcases with ⟨⟨e, he⟩, _⟩ | ⟨res2, base, _, hns, hname, hcases⟩
  · cases he
  · refine ⟨base, hns, hname, ?_⟩
    have hself : (f base).toObjectMeta.hasKey obj.namespace_ obj.name = true := by
      rw [hasKey_iff]; exact ⟨hns, hname⟩
    rcases hcases with ⟨hsame, hfix, hfind⟩ | ⟨hnone, hbase, happ⟩ | ⟨hfind, _, hrep⟩
    · exact ⟨Or.inl hfind, by rw [hsame, hfix]; exact hfind⟩
    · refine ⟨Or.inr ⟨hnone, hbase⟩, ?_⟩
      rw [happ, findObject_append_single, hnone]
      simp [hself]
    · refine ⟨Or.inl hfind, ?_⟩
      rw [hrep]
      have := findObject_replaceObject_same Secret.toObjectMeta (f base) c.secrets base
      rw [hns, hname] at this
      exact this hfind

/-- A `CreateOrPatchSecret` on a secret that the mutate function leaves as it is changes no
secret, whatever its outcome. -/
theorem CreateOrPatchSecret_noop (cl : Client) (obj : Secret) (f : Secret → Secret)
    (c : Cluster) (existing : Secret)
    (hfind : findObject Secret.toObjectMeta obj.namespace_ obj.name c.secrets = some existing)
    (hfix : f existing = existing) :
    (CreateOrPatchSecret cl obj f c).2.secrets = c.secrets := by
  obtain ⟨_, _, _, hcases⟩ := CreateOrPatchSecret_cases cl obj f c
  rcases hcases with ⟨_, hsame⟩ | ⟨res, base, _, _, _, hcases⟩
  · exact hsame
  · rcases hcases with ⟨hsame, _, _⟩ | ⟨hnone, _, _⟩ | ⟨hfind2, hne, _⟩
    · exact hsame
    · rw [hfind] at hnone; cases hnone
    · rw [hfind] at hfind2
      cases hfind2
      exact absurd hfix hne

/-! ## The loop of `propagateSecrets` -/

theorem RemovePackageManagerKeys_idem (isPkg : String → Bool) (m : GoMap) :
    RemovePackageManagerKeys isPkg (RemovePackageManagerKeys isPkg m)
      = RemovePackageManagerKeys isPkg m := by
  cases m with
  | none => rfl
  | some entries => simp [RemovePackageManagerKeys, List.filter_filter]

theorem propagateSecretMutate_idem (isPkg : String → Bool) (secret base : Secret) :
    propagateSecretMutate isPkg secret (propagateSecretMutate isPkg secret base)
      = propagateSecretMutate isPkg secret base := rfl

theorem propagateSecretMutate_self (isPkg : String → Bool) (secret base : Secret) :
    propagateSecretMutate isPkg (propagateSecretMutate isPkg secret base)
        (propagateSecretMutate isPkg secret base)
      = propagateSecretMutate isPkg secret base := by
  simp [propagateSecretMutate, RemovePackageManagerKeys_idem]

theorem propagateSecretMutate_key (isPkg : String → Bool) (secret base : Secret) :
    (propagateSecretMutate isPkg secret base).namespace_ = base.namespace_ ∧
      (propagateSecretMutate isPkg secret base).name = base.name := ⟨rfl, rfl⟩

theorem propagateSecretsLoop_cons_ok (isPkg : String → Bool) (cl : Client)
    (orgOrSpace : ObjectMeta) (name : String) (rest : List String) (c c3 : Cluster)
    (h : propagateSecretsLoop isPkg cl orgOrSpace (name :: rest) c = (.ok (), c3)) :
    ∃ secret res c2,
      cl.getSecret orgOrSpace.namespace_ name c
        = (.ok secret, c.record (Op.getSecret orgOrSpace.namespace_ name)) ∧
      CreateOrPatchSecret cl { name := secret.name, namespace_ := orgOrSpace.name }
        (propagateSecretMutate isPkg secret)
        (c.record (Op.getSecret orgOrSpace.namespace_ name)) = (.ok res, c2) ∧
      propagateSecretsLoop isPkg cl orgOrSpace rest c2 = (.ok (), c3) := by
  unfold propagateSecretsLoop at h
  have hstate := getSecret_state cl orgOrSpace.namespace_ name c
  cases hget : cl.getSecret orgOrSpace.namespace_ name c with
  | mk r c1 =>
    rw [hget] at h hstate
    simp only at hstate
    subst hstate
    cases r with
    | error err => simp at h
    | ok secret =>
      simp only at h
      cases hcp : CreateOrPatchSecret cl { name := secret.name, namespace_ := orgOrSpace.name }
          (propagateSecretMutate isPkg secret)
          (c.record (Op.getSecret orgOrSpace.namespace_ name)) with
      | mk r2 c2 =>
        rw [hcp] at h
        cases r2 with
        | error err => simp at h
        | ok res =>
          simp only at h
          exact ⟨secret, res, c2, rfl, hcp, h⟩

/-- One round of the loop that succeeded, seen on the secrets: the child holds the propagated
secret under `name`, and every key other than the child's `name` is as before. -/
theorem propagateSecrets_step (isPkg : String → Bool) (cl : Client) (orgOrSpace : ObjectMeta)
    (name : String) (c c2 : Cluster) (secret : Secret) (res : OperationResult)
    (hget : cl.getSecret orgOrSpace.namespace_ name c
      = (.ok secret, c.record (Op.getSecret orgOrSpace.namespace_ name)))
    (hcp : CreateOrPatchSecret cl { name := secret.name, namespace_ := orgOrSpace.name }
        (propagateSecretMutate isPkg secret)
        (c.record (Op.getSecret orgOrSpace.namespace_ name)) = (.ok res, c2)) :
    findObject Secret.toObjectMeta orgOrSpace.namespace_ name c.secrets = some secret ∧
    (∃ base, findObject Secret.toObjectMeta orgOrSpace.name name c2.secrets
      = some (propagateSecretMutate isPkg secret base)) ∧
    (∀ ns k, ¬ (ns = orgOrSpace.name ∧ k = name) →
      findObject Secret.toObjectMeta ns k c2.secrets
        = findObject Secret.toObjectMeta ns k c.secrets) := by
  have hfind := getSecret_ok _ _ _ _ _ _ hget
  have hkey := findObject_hasKey _ _ _ _ _ hfind
  rw [hasKey_iff] at hkey
  obtain ⟨base, _, _, _, hfound⟩ := CreateOrPatchSecret_find _ _ _ _ _ _ hcp
  simp only [hkey.2] at hfound
  refine ⟨hfind, ⟨base, hfound⟩, ?_⟩
  intro ns k hne
  have := CreateOrPatchSecret_frame cl { name := secret.name, namespace_ := orgOrSpace.name }
    (propagateSecretMutate isPkg secret)
    (c.record (Op.getSecret orgOrSpace.namespace_ name)) ns k
    (by simp only [hkey.2]; exact hne)
  rw [hcp] at this
  exact this

/-- What a successful run of the loop of `propagateSecrets` has done: every secret that was
propagated stays propagated, every named secret is propagated, and the secrets of the parent
namespace keep their `Immutable`, `Data`, `StringData` and `Type`, and their labels and
annotations up to the package-manager keys. -/
theorem propagateSecretsLoop_ok (isPkg : String → Bool) (cl : Client) (orgOrSpace : ObjectMeta)
    (names : List String) :
    ∀ (c c3 : Cluster), propagateSecretsLoop isPkg cl orgOrSpace names c = (.ok (), c3) →
      (∀ k, SecretPropagated isPkg orgOrSpace c.secrets k →
        SecretPropagated isPkg orgOrSpace c3.secrets k) ∧
      (∀ k ∈ names, SecretPropagated isPkg orgOrSpace c3.secrets k) ∧
      (∀ k, (findObject Secret.toObjectMeta orgOrSpace.namespace_ k c3.secrets).map
            (fun s => (s.immutable, s.data, s.stringData, s.type,
              RemovePackageManagerKeys isPkg s.labels,
              RemovePackageManagerKeys isPkg s.annotations))
          = (findObject Secret.toObjectMeta orgOrSpace.namespace_ k c.secrets).map
            (fun s => (s.immutable, s.data, s.stringData, s.type,
              RemovePackageManagerKeys isPkg s.labels,
              RemovePackageManagerKeys isPkg s.annotations))) := by
  induction names with
  | nil =>
    intro c c3 h
    simp only [propagateSecretsLoop, Prod.mk.injEq, true_and] at h
    subst h
    exact ⟨fun _ hk => hk, by simp, fun _ => rfl⟩
  | cons name rest ih =>
    intro c c3 h
    obtain ⟨secret, res, c2, hget, hcp, hrest⟩ :=
      propagateSecretsLoop_cons_ok isPkg cl orgOrSpace name rest c c3 h
    obtain ⟨hfind, ⟨base, hchild⟩, hframe⟩ :=
      propagateSecrets_step isPkg cl orgOrSpace name c c2 secret res hget hcp
    obtain ⟨hkeep, hall, hfields⟩ := ih c2 c3 hrest
    have hnow : SecretPropagated isPkg orgOrSpace c2.secrets name := by
      by_cases hpc : orgOrSpace.namespace_ = orgOrSpace.name
      · refine ⟨propagateSecretMutate isPkg secret base,
          propagateSecretMutate isPkg secret base, ?_, hchild, ?_⟩
        · rw [hpc]; exact hchild
        · exact propagateSecretMutate_self isPkg secret base
      · refine ⟨secret, propagateSecretMutate isPkg secret base, ?_, hchild, ?_⟩
        · rw [hframe _ _ (fun hh => hpc hh.1)]
          exact hfind
        · exact propagateSecretMutate_idem isPkg secret base
    have hstep : ∀ k, SecretPropagated isPkg orgOrSpace c.secrets k →
        SecretPropagated isPkg orgOrSpace c2.secrets k := by
      intro k hk
      by_cases hkn : k = name
      · rw [hkn]; exact hnow
      · obtain ⟨p, ch, hp, hch, hfix⟩ := hk
        refine ⟨p, ch, ?_, ?_, hfix⟩
        · rw [hframe _ _ (fun hh => hkn hh.2)]; exact hp
        · rw [hframe _ _ (fun hh => hkn hh.2)]; exact hch
    refine ⟨fun k hk => hkeep k (hstep k hk), ?_, ?_⟩
    · intro k hk
      rcases List.mem_cons.1 hk with hk | hk
      · rw [hk]; exact hkeep name hnow
      · exact hall k hk
    · intro k
      rw [hfields k]
      by_cases hpk : orgOrSpace.namespace_ = orgOrSpace.name ∧ k = name
      · rw [hpk.2]
        have : findObject Secret.toObjectMeta orgOrSpace.namespace_ name c2.secrets
            = some (propagateSecretMutate isPkg secret base) := by
          rw [hpk.1]; exact hchild
        rw [this, hfind]
        simp [propagateSecretMutate, RemovePackageManagerKeys_idem]
      · rw [hframe _ _ hpk]

/-- The loop of `propagateSecrets` changes no secret, whatever its outcome, when every named
secret is propagated already. -/
theorem propagateSecretsLoop_noop (isPkg : String → Bool) (cl : Client)
    (orgOrSpace : ObjectMeta) (names : List String) :
    ∀ (c : Cluster), (∀ k ∈ names, SecretPropagated isPkg orgOrSpace c.secrets k) →
      (propagateSecretsLoop isPkg cl orgOrSpace names c).2.secrets = c.secrets := by
  induction names with
  | nil => intro c _; rfl
  | cons name rest ih =>
    intro c hall
    unfold propagateSecretsLoop
    have hstate := getSecret_state cl orgOrSpace.namespace_ name c
    cases hget : cl.getSecret orgOrSpace.namespace_ name c with
    | mk r c1 =>
      rw [hget] at hstate
      simp only at hstate
      subst hstate
      cases r with
      | error err => rfl
      | ok secret =>
        simp only
        have hfind := getSecret_ok _ _ _ _ _ _ hget
        have hkey := findObject_hasKey _ _ _ _ _ hfind
        rw [hasKey_iff] at hkey
        obtain ⟨p, ch, hp, hch, hfix⟩ := hall name (List.mem_cons_self _ _)
        rw [hfind] at hp
        cases hp
        have hnoop := CreateOrPatchSecret_noop cl
          { name := secret.name, namespace_ := orgOrSpace.name }
          (propagateSecretMutate isPkg secret)
          (c.record (Op.getSecret orgOrSpace.namespace_ name)) ch
          (by simp only [hkey.2]; exact hch) hfix
        cases hcp : CreateOrPatchSecret cl { name := secret.name, namespace_ := orgOrSpace.name }
            (propagateSecretMutate isPkg secret)
            (c.record (Op.getSecret orgOrSpace.namespace_ name)) with
        | mk r2 c2 =>
          rw [hcp] at hnoop
          simp only at hnoop
          have hsec : c2.secrets = c.secrets := hnoop
          cases r2 with
          | error err => exact hsec
          | ok res =>
            simp only
            rw [ih c2 (by
              intro k hk
              rw [hsec]
              exact hall k (List.mem_cons_of_mem _ hk)), hsec]

/-- Every outcome of `CreateOrPatchSecret` keeps a secret under every key that had one. -/
theorem CreateOrPatchSecret_keeps (cl : Client) (obj : Secret) (f : Secret → Secret)
    (c : Cluster) (ns name : String)
    (h : (findObject Secret.toObjectMeta ns name c.secrets).isSome = true) :
    (findObject Secret.toObjectMeta ns name (CreateOrPatchSecret cl obj f c).2.secrets).isSome
      = true := by
  by_cases hkey : ns = obj.namespace_ ∧ name = obj.name
  · rw [hkey.1, hkey.2] at h ⊢
    obtain ⟨_, _, _, hcases⟩ := CreateOrPatchSecret_cases cl obj f c
    rcases hcases with ⟨_, hsame⟩ | ⟨res, base, hok, _, _, _⟩
    · rw [hsame]; exact h
    · cases hcp : CreateOrPatchSecret cl obj f c with
      | mk r c2 =>
        rw [hcp] at hok
        simp only at hok
        subst hok
        obtain ⟨base2, _, _, _, hfound⟩ := CreateOrPatchSecret_find _ _ _ _ _ _ hcp
        rw [hfound]
        rfl
  · rw [CreateOrPatchSecret_frame cl obj f c ns name hkey]
    exact h

/-- Every outcome of the loop of `propagateSecrets`: it touches secrets only, it leaves every
secret alone that is not a named secret of the child namespace, and it removes no secret. -/
theorem propagateSecretsLoop_any (isPkg : String → Bool) (cl : Client) (orgOrSpace : ObjectMeta)
    (names : List String) :
    ∀ (c : Cluster),
      (propagateSecretsLoop isPkg cl orgOrSpace names c).2.cfApps = c.cfApps ∧
      (propagateSecretsLoop isPkg cl orgOrSpace names c).2.roleBindings = c.roleBindings ∧
      (propagateSecretsLoop isPkg cl orgOrSpace names c).2.namespaces = c.namespaces ∧
      (∀ ns k, ¬ (ns = orgOrSpace.name ∧ k ∈ names) →
        findObject Secret.toObjectMeta ns k
            (propagateSecretsLoop isPkg cl orgOrSpace names c).2.secrets
          = findObject Secret.toObjectMeta ns k c.secrets) ∧
      (∀ ns k, (findObject Secret.toObjectMeta ns k c.secrets).isSome = true →
        (findObject Secret.toObjectMeta ns k
          (propagateSecretsLoop isPkg cl orgOrSpace names c).2.secrets).isSome = true) := by
  induction names with
  | nil => intro c; exact ⟨rfl, rfl, rfl, fun _ _ _ => rfl, fun _ _ h => h⟩
  | cons name rest ih =>
    intro c
    unfold propagateSecretsLoop
    have hstate := getSecret_state cl orgOrSpace.namespace_ name c
    cases hget : cl.getSecret orgOrSpace.namespace_ name c with
    | mk r c1 =>
      rw [hget] at hstate
      simp only at hstate
      subst hstate
      cases r with
      | error err => exact ⟨rfl, rfl, rfl, fun _ _ _ => rfl, fun _ _ h => h⟩
      | ok secret =>
        simp only
        have hfind := getSecret_ok _ _ _ _ _ _ hget
        have hkey := findObject_hasKey _ _ _ _ _ hfind
        rw [hasKey_iff] at hkey
        obtain ⟨h1, h2, h3, _⟩ := CreateOrPatchSecret_cases cl
          { name := secret.name, namespace_ := orgOrSpace.name }
          (propagateSecretMutate isPkg secret)
          (c.record (Op.getSecret orgOrSpace.namespace_ name))
        have hframe := CreateOrPatchSecret_frame cl
          { name := secret.name, namespace_ := orgOrSpace.name }
          (propagateSecretMutate isPkg secret)
          (c.record (Op.getSecret orgOrSpace.namespace_ name))
        have hkeeps := CreateOrPatchSecret_keeps cl
          { name := secret.name, namespace_ := orgOrSpace.name }
          (propagateSecretMutate isPkg secret)
          (c.record (Op.getSecret orgOrSpace.namespace_ name))
        cases hcp : CreateOrPatchSecret cl { name := secret.name, namespace_ := orgOrSpace.name }
            (propagateSecretMutate isPkg secret)
            (c.record (Op.getSecret orgOrSpace.namespace_ name)) with
        | mk r2 c2 =>
          rw [hcp] at h1 h2 h3 hframe hkeeps
          simp only [hkey.2] at h1 h2 h3 hframe hkeeps
          have hframe2 : ∀ ns k, ¬ (ns = orgOrSpace.name ∧ k ∈ name :: rest) →
              findObject Secret.toObjectMeta ns k c2.secrets
                = findObject Secret.toObjectMeta ns k c.secrets := by
            intro ns k hne
            exact hframe ns k (fun hh => hne ⟨hh.1, by rw [hh.2]; exact List.mem_cons_self _ _⟩)
          cases r2 with
          | error err => exact ⟨h1, h2, h3, hframe2, hkeeps⟩
          | ok res =>
            simp only
            obtain ⟨i1, i2, i3, iframe, ikeeps⟩ := ih c2
            refine ⟨i1.trans h1, i2.trans h2, i3.trans h3, ?_, ?_⟩
            · intro ns k hne
              rw [iframe ns k (fun hh => hne ⟨hh.1, List.mem_cons_of_mem _ hh.2⟩)]
              exact hframe2 ns k hne
            · intro ns k hk
              exact ikeeps ns k (hkeeps ns k hk)

theorem propagateSecretsLoop_append (isPkg : String → Bool) (cl : Client)
    (orgOrSpace : ObjectMeta) (pre rest : List String) :
    ∀ (c c1 : Cluster), propagateSecretsLoop isPkg cl orgOrSpace pre c = (.ok (), c1) →
      propagateSecretsLoop isPkg cl orgOrSpace (pre ++ rest) c
        = propagateSecretsLoop isPkg cl orgOrSpace rest c1 := by
  induction pre with
  | nil =>
    intro c c1 h
    simp only [propagateSecretsLoop, Prod.mk.injEq, true_and] at h
    subst h
    rfl
  | cons name pre ih =>
    intro c c1 h
    obtain ⟨secret, res, c2, hget, hcp, hrest⟩ :=
      propagateSecretsLoop_cons_ok isPkg cl orgOrSpace name pre c c1 h
    simp only [List.cons_append]
    conv_lhs => unfold propagateSecretsLoop
    simp only [hget, hcp]
    exact ih c2 c1 hrest

/-- A failing run of the loop of `propagateSecrets` has propagated the names before the first
one that failed, and has left the secrets as they were after those. -/
theorem propagateSecretsLoop_error (isPkg : String → Bool) (cl : Client)
    (orgOrSpace : ObjectMeta) (names : List String) :
    ∀ (c c3 : Cluster) (err : GoError),
      propagateSecretsLoop isPkg cl orgOrSpace names c = (.error err, c3) →
      ∃ pre failing post c1, names = pre ++ failing :: post ∧
        propagateSecretsLoop isPkg cl orgOrSpace pre c = (.ok (), c1) ∧
        c3.secrets = c1.secrets := by
  induction names with
  | nil =>
    intro c c3 err h
    simp [propagateSecretsLoop] at h
  | cons name rest ih =>
    intro c c3 err h
    unfold propagateSecretsLoop at h
    have hstate := getSecret_state cl orgOrSpace.namespace_ name c
    cases hget : cl.getSecret orgOrSpace.namespace_ name c with
    | mk r c1 =>
      rw [hget] at hstate h
      simp only at hstate
      subst hstate
      cases r with
      | error e1 =>
        simp only [Prod.mk.injEq] at h
        refine ⟨[], name, rest, c, rfl, rfl, ?_⟩
        rw [← h.2]; rfl
      | ok secret =>
        simp only at h
        obtain ⟨_, _, _, hcases⟩ := CreateOrPatchSecret_cases cl
          { name := secret.name, namespace_ := orgOrSpace.name }
          (propagateSecretMutate isPkg secret)
          (c.record (Op.getSecret orgOrSpace.namespace_ name))
        cases hcp : CreateOrPatchSecret cl { name := secret.name, namespace_ := orgOrSpace.name }
            (propagateSecretMutate isPkg secret)
            (c.record (Op.getSecret orgOrSpace.namespace_ name)) with
        | mk r2 c2 =>
          rw [hcp] at h hcases
          cases r2 with
          | error e2 =>
            simp only [Prod.mk.injEq] at h
            refine ⟨[], name, rest, c, rfl, rfl, ?_⟩
            rcases hcases with ⟨_, hsame⟩ | ⟨res, base, hok, _⟩
            · rw [← h.2]; exact hsame
            · cases hok
          | ok res =>
            simp only at h
            obtain ⟨pre, failing, post, c1, hsplit, hpre, hsec⟩ := ih c2 c3 err h
            refine ⟨name :: pre, failing, post, c1, by rw [hsplit]; rfl, ?_, hsec⟩
            unfold propagateSecretsLoop
            simp only [hget, hcp]
            exact hpre

/-! ## Claims on `propagateSecrets` -/

theorem propagateSecrets_eq_loop (isPkg : String → Bool) (cl : Client) (orgOrSpace : ObjectMeta)
    (names : List String) (c : Cluster) :
    propagateSecrets isPkg cl orgOrSpace names c
      = propagateSecretsLoop isPkg cl orgOrSpace names c := by
  unfold propagateSecrets
  cases names with
  | nil => rfl
  | cons name rest => simp

/-- Claim C15. Take a list of secret names, non-empty since `secretName` is on it. When
`propagateSecrets` has propagated the names before `secretName` and the read of `secretName`
from the parent namespace fails with `err`, it returns the error built from the format
"error fetching secret %q from namespace %q: %w" with the secret name and the parent namespace
as its two quoted arguments, wrapping `err`. -/
theorem C15_fetch_error_names_secret (isPkg : String → Bool) (client : Client)
    (orgOrSpace : ObjectMeta) (pre post : List String) (secretName : String)
    (c c1 c2 : Cluster) (err : GoError)
    (hpre : propagateSecretsLoop isPkg client orgOrSpace pre c = (.ok (), c1))
    (hget : client.getSecret orgOrSpace.namespace_ secretName c1 = (.error err, c2)) :
    propagateSecrets isPkg client orgOrSpace (pre ++ secretName :: post) c =
      (.error (.errorf "error fetching secret %q from namespace %q: %w"
        [secretName, orgOrSpace.namespace_] err), c2) := by
  rw [propagateSecrets_eq_loop, propagateSecretsLoop_append isPkg client orgOrSpace pre _ c c1 hpre]
  unfold propagateSecretsLoop
  rw [hget]

/-- A run of claim C15: the second of three names is missing in the parent namespace. -/
theorem C15_fetch_error_names_secret_witness :
    propagateSecretsLoop sampleIsPackageManagerKey reliableClient sampleOrg
        ["registry-credentials"] sampleSecrets
      = (.ok (), (propagateSecretsLoop sampleIsPackageManagerKey reliableClient sampleOrg
          ["registry-credentials"] sampleSecrets).2) ∧
    reliableClient.getSecret sampleOrg.namespace_ "missing"
        (propagateSecretsLoop sampleIsPackageManagerKey reliableClient sampleOrg
          ["registry-credentials"] sampleSecrets).2
      = (.error (.notFound "Secret" "cf" "missing"),
          (reliableClient.getSecret sampleOrg.namespace_ "missing"
            (propagateSecretsLoop sampleIsPackageManagerKey reliableClient sampleOrg
              ["registry-credentials"] sampleSecrets).2).2) ∧
    propagateSecrets sampleIsPackageManagerKey reliableClient sampleOrg
        (["registry-credentials"] ++ "missing" :: ["tls-cert"]) sampleSecrets =
      (.error (.errorf "error fetching secret %q from namespace %q: %w"
        ["missing", sampleOrg.namespace_] (.notFound "Secret" "cf" "missing")),
        (reliableClient.getSecret sampleOrg.namespace_ "missing"
          (propagateSecretsLoop sampleIsPackageManagerKey reliableClient sampleOrg
            ["registry-credentials"] sampleSecrets).2).2) :=
  ⟨by decide, by decide,
    C15_fetch_error_names_secret sampleIsPackageManagerKey reliableClient sampleOrg
      ["registry-credentials"] ["tls-cert"] "missing" sampleSecrets
      (propagateSecretsLoop sampleIsPackageManagerKey reliableClient sampleOrg
        ["registry-credentials"] sampleSecrets).2
      (reliableClient.getSecret sampleOrg.namespace_ "missing"
        (propagateSecretsLoop sampleIsPackageManagerKey reliableClient sampleOrg
          ["registry-credentials"] sampleSecrets).2).2
      (.notFound "Secret" "cf" "missing") (by decide) (by decide)⟩

/-- The counterexample to claim C16 as stated: with the names `registry-credentials` and
`missing`, `propagateSecrets` returns an error, and the child namespace, which held no secret,
now holds `registry-credentials`. -/
theorem C16_counterexample_partial_state :
    (∃ err, (propagateSecrets sampleIsPackageManagerKey reliableClient sampleOrg
      ["registry-credentials", "missing"] sampleSecrets).1 = .error err) ∧
    findObject Secret.toObjectMeta "org-1" "registry-credentials" sampleSecrets.secrets = none ∧
    (findObject Secret.toObjectMeta "org-1" "registry-credentials"
      (propagateSecrets sampleIsPackageManagerKey reliableClient sampleOrg
        ["registry-credentials", "missing"] sampleSecrets).2.secrets).isSome = true := by
  refine ⟨⟨.errorf "error fetching secret %q from namespace %q: %w" ["missing", "cf"]
    (.notFound "Secret" "cf" "missing"), by decide⟩, by decide, by decide⟩

/-- Claim C16, amended. When `propagateSecrets` returns an error, it has stopped at the first
secret name whose read or create-or-patch failed: the names before it have been propagated and
their secrets stay in the child namespace, the secrets are as they were after those, and no
secret other than the child's secrets of those earlier names has changed. -/
theorem C16_error_keeps_earlier_secrets (isPkg : String → Bool) (client : Client)
    (orgOrSpace : ObjectMeta) (secretNames : List String) (c c3 : Cluster) (err : GoError)
    (h : propagateSecrets isPkg client orgOrSpace secretNames c = (.error err, c3)) :
    ∃ pre failing post c1, secretNames = pre ++ failing :: post ∧
      propagateSecretsLoop isPkg client orgOrSpace pre c = (.ok (), c1) ∧
      c3.secrets = c1.secrets ∧
      (∀ k ∈ pre, SecretPropagated isPkg orgOrSpace c3.secrets k) ∧
      (∀ ns k, ¬ (ns = orgOrSpace.name ∧ k ∈ pre) →
        findObject Secret.toObjectMeta ns k c3.secrets
          = findObject Secret.toObjectMeta ns k c.secrets) := by
  rw [propagateSecrets_eq_loop] at h
  obtain ⟨pre, failing, post, c1, hsplit, hpre, hsec⟩ :=
    propagateSecretsLoop_error isPkg client orgOrSpace secretNames c c3 err h
  refine ⟨pre, failing, post, c1, hsplit, hpre, hsec, ?_, ?_⟩
  · intro k hk
    rw [hsec]
    exact (propagateSecretsLoop_ok isPkg client orgOrSpace pre c c1 hpre).2.1 k hk
  · intro ns k hne
    rw [hsec]
    have := (propagateSecretsLoop_any isPkg client orgOrSpace pre c).2.2.2.1 ns k hne
    rw [hpre] at this
    exact this

/-- A run of the amended claim C16: `registry-credentials` is propagated, `missing` fails. -/
theorem C16_error_keeps_earlier_secrets_witness :
    propagateSecrets sampleIsPackageManagerKey reliableClient sampleOrg
        ["registry-credentials", "missing"] sampleSecrets
      = (.error (.errorf "error fetching secret %q from namespace %q: %w" ["missing", "cf"]
          (.notFound "Secret" "cf" "missing")),
        (propagateSecrets sampleIsPackageManagerKey reliableClient sampleOrg
          ["registry-credentials", "missing"] sampleSecrets).2) ∧
    ∃ pre failing post c1, ["registry-credentials", "missing"] = pre ++ failing :: post ∧
      propagateSecretsLoop sampleIsPackageManagerKey reliableClient sampleOrg pre sampleSecrets
        = (.ok (), c1) ∧
      (propagateSecrets sampleIsPackageManagerKey reliableClient sampleOrg
          ["registry-credentials", "missing"] sampleSecrets).2.secrets = c1.secrets ∧
      (∀ k ∈ pre, SecretPropagated sampleIsPackageManagerKey sampleOrg
        (propagateSecrets sampleIsPackageManagerKey reliableClient sampleOrg
          ["registry-credentials", "missing"] sampleSecrets).2.secrets k) ∧
      (∀ ns k, ¬ (ns = sampleOrg.name ∧ k ∈ pre) →
        findObject Secret.toObjectMeta ns k
            (propagateSecrets sampleIsPackageManagerKey reliableClient sampleOrg
              ["registry-credentials", "missing"] sampleSecrets).2.secrets
          = findObject Secret.toObjectMeta ns k sampleSecrets.secrets) :=
  ⟨by decide,
    C16_error_keeps_earlier_secrets sampleIsPackageManagerKey reliableClient sampleOrg
      ["registry-credentials", "missing"] sampleSecrets _
      (.errorf "error fetching secret %q from namespace %q: %w" ["missing", "cf"]
        (.notFound "Secret" "cf" "missing")) (by decide)⟩

/-- Claim C17. After a successful `propagateSecrets`, for every name in `secretNames` the child
namespace holds a secret of that name whose `Data`, `Type` and `Immutable` are those of the
secret of that name in the parent namespace, whatever the child namespace held before. -/
theorem C17_secret_copied_verbatim (isPkg : String → Bool) (client : Client)
    (orgOrSpace : ObjectMeta) (secretNames : List String) (c c3 : Cluster)
    (h : propagateSecrets isPkg client orgOrSpace secretNames c = (.ok (), c3)) :
    ∀ name ∈ secretNames, ∃ parent child,
      findObject Secret.toObjectMeta orgOrSpace.namespace_ name c.secrets = some parent ∧
      findObject Secret.toObjectMeta orgOrSpace.name name c3.secrets = some child ∧
      child.name = name ∧ child.namespace_ = orgOrSpace.name ∧
      child.data = parent.data ∧ child.type = parent.type ∧
      child.immutable = parent.immutable := by
  rw [propagateSecrets_eq_loop] at h
  obtain ⟨_, hall, hfields⟩ := propagateSecretsLoop_ok isPkg client orgOrSpace secretNames c c3 h
  intro name hname
  obtain ⟨p, ch, hp, hch, hfix⟩ := hall name hname
  have hf := hfields name
  rw [hp] at hf
  cases hparent : findObject Secret.toObjectMeta orgOrSpace.namespace_ name c.secrets with
  | none => rw [hparent] at hf; cases hf
  | some parent =>
    rw [hparent] at hf
    simp only [Option.map_some', Option.some.injEq, Prod.mk.injEq] at hf
    have hkey := findObject_hasKey _ _ _ _ _ hch
    rw [hasKey_iff] at hkey
    refine ⟨parent, ch, rfl, hch, hkey.2, hkey.1, ?_, ?_, ?_⟩
    · have : ch.data = p.data := by rw [← hfix]; rfl
      rw [this, hf.2.1]
    · have : ch.type = p.type := by rw [← hfix]; rfl
      rw [this, hf.2.2.2.1]
    · have : ch.immutable = p.immutable := by rw [← hfix]; rfl
      rw [this, hf.1]

/-- A run of claim C17 on a store whose child namespace held a stale `registry-credentials`. -/
theorem C17_secret_copied_verbatim_witness :
    (findObject Secret.toObjectMeta "org-1" "registry-credentials"
      (propagateSecrets sampleIsPackageManagerKey reliableClient sampleOrg
        ["registry-credentials", "tls-cert"] staleSecrets).2.secrets).map (fun s => s.type)
      = some "kubernetes.io/dockerconfigjson" ∧
    ∀ name ∈ ["registry-credentials", "tls-cert"], ∃ parent child,
      findObject Secret.toObjectMeta sampleOrg.namespace_ name staleSecrets.secrets
        = some parent ∧
      findObject Secret.toObjectMeta sampleOrg.name name
        (propagateSecrets sampleIsPackageManagerKey reliableClient sampleOrg
          ["registry-credentials", "tls-cert"] staleSecrets).2.secrets = some child ∧
      child.name = name ∧ child.namespace_ = sampleOrg.name ∧
      child.data = parent.data ∧ child.type = parent.type ∧
      child.immutable = parent.immutable :=
  ⟨by decide,
    C17_secret_copied_verbatim sampleIsPackageManagerKey reliableClient sampleOrg
      ["registry-credentials", "tls-cert"] staleSecrets _ (by decide)⟩

/-- The counterexample to claim C19 as stated: `registry-credentials` and `tls-cert` are
propagated, then `tls-cert` is taken off the list; the next call succeeds and the child
namespace still holds `tls-cert`, exactly as it was. -/
theorem C19_counterexample_secret_not_deleted :
    (propagateSecrets sampleIsPackageManagerKey reliableClient sampleOrg
      ["registry-credentials", "tls-cert"] sampleSecrets).1 = .ok () ∧
    (propagateSecrets sampleIsPackageManagerKey reliableClient sampleOrg
      ["registry-credentials"]
      (propagateSecrets sampleIsPackageManagerKey reliableClient sampleOrg
        ["registry-credentials", "tls-cert"] sampleSecrets).2).1 = .ok () ∧
    findObject Secret.toObjectMeta "org-1" "tls-cert"
      (propagateSecrets sampleIsPackageManagerKey reliableClient sampleOrg
        ["registry-credentials"]
        (propagateSecrets sampleIsPackageManagerKey reliableClient sampleOrg
          ["registry-credentials", "tls-cert"] sampleSecrets).2).2.secrets
      = some { tlsSecret with namespace_ := "org-1" } := by
  refine ⟨by decide, by decide, by decide⟩

/-- Claim C19, amended. `propagateSecrets` deletes nothing. Whatever its outcome, every secret
other than the child's secrets of the names on the list is exactly as it was, the
previously-propagated secret of a name taken off the list among them, and every key that held
a secret still holds one. -/
theorem C19_secrets_never_deleted (isPkg : String → Bool) (client : Client)
    (orgOrSpace : ObjectMeta) (secretNames : List String) (c : Cluster) :
    (∀ ns k, ¬ (ns = orgOrSpace.name ∧ k ∈ secretNames) →
      findObject Secret.toObjectMeta ns k
          (propagateSecrets isPkg client orgOrSpace secretNames c).2.secrets
        = findObject Secret.toObjectMeta ns k c.secrets) ∧
    (∀ ns k, (findObject Secret.toObjectMeta ns k c.secrets).isSome = true →
      (findObject Secret.toObjectMeta ns k
        (propagateSecrets isPkg client orgOrSpace secretNames c).2.secrets).isSome = true) := by
  rw [propagateSecrets_eq_loop]
  obtain ⟨_, _, _, hframe, hkeeps⟩ := propagateSecretsLoop_any isPkg client orgOrSpace secretNames c
  exact ⟨hframe, hkeeps⟩

/-! ## What the propagation writes -/

/-- The objects a `CreateOrPatch` sends, successful or not, are results of the mutate
function. -/
theorem CreateOrPatch_written (cl : Client) (obj : RoleBinding) (f : RoleBinding → RoleBinding)
    (c : Cluster) :
    ∃ ops, (CreateOrPatch cl obj f c).2.log = c.log ++ ops ∧
      ∀ op ∈ ops, ∀ o, (op = Op.createRoleBinding o ∨ op = Op.patchRoleBinding o) →
        ∃ base, o = f base := by
  unfold CreateOrPatch
  have hstate := getRoleBinding_state cl obj.namespace_ obj.name c
  cases hget : cl.getRoleBinding obj.namespace_ obj.name c with
  | mk r c1 =>
    rw [hget] at hstate
    simp only at hstate
    subst hstate
    have hget_only : ∀ op ∈ [Op.getRoleBinding obj.namespace_ obj.name], ∀ o,
        (op = Op.createRoleBinding o ∨ op = Op.patchRoleBinding o) → ∃ base, o = f base := by
      intro op hop o ho
      simp only [List.mem_singleton] at hop
      subst hop
      rcases ho with ho | ho <;> cases ho
    cases r with
    | error err =>
      simp only
      by_cases hnf : err.isNotFound = true
      · simp only [hnf, if_true]
        by_cases hkey : (f obj).namespace_ = obj.namespace_ ∧ (f obj).name = obj.name
        · simp only [hkey, and_self, if_true]
          have hlog := createRoleBinding_log cl (f obj)
            (c.record (Op.getRoleBinding obj.namespace_ obj.name))
          cases hcr : cl.createRoleBinding (f obj)
              (c.record (Op.getRoleBinding obj.namespace_ obj.name)) with
          | mk r2 c3 =>
            rw [hcr] at hlog
            simp only at hlog
            refine ⟨[Op.getRoleBinding obj.namespace_ obj.name, Op.createRoleBinding (f obj)],
              ?_, ?_⟩
            · cases r2 <;> simp [hlog, Cluster.record]
            · intro op hop o ho
              simp only [List.mem_cons, List.mem_singleton, List.not_mem_nil, or_false] at hop
              rcases hop with hop | hop
              · subst hop; rcases ho with ho | ho <;> cases ho
              · subst hop
                rcases ho with ho | ho
                · cases ho; exact ⟨obj, rfl⟩
                · cases ho
        · simp only [hkey, if_false]
          exact ⟨_, rfl, hget_only⟩
      · simp only [hnf, if_false]
        exact ⟨_, rfl, hget_only⟩
    | ok existing =>
      simp only
      by_cases hkey : (f existing).namespace_ = obj.namespace_ ∧ (f existing).name = obj.name
      · simp only [hkey, and_self, if_true]
        by_cases hsame : f existing = existing
        · simp only [hsame, if_true]
          exact ⟨_, rfl, hget_only⟩
        · simp only [hsame, if_false]
          have hlog := patchRoleBinding_log cl (f existing)
            (c.record (Op.getRoleBinding obj.namespace_ obj.name))
          cases hp : cl.patchRoleBinding (f existing)
              (c.record (Op.getRoleBinding obj.namespace_ obj.name)) with
          | mk r2 c3 =>
            rw [hp] at hlog
            simp only at hlog
            refine ⟨[Op.getRoleBinding obj.namespace_ obj.name,
              Op.patchRoleBinding (f existing)], ?_, ?_⟩
            · cases r2 <;> simp [hlog, Cluster.record]
            · intro op hop o ho
              simp only [List.mem_cons, List.mem_singleton, List.not_mem_nil, or_false] at hop
              rcases hop with hop | hop
              · subst hop; rcases ho with ho | ho <;> cases ho
              · subst hop
                rcases ho with ho | ho
                · cases ho
                · cases ho; exact ⟨existing, rfl⟩
      · simp only [hkey, if_false]
        exact ⟨_, rfl, hget_only⟩

/-- Every role binding the propagation loop sends, successful or not, carries the label
`propagated-from` with the parent namespace. -/
theorem propagateRoleBindingsLoop_written (isPkg : String → Bool) (cl : Client)
    (orgOrSpace : ObjectMeta) (bs : List RoleBinding) :
    ∀ (m : List String) (c : Cluster),
      ∃ ops, (propagateRoleBindingsLoop isPkg cl orgOrSpace bs m c).2.log = c.log ++ ops ∧
        ∀ op ∈ ops, ∀ o, (op = Op.createRoleBinding o ∨ op = Op.patchRoleBinding o) →
          o.labels.lookup PropagatedFromLabel = some orgOrSpace.namespace_ := by
  induction bs with
  | nil =>
    intro m c
    exact ⟨[], by simp [propagateRoleBindingsLoop], by simp⟩
  | cons b rest ih =>
    intro m c
    unfold propagateRoleBindingsLoop
    by_cases he : b.annotations.index PropagateRoleBindingAnnotationKey = "true"
    · simp only [he, if_true]
      obtain ⟨ops1, hlog1, hops1⟩ := CreateOrPatch_written cl
        { name := b.name, namespace_ := orgOrSpace.name }
        (propagateRoleBindingMutate isPkg orgOrSpace b) c
      have hops1' : ∀ op ∈ ops1,
          ∀ o, (op = Op.createRoleBinding o ∨ op = Op.patchRoleBinding o) →
            o.labels.lookup PropagatedFromLabel = some orgOrSpace.namespace_ := by
        intro op hop o ho
        obtain ⟨base, hbase⟩ := hops1 op hop o ho
        rw [hbase]
        exact (propagateRoleBindingMutate_fields isPkg orgOrSpace b base).2.2.2.2
      cases hcp : CreateOrPatch cl { name := b.name, namespace_ := orgOrSpace.name }
          (propagateRoleBindingMutate isPkg orgOrSpace b) c with
      | mk r c1 =>
        rw [hcp] at hlog1
        simp only at hlog1
        cases r with
        | error err => exact ⟨ops1, hlog1, hops1'⟩
        | ok res =>
          simp only
          obtain ⟨ops2, hlog2, hops2⟩ := ih (m ++ [b.name]) c1
          refine ⟨ops1 ++ ops2, ?_, ?_⟩
          · rw [hlog2, hlog1, List.append_assoc]
          · intro op hop
            rcases List.mem_append.1 hop with hop | hop
            · exact hops1' op hop
            · exact hops2 op hop
    · simp only [he, if_false]
      exact ih m c

/-- Every role binding `reconcileRoleBindings` sends, successful or not, carries the label
`propagated-from` with the parent namespace. -/
theorem reconcileRoleBindings_written (isPkg : String → Bool) (cl : Client)
    (orgOrSpace : ObjectMeta) (c : Cluster) :
    ∃ ops, (reconcileRoleBindings isPkg cl orgOrSpace c).2.log = c.log ++ ops ∧
      ∀ op ∈ ops, ∀ o, (op = Op.createRoleBinding o ∨ op = Op.patchRoleBinding o) →
        o.labels.lookup PropagatedFromLabel = some orgOrSpace.namespace_ := by
  unfold reconcileRoleBindings
  have hp1 : ∃ ops, (propagateRoleBindings isPkg cl orgOrSpace c).2.log = c.log ++ ops ∧
      ∀ op ∈ ops, ∀ o, (op = Op.createRoleBinding o ∨ op = Op.patchRoleBinding o) →
        o.labels.lookup PropagatedFromLabel = some orgOrSpace.namespace_ := by
    unfold propagateRoleBindings
    have hstate := listRoleBindings_state cl orgOrSpace.namespace_ none c
    cases hlist : cl.listRoleBindings orgOrSpace.namespace_ none c with
    | mk r c1 =>
      rw [hlist] at hstate
      simp only at hstate
      subst hstate
      cases r with
      | error err =>
        refine ⟨[Op.listRoleBindings orgOrSpace.namespace_ none], rfl, ?_⟩
        intro op hop o ho
        simp only [List.mem_singleton] at hop
        subst hop
        rcases ho with ho | ho <;> cases ho
      | ok items =>
        simp only
        obtain ⟨ops, hlog, hops⟩ := propagateRoleBindingsLoop_written isPkg cl orgOrSpace
          items [] (c.record (Op.listRoleBindings orgOrSpace.namespace_ none))
        refine ⟨Op.listRoleBindings orgOrSpace.namespace_ none :: ops, ?_, ?_⟩
        · rw [hlog]; simp [Cluster.record]
        · intro op hop o ho
          rcases List.mem_cons.1 hop with hop | hop
          · subst hop
            rcases ho with ho | ho <;> cases ho
          · exact hops op hop o ho
  obtain ⟨ops1, hlog1, hops1⟩ := hp1
  cases hp : propagateRoleBindings isPkg cl orgOrSpace c with
  | mk r c2 =>
    rw [hp] at hlog1
    simp only at hlog1
    cases r with
    | error err => exact ⟨ops1, hlog1, hops1⟩
    | ok m =>
      simp only
      obtain ⟨ops2, hlog2, hops2⟩ := deleteOrphanedRoleBindings_log cl orgOrSpace m c2
      refine ⟨ops1 ++ ops2, ?_, ?_⟩
      · rw [hlog2, hlog1, List.append_assoc]
      · intro op hop o ho
        rcases List.mem_append.1 hop with hop | hop
        · exact hops1 op hop o ho
        · exact absurd ho (hops2 op hop o)

theorem createSecret_log (cl : Client) (obj : Secret) (c : Cluster) :
    (cl.createSecret obj c).2.log = c.log ++ [Op.createSecret obj] := by
  rcases createSecret_cases cl obj c with ⟨_, hc⟩ | ⟨_, _, hc⟩ <;> rw [hc] <;> rfl

theorem patchSecret_log (cl : Client) (obj : Secret) (c : Cluster) :
    (cl.patchSecret obj c).2.log = c.log ++ [Op.patchSecret obj] := by
  rcases patchSecret_cases cl obj c with ⟨_, hc⟩ | ⟨_, _, hc⟩ <;> rw [hc] <;> rfl

/-- The secrets a `CreateOrPatchSecret` sends, successful or not, are results of the mutate
function under the key of `obj`. -/
theorem CreateOrPatchSecret_written (cl : Client) (obj : Secret) (f : Secret → Secret)
    (c : Cluster) :
    ∃ ops, (CreateOrPatchSecret cl obj f c).2.log = c.log ++ ops ∧
      ∀ op ∈ ops, ∀ o, (op = Op.createSecret o ∨ op = Op.patchSecret o) →
        (∃ base, o = f base) ∧ o.namespace_ = obj.namespace_ ∧ o.name = obj.name := by
  unfold CreateOrPatchSecret
  have hstate := getSecret_state cl obj.namespace_ obj.name c
  cases hget : cl.getSecret obj.namespace_ obj.name c with
  | mk r c1 =>
    rw [hget] at hstate
    simp only at hstate
    subst hstate
    have hget_only : ∀ op ∈ [Op.getSecret obj.namespace_ obj.name], ∀ o,
        (op = Op.createSecret o ∨ op = Op.patchSecret o) →
        (∃ base, o = f base) ∧ o.namespace_ = obj.namespace_ ∧ o.name = obj.name := by
      intro op hop o ho
      simp only [List.mem_singleton] at hop
      subst hop
      rcases ho with ho | ho <;> cases ho
    cases r with
    | error err =>
      simp only
      by_cases hnf : err.isNotFound = true
      · simp only [hnf, if_true]
        by_cases hkey : (f obj).namespace_ = obj.namespace_ ∧ (f obj).name = obj.name
        · simp only [hkey, and_self, if_true]
          have hlog := createSecret_log cl (f obj)
            (c.record (Op.getSecret obj.namespace_ obj.name))
          cases hcr : cl.createSecret (f obj)
              (c.record (Op.getSecret obj.namespace_ obj.name)) with
          | mk r2 c3 =>
            rw [hcr] at hlog
            simp only at hlog
            refine ⟨[Op.getSecret obj.namespace_ obj.name, Op.createSecret (f obj)], ?_, ?_⟩
            · cases r2 <;> simp [hlog, Cluster.record]
            · intro op hop o ho
              simp only [List.mem_cons, List.mem_singleton, List.not_mem_nil, or_false] at hop
              rcases hop with hop | hop
              · subst hop; rcases ho with ho | ho <;> cases ho
              · subst hop
                rcases ho with ho | ho
                · cases ho; exact ⟨⟨obj, rfl⟩, hkey⟩
                · cases ho
        · simp only [hkey, if_false]
          exact ⟨_, rfl, hget_only⟩
      · simp only [hnf, if_false]
        exact ⟨_, rfl, hget_only⟩
    | ok existing =>
      simp only
      by_cases hkey : (f existing).namespace_ = obj.namespace_ ∧ (f existing).name = obj.name
      · simp only [hkey, and_self, if_true]
        by_cases hsame : f existing = existing
        · simp only [hsame, if_true]
          exact ⟨_, rfl, hget_only⟩
        · simp only [hsame, if_false]
          have hlog := patchSecret_log cl (f existing)
            (c.record (Op.getSecret obj.namespace_ obj.name))
          cases hp : cl.patchSecret (f existing)
              (c.record (Op.getSecret obj.namespace_ obj.name)) with
          | mk r2 c3 =>
            rw [hp] at hlog
            simp only at hlog
            refine ⟨[Op.getSecret obj.namespace_ obj.name, Op.patchSecret (f existing)], ?_, ?_⟩
            · cases r2 <;> simp [hlog, Cluster.record]
            · intro op hop o ho
              simp only [List.mem_cons, List.mem_singleton, List.not_mem_nil, or_false] at hop
              rcases hop with hop | hop
              · subst hop; rcases ho with ho | ho <;> cases ho
              · subst hop
                rcases ho with ho | ho
                · cases ho
                · cases ho; exact ⟨⟨existing, rfl⟩, hkey⟩
      · simp only [hkey, if_false]
        exact ⟨_, rfl, hget_only⟩

/-- The counterexample to claim C18 as stated: `propagateSecrets` writes the secret `tls-cert`
into the child namespace, and that secret has no `propagated-from` label. -/
theorem C18_counterexample_secret_without_label :
    (propagateSecrets sampleIsPackageManagerKey reliableClient sampleOrg ["tls-cert"]
      sampleSecrets).2.log
      = [Op.getSecret "cf" "tls-cert", Op.getSecret "org-1" "tls-cert",
         Op.createSecret { tlsSecret with namespace_ := "org-1" }] ∧
    findObject Secret.toObjectMeta "org-1" "tls-cert"
      (propagateSecrets sampleIsPackageManagerKey reliableClient sampleOrg ["tls-cert"]
        sampleSecrets).2.secrets = some { tlsSecret with namespace_ := "org-1" } ∧
    ({ tlsSecret with namespace_ := "org-1" } : Secret).labels.lookup PropagatedFromLabel
      = none := by
  refine ⟨by decide, by decide, by decide⟩

/-- Claim C18, amended. Every role binding `reconcileRoleBindings` writes, by a create or a
patch and whatever the outcome of the call, carries the label `propagated-from` with the parent
namespace as its value. After a successful `propagateSecrets`, the secret the child namespace
holds for each name carries the labels of the parent secret of that name, without the
package-manager keys: no `propagated-from` label is added to a secret. -/
theorem C18_propagated_from_label (isPkg : String → Bool) (client : Client)
    (orgOrSpace : ObjectMeta) (secretNames : List String) (c : Cluster) :
    (∃ ops, (reconcileRoleBindings isPkg client orgOrSpace c).2.log = c.log ++ ops ∧
      ∀ op ∈ ops, ∀ o, (op = Op.createRoleBinding o ∨ op = Op.patchRoleBinding o) →
        o.labels.lookup PropagatedFromLabel = some orgOrSpace.namespace_) ∧
    (∀ c3, propagateSecrets isPkg client orgOrSpace secretNames c = (.ok (), c3) →
      ∀ name ∈ secretNames, ∃ parent child,
        findObject Secret.toObjectMeta orgOrSpace.namespace_ name c.secrets = some parent ∧
        findObject Secret.toObjectMeta orgOrSpace.name name c3.secrets = some child ∧
        child.labels = RemovePackageManagerKeys isPkg parent.labels) := by
  refine ⟨reconcileRoleBindings_written isPkg client orgOrSpace c, ?_⟩
  intro c3 h name hname
  rw [propagateSecrets_eq_loop] at h
  obtain ⟨_, hall, hfields⟩ := propagateSecretsLoop_ok isPkg client orgOrSpace secretNames c c3 h
  obtain ⟨p, ch, hp, hch, hfix⟩ := hall name hname
  have hf := hfields name
  rw [hp] at hf
  cases hparent : findObject Secret.toObjectMeta orgOrSpace.namespace_ name c.secrets with
  | none => rw [hparent] at hf; cases hf
  | some parent =>
    rw [hparent] at hf
    simp only [Option.map_some', Option.some.injEq, Prod.mk.injEq] at hf
    refine ⟨parent, ch, rfl, hch, ?_⟩
    have : ch.labels = RemovePackageManagerKeys isPkg p.labels := by rw [← hfix]; rfl
    rw [this, hf.2.2.2.2.1]

/-! ## Failures inside `reconcileRoleBindings` -/

theorem listRoleBindings_fault (cl : Client) (ns : String) (selector : Option (String × String))
    (c : Cluster) (err : GoError) (hf : cl.fault c (Op.listRoleBindings ns selector) = some err) :
    cl.listRoleBindings ns selector c = (.error err, c.record (Op.listRoleBindings ns selector)) := by
  unfold Client.listRoleBindings
  simp only [hf]

theorem deleteRoleBinding_error (cl : Client) (obj : RoleBinding) (c c1 : Cluster)
    (err : GoError) (h : cl.deleteRoleBinding obj c = (.error err, c1)) :
    c1 = c.record (Op.deleteRoleBinding obj.namespace_ obj.name) := by
  unfold Client.deleteRoleBinding at h
  cases hf : cl.fault c (Op.deleteRoleBinding obj.namespace_ obj.name) with
  | some e =>
    simp only [hf, Prod.mk.injEq] at h
    exact h.2.symm
  | none =>
    cases hfind : findObject RoleBinding.toObjectMeta obj.namespace_ obj.name c.roleBindings with
    | none =>
      simp only [hf, hfind, Prod.mk.injEq] at h
      exact h.2.symm
    | some a => simp [hf, hfind] at h

theorem deleteOrphanedRoleBindingsLoop_cons (cl : Client) (p : RoleBinding)
    (rest : List RoleBinding) (m : List String) (c : Cluster) :
    deleteOrphanedRoleBindingsLoop cl (p :: rest) m c =
      if p.annotations.index PropagateDeletionAnnotationKey = "false" then
        deleteOrphanedRoleBindingsLoop cl rest m c
      else if p.name ∉ m then
        match cl.deleteRoleBinding p c with
        | (.error err, c1) => (.error err, c1)
        | (.ok _, c1) => deleteOrphanedRoleBindingsLoop cl rest m c1
      else
        deleteOrphanedRoleBindingsLoop cl rest m c := rfl

theorem deleteOrphanedRoleBindingsLoop_append (cl : Client) (pre rest : List RoleBinding)
    (m : List String) :
    ∀ (c c1 : Cluster), deleteOrphanedRoleBindingsLoop cl pre m c = (.ok (), c1) →
      deleteOrphanedRoleBindingsLoop cl (pre ++ rest) m c
        = deleteOrphanedRoleBindingsLoop cl rest m c1 := by
  induction pre with
  | nil =>
    intro c c1 h
    simp only [deleteOrphanedRoleBindingsLoop, Prod.mk.injEq, true_and] at h
    subst h
    rfl
  | cons p pre ih =>
    intro c c1 h
    rw [List.cons_append, deleteOrphanedRoleBindingsLoop_cons]
    rw [deleteOrphanedRoleBindingsLoop_cons] at h
    by_cases hkeep : p.annotations.index PropagateDeletionAnnotationKey = "false"
    · simp only [hkeep, if_true] at h ⊢
      exact ih c c1 h
    · simp only [hkeep, if_false] at h ⊢
      by_cases hin : p.name ∈ m
      · simp only [hin, not_true_eq_false, if_false] at h ⊢
        exact ih c c1 h
      · simp only [hin, not_false_eq_true, if_true] at h ⊢
        cases hdel : cl.deleteRoleBinding p c with
        | mk r c2 =>
          rw [hdel] at h
          cases r with
          | error err => simp at h
          | ok u =>
            simp only at h ⊢
            exact ih c2 c1 h

/-- The counterexample to claim C13 as stated: the list of the child namespace fails,
`reconcileRoleBindings` returns the error, and the child namespace, which held no role binding,
now holds the propagated `admin-binding`. -/
theorem C13_counterexample_created_before_list_fails :
    (reconcileRoleBindings sampleIsPackageManagerKey
      (failingClient (Op.listRoleBindings "org-1" (some (PropagatedFromLabel, "cf"))))
      sampleOrg freshBindings).1 = .error (.failure "store unavailable") ∧
    findObject RoleBinding.toObjectMeta "org-1" "admin-binding" freshBindings.roleBindings
      = none ∧
    (findObject RoleBinding.toObjectMeta "org-1" "admin-binding"
      (reconcileRoleBindings sampleIsPackageManagerKey
        (failingClient (Op.listRoleBindings "org-1" (some (PropagatedFromLabel, "cf"))))
        sampleOrg freshBindings).2.roleBindings).isSome = true := by
  refine ⟨by decide, by decide, by decide⟩

/-- Claim C13, amended. When the list of the parent namespace fails, `reconcileRoleBindings`
returns that error and has made no other call: nothing is created, patched or deleted. When
the propagation has run and the list of the child namespace fails, `reconcileRoleBindings`
returns an error, that of the list when the selector is valid, and the role bindings are as the
propagation left them: nothing is deleted, and what was created or patched stays. -/
theorem C13_list_failures (isPkg : String → Bool) (kClient : Client) (orgOrSpace : ObjectMeta)
    (c : Cluster) :
    (∀ err, kClient.fault c (Op.listRoleBindings orgOrSpace.namespace_ none) = some err →
      reconcileRoleBindings isPkg kClient orgOrSpace c
        = (.error err, c.record (Op.listRoleBindings orgOrSpace.namespace_ none))) ∧
    (∀ m c2 err, propagateRoleBindings isPkg kClient orgOrSpace c = (.ok m, c2) →
      kClient.fault c2
        (Op.listRoleBindings orgOrSpace.name (some (PropagatedFromLabel, orgOrSpace.namespace_)))
        = some err →
      ∃ e c3, reconcileRoleBindings isPkg kClient orgOrSpace c = (.error e, c3) ∧
        c3.roleBindings = c2.roleBindings ∧
        (isValidLabelValue orgOrSpace.namespace_ = true → e = err)) := by
  constructor
  · intro err hf
    unfold reconcileRoleBindings propagateRoleBindings
    rw [listRoleBindings_fault _ _ _ _ _ hf]
  · intro m c2 err hp hf
    unfold reconcileRoleBindings
    rw [hp]
    simp only
    unfold deleteOrphanedRoleBindings ValidatedSelectorFromSet
    by_cases hv : isValidLabelValue orgOrSpace.namespace_ = true
    · simp only [hv, if_true]
      rw [listRoleBindings_fault _ _ _ _ _ hf]
      exact ⟨err, _, rfl, rfl, fun _ => rfl⟩
    · have hv2 : isValidLabelValue orgOrSpace.namespace_ = false := by
        cases hb : isValidLabelValue orgOrSpace.namespace_ with
        | true => exact absurd hb hv
        | false => rfl
      simp only [hv2, Bool.false_eq_true, if_false]
      exact ⟨_, _, rfl, rfl, fun h => absurd h (by simp)⟩

/-- Two runs of the amended claim C13: the list of the parent namespace fails, and the list of
the child namespace fails. -/
theorem C13_list_failures_witness :
    reconcileRoleBindings sampleIsPackageManagerKey
        (failingClient (Op.listRoleBindings "cf" none)) sampleOrg freshBindings
      = (.error (.failure "store unavailable"),
          freshBindings.record (Op.listRoleBindings "cf" none)) ∧
    (∃ e c3, reconcileRoleBindings sampleIsPackageManagerKey
        (failingClient (Op.listRoleBindings "org-1" (some (PropagatedFromLabel, "cf"))))
        sampleOrg freshBindings = (.error e, c3) ∧
      c3.roleBindings = (propagateRoleBindings sampleIsPackageManagerKey
        (failingClient (Op.listRoleBindings "org-1" (some (PropagatedFromLabel, "cf"))))
        sampleOrg freshBindings).2.roleBindings ∧
      (isValidLabelValue sampleOrg.namespace_ = true → e = .failure "store unavailable")) :=
  ⟨(C13_list_failures sampleIsPackageManagerKey
      (failingClient (Op.listRoleBindings "cf" none)) sampleOrg freshBindings).1
      (.failure "store unavailable") (by decide),
    (C13_list_failures sampleIsPackageManagerKey
      (failingClient (Op.listRoleBindings "org-1" (some (PropagatedFromLabel, "cf"))))
      sampleOrg freshBindings).2 ["admin-binding"] _ (.failure "store unavailable")
      (by decide) (by decide)⟩

/-- The counterexample to claim C14 as stated: the child namespace holds the orphans `orphan`
and `orphan-2`, both due for deletion; the deletion of `orphan` fails, `reconcileRoleBindings`
returns the error, and `orphan-2` is still there. -/
theorem C14_counterexample_cleanup_stops :
    (reconcileRoleBindings sampleIsPackageManagerKey
      (failingClient (Op.deleteRoleBinding "org-1" "orphan")) sampleOrg orphanedBindings).1
      = .error (.failure "store unavailable") ∧
    findObject RoleBinding.toObjectMeta "org-1" "orphan-2"
      (reconcileRoleBindings sampleIsPackageManagerKey
        (failingClient (Op.deleteRoleBinding "org-1" "orphan")) sampleOrg
        orphanedBindings).2.roleBindings = some secondOrphanBinding ∧
    secondOrphanBinding.labels.lookup PropagatedFromLabel = some "cf" ∧
    secondOrphanBinding.annotations.index PropagateDeletionAnnotationKey ≠ "false" ∧
    (¬ ∃ b ∈ orphanedBindings.roleBindings, IsEligible sampleOrg b ∧ b.name = "orphan-2") := by
  refine ⟨by decide, by decide, by decide, by decide, by decide⟩

/-- Claim C14, amended. Orphan cleanup stops at the first deletion that fails. Let the
propagation succeed and the child namespace list `pre ++ p :: post` as propagated. When the
bindings of `pre` were handled and the deletion of the orphan `p` fails with `err`,
`reconcileRoleBindings` returns `err` at once: the role bindings are as they were after the
bindings of `pre`, so that no binding of `post` is deleted. -/
theorem C14_cleanup_stops_at_first_failure (isPkg : String → Bool) (kClient : Client)
    (orgOrSpace : ObjectMeta) (pre post : List RoleBinding) (p : RoleBinding)
    (parentRoleBindingMap : List String) (c c1 c2 c3 c4 : Cluster) (err : GoError)
    (hprop : propagateRoleBindings isPkg kClient orgOrSpace c = (.ok parentRoleBindingMap, c1))
    (hvalid : isValidLabelValue orgOrSpace.namespace_ = true)
    (hlist : kClient.listRoleBindings orgOrSpace.name
      (some (PropagatedFromLabel, orgOrSpace.namespace_)) c1 = (.ok (pre ++ p :: post), c2))
    (hpre : deleteOrphanedRoleBindingsLoop kClient pre parentRoleBindingMap c2 = (.ok (), c3))
    (hdue : p.annotations.index PropagateDeletionAnnotationKey ≠ "false")
    (horphan : p.name ∉ parentRoleBindingMap)
    (hdel : kClient.deleteRoleBinding p c3 = (.error err, c4)) :
    reconcileRoleBindings isPkg kClient orgOrSpace c = (.error err, c4) ∧
    c4.roleBindings = c3.roleBindings := by
  constructor
  · unfold reconcileRoleBindings
    rw [hprop]
    simp only
    unfold deleteOrphanedRoleBindings ValidatedSelectorFromSet
    simp only [hvalid, if_true, hlist]
    rw [deleteOrphanedRoleBindingsLoop_append kClient pre _ _ c2 c3 hpre]
    rw [deleteOrphanedRoleBindingsLoop_cons]
    simp only [hdue, if_false, horphan, not_false_eq_true, if_true, hdel]
  · rw [deleteRoleBinding_error _ _ _ _ _ hdel]
    rfl

/-- A run of the amended claim C14: `orphan` is first on the list and its deletion fails;
`orphan-2`, listed after it, stays. -/
theorem C14_cleanup_stops_at_first_failure_witness :
    reconcileRoleBindings sampleIsPackageManagerKey
        (failingClient (Op.deleteRoleBinding "org-1" "orphan")) sampleOrg orphanedBindings
      = (.error (.failure "store unavailable"),
          (reconcileRoleBindings sampleIsPackageManagerKey
            (failingClient (Op.deleteRoleBinding "org-1" "orphan")) sampleOrg
            orphanedBindings).2) ∧
    (reconcileRoleBindings sampleIsPackageManagerKey
        (failingClient (Op.deleteRoleBinding "org-1" "orphan")) sampleOrg
        orphanedBindings).2.roleBindings
      = (propagateRoleBindings sampleIsPackageManagerKey
          (failingClient (Op.deleteRoleBinding "org-1" "orphan")) sampleOrg
          orphanedBindings).2.roleBindings :=
  C14_cleanup_stops_at_first_failure sampleIsPackageManagerKey
    (failingClient (Op.deleteRoleBinding "org-1" "orphan")) sampleOrg
    []
    [secondOrphanBinding,
      propagateRoleBindingMutate sampleIsPackageManagerKey sampleOrg adminBinding
        { name := "admin-binding", namespace_ := "org-1" }]
    orphanBinding ["admin-binding"] orphanedBindings
    (propagateRoleBindings sampleIsPackageManagerKey
      (failingClient (Op.deleteRoleBinding "org-1" "orphan")) sampleOrg orphanedBindings).2
    ((propagateRoleBindings sampleIsPackageManagerKey
      (failingClient (Op.deleteRoleBinding "org-1" "orphan")) sampleOrg
      orphanedBindings).2.record (Op.listRoleBindings "org-1" (some (PropagatedFromLabel, "cf"))))
    ((propagateRoleBindings sampleIsPackageManagerKey
      (failingClient (Op.deleteRoleBinding "org-1" "orphan")) sampleOrg
      orphanedBindings).2.record (Op.listRoleBindings "org-1" (some (PropagatedFromLabel, "cf"))))
    (reconcileRoleBindings sampleIsPackageManagerKey
      (failingClient (Op.deleteRoleBinding "org-1" "orphan")) sampleOrg orphanedBindings).2
    (.failure "store unavailable")
    (by decide) (by decide) (by decide) (by decide) (by decide) (by decide) (by decide)

/-! ## Two prior states of the child namespace -/

theorem mem_roleBindingsOf (ns : String) (c : Cluster) (b : RoleBinding) :
    b ∈ roleBindingsOf ns c ↔ b ∈ c.roleBindings ∧ b.namespace_ = ns := by
  simp [roleBindingsOf]

/-- A labelled child binding that is found after a successful `reconcileRoleBindings` and is not
protected from deletion has the name of an eligible parent binding. -/
theorem reconcileRoleBindings_no_orphan (isPkg : String → Bool) (cl : Client)
    (orgOrSpace : ObjectMeta) (c c3 : Cluster)
    (h : reconcileRoleBindings isPkg cl orgOrSpace c = (.ok (), c3)) (p : RoleBinding)
    (hfind : findObject RoleBinding.toObjectMeta orgOrSpace.name p.name c3.roleBindings = some p)
    (hlabel : p.labels.lookup PropagatedFromLabel = some orgOrSpace.namespace_)
    (hdue : p.annotations.index PropagateDeletionAnnotationKey ≠ "false") :
    ∃ b ∈ c.roleBindings, IsEligible orgOrSpace b ∧ b.name = p.name := by
  obtain ⟨m, c2, hprop, hdel⟩ := reconcileRoleBindings_ok isPkg cl orgOrSpace c c3 h
  obtain ⟨_, _, hm, _, _⟩ := propagateRoleBindings_ok isPkg cl orgOrSpace c c2 m hprop
  obtain ⟨_, hframe, hgone⟩ := deleteOrphanedRoleBindings_ok cl orgOrSpace m c2 c3 hdel
  have hkey := (hasKey_iff _ _ _).1
    (findObject_hasKey RoleBinding.toObjectMeta _ _ _ _ hfind)
  by_cases hin : p.name ∈ m
  · exact (hm p.name).1 hin
  · exfalso
    by_cases hq : ∃ q ∈ c2.roleBindings, q.namespace_ = orgOrSpace.name ∧
        q.labels.lookup PropagatedFromLabel = some orgOrSpace.namespace_ ∧
        q.annotations.index PropagateDeletionAnnotationKey ≠ "false" ∧ q.name ∉ m ∧
        q.name = p.name
    · obtain ⟨q, hqmem, hqns, hqlabel, hqdue, hqm, hqname⟩ := hq
      have hnone := hgone q hqmem hqns hqlabel hqdue hqm
      rw [hqns, hqname, hfind] at hnone
      exact Option.noConfusion hnone
    · have heq := hframe orgOrSpace.name p.name (by
        intro q hqmem hqns hqlabel hqdue hqm hqkey
        exact hq ⟨q, hqmem, hqns, hqlabel, hqdue, hqm, hqkey.2⟩)
      rw [hfind] at heq
      have hmem := findObject_mem RoleBinding.toObjectMeta _ _ _ _ heq.symm
      exact hq ⟨p, hmem, hkey.1, hlabel, hdue, hin, rfl⟩

/-- The counterexample to claim C12 as stated: two stores with the same role bindings in the
parent namespace `cf`, one with an empty child namespace `org-1`, one with a child namespace
that has been used. `reconcileRoleBindings` succeeds on both and leaves different role bindings
in the child namespace: only the second holds `kept-orphan` and `manual`. -/
theorem C12_counterexample_prior_state_shows :
    roleBindingsOf "cf" freshBindings = roleBindingsOf "cf" sampleBindings ∧
    (reconcileRoleBindings sampleIsPackageManagerKey reliableClient sampleOrg freshBindings).1
      = .ok () ∧
    (reconcileRoleBindings sampleIsPackageManagerKey reliableClient sampleOrg sampleBindings).1
      = .ok () ∧
    roleBindingsOf "org-1"
        (reconcileRoleBindings sampleIsPackageManagerKey reliableClient sampleOrg
          freshBindings).2
      ≠ roleBindingsOf "org-1"
        (reconcileRoleBindings sampleIsPackageManagerKey reliableClient sampleOrg
          sampleBindings).2 ∧
    findObject RoleBinding.toObjectMeta "org-1" "kept-orphan"
      (reconcileRoleBindings sampleIsPackageManagerKey reliableClient sampleOrg
        freshBindings).2.roleBindings = none ∧
    findObject RoleBinding.toObjectMeta "org-1" "kept-orphan"
      (reconcileRoleBindings sampleIsPackageManagerKey reliableClient sampleOrg
        sampleBindings).2.roleBindings = some keptOrphanBinding := by
  refine ⟨by decide, by decide, by decide, by decide, by decide, by decide⟩

/-- Claim C12, amended. Take two stores with the same role bindings in the parent namespace and
a successful `reconcileRoleBindings` on each. For every eligible parent binding, both child
namespaces hold a copy under its name, and the two copies have the same annotations, labels,
subjects and role reference. A child binding found afterwards in either store that carries the
`propagated-from` label of the parent namespace and is not protected from deletion has the name
of an eligible parent binding. Nothing is said of unlabelled or protected child bindings, nor of
the other fields of the copies: those stay as the prior state had them. -/
theorem C12_same_parent_same_propagated_fields (isPkg : String → Bool) (kClient : Client)
    (orgOrSpace : ObjectMeta) (c c3 d d3 : Cluster)
    (hc : UniqueRoleBindings c) (hd : UniqueRoleBindings d)
    (hparent : roleBindingsOf orgOrSpace.namespace_ c = roleBindingsOf orgOrSpace.namespace_ d)
    (h1 : reconcileRoleBindings isPkg kClient orgOrSpace c = (.ok (), c3))
    (h2 : reconcileRoleBindings isPkg kClient orgOrSpace d = (.ok (), d3)) :
    (∀ b ∈ c.roleBindings, IsEligible orgOrSpace b →
      ∃ rb1 rb2,
        findObject RoleBinding.toObjectMeta orgOrSpace.name b.name c3.roleBindings = some rb1 ∧
        findObject RoleBinding.toObjectMeta orgOrSpace.name b.name d3.roleBindings = some rb2 ∧
        rb1.annotations = rb2.annotations ∧ rb1.labels = rb2.labels ∧
        rb1.subjects = rb2.subjects ∧ rb1.roleRef = rb2.roleRef) ∧
    (∀ p,
      (findObject RoleBinding.toObjectMeta orgOrSpace.name p.name c3.roleBindings = some p ∨
        findObject RoleBinding.toObjectMeta orgOrSpace.name p.name d3.roleBindings = some p) →
      p.labels.lookup PropagatedFromLabel = some orgOrSpace.namespace_ →
      p.annotations.index PropagateDeletionAnnotationKey ≠ "false" →
      ∃ b ∈ c.roleBindings, IsEligible orgOrSpace b ∧ b.name = p.name) := by
  have hsame : ∀ b, IsEligible orgOrSpace b → (b ∈ c.roleBindings ↔ b ∈ d.roleBindings) := by
    intro b he
    have h1 := mem_roleBindingsOf orgOrSpace.namespace_ c b
    have h2 := mem_roleBindingsOf orgOrSpace.namespace_ d b
    rw [hparent] at h1
    constructor
    · intro hb
      exact (h2.1 (h1.2 ⟨hb, he.1⟩)).1
    · intro hb
      exact (h1.1 (h2.2 ⟨hb, he.1⟩)).1
  constructor
  · intro b hb he
    obtain ⟨base1, hf1⟩ :=
      reconcileRoleBindings_propagated isPkg kClient orgOrSpace c c3 hc h1 b hb he
    obtain ⟨base2, hf2⟩ :=
      reconcileRoleBindings_propagated isPkg kClient orgOrSpace d d3 hd h2 b
        ((hsame b he).1 hb) he
    exact ⟨_, _, hf1, hf2, rfl, rfl, rfl, rfl⟩
  · intro p hp hlabel hdue
    rcases hp with hp | hp
    · exact reconcileRoleBindings_no_orphan isPkg kClient orgOrSpace c c3 h1 p hp hlabel hdue
    · obtain ⟨b, hb, he, hname⟩ :=
        reconcileRoleBindings_no_orphan isPkg kClient orgOrSpace d d3 h2 p hp hlabel hdue
      exact ⟨b, (hsame b he).2 hb, he, hname⟩

/-- A run of the amended claim C12 on the two stores of the counterexample: the copies of
`admin-binding` agree in the four fields though one of them keeps a finalizer of its own. -/
theorem C12_same_parent_same_propagated_fields_witness :
    (findObject RoleBinding.toObjectMeta "org-1" "admin-binding"
      (reconcileRoleBindings sampleIsPackageManagerKey reliableClient sampleOrg
        freshBindings).2.roleBindings).map (fun rb => rb.finalizers) = some [] ∧
    (findObject RoleBinding.toObjectMeta "org-1" "admin-binding"
      (reconcileRoleBindings sampleIsPackageManagerKey reliableClient sampleOrg
        sampleBindings).2.roleBindings).map (fun rb => rb.finalizers) = some ["keep"] ∧
    ((∀ b ∈ freshBindings.roleBindings, IsEligible sampleOrg b →
      ∃ rb1 rb2,
        findObject RoleBinding.toObjectMeta sampleOrg.name b.name
          (reconcileRoleBindings sampleIsPackageManagerKey reliableClient sampleOrg
            freshBindings).2.roleBindings = some rb1 ∧
        findObject RoleBinding.toObjectMeta sampleOrg.name b.name
          (reconcileRoleBindings sampleIsPackageManagerKey reliableClient sampleOrg
            sampleBindings).2.roleBindings = some rb2 ∧
        rb1.annotations = rb2.annotations ∧ rb1.labels = rb2.labels ∧
        rb1.subjects = rb2.subjects ∧ rb1.roleRef = rb2.roleRef) ∧
    (∀ p,
      (findObject RoleBinding.toObjectMeta sampleOrg.name p.name
          (reconcileRoleBindings sampleIsPackageManagerKey reliableClient sampleOrg
            freshBindings).2.roleBindings = some p ∨
        findObject RoleBinding.toObjectMeta sampleOrg.name p.name
          (reconcileRoleBindings sampleIsPackageManagerKey reliableClient sampleOrg
            sampleBindings).2.roleBindings = some p) →
      p.labels.lookup PropagatedFromLabel = some sampleOrg.namespace_ →
      p.annotations.index PropagateDeletionAnnotationKey ≠ "false" →
      ∃ b ∈ freshBindings.roleBindings, IsEligible sampleOrg b ∧ b.name = p.name)) :=
  ⟨by decide, by decide,
    C12_same_parent_same_propagated_fields sampleIsPackageManagerKey reliableClient sampleOrg
      freshBindings
      (reconcileRoleBindings sampleIsPackageManagerKey reliableClient sampleOrg freshBindings).2
      sampleBindings
      (reconcileRoleBindings sampleIsPackageManagerKey reliableClient sampleOrg sampleBindings).2
      (by decide) (by decide) (by decide) (by decide) (by decide)⟩

theorem removeObject_sublist {α : Type} (objectMeta : α → ObjectMeta) (ns name : String)
    (l : List α) : (removeObject objectMeta ns name l).Sublist l := by
  induction l with
  | nil => exact List.Sublist.refl _
  | cons x rest ih =>
    rw [removeObject_cons]
    split
    · exact List.Sublist.cons _ ih
    · exact List.Sublist.cons₂ _ ih

/-! ## What the role-binding calls leave alone -/

theorem SameOtherObjects.refl (c : Cluster) : SameOtherObjects c c := ⟨rfl, rfl, rfl⟩

theorem SameOtherObjects.trans {c c1 c2 : Cluster} (h1 : SameOtherObjects c c1)
    (h2 : SameOtherObjects c1 c2) : SameOtherObjects c c2 :=
  ⟨h2.1.trans h1.1, h2.2.1.trans h1.2.1, h2.2.2.trans h1.2.2⟩

theorem SameOtherObjects.record (c : Cluster) (op : Op) : SameOtherObjects c (c.record op) :=
  ⟨rfl, rfl, rfl⟩

theorem getRoleBinding_frame (cl : Client) (ns name : String) (c : Cluster) :
    SameOtherObjects c (cl.getRoleBinding ns name c).2 := by
  rw [getRoleBinding_state]
  exact SameOtherObjects.record _ _

theorem listRoleBindings_frame (cl : Client) (ns : String) (selector : Option (String × String))
    (c : Cluster) : SameOtherObjects c (cl.listRoleBindings ns selector c).2 := by
  rw [listRoleBindings_state]
  exact SameOtherObjects.record _ _

theorem createRoleBinding_frame (cl : Client) (obj : RoleBinding) (c : Cluster) :
    SameOtherObjects c (cl.createRoleBinding obj c).2 := by
  unfold Client.createRoleBinding
  cases hf : cl.fault c (Op.createRoleBinding obj) with
  | some e => simp only [hf]; exact SameOtherObjects.record _ _
  | none =>
    cases hfind : findObject RoleBinding.toObjectMeta obj.namespace_ obj.name c.roleBindings with
    | some a => simp only [hf, hfind]; exact SameOtherObjects.record _ _
    | none => simp only [hf, hfind]; exact ⟨rfl, rfl, rfl⟩

theorem patchRoleBinding_frame (cl : Client) (obj : RoleBinding) (c : Cluster) :
    SameOtherObjects c (cl.patchRoleBinding obj c).2 := by
  unfold Client.patchRoleBinding
  cases hf : cl.fault c (Op.patchRoleBinding obj) with
  | some e => simp only [hf]; exact SameOtherObjects.record _ _
  | none =>
    cases hfind : findObject RoleBinding.toObjectMeta obj.namespace_ obj.name c.roleBindings with
    | none => simp only [hf, hfind]; exact SameOtherObjects.record _ _
    | some a => simp only [hf, hfind]; exact ⟨rfl, rfl, rfl⟩

theorem deleteRoleBinding_frame (cl : Client) (obj : RoleBinding) (c : Cluster) :
    SameOtherObjects c (cl.deleteRoleBinding obj c).2 := by
  unfold Client.deleteRoleBinding
  cases hf : cl.fault c (Op.deleteRoleBinding obj.namespace_ obj.name) with
  | some e => simp only [hf]; exact SameOtherObjects.record _ _
  | none =>
    cases hfind : findObject RoleBinding.toObjectMeta obj.namespace_ obj.name c.roleBindings with
    | none => simp only [hf, hfind]; exact SameOtherObjects.record _ _
    | some a => simp only [hf, hfind]; exact ⟨rfl, rfl, rfl⟩

theorem CreateOrPatch_frame (cl : Client) (obj : RoleBinding) (f : RoleBinding → RoleBinding)
    (c : Cluster) : SameOtherObjects c (CreateOrPatch cl obj f c).2 := by
  unfold CreateOrPatch
  have hget := getRoleBinding_frame cl obj.namespace_ obj.name c
  cases hg : cl.getRoleBinding obj.namespace_ obj.name c with
  | mk r c1 =>
    rw [hg] at hget
    cases r with
    | error err =>
      simp only
      split
      · split
        · have hcr := createRoleBinding_frame cl (f obj) c1
          cases hc : cl.createRoleBinding (f obj) c1 with
          | mk r2 c2 =>
            rw [hc] at hcr
            cases r2 with
            | error e => exact hget.trans hcr
            | ok u => exact hget.trans hcr
        · exact hget
      · exact hget
    | ok existing =>
      simp only
      split
      · split
        · exact hget
        · have hpa := patchRoleBinding_frame cl (f existing) c1
          cases hp : cl.patchRoleBinding (f existing) c1 with
          | mk r2 c2 =>
            rw [hp] at hpa
            cases r2 with
            | error e => exact hget.trans hpa
            | ok u => exact hget.trans hpa
      · exact hget

theorem propagateRoleBindingsLoop_cons (isPkg : String → Bool) (cl : Client)
    (orgOrSpace : ObjectMeta) (binding : RoleBinding) (rest : List RoleBinding)
    (m : List String) (c : Cluster) :
    propagateRoleBindingsLoop isPkg cl orgOrSpace (binding :: rest) m c =
      if binding.annotations.index PropagateRoleBindingAnnotationKey = "true" then
        match CreateOrPatch cl { name := binding.name, namespace_ := orgOrSpace.name }
            (propagateRoleBindingMutate isPkg orgOrSpace binding) c with
        | (.error err, c1) => (.error err, c1)
        | (.ok _, c1) =>
          propagateRoleBindingsLoop isPkg cl orgOrSpace rest (m ++ [binding.name]) c1
      else
        propagateRoleBindingsLoop isPkg cl orgOrSpace rest m c := rfl

theorem propagateRoleBindingsLoop_frame (isPkg : String → Bool) (cl : Client)
    (orgOrSpace : ObjectMeta) (bs : List RoleBinding) :
    ∀ (m : List String) (c : Cluster),
      SameOtherObjects c (propagateRoleBindingsLoop isPkg cl orgOrSpace bs m c).2 := by
  induction bs with
  | nil => intro m c; exact SameOtherObjects.refl c
  | cons b rest ih =>
    intro m c
    rw [propagateRoleBindingsLoop_cons]
    split
    · have hcp := CreateOrPatch_frame cl { name := b.name, namespace_ := orgOrSpace.name }
        (propagateRoleBindingMutate isPkg orgOrSpace b) c
      cases hc : CreateOrPatch cl { name := b.name, namespace_ := orgOrSpace.name }
          (propagateRoleBindingMutate isPkg orgOrSpace b) c with
      | mk r c1 =>
        rw [hc] at hcp
        cases r with
        | error e => exact hcp
        | ok res => exact hcp.trans (ih _ c1)
    · exact ih m c

theorem deleteOrphanedRoleBindingsLoop_frame (cl : Client) (ps : List RoleBinding) :
    ∀ (m : List String) (c : Cluster),
      SameOtherObjects c (deleteOrphanedRoleBindingsLoop cl ps m c).2 ∧
      (deleteOrphanedRoleBindingsLoop cl ps m c).2.roleBindings.Sublist c.roleBindings := by
  induction ps with
  | nil => intro m c; exact ⟨SameOtherObjects.refl c, List.Sublist.refl _⟩
  | cons p rest ih =>
    intro m c
    rw [deleteOrphanedRoleBindingsLoop_cons]
    split
    · exact ih m c
    · split
      · have hd := deleteRoleBinding_frame cl p c
        have hs : (cl.deleteRoleBinding p c).2.roleBindings.Sublist c.roleBindings := by
          cases hr : cl.deleteRoleBinding p c with
          | mk r c1 =>
            cases r with
            | error e =>
              rw [deleteRoleBinding_error cl p c c1 e hr]
              exact List.Sublist.refl _
            | ok u =>
              rw [deleteRoleBinding_ok cl p c c1 u hr]
              exact removeObject_sublist _ _ _ _
        cases hc : cl.deleteRoleBinding p c with
        | mk r c1 =>
          rw [hc] at hd hs
          cases r with
          | error e => exact ⟨hd, hs⟩
          | ok u => exact ⟨hd.trans (ih m c1).1, (ih m c1).2.trans hs⟩
      · exact ih m c

theorem propagateRoleBindings_frame (isPkg : String → Bool) (cl : Client)
    (orgOrSpace : ObjectMeta) (c : Cluster) :
    SameOtherObjects c (propagateRoleBindings isPkg cl orgOrSpace c).2 := by
  unfold propagateRoleBindings
  have hl := listRoleBindings_frame cl orgOrSpace.namespace_ none c
  cases hc : cl.listRoleBindings orgOrSpace.namespace_ none c with
  | mk r c1 =>
    rw [hc] at hl
    cases r with
    | error e => exact hl
    | ok items => exact hl.trans (propagateRoleBindingsLoop_frame isPkg cl orgOrSpace items [] c1)

theorem deleteOrphanedRoleBindings_frame (cl : Client) (orgOrSpace : ObjectMeta)
    (m : List String) (c : Cluster) :
    SameOtherObjects c (deleteOrphanedRoleBindings cl orgOrSpace m c).2 ∧
    (deleteOrphanedRoleBindings cl orgOrSpace m c).2.roleBindings.Sublist c.roleBindings := by
  unfold deleteOrphanedRoleBindings
  cases hsel : ValidatedSelectorFromSet PropagatedFromLabel orgOrSpace.namespace_ with
  | error e => exact ⟨SameOtherObjects.refl c, List.Sublist.refl _⟩
  | ok sel =>
    simp only
    have hl := listRoleBindings_frame cl orgOrSpace.name (some sel) c
    have hst := listRoleBindings_state cl orgOrSpace.name (some sel) c
    cases hc : cl.listRoleBindings orgOrSpace.name (some sel) c with
    | mk r c1 =>
      rw [hc] at hl hst
      simp only at hst
      cases r with
      | error e =>
        refine ⟨hl, ?_⟩
        simp only [hst]
        exact List.Sublist.refl _
      | ok items =>
        have hloop := deleteOrphanedRoleBindingsLoop_frame cl items m c1
        refine ⟨hl.trans hloop.1, ?_⟩
        have h2 := hloop.2
        rw [hst] at h2
        simp only [hst]
        exact h2

theorem reconcileRoleBindings_frame (isPkg : String → Bool) (cl : Client)
    (orgOrSpace : ObjectMeta) (c : Cluster) :
    SameOtherObjects c (reconcileRoleBindings isPkg cl orgOrSpace c).2 := by
  unfold reconcileRoleBindings
  have hp := propagateRoleBindings_frame isPkg cl orgOrSpace c
  cases hc : propagateRoleBindings isPkg cl orgOrSpace c with
  | mk r c1 =>
    rw [hc] at hp
    cases r with
    | error e => exact hp
    | ok m => exact hp.trans (deleteOrphanedRoleBindings_frame cl orgOrSpace m c1).1

/-! ## A second run of the propagation -/

theorem propagateRoleBindingMutate_idem (isPkg : String → Bool) (orgOrSpace : ObjectMeta)
    (binding base : RoleBinding) :
    propagateRoleBindingMutate isPkg orgOrSpace binding
        (propagateRoleBindingMutate isPkg orgOrSpace binding base)
      = propagateRoleBindingMutate isPkg orgOrSpace binding base := rfl

theorem createRoleBinding_exists (cl : Client) (obj : RoleBinding) (c : Cluster)
    (existing : RoleBinding)
    (hfind : findObject RoleBinding.toObjectMeta obj.namespace_ obj.name c.roleBindings
      = some existing) :
    (cl.createRoleBinding obj c).2 = c.record (Op.createRoleBinding obj) := by
  unfold Client.createRoleBinding
  cases hf : cl.fault c (Op.createRoleBinding obj) with
  | some e => simp only [hf]
  | none => simp only [hf, hfind]

/-- `CreateOrPatch` on an object the store holds as the mutation would leave it writes nothing,
whatever the calls return. -/
theorem CreateOrPatch_noop (cl : Client) (obj : RoleBinding) (f : RoleBinding → RoleBinding)
    (c : Cluster) (existing : RoleBinding)
    (hfind : findObject RoleBinding.toObjectMeta obj.namespace_ obj.name c.roleBindings
      = some existing)
    (hfix : f existing = existing) :
    (CreateOrPatch cl obj f c).2.roleBindings = c.roleBindings := by
  unfold CreateOrPatch
  have hstate := getRoleBinding_state cl obj.namespace_ obj.name c
  cases hget : cl.getRoleBinding obj.namespace_ obj.name c with
  | mk r c1 =>
    rw [hget] at hstate
    simp only at hstate
    subst hstate
    cases r with
    | error err =>
      simp only
      split
      · split
        · rename_i hkey
          have hval := createRoleBinding_exists cl (f obj)
            (c.record (Op.getRoleBinding obj.namespace_ obj.name)) existing
            (by rw [hkey.1, hkey.2]; exact hfind)
          cases hc : cl.createRoleBinding (f obj)
              (c.record (Op.getRoleBinding obj.namespace_ obj.name)) with
          | mk r2 c2 =>
            rw [hc] at hval
            simp only at hval
            subst hval
            cases r2 with
            | error e => rfl
            | ok u => rfl
        · rfl
      · rfl
    | ok rb =>
      have hrb := getRoleBinding_ok cl _ _ _ _ _ hget
      rw [hfind] at hrb
      simp only [Option.some.injEq] at hrb
      subst hrb
      simp only [hfix, if_true]
      split
      · rfl
      · rfl

theorem propagateRoleBindingsLoop_noop (isPkg : String → Bool) (cl : Client)
    (orgOrSpace : ObjectMeta) (bs : List RoleBinding) :
    ∀ (m : List String) (c : Cluster),
      (∀ b ∈ bs, b.annotations.index PropagateRoleBindingAnnotationKey = "true" →
        ∃ e, findObject RoleBinding.toObjectMeta orgOrSpace.name b.name c.roleBindings = some e ∧
          propagateRoleBindingMutate isPkg orgOrSpace b e = e) →
      (propagateRoleBindingsLoop isPkg cl orgOrSpace bs m c).2.roleBindings
        = c.roleBindings := by
  induction bs with
  | nil => intro m c _; rfl
  | cons b rest ih =>
    intro m c hfix
    rw [propagateRoleBindingsLoop_cons]
    split
    · rename_i htrue
      obtain ⟨e, hfind, hmut⟩ := hfix b (List.mem_cons_self _ _) htrue
      have hno := CreateOrPatch_noop cl { name := b.name, namespace_ := orgOrSpace.name }
        (propagateRoleBindingMutate isPkg orgOrSpace b) c e hfind hmut
      cases hc : CreateOrPatch cl { name := b.name, namespace_ := orgOrSpace.name }
          (propagateRoleBindingMutate isPkg orgOrSpace b) c with
      | mk r c1 =>
        rw [hc] at hno
        simp only at hno
        cases r with
        | error err => exact hno
        | ok res =>
          simp only
          rw [ih (m ++ [b.name]) c1 (by
            intro b2 hb2 h2
            rw [hno]
            exact hfix b2 (List.mem_cons_of_mem _ hb2) h2)]
          exact hno
    · exact ih m c (fun b2 hb2 h2 => hfix b2 (List.mem_cons_of_mem _ hb2) h2)

theorem deleteOrphanedRoleBindingsLoop_noop (cl : Client) (ps : List RoleBinding)
    (m : List String) (c : Cluster)
    (h : ∀ p ∈ ps, p.annotations.index PropagateDeletionAnnotationKey ≠ "false" → p.name ∈ m) :
    deleteOrphanedRoleBindingsLoop cl ps m c = (.ok (), c) := by
  induction ps with
  | nil => rfl
  | cons p rest ih =>
    rw [deleteOrphanedRoleBindingsLoop_cons]
    have ih2 := ih (fun q hq hdue => h q (List.mem_cons_of_mem _ hq) hdue)
    by_cases hkeep : p.annotations.index PropagateDeletionAnnotationKey = "false"
    · simp only [hkeep, if_true]
      exact ih2
    · have hin := h p (List.mem_cons_self _ _) hkeep
      simp only [hkeep, if_false, hin, not_true_eq_false]
      exact ih2

theorem propagateRoleBindings_noop (isPkg : String → Bool) (cl : Client)
    (orgOrSpace : ObjectMeta) (c : Cluster)
    (h : ∀ b ∈ c.roleBindings, IsEligible orgOrSpace b →
      ∃ e, findObject RoleBinding.toObjectMeta orgOrSpace.name b.name c.roleBindings = some e ∧
        propagateRoleBindingMutate isPkg orgOrSpace b e = e) :
    (propagateRoleBindings isPkg cl orgOrSpace c).2.roleBindings = c.roleBindings := by
  unfold propagateRoleBindings
  have hst := listRoleBindings_state cl orgOrSpace.namespace_ none c
  cases hc : cl.listRoleBindings orgOrSpace.namespace_ none c with
  | mk r c1 =>
    rw [hc] at hst
    simp only at hst
    subst hst
    cases r with
    | error e => rfl
    | ok items =>
      have hitems := listRoleBindings_ok _ _ _ _ _ _ hc
      simp only
      rw [propagateRoleBindingsLoop_noop]
      · rfl
      · intro b hb htrue
        rw [hitems] at hb
        simp only [List.mem_filter, Bool.and_eq_true, decide_eq_true_eq] at hb
        exact h b hb.1 ⟨hb.2.1, htrue⟩

theorem deleteOrphanedRoleBindings_noop (cl : Client) (orgOrSpace : ObjectMeta)
    (m : List String) (c : Cluster)
    (h : ∀ p ∈ c.roleBindings, p.namespace_ = orgOrSpace.name →
      p.labels.lookup PropagatedFromLabel = some orgOrSpace.namespace_ →
      p.annotations.index PropagateDeletionAnnotationKey ≠ "false" → p.name ∈ m) :
    (deleteOrphanedRoleBindings cl orgOrSpace m c).2.roleBindings = c.roleBindings := by
  unfold deleteOrphanedRoleBindings
  cases hsel : ValidatedSelectorFromSet PropagatedFromLabel orgOrSpace.namespace_ with
  | error e => rfl
  | ok sel =>
    have hselv : sel = (PropagatedFromLabel, orgOrSpace.namespace_) := by
      unfold ValidatedSelectorFromSet at hsel
      split at hsel
      · simp only [Except.ok.injEq] at hsel; exact hsel.symm
      · cases hsel
    subst hselv
    simp only
    have hst := listRoleBindings_state cl orgOrSpace.name
      (some (PropagatedFromLabel, orgOrSpace.namespace_)) c
    cases hc : cl.listRoleBindings orgOrSpace.name
        (some (PropagatedFromLabel, orgOrSpace.namespace_)) c with
    | mk r c1 =>
      rw [hc] at hst
      simp only at hst
      subst hst
      cases r with
      | error e => rfl
      | ok items =>
        have hitems := listRoleBindings_ok _ _ _ _ _ _ hc
        simp only
        rw [deleteOrphanedRoleBindingsLoop_noop]
        · rfl
        · intro p hp hdue
          rw [hitems] at hp
          simp only [List.mem_filter, Bool.and_eq_true, decide_eq_true_eq, matchesSelector]
            at hp
          exact h p hp.1 hp.2.1 hp.2.2 hdue

/-- When every eligible parent binding has its copy in the child namespace as the mutation
would leave it, and every labelled child binding that may be deleted has the name of an eligible
parent binding, `reconcileRoleBindings` changes no role binding, whatever the calls return. -/
theorem reconcileRoleBindings_noop (isPkg : String → Bool) (cl : Client)
    (orgOrSpace : ObjectMeta) (c : Cluster)
    (h1 : ∀ b ∈ c.roleBindings, IsEligible orgOrSpace b →
      ∃ e, findObject RoleBinding.toObjectMeta orgOrSpace.name b.name c.roleBindings = some e ∧
        propagateRoleBindingMutate isPkg orgOrSpace b e = e)
    (h2 : ∀ p ∈ c.roleBindings, p.namespace_ = orgOrSpace.name →
      p.labels.lookup PropagatedFromLabel = some orgOrSpace.namespace_ →
      p.annotations.index PropagateDeletionAnnotationKey ≠ "false" →
      ∃ b ∈ c.roleBindings, IsEligible orgOrSpace b ∧ b.name = p.name) :
    (reconcileRoleBindings isPkg cl orgOrSpace c).2.roleBindings = c.roleBindings := by
  unfold reconcileRoleBindings
  have hp := propagateRoleBindings_noop isPkg cl orgOrSpace c h1
  cases hc : propagateRoleBindings isPkg cl orgOrSpace c with
  | mk r c1 =>
    rw [hc] at hp
    simp only at hp
    cases r with
    | error e => exact hp
    | ok m =>
      simp only
      obtain ⟨_, _, hm, _, _⟩ := propagateRoleBindings_ok isPkg cl orgOrSpace c c1 m hc
      rw [deleteOrphanedRoleBindings_noop cl orgOrSpace m c1 (by
        intro p hpm hns hlabel hdue
        rw [hp] at hpm
        exact (hm p.name).2 (h2 p hpm hns hlabel hdue))]
      exact hp

theorem UniqueRoleBindings_of_sublist (c c2 : Cluster)
    (hsub : c2.roleBindings.Sublist c.roleBindings) (hu : UniqueRoleBindings c) :
    UniqueRoleBindings c2 := by
  unfold UniqueRoleBindings at hu ⊢
  exact List.Nodup.sublist (List.Sublist.map _ hsub) hu

theorem findObject_of_mem_unique (c : Cluster) (hu : UniqueRoleBindings c) (b : RoleBinding)
    (hb : b ∈ c.roleBindings) :
    findObject RoleBinding.toObjectMeta b.namespace_ b.name c.roleBindings = some b :=
  findObject_of_mem_nodup RoleBinding.toObjectMeta c.roleBindings b hu hb

/-- After a successful `reconcileRoleBindings` on a store whose child namespace held no role
binding, the store is settled: every eligible parent binding has its copy as the mutation would
leave it, and every labelled child binding that may be deleted has the name of an eligible
parent binding. -/
theorem reconcileRoleBindings_settled (isPkg : String → Bool) (cl : Client)
    (orgOrSpace : ObjectMeta) (c c3 : Cluster) (hu : UniqueRoleBindings c)
    (hempty : ∀ rb ∈ c.roleBindings, rb.namespace_ ≠ orgOrSpace.name)
    (h : reconcileRoleBindings isPkg cl orgOrSpace c = (.ok (), c3)) :
    (∀ b ∈ c3.roleBindings, IsEligible orgOrSpace b →
      ∃ e, findObject RoleBinding.toObjectMeta orgOrSpace.name b.name c3.roleBindings = some e ∧
        propagateRoleBindingMutate isPkg orgOrSpace b e = e) ∧
    (∀ p ∈ c3.roleBindings, p.namespace_ = orgOrSpace.name →
      p.labels.lookup PropagatedFromLabel = some orgOrSpace.namespace_ →
      p.annotations.index PropagateDeletionAnnotationKey ≠ "false" →
      ∃ b ∈ c3.roleBindings, IsEligible orgOrSpace b ∧ b.name = p.name) := by
  obtain ⟨m, c2, hprop, hdel⟩ := reconcileRoleBindings_ok isPkg cl orgOrSpace c c3 h
  obtain ⟨_, hu2f, hm, hframeP, _⟩ := propagateRoleBindings_ok isPkg cl orgOrSpace c c2 m hprop
  have hu2 := hu2f hu
  obtain ⟨_, hframeD, _⟩ := deleteOrphanedRoleBindings_ok cl orgOrSpace m c2 c3 hdel
  have hsub : c3.roleBindings.Sublist c2.roleBindings := by
    have hs := (deleteOrphanedRoleBindings_frame cl orgOrSpace m c2).2
    rw [hdel] at hs
    exact hs
  have hu3 := UniqueRoleBindings_of_sublist c2 c3 hsub hu2
  -- a binding of the final state was there at the start or was written into the child namespace
  have hG : ∀ x ∈ c3.roleBindings,
      x ∈ c.roleBindings ∨ (x.namespace_ = orgOrSpace.name ∧ x.name ∈ m) := by
    intro x hx
    have hx2 := findObject_of_mem_unique c2 hu2 x (hsub.subset hx)
    by_cases hk : x.namespace_ = orgOrSpace.name ∧ x.name ∈ m
    · exact Or.inr hk
    · rw [hframeP x.namespace_ x.name hk] at hx2
      exact Or.inl (findObject_mem _ _ _ _ _ hx2)
  -- a parent binding of the start is still there at the end
  have hK : ∀ b ∈ c.roleBindings, b ∈ c3.roleBindings := by
    intro b hb
    have hne := hempty b hb
    have hf := findObject_of_mem_unique c hu b hb
    rw [← hframeP b.namespace_ b.name (fun hk => hne hk.1)] at hf
    rw [← hframeD b.namespace_ b.name (by
      intro p _ hpns _ _ _ hkey
      exact hne (hkey.1.symm.trans hpns))] at hf
    exact findObject_mem _ _ _ _ _ hf
  constructor
  · intro b hb he
    rcases hG b hb with hbc | hbw
    · obtain ⟨base, hfind⟩ :=
        reconcileRoleBindings_propagated isPkg cl orgOrSpace c c3 hu h b hbc he
      exact ⟨_, hfind, propagateRoleBindingMutate_idem isPkg orgOrSpace b base⟩
    · exfalso
      obtain ⟨b0, hb0, he0, _⟩ := (hm b.name).1 hbw.2
      exact hempty b0 hb0 (he0.1.trans (he.1.symm.trans hbw.1))
  · intro p hp hns hlabel hdue
    have hfind := findObject_of_mem_unique c3 hu3 p hp
    rw [hns] at hfind
    obtain ⟨b, hb, he, hname⟩ :=
      reconcileRoleBindings_no_orphan isPkg cl orgOrSpace c c3 h p hfind hlabel hdue
    exact ⟨b, hK b hb, he, hname⟩

/-- Claim C11. Start from a store whose child namespace is empty and in which no two role
bindings share a namespace and a name, and let `propagateSecrets` and `reconcileRoleBindings`
succeed. Running the two again on the result, with the same secret names, leaves the same
objects of every kind, whatever the store answers in the second run. -/
theorem C11_propagation_idempotent (isPkg : String → Bool) (kClient : Client)
    (orgOrSpace : ObjectMeta) (secretNames : List String) (c c1 c2 : Cluster)
    (hempty : ChildNamespaceEmpty orgOrSpace c) (hu : UniqueRoleBindings c)
    (hsecrets : propagateSecrets isPkg kClient orgOrSpace secretNames c = (.ok (), c1))
    (hbindings : reconcileRoleBindings isPkg kClient orgOrSpace c1 = (.ok (), c2)) :
    (reconcileRoleBindings isPkg kClient orgOrSpace
        (propagateSecrets isPkg kClient orgOrSpace secretNames c2).2).2.cfApps = c2.cfApps ∧
    (reconcileRoleBindings isPkg kClient orgOrSpace
        (propagateSecrets isPkg kClient orgOrSpace secretNames c2).2).2.roleBindings
      = c2.roleBindings ∧
    (reconcileRoleBindings isPkg kClient orgOrSpace
        (propagateSecrets isPkg kClient orgOrSpace secretNames c2).2).2.secrets = c2.secrets ∧
    (reconcileRoleBindings isPkg kClient orgOrSpace
        (propagateSecrets isPkg kClient orgOrSpace secretNames c2).2).2.namespaces
      = c2.namespaces := by
  rw [propagateSecrets_eq_loop] at hsecrets ⊢
  -- the first run
  have hany1 := propagateSecretsLoop_any isPkg kClient orgOrSpace secretNames c
  rw [hsecrets] at hany1
  have hdone := (propagateSecretsLoop_ok isPkg kClient orgOrSpace secretNames c c1 hsecrets).2.1
  have hf2 := reconcileRoleBindings_frame isPkg kClient orgOrSpace c1
  rw [hbindings] at hf2
  have hu1 : UniqueRoleBindings c1 := by
    unfold UniqueRoleBindings at hu ⊢
    rw [hany1.2.1]
    exact hu
  have hsettled := reconcileRoleBindings_settled isPkg kClient orgOrSpace c1 c2 hu1
    (by rw [hany1.2.1]; exact hempty.2.1) hbindings
  -- the second run
  have hany3 := propagateSecretsLoop_any isPkg kClient orgOrSpace secretNames c2
  have hs3 := propagateSecretsLoop_noop isPkg kClient orgOrSpace secretNames c2 (by
    intro k hk
    rw [hf2.2.1]
    exact hdone k hk)
  have hf4 := reconcileRoleBindings_frame isPkg kClient orgOrSpace
    (propagateSecretsLoop isPkg kClient orgOrSpace secretNames c2).2
  have hr4 := reconcileRoleBindings_noop isPkg kClient orgOrSpace
    (propagateSecretsLoop isPkg kClient orgOrSpace secretNames c2).2
    (by rw [hany3.2.1]; exact hsettled.1) (by rw [hany3.2.1]; exact hsettled.2)
  exact ⟨hf4.1.trans hany3.1, hr4.trans hany3.2.1, hf4.2.1.trans hs3,
    hf4.2.2.trans hany3.2.2.1⟩

/-- A run of claim C11 on a store with two secrets and an eligible role binding in the parent
namespace: the first run writes three objects into the empty child namespace, the second run
leaves them as they are. -/
theorem C11_propagation_idempotent_witness :
    ChildNamespaceEmpty sampleOrg freshStore ∧
    (roleBindingsOf "org-1"
      (reconcileRoleBindings sampleIsPackageManagerKey reliableClient sampleOrg
        (propagateSecrets sampleIsPackageManagerKey reliableClient sampleOrg
          ["registry-credentials", "tls-cert"] freshStore).2).2).length = 1 ∧
    ((reconcileRoleBindings sampleIsPackageManagerKey reliableClient sampleOrg
        (propagateSecrets sampleIsPackageManagerKey reliableClient sampleOrg
          ["registry-credentials", "tls-cert"] freshStore).2).2.secrets.filter
      (fun s => decide (s.namespace_ = "org-1"))).length = 2 ∧
    (reconcileRoleBindings sampleIsPackageManagerKey reliableClient sampleOrg
        (propagateSecrets sampleIsPackageManagerKey reliableClient sampleOrg
          ["registry-credentials", "tls-cert"]
          (reconcileRoleBindings sampleIsPackageManagerKey reliableClient sampleOrg
            (propagateSecrets sampleIsPackageManagerKey reliableClient sampleOrg
              ["registry-credentials", "tls-cert"] freshStore).2).2).2).2.cfApps
      = (reconcileRoleBindings sampleIsPackageManagerKey reliableClient sampleOrg
          (propagateSecrets sampleIsPackageManagerKey reliableClient sampleOrg
            ["registry-credentials", "tls-cert"] freshStore).2).2.cfApps ∧
    (reconcileRoleBindings sampleIsPackageManagerKey reliableClient sampleOrg
        (propagateSecrets sampleIsPackageManagerKey reliableClient sampleOrg
          ["registry-credentials", "tls-cert"]
          (reconcileRoleBindings sampleIsPackageManagerKey reliableClient sampleOrg
            (propagateSecrets sampleIsPackageManagerKey reliableClient sampleOrg
              ["registry-credentials", "tls-cert"] freshStore).2).2).2).2.roleBindings
      = (reconcileRoleBindings sampleIsPackageManagerKey reliableClient sampleOrg
          (propagateSecrets sampleIsPackageManagerKey reliableClient sampleOrg
            ["registry-credentials", "tls-cert"] freshStore).2).2.roleBindings ∧
    (reconcileRoleBindings sampleIsPackageManagerKey reliableClient sampleOrg
        (propagateSecrets sampleIsPackageManagerKey reliableClient sampleOrg
          ["registry-credentials", "tls-cert"]
          (reconcileRoleBindings sampleIsPackageManagerKey reliableClient sampleOrg
            (propagateSecrets sampleIsPackageManagerKey reliableClient sampleOrg
              ["registry-credentials", "tls-cert"] freshStore).2).2).2).2.secrets
      = (reconcileRoleBindings sampleIsPackageManagerKey reliableClient sampleOrg
          (propagateSecrets sampleIsPackageManagerKey reliableClient sampleOrg
            ["registry-credentials", "tls-cert"] freshStore).2).2.secrets ∧
    (reconcileRoleBindings sampleIsPackageManagerKey reliableClient sampleOrg
        (propagateSecrets sampleIsPackageManagerKey reliableClient sampleOrg
          ["registry-credentials", "tls-cert"]
          (reconcileRoleBindings sampleIsPackageManagerKey reliableClient sampleOrg
            (propagateSecrets sampleIsPackageManagerKey reliableClient sampleOrg
              ["registry-credentials", "tls-cert"] freshStore).2).2).2).2.namespaces
      = (reconcileRoleBindings sampleIsPackageManagerKey reliableClient sampleOrg
          (propagateSecrets sampleIsPackageManagerKey reliableClient sampleOrg
            ["registry-credentials", "tls-cert"] freshStore).2).2.namespaces :=
  ⟨by decide, by decide, by decide,
    C11_propagation_idempotent sampleIsPackageManagerKey reliableClient sampleOrg
      ["registry-credentials", "tls-cert"] freshStore
      (propagateSecrets sampleIsPackageManagerKey reliableClient sampleOrg
        ["registry-credentials", "tls-cert"] freshStore).2
      (reconcileRoleBindings sampleIsPackageManagerKey reliableClient sampleOrg
        (propagateSecrets sampleIsPackageManagerKey reliableClient sampleOrg
          ["registry-credentials", "tls-cert"] freshStore).2).2
      (by decide) (by decide) (by decide) (by decide)⟩

/-! ## `CreateDeployment`: when the patch is sent, and what it leaves alone -/

theorem patchCFApp_log (cl : Client) (obj : CFApp) (c : Cluster) :
    (cl.patchCFApp obj c).2.log = c.log ++ [Op.patchCFApp obj] := by
  unfold Client.patchCFApp
  cases hf : cl.fault c (Op.patchCFApp obj) with
  | some e => simp [hf, Cluster.record]
  | none =>
    cases hfind : findObject CFApp.toObjectMeta obj.namespace_ obj.name c.cfApps with
    | none => simp [hf, hfind, Cluster.record]
    | some a => simp [hf, hfind, Cluster.record]

theorem bumpAppRev_empty : ∃ e, bumpAppRev "" = .error e := ⟨_, rfl⟩

/-- Every run of `CreateDeployment` either fails before the patch, having made at most the
`Get` of the app, or has read an app with a revision that `bumpAppRev` accepts and has sent one
patch, that of the closure applied to the app read. -/
theorem CreateDeployment_calls (ts : ObjectMeta → String × Option GoError) (r : DeploymentRepo)
    (authInfo : AuthInfo) (message : CreateDeploymentMessage) (c : Cluster) :
    ((∃ err, (CreateDeployment ts r authInfo message c).1 = .error err) ∧
      ((CreateDeployment ts r authInfo message c).2 = c ∨
        ∃ ns, (CreateDeployment ts r authInfo message c).2
          = c.record (Op.getCFApp ns message.appGUID))) ∨
    (∃ ns app newRev,
      findObject CFApp.toObjectMeta ns message.appGUID c.cfApps = some app ∧
      bumpAppRev (app.annotations.index CFAppRevisionKey) = .ok newRev ∧
      (CreateDeployment ts r authInfo message c).2.log = c.log ++
        [Op.getCFApp ns message.appGUID,
          Op.patchCFApp (createDeploymentModify (deploymentDroplet message app) newRev app)]) := by
  unfold CreateDeployment
  cases hns : r.namespaceRetriever message.appGUID AppResourceType with
  | error e => exact Or.inl ⟨⟨e, rfl⟩, Or.inl rfl⟩
  | ok ns =>
    cases hcl : r.userClientFactory authInfo with
    | error e => exact Or.inl ⟨⟨_, rfl⟩, Or.inl rfl⟩
    | ok cl =>
      simp only
      have hstate := getCFApp_log cl ns message.appGUID c
      cases hget : cl.getCFApp ns message.appGUID c with
      | mk res c1 =>
        rw [hget] at hstate
        simp only at hstate
        subst hstate
        cases res with
        | error e => exact Or.inl ⟨⟨_, rfl⟩, Or.inr ⟨ns, rfl⟩⟩
        | ok app =>
          simp only
          obtain ⟨hfind, _⟩ := getCFApp_ok _ _ _ _ _ _ hget
          cases hb : bumpAppRev (app.annotations.index CFAppRevisionKey) with
          | error e => exact Or.inl ⟨⟨_, rfl⟩, Or.inr ⟨ns, rfl⟩⟩
          | ok newRev =>
            refine Or.inr ⟨ns, app, newRev, hfind, hb, ?_⟩
            simp only [PatchResource]
            have hlog := patchCFApp_log cl
              (createDeploymentModify (deploymentDroplet message app) newRev app)
              (c.record (Op.getCFApp ns message.appGUID))
            cases hpatch : cl.patchCFApp (createDeploymentModify
                (deploymentDroplet message app) newRev app)
                (c.record (Op.getCFApp ns message.appGUID)) with
            | mk res2 c3 =>
              rw [hpatch] at hlog
              simp only at hlog
              cases res2 with
              | error e => simp [hlog, Cluster.record]
              | ok app1 => simp [hlog, Cluster.record]

theorem index_of_lookup_none (m : GoMap) (k : String) (h : m.lookup k = none) :
    m.index k = "" := by
  unfold GoMap.index
  rw [h]

/-- Claim C25. For an empty list of secret names `propagateSecrets` returns no error and leaves
the state as it is: the store objects, and the log of calls, so that no call is made on the
store. -/
theorem C25_no_secret_names (isPkg : String → Bool) (kClient : Client)
    (orgOrSpace : ObjectMeta) (c : Cluster) :
    propagateSecrets isPkg kClient orgOrSpace [] c = (.ok (), c) := by
  simp [propagateSecrets]

/-- Claim C28. When no app of the name asked for has a revision annotation, whether its
annotations are nil or lack the key, `CreateDeployment` returns an error and sends no patch.
In every run the patches sent are those of the closure applied to an app whose annotations are
a map holding the revision key: the annotations of the patched app are that map with the new
revision stored, never a fresh map. -/
theorem C28_no_revision_no_patch (ts : ObjectMeta → String × Option GoError)
    (r : DeploymentRepo) (authInfo : AuthInfo) (message : CreateDeploymentMessage)
    (c : Cluster) :
    ((∀ app ∈ c.cfApps, app.name = message.appGUID →
        app.annotations.lookup CFAppRevisionKey = none) →
      (∃ err, (CreateDeployment ts r authInfo message c).1 = .error err) ∧
      (CreateDeployment ts r authInfo message c).2.cfApps = c.cfApps ∧
      ∃ ops, (CreateDeployment ts r authInfo message c).2.log = c.log ++ ops ∧
        ∀ obj, Op.patchCFApp obj ∉ ops) ∧
    (∃ ops, (CreateDeployment ts r authInfo message c).2.log = c.log ++ ops ∧
      ∀ obj, Op.patchCFApp obj ∈ ops →
        ∃ ns app entries rev newRev,
          findObject CFApp.toObjectMeta ns message.appGUID c.cfApps = some app ∧
          app.annotations = some entries ∧
          Entries.get CFAppRevisionKey entries = some rev ∧
          obj = createDeploymentModify (deploymentDroplet message app) newRev app ∧
          obj.annotations = some (Entries.set CFAppRevisionKey newRev entries)) := by
  have hcalls := CreateDeployment_calls ts r authInfo message c
  constructor
  · intro hnone
    rcases hcalls with ⟨herr, hstate⟩ | ⟨ns, app, newRev, hfind, hb, _⟩
    · refine ⟨herr, ?_⟩
      rcases hstate with hstate | ⟨ns, hstate⟩
      · rw [hstate]
        exact ⟨rfl, [], by simp, by simp⟩
      · rw [hstate]
        exact ⟨rfl, [Op.getCFApp ns message.appGUID], rfl, by simp⟩
    · exfalso
      have hkey := (hasKey_iff _ _ _).1 (findObject_hasKey CFApp.toObjectMeta _ _ _ _ hfind)
      have hlook := hnone app (findObject_mem CFApp.toObjectMeta _ _ _ _ hfind) hkey.2
      rw [index_of_lookup_none _ _ hlook] at hb
      obtain ⟨e, he⟩ := bumpAppRev_empty
      rw [he] at hb
      exact Except.noConfusion hb
  · rcases hcalls with ⟨_, hstate⟩ | ⟨ns, app, newRev, hfind, hb, hlog⟩
    · rcases hstate with hstate | ⟨ns, hstate⟩
      · rw [hstate]
        exact ⟨[], by simp, by simp⟩
      · rw [hstate]
        exact ⟨[Op.getCFApp ns message.appGUID], rfl, by simp⟩
    · refine ⟨_, hlog, ?_⟩
      intro obj hobj
      simp only [List.mem_cons, List.mem_singleton, Op.patchCFApp.injEq, false_or,
        List.not_mem_nil, or_false] at hobj
      cases hann : app.annotations with
      | none =>
        exfalso
        have hlook : app.annotations.lookup CFAppRevisionKey = none := by
          rw [hann]; rfl
        rw [index_of_lookup_none _ _ hlook] at hb
        obtain ⟨e, he⟩ := bumpAppRev_empty
        rw [he] at hb
        exact Except.noConfusion hb
      | some entries =>
        cases hget : Entries.get CFAppRevisionKey entries with
        | none =>
          exfalso
          have hlook : app.annotations.lookup CFAppRevisionKey = none := by
            rw [hann]; exact hget
          rw [index_of_lookup_none _ _ hlook] at hb
          obtain ⟨e, he⟩ := bumpAppRev_empty
          rw [he] at hb
          exact Except.noConfusion hb
        | some rev =>
          have hobj2 : obj = createDeploymentModify (deploymentDroplet message app) newRev app := by
            rcases hobj with hbad | hobj
            · exact Op.noConfusion hbad
            · exact hobj
          refine ⟨ns, app, entries, rev, newRev, hfind, hann, hget, hobj2, ?_⟩
          rw [hobj2]
          simp [createDeploymentModify, hann]

/-- A run of claim C28: the app `app-1` has no annotations, `CreateDeployment` fails and the
only call is the `Get` of the app. -/
theorem C28_no_revision_no_patch_witness :
    (CreateDeployment sampleTimestamp sampleRepo {} sampleMessage bareCluster).2.log
      = [Op.getCFApp "space-1" "app-1"] ∧
    ((∃ err, (CreateDeployment sampleTimestamp sampleRepo {} sampleMessage bareCluster).1
        = .error err) ∧
      (CreateDeployment sampleTimestamp sampleRepo {} sampleMessage bareCluster).2.cfApps
        = bareCluster.cfApps ∧
      ∃ ops, (CreateDeployment sampleTimestamp sampleRepo {} sampleMessage bareCluster).2.log
          = bareCluster.log ++ ops ∧
        ∀ obj, Op.patchCFApp obj ∉ ops) :=
  ⟨by decide,
    (C28_no_revision_no_patch sampleTimestamp sampleRepo {} sampleMessage bareCluster).1
      (by decide)⟩

/-- Claim C29. A successful `CreateDeployment` leaves the app under its name and namespace; the
labels, every annotation but the revision, the owner references, the finalizers, the spec
fields other than the droplet reference and the desired state, and the status keep the value
the app had; every other app and every role binding is as it was. -/
theorem C29_deployment_frame (ts : ObjectMeta → String × Option GoError) (r : DeploymentRepo)
    (authInfo : AuthInfo) (message : CreateDeploymentMessage) (c c2 : Cluster)
    (record : DeploymentRecord)
    (h : CreateDeployment ts r authInfo message c = (.ok record, c2)) :
    ∃ ns before after,
      r.namespaceRetriever message.appGUID AppResourceType = .ok ns ∧
      findObject CFApp.toObjectMeta ns message.appGUID c.cfApps = some before ∧
      findObject CFApp.toObjectMeta ns message.appGUID c2.cfApps = some after ∧
      after.name = before.name ∧ after.namespace_ = before.namespace_ ∧
      after.labels = before.labels ∧
      (∀ k, k ≠ CFAppRevisionKey →
        after.annotations.lookup k = before.annotations.lookup k) ∧
      after.ownerReferences = before.ownerReferences ∧
      after.finalizers = before.finalizers ∧
      after.spec.displayName = before.spec.displayName ∧
      after.spec.envSecretName = before.spec.envSecretName ∧
      after.status = before.status ∧
      (∀ ns2 name2, ¬ (ns2 = ns ∧ name2 = message.appGUID) →
        findObject CFApp.toObjectMeta ns2 name2 c2.cfApps
          = findObject CFApp.toObjectMeta ns2 name2 c.cfApps) ∧
      c2.roleBindings = c.roleBindings := by
  obtain ⟨ns, app, newRev, hns, hfind, _, _, happs, hrb, _⟩ :=
    CreateDeployment_ok ts r authInfo message c c2 record h
  have hkey := (hasKey_iff _ _ _).1 (findObject_hasKey CFApp.toObjectMeta _ _ _ _ hfind)
  have hmeta := createDeploymentModify_meta (deploymentDroplet message app) newRev app
  have hafter : findObject CFApp.toObjectMeta ns message.appGUID c2.cfApps
      = some (createDeploymentModify (deploymentDroplet message app) newRev app) := by
    rw [happs]
    have hsame := findObject_replaceObject_same CFApp.toObjectMeta
      (createDeploymentModify (deploymentDroplet message app) newRev app) c.cfApps app
      (by rw [hmeta.1, hmeta.2, hkey.1, hkey.2]; exact hfind)
    rw [hmeta.1, hmeta.2, hkey.1, hkey.2] at hsame
    exact hsame
  refine ⟨ns, app, _, hns, hfind, hafter, hmeta.1, hmeta.2, rfl, ?_, rfl, rfl, rfl, rfl, rfl,
    ?_, hrb⟩
  · intro k hk
    cases hann : app.annotations with
    | none =>
      simp only [createDeploymentModify, hann, GoMap.lookup]
      exact Entries.get_set_other _ _ _ _ hk
    | some entries =>
      simp only [createDeploymentModify, hann, GoMap.lookup]
      exact Entries.get_set_other _ _ _ _ hk
  · intro ns2 name2 hne
    rw [happs]
    apply findObject_replaceObject_other
    cases hk : (createDeploymentModify (deploymentDroplet message app) newRev
        app).toObjectMeta.hasKey ns2 name2 with
    | false => rfl
    | true =>
      exfalso
      have hk2 := (hasKey_iff _ _ _).1 hk
      apply hne
      constructor
      · rw [← hk2.1]
        exact hmeta.2.trans hkey.1
      · rw [← hk2.2]
        exact hmeta.1.trans hkey.2

/-- A run of claim C29 on `app-1` at revision 5: the label `team` and the annotation `owner`
are as before. -/
theorem C29_deployment_frame_witness :
    (findObject CFApp.toObjectMeta "space-1" "app-1"
      (CreateDeployment sampleTimestamp sampleRepo {} sampleMessage
        (sampleCluster "5" "False")).2.cfApps).map
        (fun app => (app.labels, app.annotations.lookup "owner", app.spec.displayName))
      = some (some [("team", "blue")], some "alice", "shop") ∧
    ∃ ns before after,
      sampleRepo.namespaceRetriever sampleMessage.appGUID AppResourceType = .ok ns ∧
      findObject CFApp.toObjectMeta ns sampleMessage.appGUID (sampleCluster "5" "False").cfApps
        = some before ∧
      findObject CFApp.toObjectMeta ns sampleMessage.appGUID
        (CreateDeployment sampleTimestamp sampleRepo {} sampleMessage
          (sampleCluster "5" "False")).2.cfApps = some after ∧
      after.name = before.name ∧ after.namespace_ = before.namespace_ ∧
      after.labels = before.labels ∧
      (∀ k, k ≠ CFAppRevisionKey →
        after.annotations.lookup k = before.annotations.lookup k) ∧
      after.ownerReferences = before.ownerReferences ∧
      after.finalizers = before.finalizers ∧
      after.spec.displayName = before.spec.displayName ∧
      after.spec.envSecretName = before.spec.envSecretName ∧
      after.status = before.status ∧
      (∀ ns2 name2, ¬ (ns2 = ns ∧ name2 = sampleMessage.appGUID) →
        findObject CFApp.toObjectMeta ns2 name2
            (CreateDeployment sampleTimestamp sampleRepo {} sampleMessage
              (sampleCluster "5" "False")).2.cfApps
          = findObject CFApp.toObjectMeta ns2 name2 (sampleCluster "5" "False").cfApps) ∧
      (CreateDeployment sampleTimestamp sampleRepo {} sampleMessage
          (sampleCluster "5" "False")).2.roleBindings
        = (sampleCluster "5" "False").roleBindings :=
  ⟨by decide,
    C29_deployment_frame sampleTimestamp sampleRepo {} sampleMessage (sampleCluster "5" "False")
      (CreateDeployment sampleTimestamp sampleRepo {} sampleMessage
        (sampleCluster "5" "False")).2
      (sampleRecord "droplet-2") (by decide)⟩

/-! ## What `reconcileRoleBindings` leaves alone, whatever the calls return -/

theorem hasKey_false_of_ne (m : ObjectMeta) (ns name : String)
    (hne : ¬ (ns = m.namespace_ ∧ name = m.name)) : m.hasKey ns name = false := by
  cases hk : m.hasKey ns name with
  | false => rfl
  | true =>
    have hk2 := (hasKey_iff _ _ _).1 hk
    exact absurd ⟨hk2.1.symm, hk2.2.symm⟩ hne

theorem createRoleBinding_other (cl : Client) (obj : RoleBinding) (c : Cluster)
    (ns name : String) (hne : ¬ (ns = obj.namespace_ ∧ name = obj.name)) :
    findObject RoleBinding.toObjectMeta ns name (cl.createRoleBinding obj c).2.roleBindings
      = findObject RoleBinding.toObjectMeta ns name c.roleBindings := by
  unfold Client.createRoleBinding
  cases hf : cl.fault c (Op.createRoleBinding obj) with
  | some e => simp only [hf]; rfl
  | none =>
    cases hfind : findObject RoleBinding.toObjectMeta obj.namespace_ obj.name c.roleBindings with
    | some a => simp only [hf, hfind]; rfl
    | none =>
      simp only [hf, hfind]
      rw [findObject_append_single, hasKey_false_of_ne _ _ _ hne]
      cases findObject RoleBinding.toObjectMeta ns name c.roleBindings <;> simp

theorem patchRoleBinding_other (cl : Client) (obj : RoleBinding) (c : Cluster)
    (ns name : String) (hne : ¬ (ns = obj.namespace_ ∧ name = obj.name)) :
    findObject RoleBinding.toObjectMeta ns name (cl.patchRoleBinding obj c).2.roleBindings
      = findObject RoleBinding.toObjectMeta ns name c.roleBindings := by
  unfold Client.patchRoleBinding
  cases hf : cl.fault c (Op.patchRoleBinding obj) with
  | some e => simp only [hf]; rfl
  | none =>
    cases hfind : findObject RoleBinding.toObjectMeta obj.namespace_ obj.name c.roleBindings with
    | none => simp only [hf, hfind]; rfl
    | some a =>
      simp only [hf, hfind]
      exact findObject_replaceObject_other _ _ _ _ _ (hasKey_false_of_ne _ _ _ hne)

theorem deleteRoleBinding_other (cl : Client) (obj : RoleBinding) (c : Cluster)
    (ns name : String) (hne : ¬ (ns = obj.namespace_ ∧ name = obj.name)) :
    findObject RoleBinding.toObjectMeta ns name (cl.deleteRoleBinding obj c).2.roleBindings
      = findObject RoleBinding.toObjectMeta ns name c.roleBindings := by
  unfold Client.deleteRoleBinding
  cases hf : cl.fault c (Op.deleteRoleBinding obj.namespace_ obj.name) with
  | some e => simp only [hf]; rfl
  | none =>
    cases hfind : findObject RoleBinding.toObjectMeta obj.namespace_ obj.name c.roleBindings with
    | none => simp only [hf, hfind]; rfl
    | some a =>
      simp only [hf, hfind]
      exact findObject_removeObject_other _ _ _ _ _ _ hne

/-- The calls of a `CreateOrPatch`, successful or not: the `Get`, then at most one `Create` or
`Patch` of an object under the key of `obj`; the objects under other keys stay. -/
theorem CreateOrPatch_calls (cl : Client) (obj : RoleBinding) (f : RoleBinding → RoleBinding)
    (c : Cluster) :
    (∀ ns name, ¬ (ns = obj.namespace_ ∧ name = obj.name) →
      findObject RoleBinding.toObjectMeta ns name (CreateOrPatch cl obj f c).2.roleBindings
        = findObject RoleBinding.toObjectMeta ns name c.roleBindings) ∧
    ∃ ops, (CreateOrPatch cl obj f c).2.log = c.log ++ ops ∧
      ∀ op ∈ ops, ∀ k, op.writtenKey = some k → k = (obj.namespace_, obj.name) := by
  unfold CreateOrPatch
  have hstate := getRoleBinding_state cl obj.namespace_ obj.name c
  cases hget : cl.getRoleBinding obj.namespace_ obj.name c with
  | mk r c1 =>
    rw [hget] at hstate
    simp only at hstate
    subst hstate
    have hnothing : (∀ ns name, ¬ (ns = obj.namespace_ ∧ name = obj.name) →
        findObject RoleBinding.toObjectMeta ns name
            (c.record (Op.getRoleBinding obj.namespace_ obj.name)).roleBindings
          = findObject RoleBinding.toObjectMeta ns name c.roleBindings) ∧
        ∃ ops, (c.record (Op.getRoleBinding obj.namespace_ obj.name)).log = c.log ++ ops ∧
          ∀ op ∈ ops, ∀ k, op.writtenKey = some k → k = (obj.namespace_, obj.name) := by
      refine ⟨fun _ _ _ => rfl, [Op.getRoleBinding obj.namespace_ obj.name], rfl, ?_⟩
      intro op hop k hk
      simp only [List.mem_singleton] at hop
      subst hop
      simp [Op.writtenKey] at hk
    cases r with
    | error err =>
      simp only
      split
      · split
        · rename_i hkey
          have hother := createRoleBinding_other cl (f obj)
            (c.record (Op.getRoleBinding obj.namespace_ obj.name))
          have hlog := createRoleBinding_log cl (f obj)
            (c.record (Op.getRoleBinding obj.namespace_ obj.name))
          cases hcr : cl.createRoleBinding (f obj)
              (c.record (Op.getRoleBinding obj.namespace_ obj.name)) with
          | mk r2 c3 =>
            rw [hcr] at hother hlog
            simp only at hother hlog
            have hboth : (∀ ns name, ¬ (ns = obj.namespace_ ∧ name = obj.name) →
                findObject RoleBinding.toObjectMeta ns name c3.roleBindings
                  = findObject RoleBinding.toObjectMeta ns name c.roleBindings) ∧
                ∃ ops, c3.log = c.log ++ ops ∧
                  ∀ op ∈ ops, ∀ k, op.writtenKey = some k → k = (obj.namespace_, obj.name) := by
              refine ⟨?_, [Op.getRoleBinding obj.namespace_ obj.name,
                Op.createRoleBinding (f obj)], ?_, ?_⟩
              · intro ns name hne
                rw [hother ns name (by rw [hkey.1, hkey.2]; exact hne)]
                rfl
              · rw [hlog]; simp [Cluster.record]
              · intro op hop k hk
                simp only [List.mem_cons, List.mem_singleton, List.not_mem_nil, or_false] at hop
                rcases hop with hop | hop
                · subst hop; simp [Op.writtenKey] at hk
                · subst hop
                  simp only [Op.writtenKey, Option.some.injEq] at hk
                  rw [← hk, hkey.1, hkey.2]
            cases r2 with
            | error e => exact hboth
            | ok u => exact hboth
        · exact hnothing
      · exact hnothing
    | ok existing =>
      simp only
      split
      · rename_i hkey
        split
        · exact hnothing
        · have hother := patchRoleBinding_other cl (f existing)
            (c.record (Op.getRoleBinding obj.namespace_ obj.name))
          have hlog := patchRoleBinding_log cl (f existing)
            (c.record (Op.getRoleBinding obj.namespace_ obj.name))
          cases hp : cl.patchRoleBinding (f existing)
              (c.record (Op.getRoleBinding obj.namespace_ obj.name)) with
          | mk r2 c3 =>
            rw [hp] at hother hlog
            simp only at hother hlog
            have hboth : (∀ ns name, ¬ (ns = obj.namespace_ ∧ name = obj.name) →
                findObject RoleBinding.toObjectMeta ns name c3.roleBindings
                  = findObject RoleBinding.toObjectMeta ns name c.roleBindings) ∧
                ∃ ops, c3.log = c.log ++ ops ∧
                  ∀ op ∈ ops, ∀ k, op.writtenKey = some k → k = (obj.namespace_, obj.name) := by
              refine ⟨?_, [Op.getRoleBinding obj.namespace_ obj.name,
                Op.patchRoleBinding (f existing)], ?_, ?_⟩
              · intro ns name hne
                rw [hother ns name (by rw [hkey.1, hkey.2]; exact hne)]
                rfl
              · rw [hlog]; simp [Cluster.record]
              · intro op hop k hk
                simp only [List.mem_cons, List.mem_singleton, List.not_mem_nil, or_false] at hop
                rcases hop with hop | hop
                · subst hop; simp [Op.writtenKey] at hk
                · subst hop
                  simp only [Op.writtenKey, Option.some.injEq] at hk
                  rw [← hk, hkey.1, hkey.2]
            cases r2 with
            | error e => exact hboth
            | ok u => exact hboth
      · exact hnothing

theorem propagateRoleBindingsLoop_calls (isPkg : String → Bool) (cl : Client)
    (orgOrSpace : ObjectMeta) (bs : List RoleBinding) :
    ∀ (m : List String) (c : Cluster),
      (∀ ns name, ¬ (ns = orgOrSpace.name ∧ name ∈ propagatedNames bs) →
        findObject RoleBinding.toObjectMeta ns name
            (propagateRoleBindingsLoop isPkg cl orgOrSpace bs m c).2.roleBindings
          = findObject RoleBinding.toObjectMeta ns name c.roleBindings) ∧
      ∃ ops, (propagateRoleBindingsLoop isPkg cl orgOrSpace bs m c).2.log = c.log ++ ops ∧
        ∀ op ∈ ops, ∀ k, op.writtenKey = some k → k.1 = orgOrSpace.name := by
  induction bs with
  | nil =>
    intro m c
    exact ⟨fun _ _ _ => rfl, [], by simp [propagateRoleBindingsLoop], by simp⟩
  | cons b rest ih =>
    intro m c
    rw [propagateRoleBindingsLoop_cons, propagatedNames_cons]
    split
    · obtain ⟨hother, ops1, hlog1, hops1⟩ := CreateOrPatch_calls cl
        { name := b.name, namespace_ := orgOrSpace.name }
        (propagateRoleBindingMutate isPkg orgOrSpace b) c
      have hops1b : ∀ op ∈ ops1, ∀ k, op.writtenKey = some k → k.1 = orgOrSpace.name := by
        intro op hop k hk
        rw [hops1 op hop k hk]
      have hother1 : ∀ ns name, ¬ (ns = orgOrSpace.name ∧ name ∈ b.name :: propagatedNames rest) →
          findObject RoleBinding.toObjectMeta ns name
            (CreateOrPatch cl { name := b.name, namespace_ := orgOrSpace.name }
              (propagateRoleBindingMutate isPkg orgOrSpace b) c).2.roleBindings
            = findObject RoleBinding.toObjectMeta ns name c.roleBindings := by
        intro ns name hne
        apply hother
        intro hk
        exact hne ⟨hk.1, by rw [hk.2]; exact List.mem_cons_self _ _⟩
      cases hcp : CreateOrPatch cl { name := b.name, namespace_ := orgOrSpace.name }
          (propagateRoleBindingMutate isPkg orgOrSpace b) c with
      | mk r c1 =>
        rw [hcp] at hlog1 hother1
        simp only at hlog1 hother1
        cases r with
        | error err => exact ⟨hother1, ops1, hlog1, hops1b⟩
        | ok res =>
          simp only
          obtain ⟨hother2, ops2, hlog2, hops2⟩ := ih (m ++ [b.name]) c1
          refine ⟨?_, ops1 ++ ops2, ?_, ?_⟩
          · intro ns name hne
            rw [hother2 ns name (fun hk => hne ⟨hk.1, List.mem_cons_of_mem _ hk.2⟩)]
            exact hother1 ns name hne
          · rw [hlog2, hlog1, List.append_assoc]
          · intro op hop
            rcases List.mem_append.1 hop with hop | hop
            · exact hops1b op hop
            · exact hops2 op hop
    · exact ih m c

theorem deleteOrphanedRoleBindingsLoop_calls (cl : Client) (ps : List RoleBinding)
    (m : List String) :
    ∀ (c : Cluster),
      (∀ ns name,
        (∀ p ∈ ps, p.annotations.index PropagateDeletionAnnotationKey ≠ "false" → p.name ∉ m →
          ¬ (p.namespace_ = ns ∧ p.name = name)) →
        findObject RoleBinding.toObjectMeta ns name
            (deleteOrphanedRoleBindingsLoop cl ps m c).2.roleBindings
          = findObject RoleBinding.toObjectMeta ns name c.roleBindings) ∧
      ∃ ops, (deleteOrphanedRoleBindingsLoop cl ps m c).2.log = c.log ++ ops ∧
        ∀ op ∈ ops, ∀ k, op.writtenKey = some k → ∃ p ∈ ps, k = (p.namespace_, p.name) := by
  induction ps with
  | nil =>
    intro c
    exact ⟨fun _ _ _ => rfl, [], by simp [deleteOrphanedRoleBindingsLoop], by simp⟩
  | cons p rest ih =>
    intro c
    rw [deleteOrphanedRoleBindingsLoop_cons]
    have hrest : ∀ c1 : Cluster,
        (∀ ns name,
          (∀ q ∈ p :: rest, q.annotations.index PropagateDeletionAnnotationKey ≠ "false" →
            q.name ∉ m → ¬ (q.namespace_ = ns ∧ q.name = name)) →
          findObject RoleBinding.toObjectMeta ns name
              (deleteOrphanedRoleBindingsLoop cl rest m c1).2.roleBindings
            = findObject RoleBinding.toObjectMeta ns name c1.roleBindings) ∧
        ∃ ops, (deleteOrphanedRoleBindingsLoop cl rest m c1).2.log = c1.log ++ ops ∧
          ∀ op ∈ ops, ∀ k, op.writtenKey = some k →
            ∃ q ∈ p :: rest, k = (q.namespace_, q.name) := by
      intro c1
      obtain ⟨h1, ops, hlog, hops⟩ := ih c1
      refine ⟨fun ns name hno => h1 ns name
        (fun q hq => hno q (List.mem_cons_of_mem _ hq)), ops, hlog, ?_⟩
      intro op hop k hk
      obtain ⟨q, hq, hkq⟩ := hops op hop k hk
      exact ⟨q, List.mem_cons_of_mem _ hq, hkq⟩
    split
    · exact hrest c
    · rename_i hdue
      split
      · rename_i hnotin
        have hother := deleteRoleBinding_other cl p c
        have hlog := deleteRoleBinding_log cl p c
        cases hd : cl.deleteRoleBinding p c with
        | mk r c1 =>
          rw [hd] at hother hlog
          simp only at hother hlog
          have hfirst : ∀ ns name,
              (∀ q ∈ p :: rest, q.annotations.index PropagateDeletionAnnotationKey ≠ "false" →
                q.name ∉ m → ¬ (q.namespace_ = ns ∧ q.name = name)) →
              findObject RoleBinding.toObjectMeta ns name c1.roleBindings
                = findObject RoleBinding.toObjectMeta ns name c.roleBindings := by
            intro ns name hno
            apply hother
            intro hk
            exact hno p (List.mem_cons_self _ _) hdue hnotin ⟨hk.1.symm, hk.2.symm⟩
          have hop1 : ∀ op ∈ [Op.deleteRoleBinding p.namespace_ p.name], ∀ k,
              op.writtenKey = some k → ∃ q ∈ p :: rest, k = (q.namespace_, q.name) := by
            intro op hop k hk
            simp only [List.mem_singleton] at hop
            subst hop
            simp only [Op.writtenKey, Option.some.injEq] at hk
            exact ⟨p, List.mem_cons_self _ _, hk.symm⟩
          cases r with
          | error e => exact ⟨hfirst, _, hlog, hop1⟩
          | ok u =>
            simp only
            obtain ⟨h2, ops2, hlog2, hops2⟩ := hrest c1
            refine ⟨?_, [Op.deleteRoleBinding p.namespace_ p.name] ++ ops2, ?_, ?_⟩
            · intro ns name hno
              rw [h2 ns name hno]
              exact hfirst ns name hno
            · rw [hlog2, hlog, List.append_assoc]
            · intro op hop
              rcases List.mem_append.1 hop with hop | hop
              · exact hop1 op hop
              · exact hops2 op hop
      · exact hrest c

theorem propagateRoleBindings_calls (isPkg : String → Bool) (cl : Client)
    (orgOrSpace : ObjectMeta) (c : Cluster) :
    (∀ ns name,
      ¬ (ns = orgOrSpace.name ∧ ∃ b ∈ c.roleBindings, IsEligible orgOrSpace b ∧ b.name = name) →
      findObject RoleBinding.toObjectMeta ns name
          (propagateRoleBindings isPkg cl orgOrSpace c).2.roleBindings
        = findObject RoleBinding.toObjectMeta ns name c.roleBindings) ∧
    ∃ ops, (propagateRoleBindings isPkg cl orgOrSpace c).2.log = c.log ++ ops ∧
      ∀ op ∈ ops, ∀ k, op.writtenKey = some k → k.1 = orgOrSpace.name := by
  unfold propagateRoleBindings
  have hst := listRoleBindings_state cl orgOrSpace.namespace_ none c
  have hlist_only : ∀ op ∈ [Op.listRoleBindings orgOrSpace.namespace_ none], ∀ k,
      op.writtenKey = some k → k.1 = orgOrSpace.name := by
    intro op hop k hk
    simp only [List.mem_singleton] at hop
    subst hop
    simp [Op.writtenKey] at hk
  cases hc : cl.listRoleBindings orgOrSpace.namespace_ none c with
  | mk r c1 =>
    rw [hc] at hst
    simp only at hst
    subst hst
    cases r with
    | error e => exact ⟨fun _ _ _ => rfl, _, rfl, hlist_only⟩
    | ok items =>
      have hitems := listRoleBindings_ok _ _ _ _ _ _ hc
      simp only
      obtain ⟨hother, ops, hlog, hops⟩ := propagateRoleBindingsLoop_calls isPkg cl orgOrSpace
        items [] (c.record (Op.listRoleBindings orgOrSpace.namespace_ none))
      refine ⟨?_, [Op.listRoleBindings orgOrSpace.namespace_ none] ++ ops, ?_, ?_⟩
      · intro ns name hne
        rw [hother ns name]
        · rfl
        · intro hk
          apply hne
          refine ⟨hk.1, ?_⟩
          obtain ⟨b, hb, htrue, hname⟩ := (mem_propagatedNames _ _).1 hk.2
          rw [hitems] at hb
          simp only [List.mem_filter, Bool.and_eq_true, decide_eq_true_eq] at hb
          exact ⟨b, hb.1, ⟨hb.2.1, htrue⟩, hname⟩
      · rw [hlog]; simp [Cluster.record]
      · intro op hop
        rcases List.mem_append.1 hop with hop | hop
        · exact hlist_only op hop
        · exact hops op hop

theorem deleteOrphanedRoleBindings_calls (cl : Client) (orgOrSpace : ObjectMeta)
    (m : List String) (c : Cluster) :
    (∀ ns name,
      (∀ p ∈ c.roleBindings, p.namespace_ = orgOrSpace.name →
        p.labels.lookup PropagatedFromLabel = some orgOrSpace.namespace_ →
        p.annotations.index PropagateDeletionAnnotationKey ≠ "false" → p.name ∉ m →
        ¬ (p.namespace_ = ns ∧ p.name = name)) →
      findObject RoleBinding.toObjectMeta ns name
          (deleteOrphanedRoleBindings cl orgOrSpace m c).2.roleBindings
        = findObject RoleBinding.toObjectMeta ns name c.roleBindings) ∧
    ∃ ops, (deleteOrphanedRoleBindings cl orgOrSpace m c).2.log = c.log ++ ops ∧
      ∀ op ∈ ops, ∀ k, op.writtenKey = some k → k.1 = orgOrSpace.name := by
  unfold deleteOrphanedRoleBindings
  cases hsel : ValidatedSelectorFromSet PropagatedFromLabel orgOrSpace.namespace_ with
  | error e => exact ⟨fun _ _ _ => rfl, [], by simp, by simp⟩
  | ok sel =>
    have hselv : sel = (PropagatedFromLabel, orgOrSpace.namespace_) := by
      unfold ValidatedSelectorFromSet at hsel
      split at hsel
      · simp only [Except.ok.injEq] at hsel; exact hsel.symm
      · cases hsel
    subst hselv
    simp only
    have hst := listRoleBindings_state cl orgOrSpace.name
      (some (PropagatedFromLabel, orgOrSpace.namespace_)) c
    have hlist_only : ∀ op ∈ [Op.listRoleBindings orgOrSpace.name
        (some (PropagatedFromLabel, orgOrSpace.namespace_))], ∀ k,
        op.writtenKey = some k → k.1 = orgOrSpace.name := by
      intro op hop k hk
      simp only [List.mem_singleton] at hop
      subst hop
      simp [Op.writtenKey] at hk
    cases hc : cl.listRoleBindings orgOrSpace.name
        (some (PropagatedFromLabel, orgOrSpace.namespace_)) c with
    | mk r c1 =>
      rw [hc] at hst
      simp only at hst
      subst hst
      cases r with
      | error e => exact ⟨fun _ _ _ => rfl, _, rfl, hlist_only⟩
      | ok items =>
        have hitems := listRoleBindings_ok _ _ _ _ _ _ hc
        have hmemi : ∀ p, p ∈ items → p ∈ c.roleBindings ∧ p.namespace_ = orgOrSpace.name ∧
            p.labels.lookup PropagatedFromLabel = some orgOrSpace.namespace_ := by
          intro p hp
          rw [hitems] at hp
          simpa [List.mem_filter, matchesSelector] using hp
        simp only
        obtain ⟨hother, ops, hlog, hops⟩ := deleteOrphanedRoleBindingsLoop_calls cl items m
          (c.record (Op.listRoleBindings orgOrSpace.name
            (some (PropagatedFromLabel, orgOrSpace.namespace_))))
        refine ⟨?_, [Op.listRoleBindings orgOrSpace.name
          (some (PropagatedFromLabel, orgOrSpace.namespace_))] ++ ops, ?_, ?_⟩
        · intro ns name hno
          rw [hother ns name]
          · rfl
          · intro p hp hdue hnotin
            obtain ⟨hpc, hpns, hplabel⟩ := hmemi p hp
            exact hno p hpc hpns hplabel hdue hnotin
        · rw [hlog]; simp [Cluster.record]
        · intro op hop
          rcases List.mem_append.1 hop with hop | hop
          · exact hlist_only op hop
          · intro k hk
            obtain ⟨p, hp, hkp⟩ := hops op hop k hk
            rw [hkp]
            exact (hmemi p hp).2.1

/-- Whatever the calls return, `reconcileRoleBindings` writes and deletes in the child namespace
only, and there only under the names of eligible parent bindings and of bindings that carry the
`propagated-from` label of the parent namespace. -/
theorem reconcileRoleBindings_calls (isPkg : String → Bool) (cl : Client)
    (orgOrSpace : ObjectMeta) (c : Cluster) (hu : UniqueRoleBindings c) :
    (∀ ns name,
      ¬ (ns = orgOrSpace.name ∧
        ((∃ b ∈ c.roleBindings, IsEligible orgOrSpace b ∧ b.name = name) ∨
          ∃ q, findObject RoleBinding.toObjectMeta orgOrSpace.name name c.roleBindings = some q ∧
            q.labels.lookup PropagatedFromLabel = some orgOrSpace.namespace_)) →
      findObject RoleBinding.toObjectMeta ns name
          (reconcileRoleBindings isPkg cl orgOrSpace c).2.roleBindings
        = findObject RoleBinding.toObjectMeta ns name c.roleBindings) ∧
    ∃ ops, (reconcileRoleBindings isPkg cl orgOrSpace c).2.log = c.log ++ ops ∧
      ∀ op ∈ ops, ∀ k, op.writtenKey = some k → k.1 = orgOrSpace.name := by
  unfold reconcileRoleBindings
  obtain ⟨hP, ops1, hlog1, hops1⟩ := propagateRoleBindings_calls isPkg cl orgOrSpace c
  cases hc : propagateRoleBindings isPkg cl orgOrSpace c with
  | mk r c1 =>
    rw [hc] at hP hlog1
    simp only at hP hlog1
    cases r with
    | error e =>
      refine ⟨?_, ops1, hlog1, hops1⟩
      intro ns name hne
      exact hP ns name (fun hk => hne ⟨hk.1, Or.inl hk.2⟩)
    | ok m =>
      simp only
      obtain ⟨_, hu1f, _, _, _⟩ := propagateRoleBindings_ok isPkg cl orgOrSpace c c1 m hc
      have hu1 := hu1f hu
      obtain ⟨hD, ops2, hlog2, hops2⟩ := deleteOrphanedRoleBindings_calls cl orgOrSpace m c1
      refine ⟨?_, ops1 ++ ops2, ?_, ?_⟩
      · intro ns name hne
        have hP1 := hP ns name (fun hk => hne ⟨hk.1, Or.inl hk.2⟩)
        rw [hD ns name, hP1]
        intro q hq hqns hqlabel _ _ hkey
        apply hne
        refine ⟨hkey.1.symm.trans hqns, Or.inr ⟨q, ?_, hqlabel⟩⟩
        have hfq := findObject_of_mem_unique c1 hu1 q hq
        rw [hkey.1, hkey.2, hP1] at hfq
        rw [← hkey.1.symm.trans hqns]
        exact hfq
      · rw [hlog2, hlog1, List.append_assoc]
      · intro op hop
        rcases List.mem_append.1 hop with hop | hop
        · exact hops1 op hop
        · exact hops2 op hop

/-- Claim C30. In a store that holds one role binding under each namespace and name, and
whatever the calls return: a child binding that lacks the label `propagated-from` of the parent
namespace and has the name of no eligible parent binding is after `reconcileRoleBindings` as it
was before; every call that writes or deletes names the child namespace; and, the child
namespace being another than the parent namespace, the role bindings of the parent namespace
are as they were and no call writes or deletes in the parent namespace. -/
theorem C30_untouched_bindings (isPkg : String → Bool) (kClient : Client)
    (orgOrSpace : ObjectMeta) (c : Cluster) (hu : UniqueRoleBindings c) :
    (∀ p ∈ c.roleBindings, p.namespace_ = orgOrSpace.name →
      p.labels.lookup PropagatedFromLabel ≠ some orgOrSpace.namespace_ →
      (¬ ∃ b ∈ c.roleBindings, IsEligible orgOrSpace b ∧ b.name = p.name) →
      findObject RoleBinding.toObjectMeta orgOrSpace.name p.name
        (reconcileRoleBindings isPkg kClient orgOrSpace c).2.roleBindings = some p) ∧
    (∃ ops, (reconcileRoleBindings isPkg kClient orgOrSpace c).2.log = c.log ++ ops ∧
      ∀ op ∈ ops, ∀ k, op.writtenKey = some k → k.1 = orgOrSpace.name) ∧
    (orgOrSpace.namespace_ ≠ orgOrSpace.name →
      (∀ name, findObject RoleBinding.toObjectMeta orgOrSpace.namespace_ name
          (reconcileRoleBindings isPkg kClient orgOrSpace c).2.roleBindings
        = findObject RoleBinding.toObjectMeta orgOrSpace.namespace_ name c.roleBindings) ∧
      ∃ ops, (reconcileRoleBindings isPkg kClient orgOrSpace c).2.log = c.log ++ ops ∧
        ∀ op ∈ ops, ∀ k, op.writtenKey = some k → k.1 ≠ orgOrSpace.namespace_) := by
  obtain ⟨hother, ops, hlog, hops⟩ := reconcileRoleBindings_calls isPkg kClient orgOrSpace c hu
  refine ⟨?_, ⟨ops, hlog, hops⟩, ?_⟩
  · intro p hp hns hlabel hnone
    have hfp := findObject_of_mem_unique c hu p hp
    rw [hns] at hfp
    rw [hother orgOrSpace.name p.name, hfp]
    rintro ⟨_, helig | ⟨q, hq, hqlabel⟩⟩
    · exact hnone helig
    · rw [hfp] at hq
      simp only [Option.some.injEq] at hq
      rw [hq] at hlabel
      exact hlabel hqlabel
  · intro hne
    refine ⟨?_, ops, hlog, ?_⟩
    · intro name
      exact hother _ name (fun hk => hne hk.1)
    · intro op hop k hk hbad
      exact hne (hbad.symm.trans (hops op hop k hk))

/-- A run of claim C30: the hand-made child binding `manual` is left as it was, and the parent
binding `local-binding` too. -/
theorem C30_untouched_bindings_witness :
    findObject RoleBinding.toObjectMeta "org-1" "manual"
      (reconcileRoleBindings sampleIsPackageManagerKey reliableClient sampleOrg
        sampleBindings).2.roleBindings = some manualBinding ∧
    findObject RoleBinding.toObjectMeta "cf" "local-binding"
      (reconcileRoleBindings sampleIsPackageManagerKey reliableClient sampleOrg
        sampleBindings).2.roleBindings = some localBinding ∧
    ((∀ p ∈ sampleBindings.roleBindings, p.namespace_ = sampleOrg.name →
      p.labels.lookup PropagatedFromLabel ≠ some sampleOrg.namespace_ →
      (¬ ∃ b ∈ sampleBindings.roleBindings, IsEligible sampleOrg b ∧ b.name = p.name) →
      findObject RoleBinding.toObjectMeta sampleOrg.name p.name
        (reconcileRoleBindings sampleIsPackageManagerKey reliableClient sampleOrg
          sampleBindings).2.roleBindings = some p) ∧
    (∃ ops, (reconcileRoleBindings sampleIsPackageManagerKey reliableClient sampleOrg
          sampleBindings).2.log = sampleBindings.log ++ ops ∧
      ∀ op ∈ ops, ∀ k, op.writtenKey = some k → k.1 = sampleOrg.name) ∧
    (sampleOrg.namespace_ ≠ sampleOrg.name →
      (∀ name, findObject RoleBinding.toObjectMeta sampleOrg.namespace_ name
          (reconcileRoleBindings sampleIsPackageManagerKey reliableClient sampleOrg
            sampleBindings).2.roleBindings
        = findObject RoleBinding.toObjectMeta sampleOrg.namespace_ name
            sampleBindings.roleBindings) ∧
      ∃ ops, (reconcileRoleBindings sampleIsPackageManagerKey reliableClient sampleOrg
            sampleBindings).2.log = sampleBindings.log ++ ops ∧
        ∀ op ∈ ops, ∀ k, op.writtenKey = some k → k.1 ≠ sampleOrg.namespace_)) :=
  ⟨by decide, by decide,
    C30_untouched_bindings sampleIsPackageManagerKey reliableClient sampleOrg sampleBindings
      (by decide)⟩

/-! ## A failed call fails the operation -/

theorem propagateRoleBindingsLoop_append (isPkg : String → Bool) (cl : Client)
    (orgOrSpace : ObjectMeta) (pre rest : List RoleBinding) :
    ∀ (m : List String) (c : Cluster) (m1 : List String) (c1 : Cluster),
      propagateRoleBindingsLoop isPkg cl orgOrSpace pre m c = (.ok m1, c1) →
      propagateRoleBindingsLoop isPkg cl orgOrSpace (pre ++ rest) m c
        = propagateRoleBindingsLoop isPkg cl orgOrSpace rest m1 c1 := by
  induction pre with
  | nil =>
    intro m c m1 c1 h
    simp only [propagateRoleBindingsLoop, Prod.mk.injEq, Except.ok.injEq] at h
    rw [h.1, h.2]
    rfl
  | cons b pre ih =>
    intro m c m1 c1 h
    rw [List.cons_append, propagateRoleBindingsLoop_cons]
    rw [propagateRoleBindingsLoop_cons] at h
    by_cases htrue : b.annotations.index PropagateRoleBindingAnnotationKey = "true"
    · simp only [htrue, if_true] at h ⊢
      cases hcp : CreateOrPatch cl { name := b.name, namespace_ := orgOrSpace.name }
          (propagateRoleBindingMutate isPkg orgOrSpace b) c with
      | mk r c2 =>
        rw [hcp] at h
        cases r with
        | error err => simp at h
        | ok res =>
          simp only at h ⊢
          exact ih _ c2 m1 c1 h
    · simp only [htrue, if_false] at h ⊢
      exact ih m c m1 c1 h

theorem propagateSecrets_fails (isPkg : String → Bool) (client : Client)
    (orgOrSpace : ObjectMeta) (pre post : List String) (secretName : String)
    (c c1 : Cluster)
    (hpre : propagateSecretsLoop isPkg client orgOrSpace pre c = (.ok (), c1)) :
    (∀ err c2, client.getSecret orgOrSpace.namespace_ secretName c1 = (.error err, c2) →
      propagateSecrets isPkg client orgOrSpace (pre ++ secretName :: post) c
        = (.error (.errorf "error fetching secret %q from namespace %q: %w"
            [secretName, orgOrSpace.namespace_] err), c2)) ∧
    (∀ secret c2 err c3,
      client.getSecret orgOrSpace.namespace_ secretName c1 = (.ok secret, c2) →
      CreateOrPatchSecret client { name := secret.name, namespace_ := orgOrSpace.name }
        (propagateSecretMutate isPkg secret) c2 = (.error err, c3) →
      propagateSecrets isPkg client orgOrSpace (pre ++ secretName :: post) c
        = (.error (.wrapped "error creating/patching secret: " err), c3)) := by
  constructor
  · intro err c2 hget
    rw [propagateSecrets_eq_loop,
      propagateSecretsLoop_append isPkg client orgOrSpace pre _ c c1 hpre]
    conv_lhs => unfold propagateSecretsLoop
    simp only [hget]
  · intro secret c2 err c3 hget hcp
    rw [propagateSecrets_eq_loop,
      propagateSecretsLoop_append isPkg client orgOrSpace pre _ c c1 hpre]
    conv_lhs => unfold propagateSecretsLoop
    simp only [hget, hcp]

theorem reconcileRoleBindings_fails (isPkg : String → Bool) (kClient : Client)
    (orgOrSpace : ObjectMeta) (c : Cluster) :
    (∀ err c1, kClient.listRoleBindings orgOrSpace.namespace_ none c = (.error err, c1) →
      reconcileRoleBindings isPkg kClient orgOrSpace c = (.error err, c1)) ∧
    (∀ pre binding post c1 m c2 err c3,
      kClient.listRoleBindings orgOrSpace.namespace_ none c
        = (.ok (pre ++ binding :: post), c1) →
      propagateRoleBindingsLoop isPkg kClient orgOrSpace pre [] c1 = (.ok m, c2) →
      binding.annotations.index PropagateRoleBindingAnnotationKey = "true" →
      CreateOrPatch kClient { name := binding.name, namespace_ := orgOrSpace.name }
        (propagateRoleBindingMutate isPkg orgOrSpace binding) c2 = (.error err, c3) →
      reconcileRoleBindings isPkg kClient orgOrSpace c = (.error err, c3)) ∧
    (∀ m c1 err c2, propagateRoleBindings isPkg kClient orgOrSpace c = (.ok m, c1) →
      isValidLabelValue orgOrSpace.namespace_ = true →
      kClient.listRoleBindings orgOrSpace.name
        (some (PropagatedFromLabel, orgOrSpace.namespace_)) c1 = (.error err, c2) →
      reconcileRoleBindings isPkg kClient orgOrSpace c = (.error err, c2)) ∧
    (∀ m c1 pre p post c2 c3 err c4,
      propagateRoleBindings isPkg kClient orgOrSpace c = (.ok m, c1) →
      isValidLabelValue orgOrSpace.namespace_ = true →
      kClient.listRoleBindings orgOrSpace.name
        (some (PropagatedFromLabel, orgOrSpace.namespace_)) c1 = (.ok (pre ++ p :: post), c2) →
      deleteOrphanedRoleBindingsLoop kClient pre m c2 = (.ok (), c3) →
      p.annotations.index PropagateDeletionAnnotationKey ≠ "false" → p.name ∉ m →
      kClient.deleteRoleBinding p c3 = (.error err, c4) →
      reconcileRoleBindings isPkg kClient orgOrSpace c = (.error err, c4)) := by
  refine ⟨?_, ?_, ?_, ?_⟩
  · intro err c1 hlist
    unfold reconcileRoleBindings propagateRoleBindings
    simp only [hlist]
  · intro pre binding post c1 m c2 err c3 hlist hpre htrue hcp
    unfold reconcileRoleBindings propagateRoleBindings
    simp only [hlist]
    rw [propagateRoleBindingsLoop_append isPkg kClient orgOrSpace pre _ [] c1 m c2 hpre,
      propagateRoleBindingsLoop_cons]
    simp only [htrue, if_true, hcp]
  · intro m c1 err c2 hprop hvalid hlist
    unfold reconcileRoleBindings
    rw [hprop]
    simp only
    unfold deleteOrphanedRoleBindings ValidatedSelectorFromSet
    simp only [hvalid, if_true, hlist]
  · intro m c1 pre p post c2 c3 err c4 hprop hvalid hlist hpre hdue horphan hdel
    unfold reconcileRoleBindings
    rw [hprop]
    simp only
    unfold deleteOrphanedRoleBindings ValidatedSelectorFromSet
    simp only [hvalid, if_true, hlist]
    rw [deleteOrphanedRoleBindingsLoop_append kClient pre _ _ c2 c3 hpre,
      deleteOrphanedRoleBindingsLoop_cons]
    simp only [hdue, if_false, horphan, not_false_eq_true, if_true, hdel]

/-- Claim C22. No failure of a call is swallowed. In `propagateSecrets`, once the names before
`secretName` are propagated, a failed `Get` of the parent secret and a failed create-or-patch
of the child secret each end the operation with an error that wraps the failure. In
`reconcileRoleBindings`, a failed list of the parent namespace, a failed create-or-patch of an
eligible binding once those before it are propagated, a failed list of the child namespace and
a failed `Delete` of an orphan once those before it are handled each end the operation with
that error. In `createOrPatchNamespace`, a failed create-or-patch ends the operation with that
error. -/
theorem C22_failures_are_returned (isPkg : String → Bool) (kClient : Client)
    (orgOrSpace : ObjectMeta) (c : Cluster) :
    (∀ pre secretName post c1,
      propagateSecretsLoop isPkg kClient orgOrSpace pre c = (.ok (), c1) →
      (∀ err c2, kClient.getSecret orgOrSpace.namespace_ secretName c1 = (.error err, c2) →
        propagateSecrets isPkg kClient orgOrSpace (pre ++ secretName :: post) c
          = (.error (.errorf "error fetching secret %q from namespace %q: %w"
              [secretName, orgOrSpace.namespace_] err), c2)) ∧
      (∀ secret c2 err c3,
        kClient.getSecret orgOrSpace.namespace_ secretName c1 = (.ok secret, c2) →
        CreateOrPatchSecret kClient { name := secret.name, namespace_ := orgOrSpace.name }
          (propagateSecretMutate isPkg secret) c2 = (.error err, c3) →
        propagateSecrets isPkg kClient orgOrSpace (pre ++ secretName :: post) c
          = (.error (.wrapped "error creating/patching secret: " err), c3))) ∧
    ((∀ err c1, kClient.listRoleBindings orgOrSpace.namespace_ none c = (.error err, c1) →
      reconcileRoleBindings isPkg kClient orgOrSpace c = (.error err, c1)) ∧
    (∀ pre binding post c1 m c2 err c3,
      kClient.listRoleBindings orgOrSpace.namespace_ none c
        = (.ok (pre ++ binding :: post), c1) →
      propagateRoleBindingsLoop isPkg kClient orgOrSpace pre [] c1 = (.ok m, c2) →
      binding.annotations.index PropagateRoleBindingAnnotationKey = "true" →
      CreateOrPatch kClient { name := binding.name, namespace_ := orgOrSpace.name }
        (propagateRoleBindingMutate isPkg orgOrSpace binding) c2 = (.error err, c3) →
      reconcileRoleBindings isPkg kClient orgOrSpace c = (.error err, c3)) ∧
    (∀ m c1 err c2, propagateRoleBindings isPkg kClient orgOrSpace c = (.ok m, c1) →
      isValidLabelValue orgOrSpace.namespace_ = true →
      kClient.listRoleBindings orgOrSpace.name
        (some (PropagatedFromLabel, orgOrSpace.namespace_)) c1 = (.error err, c2) →
      reconcileRoleBindings isPkg kClient orgOrSpace c = (.error err, c2)) ∧
    (∀ m c1 pre p post c2 c3 err c4,
      propagateRoleBindings isPkg kClient orgOrSpace c = (.ok m, c1) →
      isValidLabelValue orgOrSpace.namespace_ = true →
      kClient.listRoleBindings orgOrSpace.name
        (some (PropagatedFromLabel, orgOrSpace.namespace_)) c1 = (.ok (pre ++ p :: post), c2) →
      deleteOrphanedRoleBindingsLoop kClient pre m c2 = (.ok (), c3) →
      p.annotations.index PropagateDeletionAnnotationKey ≠ "false" → p.name ∉ m →
      kClient.deleteRoleBinding p c3 = (.error err, c4) →
      reconcileRoleBindings isPkg kClient orgOrSpace c = (.error err, c4))) ∧
    (∀ labels annotations err c1,
      CreateOrPatchNamespace kClient { name := orgOrSpace.name }
        (createOrPatchNamespaceMutate labels annotations) c = (.error err, c1) →
      createOrPatchNamespace kClient orgOrSpace labels annotations c = (.error err, c1)) := by
  refine ⟨?_, reconcileRoleBindings_fails isPkg kClient orgOrSpace c, ?_⟩
  · intro pre secretName post c1 hpre
    exact propagateSecrets_fails isPkg kClient orgOrSpace pre post secretName c c1 hpre
  · intro labels annotations err c1 h
    unfold createOrPatchNamespace
    simp only [h]

/-- Three runs of claim C22: the `Get` of the second secret fails, the `Create` of the copy of
`admin-binding` fails, and the `Get` of the namespace fails. -/
theorem C22_failures_are_returned_witness :
    propagateSecrets sampleIsPackageManagerKey (failingClient (Op.getSecret "cf" "tls-cert"))
        sampleOrg (["registry-credentials"] ++ "tls-cert" :: []) sampleSecrets
      = (.error (.errorf "error fetching secret %q from namespace %q: %w"
          ["tls-cert", "cf"] (.failure "store unavailable")),
          (propagateSecretsLoop sampleIsPackageManagerKey
            (failingClient (Op.getSecret "cf" "tls-cert")) sampleOrg
            ["registry-credentials"] sampleSecrets).2.record (Op.getSecret "cf" "tls-cert")) ∧
    reconcileRoleBindings sampleIsPackageManagerKey
        (failingClient (Op.getRoleBinding "org-1" "admin-binding")) sampleOrg freshBindings
      = (.error (.failure "store unavailable"),
          (freshBindings.record (Op.listRoleBindings "cf" none)).record
            (Op.getRoleBinding "org-1" "admin-binding")) ∧
    createOrPatchNamespace (failingClient (Op.getNamespace "org-1")) sampleOrg none none
        sampleNamespaces
      = (.error (.failure "store unavailable"),
          sampleNamespaces.record (Op.getNamespace "org-1")) :=
  ⟨((C22_failures_are_returned sampleIsPackageManagerKey
      (failingClient (Op.getSecret "cf" "tls-cert")) sampleOrg sampleSecrets).1
      ["registry-credentials"] "tls-cert" []
      (propagateSecretsLoop sampleIsPackageManagerKey
        (failingClient (Op.getSecret "cf" "tls-cert")) sampleOrg
        ["registry-credentials"] sampleSecrets).2 (by decide)).1
      (.failure "store unavailable") _ (by decide),
    (C22_failures_are_returned sampleIsPackageManagerKey
      (failingClient (Op.getRoleBinding "org-1" "admin-binding")) sampleOrg
      freshBindings).2.1.2.1 [] adminBinding [localBinding]
      (freshBindings.record (Op.listRoleBindings "cf" none)) []
      (freshBindings.record (Op.listRoleBindings "cf" none)) (.failure "store unavailable") _
      (by decide) (by decide) (by decide) (by decide),
    (C22_failures_are_returned sampleIsPackageManagerKey
      (failingClient (Op.getNamespace "org-1")) sampleOrg sampleNamespaces).2.2
      none none (.failure "store unavailable") _ (by decide)⟩

/-! ## `logAndSetReadyStatus` -/

theorem updateExistingCondition_fields (now : String) (existing new : Condition) :
    (updateExistingCondition now existing new).type = existing.type ∧
    (updateExistingCondition now existing new).status = new.status ∧
    (updateExistingCondition now existing new).reason = new.reason ∧
    (updateExistingCondition now existing new).message = new.message ∧
    (updateExistingCondition now existing new).observedGeneration = new.observedGeneration := by
  unfold updateExistingCondition
  by_cases h : existing.status = new.status
  · simp [h]
  · simp [h]

theorem SetStatusCondition_cons (now : String) (condition : Condition) (rest : List Condition)
    (newCondition : Condition) :
    SetStatusCondition now (condition :: rest) newCondition =
      if condition.type = newCondition.type then
        updateExistingCondition now condition newCondition :: rest
      else condition :: SetStatusCondition now rest newCondition := rfl

/-- `meta.SetStatusCondition` leaves the conditions of the other types as they were, in their
order. -/
theorem SetStatusCondition_others (now : String) (new : Condition) (l : List Condition) :
    (SetStatusCondition now l new).filter (fun cond => decide (cond.type ≠ new.type))
      = l.filter (fun cond => decide (cond.type ≠ new.type)) := by
  induction l with
  | nil =>
    simp only [SetStatusCondition, List.filter_nil]
    by_cases h : new.lastTransitionTime = ""
    · simp [h]
    · simp [h]
  | cons c rest ih =>
    rw [SetStatusCondition_cons]
    by_cases h : c.type = new.type
    · have h2 := (updateExistingCondition_fields now c new).1
      simp [h, h2]
    · simp only [h, if_false, List.filter_cons, ih]

/-- `meta.SetStatusCondition` sets the first condition of the type of the new one, or appends
the new one when there is none: the conditions of that type afterwards are the condition set,
with the status, reason, message and observed generation of the new one, followed by the
further conditions of that type the list held, as they were. -/
theorem SetStatusCondition_first (now : String) (new : Condition) (l : List Condition) :
    ∃ cond, (SetStatusCondition now l new).filter (fun cond => decide (cond.type = new.type))
        = cond :: (l.filter (fun cond => decide (cond.type = new.type))).tail ∧
      cond.type = new.type ∧ cond.status = new.status ∧ cond.reason = new.reason ∧
      cond.message = new.message ∧ cond.observedGeneration = new.observedGeneration := by
  induction l with
  | nil =>
    by_cases h : new.lastTransitionTime = ""
    · exact ⟨{ new with lastTransitionTime := now }, by simp [SetStatusCondition, h],
        rfl, rfl, rfl, rfl, rfl⟩
    · exact ⟨new, by simp [SetStatusCondition, h], rfl, rfl, rfl, rfl, rfl⟩
  | cons c rest ih =>
    rw [SetStatusCondition_cons]
    by_cases h : c.type = new.type
    · obtain ⟨h1, h2, h3, h4, h5⟩ := updateExistingCondition_fields now c new
      refine ⟨updateExistingCondition now c new, ?_, h1.trans h, h2, h3, h4, h5⟩
      simp [h, h1]
    · obtain ⟨cond, hfilter, hfields⟩ := ih
      refine ⟨cond, ?_, hfields⟩
      simp only [h, if_false, List.filter_cons, decide_False, Bool.false_eq_true]
      exact hfilter

/-- The counterexample to claim C21 as stated: on a list that holds two conditions of type
`Ready`, `logAndSetReadyStatus` sets the first and leaves the second, so that two conditions of
type `Ready` remain. -/
theorem C21_counterexample_two_ready_conditions :
    (logAndSetReadyStatus sampleErrorText "2022-06-01T10:00:00Z" (.failure "droplet not found")
        doubleReadyConditions "DropletNotFound" 3).2
      = [{ type := "Ready", status := "False", reason := "DropletNotFound",
            message := "droplet not found", observedGeneration := 3,
            lastTransitionTime := "2022-06-01T10:00:00Z" },
          { type := "Staged", status := "True" },
          { type := "Ready", status := "Unknown" }] ∧
    ((logAndSetReadyStatus sampleErrorText "2022-06-01T10:00:00Z" (.failure "droplet not found")
        doubleReadyConditions "DropletNotFound" 3).2.filter
        (fun cond => decide (cond.type = StatusConditionReady))).length = 2 := by
  decide

/-- Claim C21, amended. `logAndSetReadyStatus` sets the first condition of type `Ready`, or
appends one when the list has none: its status is `False`, its reason the given reason, its
message the text of the error and its observed generation the given generation. The further
conditions of type `Ready` the list held are as they were, so that the list has exactly one
condition of type `Ready` when it held at most one. The conditions of the other types are as
they were, in their order. The call returns the empty result and the error it was given. -/
theorem C21_first_ready_condition_set (errorText : GoError → String) (now : String)
    (err : GoError) (conditions : List Condition) (reason : String) (generation : Int) :
    (∃ ready,
      (logAndSetReadyStatus errorText now err conditions reason generation).2.filter
          (fun cond => decide (cond.type = StatusConditionReady))
        = ready :: (conditions.filter
            (fun cond => decide (cond.type = StatusConditionReady))).tail ∧
      ((conditions.filter (fun cond => decide (cond.type = StatusConditionReady))).length ≤ 1 →
        (logAndSetReadyStatus errorText now err conditions reason generation).2.filter
          (fun cond => decide (cond.type = StatusConditionReady)) = [ready]) ∧
      ready.status = ConditionFalse ∧ ready.reason = reason ∧
      ready.message = errorText err ∧ ready.observedGeneration = generation) ∧
    (logAndSetReadyStatus errorText now err conditions reason generation).2.filter
        (fun cond => decide (cond.type ≠ StatusConditionReady))
      = conditions.filter (fun cond => decide (cond.type ≠ StatusConditionReady)) ∧
    (logAndSetReadyStatus errorText now err conditions reason generation).1 = ({}, err) := by
  refine ⟨?_, ?_, rfl⟩
  · obtain ⟨cond, hfilter, _, h2, h3, h4, h5⟩ := SetStatusCondition_first now
      { type := StatusConditionReady
        status := ConditionFalse
        reason := reason
        message := errorText err
        observedGeneration := generation } conditions
    refine ⟨cond, hfilter, ?_, h2, h3, h4, h5⟩
    intro hle
    have hfilter2 : (logAndSetReadyStatus errorText now err conditions reason generation).2.filter
        (fun cond => decide (cond.type = StatusConditionReady))
        = cond :: (conditions.filter
            (fun cond => decide (cond.type = StatusConditionReady))).tail := hfilter
    rw [hfilter2]
    cases hl : conditions.filter (fun cond => decide (cond.type = StatusConditionReady)) with
    | nil => rfl
    | cons x xs =>
      rw [hl] at hle
      cases xs with
      | nil => rfl
      | cons y ys =>
        simp only [List.length_cons] at hle
        omega
  · exact SetStatusCondition_others now
      { type := StatusConditionReady
        status := ConditionFalse
        reason := reason
        message := errorText err
        observedGeneration := generation } conditions

/-- A run of the amended claim C21 on the conditions of `app-1`, whose one `Ready` condition
was `True`. -/
theorem C21_first_ready_condition_set_witness :
    (logAndSetReadyStatus sampleErrorText "2022-06-01T10:00:00Z" (.failure "droplet not found")
        (sampleApp "5" "True").status.conditions "DropletNotFound" 3).2
      = [{ type := "Staged", status := "True" },
          { type := "Ready", status := "False", reason := "DropletNotFound",
            message := "droplet not found", observedGeneration := 3,
            lastTransitionTime := "2022-06-01T10:00:00Z" }] ∧
    ((∃ ready,
      (logAndSetReadyStatus sampleErrorText "2022-06-01T10:00:00Z" (.failure "droplet not found")
          (sampleApp "5" "True").status.conditions "DropletNotFound" 3).2.filter
          (fun cond => decide (cond.type = StatusConditionReady))
        = ready :: ((sampleApp "5" "True").status.conditions.filter
            (fun cond => decide (cond.type = StatusConditionReady))).tail ∧
      (((sampleApp "5" "True").status.conditions.filter
          (fun cond => decide (cond.type = StatusConditionReady))).length ≤ 1 →
        (logAndSetReadyStatus sampleErrorText "2022-06-01T10:00:00Z"
          (.failure "droplet not found")
          (sampleApp "5" "True").status.conditions "DropletNotFound" 3).2.filter
          (fun cond => decide (cond.type = StatusConditionReady)) = [ready]) ∧
      ready.status = ConditionFalse ∧ ready.reason = "DropletNotFound" ∧
      ready.message = sampleErrorText (.failure "droplet not found") ∧
      ready.observedGeneration = 3) ∧
    (logAndSetReadyStatus sampleErrorText "2022-06-01T10:00:00Z" (.failure "droplet not found")
        (sampleApp "5" "True").status.conditions "DropletNotFound" 3).2.filter
        (fun cond => decide (cond.type ≠ StatusConditionReady))
      = (sampleApp "5" "True").status.conditions.filter
        (fun cond => decide (cond.type ≠ StatusConditionReady)) ∧
    (logAndSetReadyStatus sampleErrorText "2022-06-01T10:00:00Z" (.failure "droplet not found")
        (sampleApp "5" "True").status.conditions "DropletNotFound" 3).1
      = ({}, .failure "droplet not found")) :=
  ⟨by decide,
    C21_first_ready_condition_set sampleErrorText "2022-06-01T10:00:00Z"
      (.failure "droplet not found") (sampleApp "5" "True").status.conditions
      "DropletNotFound" 3⟩

/-! ## The package handler -/

theorem sortSlice_perm {α : Type} (less : α → α → Bool) (x : List α) :
    (sortSlice less x).Perm x :=
  List.perm_insertionSort _ x

theorem sortSlice_sorted {α : Type} (less : α → α → Bool) (x : List α)
    (hasymm : ∀ a b, less a b = true → less b a = false)
    (htrans : ∀ a b c, less b a = false → less c b = false → less c a = false) :
    (sortSlice less x).Sorted (fun a b => less b a = false) := by
  haveI : IsTotal α (fun a b => less b a = false) := ⟨fun a b => by
    cases h : less b a with
    | false => exact Or.inl rfl
    | true => exact Or.inr (hasymm b a h)⟩
  haveI : IsTrans α (fun a b => less b a = false) := ⟨fun a b c hab hbc => htrans a b c hab hbc⟩
  exact List.sorted_insertionSort _ x

/-- Claim C26. For a request whose form parses and has a file `bits`, and a package the
repository returns in a state other than `AWAITING_UPLOAD`, the upload handler returns the
error of `NewPackageBitsAlreadyUploadedError`, as `LogAndReturn` hands it on, and its only call
is `GetPackage`: neither `UploadSourceImage` nor `UpdatePackageSource` is called. -/
theorem C26_bits_already_uploaded (h : Package) (r : UploadRequest) (bits : Bytes)
    (record : PackageRecord)
    (hform : r.parseForm = none) (hbits : r.formFile "bits" = .ok bits)
    (hget : h.getPackage r.authInfo r.guid = .ok record)
    (hstate : record.state ≠ PackageStateAwaitingUpload) :
    h.upload r =
      (.error (.logAndReturn (.packageBitsAlreadyUploaded none)
        "Error, cannot call package upload state was not AWAITING_UPLOAD"),
        [.getPackage r.authInfo r.guid]) ∧
    (∀ call ∈ (h.upload r).2,
      (∀ authInfo imageRef bits spaceGUID tags,
        call ≠ .uploadSourceImage authInfo imageRef bits spaceGUID tags) ∧
      (∀ authInfo message, call ≠ .updatePackageSource authInfo message)) := by
  have hval : h.upload r =
      (.error (.logAndReturn (.packageBitsAlreadyUploaded none)
        "Error, cannot call package upload state was not AWAITING_UPLOAD"),
        [.getPackage r.authInfo r.guid]) := by
    unfold Package.upload
    simp only [hform, hbits, hget, ne_eq, hstate, not_false_eq_true, if_true]
  refine ⟨hval, ?_⟩
  rw [hval]
  intro call hcall
  simp only [List.mem_singleton] at hcall
  subst hcall
  exact ⟨fun _ _ _ _ _ hbad => PackageCall.noConfusion hbad,
    fun _ _ hbad => PackageCall.noConfusion hbad⟩

/-- A run of claim C26: `package-a` is `READY`. -/
theorem C26_bits_already_uploaded_witness :
    samplePackageHandler.upload (sampleUpload "package-a") =
      (.error (.logAndReturn (.packageBitsAlreadyUploaded none)
        "Error, cannot call package upload state was not AWAITING_UPLOAD"),
        [.getPackage (sampleUpload "package-a").authInfo (sampleUpload "package-a").guid]) ∧
    (∀ call ∈ (samplePackageHandler.upload (sampleUpload "package-a")).2,
      (∀ authInfo imageRef bits spaceGUID tags,
        call ≠ .uploadSourceImage authInfo imageRef bits spaceGUID tags) ∧
      (∀ authInfo message, call ≠ .updatePackageSource authInfo message)) :=
  C26_bits_already_uploaded samplePackageHandler (sampleUpload "package-a") [80, 75]
    { GUID := "package-a", state := "READY", createdAt := 30, updatedAt := some 35 }
    (by decide) (by decide) (by decide) (by decide)

/-- Claim C27. Let `timePtrAfter` tell of two times that are not nil whether the first is after
the second, and let it be an ordering of optional times: never both ways, and "not after"
transitive. Then `sortList` leaves a permutation of the records, in non-decreasing order of
`CreatedAt` for `created_at`, in non-increasing order for `-created_at`, each record not after
the next by `UpdatedAt` for `updated_at`, each next record not after the one before for
`-updated_at`; for the empty order and for every other order the records are as they were. -/
theorem C27_sortList (timePtrAfter : Option Time → Option Time → Bool)
    (records : List PackageRecord) (order : String)
    (hafter : ∀ t1 t2 : Time, timePtrAfter (some t1) (some t2) = decide (t2 < t1))
    (hasymm : ∀ a b, timePtrAfter a b = true → timePtrAfter b a = false)
    (htrans : ∀ a b c, timePtrAfter a b = false → timePtrAfter b c = false →
      timePtrAfter a c = false) :
    (sortList timePtrAfter records order).Perm records ∧
    (order = "created_at" →
      (sortList timePtrAfter records order).Sorted (fun a b => a.createdAt ≤ b.createdAt)) ∧
    (order = "-created_at" →
      (sortList timePtrAfter records order).Sorted (fun a b => b.createdAt ≤ a.createdAt)) ∧
    (order = "updated_at" →
      (sortList timePtrAfter records order).Sorted
        (fun a b => timePtrAfter a.updatedAt b.updatedAt = false)) ∧
    (order = "-updated_at" →
      (sortList timePtrAfter records order).Sorted
        (fun a b => timePtrAfter b.updatedAt a.updatedAt = false)) ∧
    (order ≠ "created_at" → order ≠ "-created_at" → order ≠ "updated_at" →
      order ≠ "-updated_at" → sortList timePtrAfter records order = records) := by
  refine ⟨?_, ?_, ?_, ?_, ?_, ?_⟩
  · unfold sortList
    split
    · exact List.Perm.refl _
    · split
      · exact sortSlice_perm _ _
      · split
        · exact sortSlice_perm _ _
        · split
          · exact sortSlice_perm _ _
          · split
            · exact sortSlice_perm _ _
            · exact List.Perm.refl _
  · intro ho
    subst ho
    have hs := sortSlice_sorted
      (fun ri rj : PackageRecord => timePtrAfter (some rj.createdAt) (some ri.createdAt))
      records (fun a b hab => hasymm _ _ hab) (fun a b c hab hbc => htrans _ _ _ hab hbc)
    have hval : sortList timePtrAfter records "created_at" = sortSlice
        (fun ri rj : PackageRecord => timePtrAfter (some rj.createdAt) (some ri.createdAt))
        records := by
      simp [sortList]
    rw [hval]
    refine List.Pairwise.imp ?_ hs
    intro a b hab
    simp only [hafter, decide_eq_false_iff_not, not_lt] at hab
    exact hab
  · intro ho
    subst ho
    have hs := sortSlice_sorted
      (fun ri rj : PackageRecord => timePtrAfter (some ri.createdAt) (some rj.createdAt))
      records (fun a b hab => hasymm _ _ hab) (fun a b c hab hbc => htrans _ _ _ hbc hab)
    have hval : sortList timePtrAfter records "-created_at" = sortSlice
        (fun ri rj : PackageRecord => timePtrAfter (some ri.createdAt) (some rj.createdAt))
        records := by
      simp [sortList]
    rw [hval]
    refine List.Pairwise.imp ?_ hs
    intro a b hab
    simp only [hafter, decide_eq_false_iff_not, not_lt] at hab
    exact hab
  · intro ho
    subst ho
    have hs := sortSlice_sorted
      (fun ri rj : PackageRecord => timePtrAfter rj.updatedAt ri.updatedAt)
      records (fun a b hab => hasymm _ _ hab) (fun a b c hab hbc => htrans _ _ _ hab hbc)
    have hval : sortList timePtrAfter records "updated_at" = sortSlice
        (fun ri rj : PackageRecord => timePtrAfter rj.updatedAt ri.updatedAt) records := by
      simp [sortList]
    rw [hval]
    exact hs
  · intro ho
    subst ho
    have hs := sortSlice_sorted
      (fun ri rj : PackageRecord => timePtrAfter ri.updatedAt rj.updatedAt)
      records (fun a b hab => hasymm _ _ hab) (fun a b c hab hbc => htrans _ _ _ hbc hab)
    have hval : sortList timePtrAfter records "-updated_at" = sortSlice
        (fun ri rj : PackageRecord => timePtrAfter ri.updatedAt rj.updatedAt) records := by
      simp [sortList]
    rw [hval]
    exact hs
  · intro h1 h2 h3 h4
    unfold sortList
    simp only [h1, h2, h3, h4, if_false]
    split <;> rfl

theorem sampleTimePtrAfter_asymm (a b : Option Time) (h : sampleTimePtrAfter a b = true) :
    sampleTimePtrAfter b a = false := by
  cases a with
  | none => simp [sampleTimePtrAfter] at h
  | some t1 =>
    cases b with
    | none => rfl
    | some t2 =>
      simp only [sampleTimePtrAfter, decide_eq_true_eq] at h
      simp only [sampleTimePtrAfter, decide_eq_false_iff_not, not_lt]
      exact le_of_lt h

theorem sampleTimePtrAfter_trans (a b c : Option Time) (hab : sampleTimePtrAfter a b = false)
    (hbc : sampleTimePtrAfter b c = false) : sampleTimePtrAfter a c = false := by
  cases a with
  | none => rfl
  | some t1 =>
    cases b with
    | none => simp [sampleTimePtrAfter] at hab
    | some t2 =>
      cases c with
      | none => simp [sampleTimePtrAfter] at hbc
      | some t3 =>
        simp only [sampleTimePtrAfter, decide_eq_false_iff_not, not_lt] at hab hbc ⊢
        exact le_trans hab hbc

/-- A run of claim C27: three packages listed by name, sorted by their creation time. -/
theorem C27_sortList_witness :
    (sortList sampleTimePtrAfter samplePackages "created_at").map (fun record => record.GUID)
      = ["package-b", "package-c", "package-a"] ∧
    ((sortList sampleTimePtrAfter samplePackages "created_at").Perm samplePackages ∧
    ("created_at" = "created_at" →
      (sortList sampleTimePtrAfter samplePackages "created_at").Sorted
        (fun a b => a.createdAt ≤ b.createdAt)) ∧
    ("created_at" = "-created_at" →
      (sortList sampleTimePtrAfter samplePackages "created_at").Sorted
        (fun a b => b.createdAt ≤ a.createdAt)) ∧
    ("created_at" = "updated_at" →
      (sortList sampleTimePtrAfter samplePackages "created_at").Sorted
        (fun a b => sampleTimePtrAfter a.updatedAt b.updatedAt = false)) ∧
    ("created_at" = "-updated_at" →
      (sortList sampleTimePtrAfter samplePackages "created_at").Sorted
        (fun a b => sampleTimePtrAfter b.updatedAt a.updatedAt = false)) ∧
    ("created_at" ≠ "created_at" → "created_at" ≠ "-created_at" →
      "created_at" ≠ "updated_at" → "created_at" ≠ "-updated_at" →
      sortList sampleTimePtrAfter samplePackages "created_at" = samplePackages)) :=
  ⟨by decide,
    C27_sortList sampleTimePtrAfter samplePackages "created_at" (fun _ _ => rfl)
      sampleTimePtrAfter_asymm sampleTimePtrAfter_trans⟩

/-! ## The condition awaiter -/

theorem awaitEvents_timeout {α : Type} (statusConditions : α → List Condition)
    (conditionType desiredStatus : String) (events : List (WatchEvent α))
    (hnever : ∀ event ∈ events, ∃ obj, event = .modified obj ∧
      conditionHasStatus (statusConditions obj) conditionType desiredStatus = false) :
    awaitEvents statusConditions conditionType desiredStatus events
      = .error (.timeout conditionType desiredStatus) := by
  induction events with
  | nil => rfl
  | cons event rest ih =>
    obtain ⟨obj, hev, hno⟩ := hnever event (List.mem_cons_self _ _)
    subst hev
    unfold awaitEvents
    simp only [hno, Bool.false_eq_true, if_false]
    exact ih (fun e he => hnever e (List.mem_cons_of_mem _ he))

/-- Claim C24. When neither the object read first nor any object of the watch events delivered
before the deadline has the awaited condition at the desired value, and the object is not
deleted, `AwaitCondition` fails with a timeout error; the message of the error holds the
condition type and the desired value, and starts as the tests of `CreateTask` and `CancelTask`
expect. -/
theorem C24_await_timeout {α : Type} (statusConditions : α → List Condition) (initial : α)
    (events : List (WatchEvent α)) (conditionType desiredStatus : String)
    (hfirst : conditionHasStatus (statusConditions initial) conditionType desiredStatus = false)
    (hnever : ∀ event ∈ events, ∃ obj, event = .modified obj ∧
      conditionHasStatus (statusConditions obj) conditionType desiredStatus = false) :
    AwaitCondition statusConditions initial events conditionType desiredStatus
      = .error (.timeout conditionType desiredStatus) ∧
    (∃ before between after,
      (AwaitError.timeout conditionType desiredStatus).message
        = before ++ conditionType ++ between ++ desiredStatus ++ after) ∧
    (∃ after, (AwaitError.timeout conditionType desiredStatus).message
        = "did not get the " ++ conditionType ++ " condition" ++ after) := by
  refine ⟨?_, ?_, ?_⟩
  · unfold AwaitCondition
    simp only [hfirst, Bool.false_eq_true, if_false]
    exact awaitEvents_timeout statusConditions conditionType desiredStatus events hnever
  · exact ⟨"did not get the ", " condition with status ", " before the deadline", rfl⟩
  · refine ⟨" with status " ++ desiredStatus ++ " before the deadline", ?_⟩
    have hsplit : (" condition with status " : String) = " condition" ++ " with status " := by
      decide
    simp only [AwaitError.message, hsplit, String.append_assoc]

/-- A run of claim C24: a task that is started and never initialized, as in the test "the task
never becomes initialized". -/
theorem C24_await_timeout_witness :
    AwaitCondition (fun conditions : List Condition => conditions) []
        [.modified (testConditions [TaskStartedConditionType]), .modified []]
        TaskInitializedConditionType ConditionTrue
      = .error (.timeout TaskInitializedConditionType ConditionTrue) ∧
    (∃ before between after,
      (AwaitError.timeout TaskInitializedConditionType ConditionTrue).message
        = before ++ TaskInitializedConditionType ++ between ++ ConditionTrue ++ after) ∧
    (∃ after, (AwaitError.timeout TaskInitializedConditionType ConditionTrue).message
        = "did not get the " ++ TaskInitializedConditionType ++ " condition" ++ after) :=
  C24_await_timeout (fun conditions : List Condition => conditions) []
    [.modified (testConditions [TaskStartedConditionType]), .modified []]
    TaskInitializedConditionType ConditionTrue (by decide) (by
      intro event hev
      simp only [List.mem_cons, List.mem_singleton, List.not_mem_nil, or_false] at hev
      rcases hev with hev | hev
      · exact ⟨testConditions [TaskStartedConditionType], hev, by decide⟩
      · exact ⟨[], hev, by decide⟩)

end Korifi
